import Mathlib

/-!
# zypp::base::InterProcessMutex

A shallow embedding of `zypp/base/InterProcessMutex.{h,cc}`: the mutex state
machine (`InterProcessMutex::Impl`), its two weak reference slots with the
custom deleter `unref`, the wait loop of `lock` / `lockSharable`, and the guard
types `SharableLock` / `ScopedLock` (`InterProcessMutex::Lock<_targetState>::Impl`).

Effects are made explicit by state passing:

* the OS primitive (`boost::interprocess::file_lock`) is a stream of outcomes
  for the non-blocking and timed attempts; every call issued on it is appended
  to a chronological log kept with the mutex;
* the observer (`InterProcessLockReport::waitForLock`) is a function handed to
  each operation; its invocations are logged as well;
* `shared_ptr<void>` / `weak_ptr<void>` are tokens with an identity and a use
  count; a deleter run is logged;
* `sec_type` is `unsigned`: arithmetic on it is taken modulo `2^32`;
* an exception is a value of `Thrown`, returned together with the state the
  mutex was left in; an exception that leaves a `shared_ptr` deleter ends the
  process (`Outcome.terminated`), and a program takes no step after that;
* the blocking calls of the primitive (`lock`, `lock_sharable`) are taken to
  return; the wait loop of `lock` / `lockSharable` is explored for a bounded
  number of passes and reports `Outcome.waiting` when it is still running;
* wall-clock time is not modelled: a timed attempt carries the number of
  seconds it was asked to wait.

The file has three parts: the embedding, then the predicates and sample
programs used in statements, then the lemmas and the claims.
-/

namespace Zypp

/-! ## Data model -/

/-- Mutex internal state: `enum State { UNLOCKED, SHARED_LOCK, EXCLUSIVE_LOCK }`. -/
inductive State where
  | UNLOCKED
  | SHARED_LOCK
  | EXCLUSIVE_LOCK
  deriving DecidableEq, Repr

/-- The enumerator value, which is what `operator<` on `State` compares. -/
def State.toNat : State → Nat
  | .UNLOCKED => 0
  | .SHARED_LOCK => 1
  | .EXCLUSIVE_LOCK => 2

instance : LT State := ⟨fun a b => a.toNat < b.toNat⟩

instance (a b : State) : Decidable (a < b) :=
  inferInstanceAs (Decidable (a.toNat < b.toNat))

/-- Calls on the OS primitive. A timed call carries the wait in seconds that was
turned into an absolute time by `wait( seconds_r )`. -/
inductive OsCall where
  | lock
  | try_lock
  | timed_lock (secs : Nat)
  | unlock
  | lock_sharable
  | try_lock_sharable
  | timed_lock_sharable (secs : Nat)
  | unlock_sharable
  deriving DecidableEq, Repr

/-- What an operation does besides changing fields: calls on the OS primitive
(with their result), observer invocations (with the arguments passed in), runs of
the custom deleter `unref`, and the call of `std::terminate` that ends the process. -/
inductive Event where
  | os (c : OsCall) (ok : Bool)
  | waitForLock (targetState_r : State) (total_r next_r timeout_r : Nat)
  | unref (expiredState : State)
  | terminate
  deriving DecidableEq, Repr

/-- Whether the event is a call on the OS primitive. -/
def Event.isOs : Event → Bool
  | .os _ _ => true
  | _ => false

/-- Whether the event is an observer invocation. -/
def Event.isReport : Event → Bool
  | .waitForLock _ _ _ _ => true
  | _ => false

/-- Whether the event is a run of the deleter `unref`. -/
def Event.isUnref : Event → Bool
  | .unref _ => true
  | _ => false

/-- Whether the event is the call of `std::terminate`. -/
def Event.isTerminate : Event → Bool
  | .terminate => true
  | _ => false

/-- Values of `sec_type` (`unsigned`): reduction modulo `2^32`. -/
def sec (n : Nat) : Nat := n % 4294967296

/-- Common fields of `InterProcessLockException` (the path is left out). -/
structure InterProcessLockException where
  _targetState : State
  _total : Nat
  _timeout : Nat
  deriving DecidableEq, Repr

/-- `bool aborted() const { return( _timeout == 0 || _total < _timeout ); }` -/
def InterProcessLockException.aborted (e : InterProcessLockException) : Bool :=
  e._timeout == 0 || decide (e._total < e._timeout)

/-- `bool timeout() const { return !aborted(); }` -/
def InterProcessLockException.timeout (e : InterProcessLockException) : Bool :=
  !e.aborted

/-- The exceptions raised by the code under study. -/
inductive Thrown where
  | InterProcessLockTimeoutException (e : InterProcessLockException)
  | InterProcessLockAbortException (e : InterProcessLockException)
  | lock_exception
  deriving DecidableEq, Repr

/-- How a call ends: it returns a value, an exception escapes to the caller, the wait
loop is still running after the number of passes that is explored, or the process ends in
`std::terminate` (an exception left a deleter that runs inside `shared_ptr::reset()` or
a destructor, which are `noexcept`). -/
inductive Outcome (α : Type) where
  | returned (a : α)
  | thrown (e : Thrown)
  | waiting
  | terminated
  deriving DecidableEq, Repr

/-- The OS primitive `typedef boost::interprocess::file_lock LockType`, as seen by
this process: `outcome n` tells whether the `n`-th non-blocking or timed attempt
made from now on succeeds. -/
structure LockType where
  outcome : Nat → Bool

/-- The control block created in `getRef`: its identity and the pointer value
`(void*)state_r` that the deleter receives. -/
structure Token where
  id : Nat
  p : State
  deriving DecidableEq, Repr

/-- A `weak_ptr<void>` slot: empty, or watching a token together with the token
use count (the number of strong handles alive). A token is only ever watched by
the slot it was installed in, and a slot is only re-assigned once its token has
expired, so the count can be kept with the slot. -/
inductive WeakRef where
  | empty
  | block (t : Token) (n : Nat)
  deriving DecidableEq, Repr

/-- `weak_ptr::use_count()`. -/
def WeakRef.use_count : WeakRef → Nat
  | .empty => 0
  | .block _ n => n

/-- `weak_ptr::expired()`. -/
def WeakRef.expired (w : WeakRef) : Bool := w.use_count == 0

/-- The environment of one operation: the connected observer, the value of the
environment variable, and the number of wait-loop passes that are explored.
`waitForLock i target total next timeout` is the answer of the `i`-th invocation
made during the operation: whether to continue, the new `next_r`, the new
`timeout_r`. -/
structure Env where
  waitForLock : Nat → State → Nat → Nat → Nat → Bool × Nat × Nat
  ZYPP_MAX_LOCK_WAIT : Option Nat
  passes : Nat

/-- `InterProcessMutex::Impl`. The fields `nextToken` and `log` are bookkeeping of
the embedding (fresh token identities, chronological event log). -/
structure Impl where
  _mutexFile : String
  _mutex : Option LockType
  _state : State
  _sharedRefs : WeakRef
  _scopedRefs : WeakRef
  nextToken : Nat
  log : List Event

/-- `InterProcessMutex::fakeLockPath()`. -/
def fakeLockPath : String := "/<fakelock>"

/-- `Impl( FakeLockType )`. -/
def Impl.fake : Impl :=
  { _mutexFile := fakeLockPath, _mutex := none, _state := .UNLOCKED,
    _sharedRefs := .empty, _scopedRefs := .empty, nextToken := 0, log := [] }

/-- `Impl( const Pathname & path_r )`, on top of the primitive `os`. -/
def Impl.create (path_r : String) (os : LockType) : Impl :=
  { _mutexFile := path_r, _mutex := some os, _state := .UNLOCKED,
    _sharedRefs := .empty, _scopedRefs := .empty, nextToken := 0, log := [] }

/-- `sec_type initialLockWait() { return 3U; }` -/
def initialLockWait : Nat := 3

/-- `env::ZYPP_MAX_LOCK_WAIT( 180U )`, as `maxLockWait()` caches it. -/
def maxLockWait (env : Env) : Nat := sec (env.ZYPP_MAX_LOCK_WAIT.getD 180)

/-- The calls issued on the OS primitive so far. -/
def Impl.osCalls (m : Impl) : List Event := m.log.filter Event.isOs

/-- The observer invocations so far. -/
def Impl.reports (m : Impl) : List Event := m.log.filter Event.isReport

/-- The deleter runs so far. -/
def Impl.unrefs (m : Impl) : List Event := m.log.filter Event.isUnref

/-- Whether the process has ended in `std::terminate`. -/
def Impl.terminated (m : Impl) : Bool := m.log.any Event.isTerminate

/-! ## The mutex state machine -/

/-- `if ( _mutex ) _mutex->c()` for a blocking or releasing call `c`. -/
def Impl.osCall (c : OsCall) (m : Impl) : Impl :=
  match m._mutex with
  | none => m
  | some _ => { m with log := m.log ++ [Event.os c true] }

/-- `!_mutex || _mutex->c()` for a non-blocking or timed attempt `c`. -/
def Impl.osTry (c : OsCall) (m : Impl) : Bool × Impl :=
  match m._mutex with
  | none => (true, m)
  | some os =>
    (os.outcome 0,
     { m with _mutex := some ⟨fun n => os.outcome (n + 1)⟩,
              log := m.log ++ [Event.os c (os.outcome 0)] })

/-- `void sleepLock()`. -/
def Impl.sleepLock (m : Impl) : Impl :=
  if m._state ≠ .EXCLUSIVE_LOCK then
    { m.osCall .lock with _state := .EXCLUSIVE_LOCK }
  else m

/-- `bool tryLock()`. -/
def Impl.tryLock (m : Impl) : Bool × Impl :=
  if m._state = .EXCLUSIVE_LOCK then (true, m)
  else
    match m.osTry .try_lock with
    | (true, m1) => (true, { m1 with _state := .EXCLUSIVE_LOCK })
    | (false, m1) => (false, m1)

/-- `bool timedLock( absTime_r )`, with `absTime_r = wait( secs )`. -/
def Impl.timedLock (secs : Nat) (m : Impl) : Bool × Impl :=
  if m._state = .EXCLUSIVE_LOCK then (true, m)
  else
    match m.osTry (.timed_lock secs) with
    | (true, m1) => (true, { m1 with _state := .EXCLUSIVE_LOCK })
    | (false, m1) => (false, m1)

/-- `void unlock()`. -/
def Impl.unlock (m : Impl) : Impl :=
  if m._state ≠ .UNLOCKED then
    { m.osCall .unlock with _state := .UNLOCKED }
  else m

/-- `void sleepLockSharable()`. -/
def Impl.sleepLockSharable (m : Impl) : Impl :=
  if m._state ≠ .SHARED_LOCK then
    { m.osCall .lock_sharable with _state := .SHARED_LOCK }
  else m

/-- `bool tryLockSharable()`. -/
def Impl.tryLockSharable (m : Impl) : Bool × Impl :=
  if m._state = .SHARED_LOCK then (true, m)
  else
    match m.osTry .try_lock_sharable with
    | (true, m1) => (true, { m1 with _state := .SHARED_LOCK })
    | (false, m1) => (false, m1)

/-- `bool timedLockSharable( absTime_r )`, with `absTime_r = wait( secs )`. -/
def Impl.timedLockSharable (secs : Nat) (m : Impl) : Bool × Impl :=
  if m._state = .SHARED_LOCK then (true, m)
  else
    match m.osTry (.timed_lock_sharable secs) with
    | (true, m1) => (true, { m1 with _state := .SHARED_LOCK })
    | (false, m1) => (false, m1)

/-- `void unlockSharable()`. -/
def Impl.unlockSharable (m : Impl) : Impl :=
  if m._state ≠ .UNLOCKED then
    { m.osCall .unlock_sharable with _state := .UNLOCKED }
  else m

/-- The timed acquire used by the wait loop for target `t`: `timedLock` in
`lock()`, `timedLockSharable` in `lockSharable()`. -/
def Impl.timedLockFor (t : State) (secs : Nat) (m : Impl) : Bool × Impl :=
  if t = .EXCLUSIVE_LOCK then m.timedLock secs else m.timedLockSharable secs

/-- The `do { ... } while( ! timedLock( wait( next ) ) )` loop of `lock()` and of
`lockSharable()`; the two copies differ in the target state `t` only. `i` counts
the observer invocations, the first argument bounds the passes. -/
def Impl.waitLoop (t : State) (env : Env) :
    Nat → Nat → Nat → Nat → Nat → Impl → Outcome Unit × Impl
  | 0, _, _, _, _, m => (.waiting, m)
  | fuel + 1, i, total, next, timeout, m =>
    let total1 := sec (total + next)
    if timeout ≠ 0 ∧ total1 ≥ timeout then
      (.thrown (.InterProcessLockTimeoutException ⟨t, total1, timeout⟩), m)
    else
      let r := env.waitForLock i t total1 next timeout
      let next1 := sec r.2.1
      let timeout1 := sec r.2.2
      let m1 := { m with log := m.log ++ [Event.waitForLock t total1 next timeout] }
      if r.1 = false then
        (.thrown (.InterProcessLockAbortException ⟨t, total1, timeout1⟩), m1)
      else
        match m1.timedLockFor t next1 with
        | (true, m2) => (.returned (), m2)
        | (false, m2) => Impl.waitLoop t env fuel (i + 1) total1 next1 timeout1 m2

/-- `void lock()`. -/
def Impl.lock (env : Env) (m : Impl) : Outcome Unit × Impl :=
  match m.timedLock initialLockWait with
  | (true, m1) => (.returned (), m1)
  | (false, m1) =>
    let m2 := if m1._state ≠ .UNLOCKED then m1.unlock else m1
    m2.waitLoop .EXCLUSIVE_LOCK env env.passes 0 0 initialLockWait (maxLockWait env)

/-- `void lockSharable()`. -/
def Impl.lockSharable (env : Env) (m : Impl) : Outcome Unit × Impl :=
  match m.timedLockSharable initialLockWait with
  | (true, m1) => (.returned (), m1)
  | (false, m1) =>
    m1.waitLoop .SHARED_LOCK env env.passes 0 0 initialLockWait (maxLockWait env)

/-! ## References to a lockstate -/

/-- The slot chosen in `getRef`:
`state_r == EXCLUSIVE_LOCK ? _scopedRefs : _sharedRefs`. -/
def Impl.lockRef (state_r : State) (m : Impl) : WeakRef :=
  if state_r = .EXCLUSIVE_LOCK then m._scopedRefs else m._sharedRefs

/-- Assignment to the slot chosen by `state_r`. -/
def Impl.setLockRef (state_r : State) (w : WeakRef) (m : Impl) : Impl :=
  if state_r = .EXCLUSIVE_LOCK then { m with _scopedRefs := w }
  else { m with _sharedRefs := w }

/-- `LockStateRef getRef( State state_r )`. The result `none` is the null
`shared_ptr<void>( (void*)0 )`. A live slot hands out one more strong handle to
its token; an expired slot gets a fresh token with use count one. -/
def Impl.getRef (state_r : State) (m : Impl) : Option Token × Impl :=
  if state_r = .UNLOCKED then (none, m)
  else
    match m.lockRef state_r with
    | .block t (n + 1) => (some t, m.setLockRef state_r (.block t (n + 2)))
    | _ =>
      let t : Token := ⟨m.nextToken, state_r⟩
      (some t, { m.setLockRef state_r (.block t 1) with nextToken := m.nextToken + 1 })

/-- `void unref( void * p )`, the custom deleter, with `expiredState = State(long(p))`.
The `lockSharable()` of the demotion branch runs in `env`. -/
def Impl.unref (env : Env) (expiredState : State) (m : Impl) : Outcome Unit × Impl :=
  let m1 := { m with log := m.log ++ [Event.unref expiredState] }
  if expiredState = m1._state then
    match m1._state with
    | .EXCLUSIVE_LOCK =>
      if m1._sharedRefs.expired then (.returned (), m1.unlock)
      else m1.lockSharable env
    | .SHARED_LOCK => (.returned (), m1.unlockSharable)
    | .UNLOCKED => (.returned (), m1)
  else (.returned (), m1)

/-- The deleter as `shared_ptr` runs it, inside `reset()` or the destructor of the last
handle: these are `noexcept`, so an exception that leaves `unref` (raised by the
`lockSharable()` of its demotion branch) does not reach any caller; the process ends in
`std::terminate`. -/
def Impl.runDeleter (env : Env) (expiredState : State) (m : Impl) : Outcome Unit × Impl :=
  match m.unref env expiredState with
  | (.thrown _, m1) => (.terminated, { m1 with log := m1.log ++ [Event.terminate] })
  | r => r

/-- Destruction of one strong handle to the token `t` (`shared_ptr::reset()` or the
destructor of the handle): the use count drops by one, and the deleter runs when it
reaches zero. A handle to a token that its slot does not watch any more cannot
arise (the slot is re-assigned only when the token has expired); the embedding
leaves the mutex alone then. -/
def Impl.dropRef (env : Env) (t : Token) (m : Impl) : Outcome Unit × Impl :=
  match m.lockRef t.p with
  | .block t1 (n + 1) =>
    if t1 = t then
      let m1 := m.setLockRef t.p (.block t1 n)
      if n = 0 then m1.runDeleter env t.p else (.returned (), m1)
    else (.returned (), m)
  | _ => (.returned (), m)

/-! ## Guards -/

/-- The two instantiations of `InterProcessMutex::Lock<_targetState>`:
`typedef Lock<SHARED_LOCK> SharableLock` and `typedef Lock<EXCLUSIVE_LOCK> ScopedLock`. -/
inductive LockKind where
  | SharableLock
  | ScopedLock
  deriving DecidableEq, Repr

/-- The template argument `_targetState`. -/
def LockKind._targetState : LockKind → State
  | .SharableLock => .SHARED_LOCK
  | .ScopedLock => .EXCLUSIVE_LOCK

/-- `InterProcessMutex::Lock<_targetState>::Impl`. The field `_mutex` tells whether
the wrapped `InterProcessMutex` has an implementation (it is false for a
default-constructed mutex); the implementation itself is shared between all
handles and is passed to every operation. -/
structure LockImpl where
  kind : LockKind
  _mutex : Bool
  _mutexRef : Option Token
  deriving DecidableEq, Repr

/-- `bool owns() const { return _mutexRef; }` -/
def LockImpl.owns (g : LockImpl) : Bool := g._mutexRef.isSome

/-- `bool needStateChange() const { return _mutex.state() < _targetState; }` -/
def LockImpl.needStateChange (g : LockImpl) (m : Impl) : Bool :=
  decide (m._state < g.kind._targetState)

/-- `void getRef() { if ( !_mutexRef ) _mutexRef = _mutex.backdoor().getRef( _targetState ); }` -/
def LockImpl.getRef (g : LockImpl) (m : Impl) : LockImpl × Impl :=
  match g._mutexRef with
  | some _ => (g, m)
  | none =>
    let r := m.getRef g.kind._targetState
    ({ g with _mutexRef := r.1 }, r.2)

/-- `void unref() { _mutexRef.reset(); }` The handle is emptied before the deleter
runs; when the deleter raises, the call does not come back (the process ends). -/
def LockImpl.unref (env : Env) (g : LockImpl) (m : Impl) : Outcome Unit × LockImpl × Impl :=
  match g._mutexRef with
  | none => (.returned (), g, m)
  | some t =>
    let r := m.dropRef env t
    (r.1, { g with _mutexRef := none }, r.2)

/-- `Traits::lock`: `lockSharable` for `SharableLock`, `lock` for `ScopedLock`. -/
def LockKind.lock (k : LockKind) (env : Env) (m : Impl) : Outcome Unit × Impl :=
  match k with
  | .SharableLock => m.lockSharable env
  | .ScopedLock => m.lock env

/-- `Traits::sleepLock`. -/
def LockKind.sleepLock (k : LockKind) (m : Impl) : Impl :=
  match k with
  | .SharableLock => m.sleepLockSharable
  | .ScopedLock => m.sleepLock

/-- `Traits::tryLock`. -/
def LockKind.tryLock (k : LockKind) (m : Impl) : Bool × Impl :=
  match k with
  | .SharableLock => m.tryLockSharable
  | .ScopedLock => m.tryLock

/-- `Traits::timedLock`. -/
def LockKind.timedLock (k : LockKind) (secs : Nat) (m : Impl) : Bool × Impl :=
  match k with
  | .SharableLock => m.timedLockSharable secs
  | .ScopedLock => m.timedLock secs

/-- `void lock()` of the guard: `assertMutex(); if ( needStateChange() ) (_mutex.*Traits::lock)(); getRef();` -/
def LockImpl.lock (env : Env) (g : LockImpl) (m : Impl) : Outcome Unit × LockImpl × Impl :=
  if g._mutex = false then (.thrown .lock_exception, g, m)
  else if g.needStateChange m then
    match g.kind.lock env m with
    | (.returned _, m1) => (.returned (), g.getRef m1)
    | (.thrown e, m1) => (.thrown e, g, m1)
    | (.waiting, m1) => (.waiting, g, m1)
    | (.terminated, m1) => (.terminated, g, m1)
  else (.returned (), g.getRef m)

/-- `void sleepLock()` of the guard. -/
def LockImpl.sleepLock (g : LockImpl) (m : Impl) : Outcome Unit × LockImpl × Impl :=
  if g._mutex = false then (.thrown .lock_exception, g, m)
  else if g.needStateChange m then (.returned (), g.getRef (g.kind.sleepLock m))
  else (.returned (), g.getRef m)

/-- `bool tryLock()` of the guard:
`if ( needStateChange() && !(_mutex.*Traits::tryLock)() ) { unref(); return false; } getRef(); return true;` -/
def LockImpl.tryLock (env : Env) (g : LockImpl) (m : Impl) : Outcome Bool × LockImpl × Impl :=
  if g._mutex = false then (.thrown .lock_exception, g, m)
  else if g.needStateChange m then
    match g.kind.tryLock m with
    | (true, m1) => (.returned true, g.getRef m1)
    | (false, m1) =>
      match g.unref env m1 with
      | (.returned _, r) => (.returned false, r)
      | (.thrown e, r) => (.thrown e, r)
      | (.waiting, r) => (.waiting, r)
      | (.terminated, r) => (.terminated, r)
  else (.returned true, g.getRef m)

/-- `bool timedLock( absTime_r )` of the guard, with `absTime_r = wait( secs )`. -/
def LockImpl.timedLock (env : Env) (secs : Nat) (g : LockImpl) (m : Impl) :
    Outcome Bool × LockImpl × Impl :=
  if g._mutex = false then (.thrown .lock_exception, g, m)
  else if g.needStateChange m then
    match g.kind.timedLock secs m with
    | (true, m1) => (.returned true, g.getRef m1)
    | (false, m1) =>
      match g.unref env m1 with
      | (.returned _, r) => (.returned false, r)
      | (.thrown e, r) => (.thrown e, r)
      | (.waiting, r) => (.waiting, r)
      | (.terminated, r) => (.terminated, r)
  else (.returned true, g.getRef m)

/-- `void unlock()` of the guard: `assertMutex(); unref();` -/
def LockImpl.unlock (env : Env) (g : LockImpl) (m : Impl) : Outcome Unit × LockImpl × Impl :=
  if g._mutex = false then (.thrown .lock_exception, g, m)
  else g.unref env m

/-- Destruction of the guard: the member `_mutexRef` is destroyed, which drops the
handle if one is held; the process ends when the deleter raises. -/
def LockImpl.destroy (env : Env) (g : LockImpl) (m : Impl) : Outcome Unit × Impl :=
  let r := g.unref env m
  (r.1, r.2.2)

/-- `Impl( InterProcessMutex mutex_r, InterProcessMutex::DeferLockType )` over a mutex
with an implementation. -/
def LockImpl.deferLock (k : LockKind) : LockImpl :=
  { kind := k, _mutex := true, _mutexRef := none }

/-- How a guard is constructed: `Lock( mutex_r )`, `Lock( mutex_r, deferLock )`,
`Lock( mutex_r, tryToLock )`, `Lock( mutex_r, wait( secs ) )`. -/
inductive Disposition where
  | eager
  | deferLock
  | tryToLock
  | timed (secs : Nat)
  deriving DecidableEq, Repr

/-- The four constructors over a mutex with an implementation. No guard exists when
the constructor body raises (or is still waiting, or the process has ended). -/
def LockImpl.construct (env : Env) (k : LockKind) (d : Disposition) (m : Impl) :
    Outcome LockImpl × Impl :=
  match d with
  | .deferLock => (.returned (LockImpl.deferLock k), m)
  | .eager =>
    match (LockImpl.deferLock k).lock env m with
    | (.returned _, g, m1) => (.returned g, m1)
    | (.thrown e, _, m1) => (.thrown e, m1)
    | (.waiting, _, m1) => (.waiting, m1)
    | (.terminated, _, m1) => (.terminated, m1)
  | .tryToLock =>
    match (LockImpl.deferLock k).tryLock env m with
    | (.returned _, g, m1) => (.returned g, m1)
    | (.thrown e, _, m1) => (.thrown e, m1)
    | (.waiting, _, m1) => (.waiting, m1)
    | (.terminated, _, m1) => (.terminated, m1)
  | .timed secs =>
    match (LockImpl.deferLock k).timedLock env secs m with
    | (.returned _, g, m1) => (.returned g, m1)
    | (.thrown e, _, m1) => (.thrown e, m1)
    | (.waiting, _, m1) => (.waiting, m1)
    | (.terminated, _, m1) => (.terminated, m1)

/-! ## A mutex together with its guards -/

/-- One mutex implementation and the guards constructed over it, in order of
construction. A destroyed guard leaves `none` at its position. -/
structure Sys where
  mutex : Impl
  guards : List (Option LockImpl)

/-- Operations on guards. The index names a guard by its position. -/
inductive GuardOp where
  | construct (k : LockKind) (d : Disposition)
  | lock (i : Nat)
  | sleepLock (i : Nat)
  | tryLock (i : Nat)
  | timedLock (i : Nat) (secs : Nat)
  | unlock (i : Nat)
  | destroy (i : Nat)
  deriving DecidableEq, Repr

/-- Explicit calls on the mutex itself. -/
inductive MutexOp where
  | lock
  | sleepLock
  | tryLock
  | timedLock (secs : Nat)
  | unlock
  | lockSharable
  | sleepLockSharable
  | tryLockSharable
  | timedLockSharable (secs : Nat)
  | unlockSharable
  deriving DecidableEq, Repr

/-- One step of a client program. -/
inductive Op where
  | guard (o : GuardOp)
  | mutex (o : MutexOp)
  deriving DecidableEq, Repr

/-- An explicit call on the mutex; the result value is dropped. -/
def MutexOp.apply (env : Env) (o : MutexOp) (m : Impl) : Impl :=
  match o with
  | .lock => (m.lock env).2
  | .sleepLock => m.sleepLock
  | .tryLock => m.tryLock.2
  | .timedLock secs => (m.timedLock secs).2
  | .unlock => m.unlock
  | .lockSharable => (m.lockSharable env).2
  | .sleepLockSharable => m.sleepLockSharable
  | .tryLockSharable => m.tryLockSharable.2
  | .timedLockSharable secs => (m.timedLockSharable secs).2
  | .unlockSharable => m.unlockSharable

/-- The guard at position `i`, if it exists and is not destroyed. -/
def Sys.guard (s : Sys) (i : Nat) : Option LockImpl := s.guards[i]?.join

/-- A guard operation; the result value is dropped. An operation on a position
without a living guard does nothing. -/
def GuardOp.apply (env : Env) (o : GuardOp) (s : Sys) : Sys :=
  match o with
  | .construct k d =>
    match LockImpl.construct env k d s.mutex with
    | (.returned g, m1) => { mutex := m1, guards := s.guards ++ [some g] }
    | (_, m1) => { s with mutex := m1 }
  | .lock i =>
    match s.guard i with
    | some g =>
      let r := g.lock env s.mutex
      { mutex := r.2.2, guards := s.guards.set i (some r.2.1) }
    | none => s
  | .sleepLock i =>
    match s.guard i with
    | some g =>
      let r := g.sleepLock s.mutex
      { mutex := r.2.2, guards := s.guards.set i (some r.2.1) }
    | none => s
  | .tryLock i =>
    match s.guard i with
    | some g =>
      let r := g.tryLock env s.mutex
      { mutex := r.2.2, guards := s.guards.set i (some r.2.1) }
    | none => s
  | .timedLock i secs =>
    match s.guard i with
    | some g =>
      let r := g.timedLock env secs s.mutex
      { mutex := r.2.2, guards := s.guards.set i (some r.2.1) }
    | none => s
  | .unlock i =>
    match s.guard i with
    | some g =>
      let r := g.unlock env s.mutex
      { mutex := r.2.2, guards := s.guards.set i (some r.2.1) }
    | none => s
  | .destroy i =>
    match s.guard i with
    | some g => { mutex := (g.destroy env s.mutex).2, guards := s.guards.set i none }
    | none => s

/-- One step. -/
def Op.apply (env : Env) (o : Op) (s : Sys) : Sys :=
  match o with
  | .guard o => o.apply env s
  | .mutex o => { s with mutex := o.apply env s.mutex }

/-- A client program: each step with the environment it runs in. No further step is
taken once the process has ended in `std::terminate`. -/
def Sys.run (s : Sys) : List (Env × Op) → Sys
  | [] => s
  | (env, o) :: rest => if s.mutex.terminated then s else Sys.run (o.apply env s) rest

/-- A mutex without guards. -/
def Sys.init (m : Impl) : Sys := { mutex := m, guards := [] }

/-- The mutex states after each step that a program takes. -/
def Sys.states (s : Sys) : List (Env × Op) → List State
  | [] => []
  | (env, o) :: rest =>
    if s.mutex.terminated then []
    else (o.apply env s).mutex._state :: Sys.states (o.apply env s) rest

/-- Every non-blocking or timed attempt on the primitive succeeds (a fake mutex has
no primitive, so this holds for it). -/
def Impl.alwaysSucceeds (m : Impl) : Prop :=
  ∀ os, m._mutex = some os → ∀ n, os.outcome n = true

/-- What a mutex operation leaves alone: the two slots, the token counter, the path,
whether there is a primitive, and the promise that attempts succeed. -/
structure Impl.Frame (m m1 : Impl) : Prop where
  sharedRefs : m1._sharedRefs = m._sharedRefs
  scopedRefs : m1._scopedRefs = m._scopedRefs
  next : m1.nextToken = m.nextToken
  file : m1._mutexFile = m._mutexFile
  prim : m1._mutex.isSome = m._mutex.isSome
  succ : m.alwaysSucceeds → m1.alwaysSucceeds

/-- The observer that is connected when nobody listens: the default
`waitForLock` is `{ return true; }` and leaves `next_r` and `timeout_r` alone. The
environment variable is unset; sixty-four passes of a wait loop are explored. -/
def Env.quiet : Env :=
  { waitForLock := fun _ _ _ next timeout => (true, next, timeout),
    ZYPP_MAX_LOCK_WAIT := none, passes := 64 }

/-- A primitive on which every attempt succeeds at once (nobody else holds the file). -/
def LockType.free : LockType := ⟨fun _ => true⟩

/-- A primitive on which every attempt fails (another process holds the file for good). -/
def LockType.held : LockType := ⟨fun _ => false⟩

/-- A mutex on a real file that nobody else holds. -/
def Impl.freeFile : Impl := Impl.create "/var/run/zypp/common.lock" LockType.free

/-- The mutex on a free file after an explicit `lock()`: it is in `EXCLUSIVE_LOCK`. -/
def Impl.lockedFile : Impl := (Impl.freeFile.lock Env.quiet).2

/-- The slot that serves guards of kind `k`. -/
def Impl.slot (m : Impl) (k : LockKind) : WeakRef := m.lockRef k._targetState

/-- Whether the position holds a living guard of kind `k` that owns. -/
def ownsKind (k : LockKind) (g : Option LockImpl) : Bool :=
  match g with
  | some g => decide (g.kind = k) && g._mutexRef.isSome
  | none => false

/-- The number of owning guards of kind `k`. -/
def Sys.owners (s : Sys) (k : LockKind) : Nat := s.guards.countP (ownsKind k)

/-- What one guard operation does to the guard and to the slots: nothing (`keep`),
the guard obtains a handle (`gain`: its slot counts one more, the token is the one
the slot watched if that was live), or the guard drops its handle (`lose`). -/
inductive Trans (g : LockImpl) (m : Impl) (g1 : LockImpl) (m1 : Impl) : Prop where
  | keep : g1 = g → (∀ k, m1.slot k = m.slot k) → Trans g m g1 m1
  | gain (tok : Token) : g._mutexRef = none → g1 = { g with _mutexRef := some tok } →
      tok.p = g.kind._targetState →
      m1.slot g.kind = .block tok ((m.slot g.kind).use_count + 1) →
      (0 < (m.slot g.kind).use_count → ∃ n, m.slot g.kind = .block tok n) →
      (∀ k, k ≠ g.kind → m1.slot k = m.slot k) → Trans g m g1 m1
  | lose (tok : Token) (n : Nat) : g._mutexRef = some tok →
      g1 = { g with _mutexRef := none } →
      m.slot g.kind = .block tok (n + 1) → m1.slot g.kind = .block tok n →
      (∀ k, k ≠ g.kind → m1.slot k = m.slot k) → Trans g m g1 m1

/-- The handle of the guard, if any, is a handle to the token its slot watches, and
that token is alive. -/
def RefLive (m : Impl) (g : LockImpl) : Prop :=
  ∀ tok, g._mutexRef = some tok →
    tok.p = g.kind._targetState ∧ ∃ n, m.slot g.kind = .block tok (n + 1)

/-- The token watched by a slot carries the state of that slot. -/
def Impl.SlotOK (m : Impl) : Prop :=
  ∀ k t n, m.slot k = .block t n → t.p = k._targetState

/-- Consistency of the handles with the slots: the use count of each slot is the
number of owning guards of its kind, every handle held by a guard is a handle
to the token that the slot of its kind watches, and that token carries the state
of the slot. -/
structure Sys.WF (s : Sys) : Prop where
  count : ∀ k, (s.mutex.slot k).use_count = s.owners k
  live : ∀ g tok, some g ∈ s.guards → g._mutexRef = some tok →
    ∃ n, s.mutex.slot g.kind = .block tok n
  slotOK : s.mutex.SlotOK

/-- A locked state is backed by a live slot: in `SHARED_LOCK` the shared slot is live,
in `EXCLUSIVE_LOCK` the exclusive slot is live. Equivalently, the state is `UNLOCKED`
when both slots are expired. -/
def Impl.Backed (m : Impl) : Prop :=
  (m._state = .SHARED_LOCK → 0 < m._sharedRefs.use_count) ∧
  (m._state = .EXCLUSIVE_LOCK → 0 < m._scopedRefs.use_count)

/-- A live slot shows in the state: a live exclusive slot means `EXCLUSIVE_LOCK`, a live
shared slot means the state is not `UNLOCKED`. -/
def Impl.Covered (m : Impl) : Prop :=
  (0 < m._scopedRefs.use_count → m._state = .EXCLUSIVE_LOCK) ∧
  (0 < m._sharedRefs.use_count → m._state ≠ .UNLOCKED)

/-- The step from `m` to `m1` keeps the promise that attempts succeed and both
invariants. -/
def Impl.Keeps (m m1 : Impl) : Prop :=
  m1.alwaysSucceeds ∧ (m.Backed → m1.Backed) ∧ (m.Covered → m1.Covered)

/-- A program of guard operations only. -/
def guardScript (script : List (Env × GuardOp)) : List (Env × Op) :=
  script.map (fun x => (x.1, Op.guard x.2))

/-- The nested scopes of test `mixed_lock`: a `SharableLock`, inside it a `ScopedLock`,
inside that a `SharableLock`, then the three scopes are left innermost first. -/
def mixedLock : List (Env × GuardOp) :=
  [(Env.quiet, .construct .SharableLock .eager), (Env.quiet, .construct .ScopedLock .eager),
   (Env.quiet, .construct .SharableLock .eager), (Env.quiet, .destroy 2),
   (Env.quiet, .destroy 1), (Env.quiet, .destroy 0)]

/-- Guard operations and explicit `unlock()` / `unlockSharable()` calls. -/
def Op.isGuardOrUnlock : Op → Bool
  | .guard _ => true
  | .mutex .unlock => true
  | .mutex .unlockSharable => true
  | _ => false

/-- Guard operations and explicit exclusive acquires `lock()`, `sleepLock()`,
`tryLock()`, `timedLock()`. -/
def Op.isGuardOrExclusive : Op → Bool
  | .guard _ => true
  | .mutex .lock => true
  | .mutex .sleepLock => true
  | .mutex .tryLock => true
  | .mutex (.timedLock _) => true
  | _ => false

/-- An explicit `lock()` with no guard around. -/
def explicitLock : List (Env × Op) := [(Env.quiet, .mutex .lock)]

/-- Test `basicLockTest`: a `ScopedLock` is alive when the mutex is unlocked explicitly. -/
def explicitUnlock : List (Env × Op) :=
  [(Env.quiet, .guard (.construct .ScopedLock .eager)), (Env.quiet, .mutex .unlock)]

/-- A `SharableLock` is constructed after the explicit unlock of `explicitUnlock`. -/
def lockAfterUnlock : List (Env × Op) :=
  explicitUnlock ++ [(Env.quiet, .guard (.construct .SharableLock .eager))]

/-- A `ScopedLock` is constructed and destroyed after an explicit `lock()`. -/
def guardAfterLock : List (Env × Op) :=
  explicitLock ++ [(Env.quiet, .guard (.construct .ScopedLock .eager)),
    (Env.quiet, .guard (.destroy 0))]

/-- The mutex on a free file while one `ScopedLock` is alive. -/
def Impl.scopedFile : Impl :=
  ((Sys.init Impl.freeFile).run [(Env.quiet, .guard (.construct .ScopedLock .eager))]).mutex

/-- The next attempt on the primitive succeeds (a fake mutex has no primitive). -/
def Impl.nextSucceeds (m : Impl) : Prop :=
  ∀ os, m._mutex = some os → os.outcome 0 = true

/-- The first two scopes of `mixedLock` on a free file: a `SharableLock` at position 0
and a `ScopedLock` at position 1 are alive. -/
def Sys.nested : Sys := (Sys.init Impl.freeFile).run (guardScript (mixedLock.take 2))

/-- A program that destroys the guards at the listed positions, in order. -/
def destroyScript (drops : List (Env × Nat)) : List (Env × Op) :=
  drops.map (fun x => (x.1, Op.guard (.destroy x.2)))

/-- Two `ScopedLock` guards on a free file, as in the second block of test `mixed_lock`. -/
def Sys.twoScoped : Sys :=
  (Sys.init Impl.freeFile).run
    [(Env.quiet, .guard (.construct .ScopedLock .eager)),
     (Env.quiet, .guard (.construct .ScopedLock .eager))]

/-- Test `basicLockTest`, first step: a guard constructed with `deferLock` is locked. -/
def LockImpl.lockStep (env : Env) (k : LockKind) (m : Impl) : Outcome Unit × LockImpl × Impl :=
  (LockImpl.deferLock k).lock env m

/-- Test `basicLockTest`, second step: the guard is unlocked again. -/
def LockImpl.unlockStep (env env2 : Env) (k : LockKind) (m : Impl) :
    Outcome Unit × LockImpl × Impl :=
  (LockImpl.lockStep env k m).2.1.unlock env2 (LockImpl.lockStep env k m).2.2

/-- Test `basicLockTest`, third step: `tryLock()` on the guard. -/
def LockImpl.tryLockStep (env env2 env3 : Env) (k : LockKind) (m : Impl) :
    Outcome Bool × LockImpl × Impl :=
  (LockImpl.unlockStep env env2 k m).2.1.tryLock env3 (LockImpl.unlockStep env env2 k m).2.2

/-- The default observer together with a value of the environment variable. -/
def Env.quietFor (maxWait : Nat) : Env :=
  { Env.quiet with ZYPP_MAX_LOCK_WAIT := some maxWait }

/-- An observer that asks to give up at its first invocation and leaves `next_r` and
`timeout_r` alone. -/
def Env.giveUp : Env :=
  { waitForLock := fun _ _ _ next timeout => (false, next, timeout),
    ZYPP_MAX_LOCK_WAIT := none, passes := 64 }

/-- A primitive on which the first attempt succeeds and every later one fails: the
file is free for a shared lock now, and other holders keep it from then on. -/
def LockType.onceFree : LockType := ⟨fun n => decide (n = 0)⟩

/-- A mutex on a real file that another process holds for good. -/
def Impl.heldFile : Impl := Impl.create "/var/run/zypp/common.lock" LockType.held

/-- A mutex in `SHARED_LOCK` on a file that other processes share: it got its shared
lock with an explicit `lockSharable()`, every later attempt fails. -/
def Impl.sharedFile : Impl :=
  ((Impl.create "/var/run/zypp/common.lock" LockType.onceFree).lockSharable Env.quiet).2

/-- An observer that lowers the timeout to one second and asks to give up. -/
def Env.lowerAndGiveUp : Env :=
  { waitForLock := fun _ _ _ next _ => (false, next, 1),
    ZYPP_MAX_LOCK_WAIT := none, passes := 64 }

/-- The timed attempt that the wait loop for target `t` issues on the primitive:
`timed_lock` in `lock()`, `timed_lock_sharable` in `lockSharable()`. -/
def timedCall (t : State) (secs : Nat) : OsCall :=
  if t = .EXCLUSIVE_LOCK then .timed_lock secs else .timed_lock_sharable secs

/-- The primitive after `k` attempts have been made on it. -/
def LockType.drop (os : LockType) (k : Nat) : LockType := ⟨fun n => os.outcome (n + k)⟩

/-- The mutex after `k` attempts on its primitive `os` that did not change the state,
with the events logged meanwhile. -/
def Impl.afterAttempts (m : Impl) (os : LockType) (k : Nat) (events : List Event) : Impl :=
  { m with _mutex := some (os.drop k), log := m.log ++ events }

/-- The events of `k` consecutive passes of the wait loop, entered after `total`
seconds, in which the observer is invoked, continues and leaves `next` and `timeout`
alone, and the timed attempt fails. -/
def failedPasses (t : State) (next timeout : Nat) : Nat → Nat → List Event
  | _, 0 => []
  | total, k + 1 =>
    Event.waitForLock t (sec (total + next)) next timeout ::
      Event.os (timedCall t next) false ::
      failedPasses t next timeout (sec (total + next)) k

/-- The seconds that the timed attempts of a log were asked to wait, summed up. -/
def waitedSecs : List Event → Nat
  | [] => 0
  | Event.os (.timed_lock s) _ :: rest => s + waitedSecs rest
  | Event.os (.timed_lock_sharable s) _ :: rest => s + waitedSecs rest
  | _ :: rest => waitedSecs rest

/-- The observer always continues and changes neither `next_r` nor `timeout_r`. -/
def Env.isQuiet (env : Env) : Prop :=
  ∀ i t total next timeout, env.waitForLock i t total next timeout = (true, next, timeout)

/-- The mutex with further events in its log. -/
def Impl.logged (m : Impl) (events : List Event) : Impl :=
  { m with log := m.log ++ events }

/-- What `lock()` (for `ScopedLock`) and `lockSharable()` (for `SharableLock`) log
before they enter the wait loop: the failed first timed attempt and, for `lock()` on a
mutex that is not `UNLOCKED`, the unlock that avoids the deadlock. -/
def LockKind.entryEvents (k : LockKind) (m : Impl) : List Event :=
  match k with
  | .ScopedLock =>
    Event.os (.timed_lock initialLockWait) false ::
      (if m._state ≠ .UNLOCKED then [Event.os .unlock true] else [])
  | .SharableLock => [Event.os (.timed_lock_sharable initialLockWait) false]

/-- The mutex with which `lock()` / `lockSharable()` enter the wait loop after their
first timed attempt on the primitive `os` has failed. -/
def LockKind.entered (k : LockKind) (m : Impl) (os : LockType) : Impl :=
  match k with
  | .ScopedLock => { m.afterAttempts os 1 (k.entryEvents m) with _state := .UNLOCKED }
  | .SharableLock => m.afterAttempts os 1 (k.entryEvents m)

/-- A primitive on which the first `n` attempts fail and every later one succeeds: the
holder releases the file while the `n + 1`-th attempt waits. -/
def LockType.heldFor (n : Nat) : LockType := ⟨fun j => decide (n ≤ j)⟩

/-- The default observer with `ZYPP_MAX_LOCK_WAIT=0` (no timeout), exploring the given
number of wait-loop passes. -/
def Env.unbounded (passes : Nat) : Env :=
  { Env.quiet with ZYPP_MAX_LOCK_WAIT := some 0, passes := passes }

/-- The observer keeps the timeout ahead of the wait: whatever it is asked, the
`timeout_r` it leaves behind is 0 (none) or above the total that the next pass will
compute from the `total` it was given and the `next_r` it leaves behind. -/
def Env.keepsAhead (env : Env) : Prop :=
  ∀ i t total next timeout,
    sec (env.waitForLock i t total next timeout).2.2 = 0 ∨
    sec (total + sec (env.waitForLock i t total next timeout).2.1)
      < sec (env.waitForLock i t total next timeout).2.2

/-- An observer that always continues, keeps `next_r` and sets `timeout_r` one second
above the total of the next pass; the environment variable asks for five seconds. -/
def Env.extending : Env :=
  { waitForLock := fun _ _ total next _ => (true, next, sec (total + next) + 1),
    ZYPP_MAX_LOCK_WAIT := some 5, passes := 64 }

/-- An observer that always continues, keeps `next_r` and raises `timeout_r` to two
seconds above the total it is handed; the environment variable gives the maximum wait. -/
def Env.raising (maxWait : Nat) : Env :=
  { waitForLock := fun _ _ total next _ => (true, next, total + 2),
    ZYPP_MAX_LOCK_WAIT := some maxWait, passes := 64 }

/-- The observer never changes `timeout_r`. -/
def Env.keepsTimeout (env : Env) : Prop :=
  ∀ i t total next timeout, (env.waitForLock i t total next timeout).2.2 = timeout

/-! ## Mutex handles and the registry of a process -/

/-- `bool isFakeLock() const { return mutexFile() == fakeLockPath(); }`, on the
implementation behind the handle. -/
def Impl.isFakeLock (m : Impl) : Bool := decide (m._mutexFile = fakeLockPath)

/-- One `InterProcessMutex::Impl` on the heap together with the number of `shared_ptr`
handles that own it; the implementation is destroyed when the count is zero. -/
structure Instance where
  impl : Impl
  use_count : Nat

/-- The part of a process that mutex handles live in: the heap of implementations (an
address is a position, addresses are not used twice) and the static `_phoenixMap` of
`phoenixMap()`, which holds the address that the `weak_ptr` of a path watches, the
newest assignment first. -/
structure Process where
  heap : List Instance
  _phoenixMap : List (String × Nat)

/-- `InterProcessMutex`: the handle `_pimpl`; it is null in a default-constructed mutex. -/
structure InterProcessMutex where
  _pimpl : Option Nat
  deriving DecidableEq, Repr

/-- A process in which no mutex has been constructed yet. -/
def Process.start : Process := { heap := [], _phoenixMap := [] }

/-- The number of handles that own the implementation at address `a`. -/
def Process.use_count (p : Process) (a : Nat) : Nat :=
  match p.heap[a]? with
  | some c => c.use_count
  | none => 0

/-- The heap with the cell at address `a` changed by `f`. -/
def Process.modify (a : Nat) (f : Instance → Instance) (p : Process) : Process :=
  match p.heap[a]? with
  | some c => { p with heap := p.heap.set a (f c) }
  | none => p

/-- `shared_ptr<Impl>( new Impl( ... ) )`: a new implementation at a fresh address, owned
by the one handle returned. -/
def Process.alloc (m : Impl) (p : Process) : Nat × Process :=
  (p.heap.length, { p with heap := p.heap ++ [⟨m, 1⟩] })

/-- `_phoenixMap[key_r].lock()`: the address watched for the path if the implementation
there is still owned by some handle, else null. -/
def Process.weakLock (key_r : String) (p : Process) : Option Nat :=
  match p._phoenixMap.lookup key_r with
  | some a => if 0 < p.use_count a then some a else none
  | none => none

/-- `shared_ptr<PhoenixValueType> PhoenixMap::get( const PhoenixKeyType & key_r )`; `os`
is the primitive that `new LockType( path_r.c_str() )` opens when a new implementation
is created. -/
def PhoenixMap.get (key_r : String) (os : LockType) (p : Process) : Nat × Process :=
  match p.weakLock key_r with
  | some a => (a, p.modify a (fun c => { c with use_count := c.use_count + 1 }))
  | none =>
    ((p.alloc (Impl.create key_r os)).1,
     { (p.alloc (Impl.create key_r os)).2 with
       _phoenixMap := (key_r, (p.alloc (Impl.create key_r os)).1) :: p._phoenixMap })

/-- `InterProcessMutex::InterProcessMutex()`. -/
def InterProcessMutex.null : InterProcessMutex := ⟨none⟩

/-- `InterProcessMutex::InterProcessMutex( FakeLockType flag_r )`. -/
def InterProcessMutex.ofFakeLock (p : Process) : InterProcessMutex × Process :=
  (⟨some (p.alloc Impl.fake).1⟩, (p.alloc Impl.fake).2)

/-- `InterProcessMutex::InterProcessMutex( const Pathname & path_r )`:
`path_r != fakeLockPath() ? phoenixMap().get( path_r ) : shared_ptr<Impl>( new Impl( fakeLock ) )`. -/
def InterProcessMutex.ofPath (path_r : String) (os : LockType) (p : Process) :
    InterProcessMutex × Process :=
  if path_r ≠ fakeLockPath then
    (⟨some (PhoenixMap.get path_r os p).1⟩, (PhoenixMap.get path_r os p).2)
  else (⟨some (p.alloc Impl.fake).1⟩, (p.alloc Impl.fake).2)

/-- The implementation `*_pimpl` that the handle refers to. -/
def InterProcessMutex.impl (h : InterProcessMutex) (p : Process) : Option Impl :=
  match h._pimpl with
  | some a => p.heap[a]?.map Instance.impl
  | none => none

/-- `explicit operator bool() const { return bool(_pimpl); }` -/
def InterProcessMutex.toBool (h : InterProcessMutex) : Bool := h._pimpl.isSome

/-- `State InterProcessMutex::state() const`. -/
def InterProcessMutex.state (h : InterProcessMutex) (p : Process) : Option State :=
  (h.impl p).map Impl._state

/-- `bool InterProcessMutex::isFakeLock() const`. -/
def InterProcessMutex.isFakeLock (h : InterProcessMutex) (p : Process) : Option Bool :=
  (h.impl p).map Impl.isFakeLock

/-- An operation `f` of the implementation carried out through the handle (every member
function of `InterProcessMutex` forwards to `_pimpl`; guards go through `backdoor()`). -/
def InterProcessMutex.perform (h : InterProcessMutex) (f : Impl → Impl) (p : Process) :
    Process :=
  match h._pimpl with
  | some a => p.modify a (fun c => { c with impl := f c.impl })
  | none => p

/-- Copy of a handle: one more owner of the implementation. A handle that can be copied
exists, so its implementation is owned. -/
def InterProcessMutex.copy (h : InterProcessMutex) (p : Process) : Process :=
  match h._pimpl with
  | some a =>
    if 0 < p.use_count a then p.modify a (fun c => { c with use_count := c.use_count + 1 })
    else p
  | none => p

/-- Destruction of a handle: one owner less. -/
def InterProcessMutex.destroy (h : InterProcessMutex) (p : Process) : Process :=
  match h._pimpl with
  | some a => p.modify a (fun c => { c with use_count := c.use_count - 1 })
  | none => p

/-- What a process does with mutex handles. -/
inductive ProcessOp where
  | construct (path_r : String) (os : LockType)
  | constructFake
  | copy (h : InterProcessMutex)
  | destroy (h : InterProcessMutex)
  | perform (h : InterProcessMutex) (f : Impl → Impl)

/-- The process after one step. -/
def ProcessOp.apply (o : ProcessOp) (p : Process) : Process :=
  match o with
  | .construct path_r os => (InterProcessMutex.ofPath path_r os p).2
  | .constructFake => (InterProcessMutex.ofFakeLock p).2
  | .copy h => h.copy p
  | .destroy h => h.destroy p
  | .perform h f => h.perform f p

/-- The process after a sequence of steps. -/
def Process.run (p : Process) : List ProcessOp → Process
  | [] => p
  | o :: rest => (o.apply p).run rest

/-- The number of handles that own the implementation the handle refers to
(`_pimpl.use_count()`). -/
def InterProcessMutex.use_count (h : InterProcessMutex) (p : Process) : Nat :=
  match h._pimpl with
  | some a => p.use_count a
  | none => 0

/-! ## The guard handle -/

/-- `InterProcessMutex::Lock<_targetState>`: the handle `_pimpl` to the implementation of
the guard; it is null in a default-constructed guard. -/
structure Lock where
  _pimpl : Option LockImpl
  deriving DecidableEq, Repr

/-- `Lock()`. -/
def Lock.null : Lock := ⟨none⟩

/-- `Impl( InterProcessMutex mutex_r, InterProcessMutex::DeferLockType )` over any mutex
handle: the guard keeps the handle and no reference. -/
def LockImpl.over (k : LockKind) (mutex_r : InterProcessMutex) : LockImpl :=
  { kind := k, _mutex := mutex_r.toBool, _mutexRef := none }

/-- The constructors `Lock( mutex_r )`, `Lock( mutex_r, deferLock )`,
`Lock( mutex_r, tryToLock )` and `Lock( mutex_r, absTime_r )` over any mutex handle: the
implementation is set up as for `deferLock`, then the body calls `lock()`, nothing,
`tryLock()` or `timedLock( absTime_r )`. No guard exists when the body raises. -/
def Lock.construct (env : Env) (k : LockKind) (d : Disposition) (mutex_r : InterProcessMutex)
    (m : Impl) : Outcome Lock × Impl :=
  match d with
  | .deferLock => (.returned ⟨some (LockImpl.over k mutex_r)⟩, m)
  | .eager =>
    match (LockImpl.over k mutex_r).lock env m with
    | (.returned _, g, m1) => (.returned ⟨some g⟩, m1)
    | (.thrown e, _, m1) => (.thrown e, m1)
    | (.waiting, _, m1) => (.waiting, m1)
    | (.terminated, _, m1) => (.terminated, m1)
  | .tryToLock =>
    match (LockImpl.over k mutex_r).tryLock env m with
    | (.returned _, g, m1) => (.returned ⟨some g⟩, m1)
    | (.thrown e, _, m1) => (.thrown e, m1)
    | (.waiting, _, m1) => (.waiting, m1)
    | (.terminated, _, m1) => (.terminated, m1)
  | .timed secs =>
    match (LockImpl.over k mutex_r).timedLock env secs m with
    | (.returned _, g, m1) => (.returned ⟨some g⟩, m1)
    | (.thrown e, _, m1) => (.thrown e, m1)
    | (.waiting, _, m1) => (.waiting, m1)
    | (.terminated, _, m1) => (.terminated, m1)

/-- `bool owns() const { return _pimpl && _pimpl->owns(); }` -/
def Lock.owns (l : Lock) : Bool :=
  match l._pimpl with
  | some g => g.owns
  | none => false

/-- `mutex()`, that is `_pimpl ? _pimpl->mutex() : InterProcessMutex()`, converted to
bool: whether the mutex handle that the guard returns has an implementation. -/
def Lock.mutex (l : Lock) : Bool :=
  match l._pimpl with
  | some g => g._mutex
  | none => InterProcessMutex.null.toBool

/-- `void lock() { return _pimpl->lock(); }`; there is no result for a null `_pimpl`. -/
def Lock.lock (env : Env) (l : Lock) (m : Impl) : Option (Outcome Unit × Lock × Impl) :=
  match l._pimpl with
  | some g => some ((g.lock env m).1, ⟨some (g.lock env m).2.1⟩, (g.lock env m).2.2)
  | none => none

/-- `bool tryLock() { return _pimpl->tryLock(); }`. -/
def Lock.tryLock (env : Env) (l : Lock) (m : Impl) : Option (Outcome Bool × Lock × Impl) :=
  match l._pimpl with
  | some g => some ((g.tryLock env m).1, ⟨some (g.tryLock env m).2.1⟩, (g.tryLock env m).2.2)
  | none => none

/-- `bool timedLock( absTime_r ) { return _pimpl->timedLock( absTime_r ); }`. -/
def Lock.timedLock (env : Env) (secs : Nat) (l : Lock) (m : Impl) :
    Option (Outcome Bool × Lock × Impl) :=
  match l._pimpl with
  | some g =>
    some ((g.timedLock env secs m).1, ⟨some (g.timedLock env secs m).2.1⟩,
      (g.timedLock env secs m).2.2)
  | none => none

/-- A primitive on which the first `n` attempts succeed and every later one fails:
another process gets hold of the file after them. -/
def LockType.freeFor (n : Nat) : LockType := ⟨fun j => decide (j < n)⟩

/-- A `SharableLock` at position 0 and a `ScopedLock` at position 1 on a file on which
nothing succeeds after their two acquires. -/
def Sys.contended : Sys :=
  (Sys.init (Impl.create "/var/run/zypp/common.lock" (LockType.freeFor 2))).run
    (guardScript (mixedLock.take 2))

/-! ## The common lock file -/

/-- What `IPMutexUseLockFile` asks the system about the mutex file and the caller:
`PathInfo::userMayRW()`, `PathInfo::isExist()`, the result of
`filesystem::assert_file( path, 0644 )` if it is called (0 on success), and `geteuid()`. -/
structure Host where
  userMayRW : Bool
  isExist : Bool
  assert_file : Nat
  geteuid : Nat
  deriving DecidableEq, Repr

/-- The calls that change the file system. -/
inductive FsCall where
  | assert_file (path : String) (mode : Nat)
  | addmod (path : String) (mode : Nat)
  deriving DecidableEq, Repr

/-- `Pathname IPMutexUseLockFile( const Pathname & mutexFile_r, bool create_r = false )`:
the path to construct the mutex with, and the calls made on the file system. `&&`
evaluates `assert_file` only for a file that does not exist when creation is requested. -/
def IPMutexUseLockFile (mutexFile_r : String) (create_r : Bool) (h : Host) :
    String × List FsCall :=
  if h.userMayRW then (mutexFile_r, [])
  else if !h.isExist && create_r then
    if h.assert_file = 0 then
      (mutexFile_r, [.assert_file mutexFile_r 0o644, .addmod mutexFile_r 0o660])
    else
      (if h.geteuid = 0 then mutexFile_r else fakeLockPath, [.assert_file mutexFile_r 0o644])
  else (if h.geteuid = 0 then mutexFile_r else fakeLockPath, [])

/-- The path that `IPMutex::usepath( mutexPath_r )` constructs the mutex with:
`IPMutexUseLockFile( mutexPath_r )`, with the default `create_r = false`. -/
def IPMutex.usepath (mutexPath_r : String) (h : Host) : String × List FsCall :=
  IPMutexUseLockFile mutexPath_r false h

/-- Test `basicLockTest` on a file that another process takes right after the guard got
it: a `ScopedLock` is alive and owns, the mutex was unlocked explicitly, and no further
attempt on the primitive succeeds. -/
def Sys.unlockedUnderGuard : Sys :=
  (Sys.init (Impl.create "/var/run/zypp/common.lock" (LockType.freeFor 1))).run explicitUnlock

/-- The guard of `lockStep` is locked a second time. -/
def LockImpl.relockStep (env env2 : Env) (k : LockKind) (m : Impl) :
    Outcome Unit × LockImpl × Impl :=
  (LockImpl.lockStep env k m).2.1.lock env2 (LockImpl.lockStep env k m).2.2

/-- The guard is unlocked once after it was locked twice: `lock(); lock(); unlock()`. -/
def LockImpl.relockUnlockStep (env env2 env3 : Env) (k : LockKind) (m : Impl) :
    Outcome Unit × LockImpl × Impl :=
  (LockImpl.relockStep env env2 k m).2.1.unlock env3 (LockImpl.relockStep env env2 k m).2.2

/-- A scope `{ Lock<_targetState> l( mutex ); }`: a guard is constructed with the eager
constructor and destroyed at the end of the scope. -/
def LockImpl.scopeStep (env env2 : Env) (k : LockKind) (m : Impl) : Outcome Unit × Impl :=
  match LockImpl.construct env k .eager m with
  | (.returned g, m1) => g.destroy env2 m1
  | (.thrown e, m1) => (.thrown e, m1)
  | (.waiting, m1) => (.waiting, m1)
  | (.terminated, m1) => (.terminated, m1)

/-- Whether the event is a release call on the primitive (`unlock` or `unlock_sharable`). -/
def Event.isUnlock : Event → Bool
  | .os .unlock _ => true
  | .os .unlock_sharable _ => true
  | _ => false

/-- A primitive on which the second attempt fails and every other one succeeds: another
process holds the file for a moment. -/
def LockType.busyOnce : LockType := ⟨fun n => decide (n ≠ 1)⟩

/-- A mutex that an explicit `lockSharable()` brought to `SHARED_LOCK` on a file that is
busy for the next attempt. -/
def Impl.sharedBusyOnce : Impl :=
  ((Impl.create "/var/run/zypp/common.lock" LockType.busyOnce).lockSharable Env.quiet).2

/-! ## The mode held on the file lock -/

/-- The lock mode that this process holds on the OS file lock. -/
inductive HeldMode where
  | nothing
  | shared
  | exclusive
  deriving DecidableEq, Repr

/-- Modelled from the spec: the file-lock semantics of one logged event. A successful
`lock` or `lock_sharable` (blocking, non-blocking or timed) replaces the held mode,
`unlock` and `unlock_sharable` both drop it, a failed attempt and every other event
leave it unchanged. -/
def HeldMode.after (h : HeldMode) : Event → HeldMode
  | .os .lock true => .exclusive
  | .os .try_lock true => .exclusive
  | .os (.timed_lock _) true => .exclusive
  | .os .lock_sharable true => .shared
  | .os .try_lock_sharable true => .shared
  | .os (.timed_lock_sharable _) true => .shared
  | .os .unlock _ => .nothing
  | .os .unlock_sharable _ => .nothing
  | _ => h

/-- Modelled from the spec: the mode held on the file lock after the calls of a log, for
a primitive on which nothing was held when it was opened. -/
def heldMode (log : List Event) : HeldMode := log.foldl HeldMode.after .nothing

/-- The lock mode that a recorded state stands for. -/
def State.held : State → HeldMode
  | .UNLOCKED => .nothing
  | .SHARED_LOCK => .shared
  | .EXCLUSIVE_LOCK => .exclusive

/-- A sequence of explicit calls on the mutex, each in its environment. -/
def Impl.run (m : Impl) : List (Env × MutexOp) → Impl
  | [] => m
  | (env, o) :: rest => Impl.run (o.apply env m) rest

/-- The recorded state is the mode held on the primitive, for a mutex that has one. -/
def Impl.Tracks (m : Impl) : Prop :=
  m._mutex.isSome = true ∧ heldMode m.log = m._state.held

/-- The next attempt on the primitive fails (never so for a fake mutex). -/
def Impl.nextFails (m : Impl) : Bool :=
  match m._mutex with
  | some os => !os.outcome 0
  | none => false

/-- Whether the step calls the exclusive `lock()` of the mutex: an explicit `lock()`,
`lock()` of a `ScopedLock` over the mutex, or the eager constructor of a `ScopedLock`. -/
def Op.locksExclusive (o : Op) (s : Sys) : Bool :=
  match o with
  | .mutex .lock => true
  | .guard (.construct .ScopedLock .eager) => true
  | .guard (.lock i) =>
    match s.guard i with
    | some g => decide (g.kind = .ScopedLock) && g._mutex
    | none => false
  | _ => false

/-- The step runs into the unlock by which `lock()` avoids a deadlock: it calls the
exclusive `lock()` while the mutex is in `SHARED_LOCK` and the first timed attempt
fails. -/
def Op.dropsShared (o : Op) (s : Sys) : Bool :=
  o.locksExclusive s && decide (s.mutex._state = .SHARED_LOCK) && s.mutex.nextFails

/-- No step that the program takes runs into the deadlock-avoiding unlock. -/
def Sys.keepsShared (s : Sys) : List (Env × Op) → Prop
  | [] => True
  | (env, o) :: rest =>
    s.mutex.terminated = true ∨
      (o.dropsShared s = false ∧ Sys.keepsShared (o.apply env s) rest)

/-- A `SharableLock` is alive when the constructor of a `ScopedLock` fails to upgrade:
the file is taken by another process and the observer gives up. -/
def failedUpgrade : List (Env × Op) :=
  [(Env.quiet, .guard (.construct .SharableLock .eager)),
   (Env.giveUp, .guard (.construct .ScopedLock .eager))]

/-- As `failedUpgrade`, but the wait for the upgrade times out after five seconds. -/
def timedOutUpgrade : List (Env × Op) :=
  [(Env.quiet, .guard (.construct .SharableLock .eager)),
   (Env.quietFor 5, .guard (.construct .ScopedLock .eager))]

/-- A `ScopedLock` and a `SharableLock` are alive, the mutex is switched to `SHARED_LOCK`
by an explicit `lockSharable()`, then the `SharableLock` is destroyed. -/
def explicitDemotion : List (Env × Op) :=
  [(Env.quiet, .guard (.construct .ScopedLock .eager)),
   (Env.quiet, .guard (.construct .SharableLock .eager)),
   (Env.quiet, .mutex .lockSharable), (Env.quiet, .guard (.destroy 1))]

/-- A `SharableLock` is alive when a `ScopedLock` is constructed with `tryToLock`. -/
def tryUpgrade : List (Env × Op) :=
  [(Env.quiet, .guard (.construct .SharableLock .eager)),
   (Env.quiet, .guard (.construct .ScopedLock .tryToLock))]

/-! ## Basic facts about the mutex operations -/

theorem Impl.Frame.rfl_ (m : Impl) : Impl.Frame m m :=
  ⟨rfl, rfl, rfl, rfl, rfl, id⟩

theorem Impl.Frame.trans_ {a b c : Impl} (h1 : Impl.Frame a b) (h2 : Impl.Frame b c) :
    Impl.Frame a c :=
  ⟨h2.sharedRefs.trans h1.sharedRefs, h2.scopedRefs.trans h1.scopedRefs, h2.next.trans h1.next,
   h2.file.trans h1.file, h2.prim.trans h1.prim, fun h => h2.succ (h1.succ h)⟩

theorem Impl.frame_setState (m : Impl) (s : State) : Impl.Frame m { m with _state := s } :=
  ⟨rfl, rfl, rfl, rfl, rfl, id⟩

theorem Impl.frame_log (m : Impl) (l : List Event) : Impl.Frame m { m with log := l } :=
  ⟨rfl, rfl, rfl, rfl, rfl, id⟩

theorem Impl.frame_osCall (c : OsCall) (m : Impl) : Impl.Frame m (m.osCall c) := by
  unfold Impl.osCall
  split
  · exact Impl.Frame.rfl_ m
  · exact ⟨rfl, rfl, rfl, rfl, rfl, id⟩

@[simp] theorem Impl.osCall_state (c : OsCall) (m : Impl) : (m.osCall c)._state = m._state := by
  unfold Impl.osCall
  split <;> rfl

theorem Impl.frame_osTry (c : OsCall) (m : Impl) : Impl.Frame m (m.osTry c).2 := by
  unfold Impl.osTry
  split
  · exact Impl.Frame.rfl_ m
  · rename_i os h
    refine ⟨rfl, rfl, rfl, rfl, by simp [h], ?_⟩
    intro hs os1 h1 n
    simp at h1
    subst h1
    exact hs os h (n + 1)

@[simp] theorem Impl.osTry_state (c : OsCall) (m : Impl) : (m.osTry c).2._state = m._state := by
  unfold Impl.osTry
  split <;> rfl

theorem Impl.osTry_succ (c : OsCall) (m : Impl) (h : m.alwaysSucceeds) :
    (m.osTry c).1 = true := by
  unfold Impl.osTry
  split
  · rfl
  · rename_i os hos
    exact h os hos 0

theorem Impl.frame_sleepLock (m : Impl) : Impl.Frame m m.sleepLock := by
  unfold Impl.sleepLock
  split
  · exact (Impl.frame_osCall _ m).trans_ (Impl.frame_setState _ _)
  · exact Impl.Frame.rfl_ m

theorem Impl.frame_sleepLockSharable (m : Impl) : Impl.Frame m m.sleepLockSharable := by
  unfold Impl.sleepLockSharable
  split
  · exact (Impl.frame_osCall _ m).trans_ (Impl.frame_setState _ _)
  · exact Impl.Frame.rfl_ m

theorem Impl.frame_unlock (m : Impl) : Impl.Frame m m.unlock := by
  unfold Impl.unlock
  split
  · exact (Impl.frame_osCall _ m).trans_ (Impl.frame_setState _ _)
  · exact Impl.Frame.rfl_ m

theorem Impl.frame_unlockSharable (m : Impl) : Impl.Frame m m.unlockSharable := by
  unfold Impl.unlockSharable
  split
  · exact (Impl.frame_osCall _ m).trans_ (Impl.frame_setState _ _)
  · exact Impl.Frame.rfl_ m

@[simp] theorem Impl.unlock_state (m : Impl) : m.unlock._state = .UNLOCKED := by
  unfold Impl.unlock
  split
  · rfl
  · rename_i h
    simpa using h

@[simp] theorem Impl.unlockSharable_state (m : Impl) : m.unlockSharable._state = .UNLOCKED := by
  unfold Impl.unlockSharable
  split
  · rfl
  · rename_i h
    simpa using h

@[simp] theorem Impl.sleepLock_state (m : Impl) : m.sleepLock._state = .EXCLUSIVE_LOCK := by
  unfold Impl.sleepLock
  split
  · rfl
  · rename_i h
    simpa using h

@[simp] theorem Impl.sleepLockSharable_state (m : Impl) :
    m.sleepLockSharable._state = .SHARED_LOCK := by
  unfold Impl.sleepLockSharable
  split
  · rfl
  · rename_i h
    simpa using h

/-- The four non-blocking and timed acquires share one shape: nothing happens in the
target state, else one attempt on the primitive decides. -/
theorem Impl.attempt_cases (t : State) (c : OsCall) (m : Impl) :
    let r : Bool × Impl :=
      if m._state = t then (true, m)
      else
        match m.osTry c with
        | (true, m1) => (true, { m1 with _state := t })
        | (false, m1) => (false, m1)
    Impl.Frame m r.2 ∧
    (r.1 = true → r.2._state = t) ∧
    (r.1 = false → r.2._state = m._state ∧ m._state ≠ t) ∧
    (m.alwaysSucceeds → r.1 = true) := by
  intro r
  by_cases hst : m._state = t
  · have hr : r = (true, m) := by simp [r, hst]
    rw [hr]
    exact ⟨Impl.Frame.rfl_ m, fun _ => hst, fun h => by simp at h, fun _ => rfl⟩
  · have hf := Impl.frame_osTry c m
    have hs := Impl.osTry_state c m
    have hsucc := Impl.osTry_succ c m
    rcases hx : m.osTry c with ⟨b, m1⟩
    rw [hx] at hf hs hsucc
    cases b
    · have hr : r = (false, m1) := by simp [r, hst, hx]
      rw [hr]
      refine ⟨hf, fun h => by simp at h, fun _ => ⟨hs, hst⟩, fun h => ?_⟩
      exact absurd (hsucc h) (by simp)
    · have hr : r = (true, { m1 with _state := t }) := by simp [r, hst, hx]
      rw [hr]
      exact ⟨hf.trans_ (Impl.frame_setState _ _), fun _ => rfl, fun h => by simp at h,
        fun _ => rfl⟩

theorem Impl.tryLock_cases (m : Impl) :
    Impl.Frame m m.tryLock.2 ∧
    (m.tryLock.1 = true → m.tryLock.2._state = .EXCLUSIVE_LOCK) ∧
    (m.tryLock.1 = false → m.tryLock.2._state = m._state ∧ m._state ≠ .EXCLUSIVE_LOCK) ∧
    (m.alwaysSucceeds → m.tryLock.1 = true) :=
  Impl.attempt_cases .EXCLUSIVE_LOCK .try_lock m

theorem Impl.timedLock_cases (secs : Nat) (m : Impl) :
    Impl.Frame m (m.timedLock secs).2 ∧
    ((m.timedLock secs).1 = true → (m.timedLock secs).2._state = .EXCLUSIVE_LOCK) ∧
    ((m.timedLock secs).1 = false →
      (m.timedLock secs).2._state = m._state ∧ m._state ≠ .EXCLUSIVE_LOCK) ∧
    (m.alwaysSucceeds → (m.timedLock secs).1 = true) :=
  Impl.attempt_cases .EXCLUSIVE_LOCK (.timed_lock secs) m

theorem Impl.tryLockSharable_cases (m : Impl) :
    Impl.Frame m m.tryLockSharable.2 ∧
    (m.tryLockSharable.1 = true → m.tryLockSharable.2._state = .SHARED_LOCK) ∧
    (m.tryLockSharable.1 = false →
      m.tryLockSharable.2._state = m._state ∧ m._state ≠ .SHARED_LOCK) ∧
    (m.alwaysSucceeds → m.tryLockSharable.1 = true) :=
  Impl.attempt_cases .SHARED_LOCK .try_lock_sharable m

theorem Impl.timedLockSharable_cases (secs : Nat) (m : Impl) :
    Impl.Frame m (m.timedLockSharable secs).2 ∧
    ((m.timedLockSharable secs).1 = true →
      (m.timedLockSharable secs).2._state = .SHARED_LOCK) ∧
    ((m.timedLockSharable secs).1 = false →
      (m.timedLockSharable secs).2._state = m._state ∧ m._state ≠ .SHARED_LOCK) ∧
    (m.alwaysSucceeds → (m.timedLockSharable secs).1 = true) :=
  Impl.attempt_cases .SHARED_LOCK (.timed_lock_sharable secs) m

theorem Impl.timedLockFor_cases (t : State) (ht : t ≠ .UNLOCKED) (secs : Nat) (m : Impl) :
    Impl.Frame m (m.timedLockFor t secs).2 ∧
    ((m.timedLockFor t secs).1 = true → (m.timedLockFor t secs).2._state = t) ∧
    ((m.timedLockFor t secs).1 = false →
      (m.timedLockFor t secs).2._state = m._state ∧ m._state ≠ t) ∧
    (m.alwaysSucceeds → (m.timedLockFor t secs).1 = true) := by
  cases t
  · exact absurd rfl ht
  · simpa [Impl.timedLockFor] using Impl.timedLockSharable_cases secs m
  · simpa [Impl.timedLockFor] using Impl.timedLock_cases secs m

/-- The wait loop touches the state only through its timed acquire: it ends in the
target state when it returns, and in the state it started in otherwise. -/
theorem Impl.waitLoop_cases (t : State) (ht : t ≠ .UNLOCKED) (env : Env) (fuel : Nat) :
    ∀ (i total next timeout : Nat) (m : Impl),
      Impl.Frame m (m.waitLoop t env fuel i total next timeout).2 ∧
      ((m.waitLoop t env fuel i total next timeout).1 = .returned () →
        (m.waitLoop t env fuel i total next timeout).2._state = t) ∧
      ((m.waitLoop t env fuel i total next timeout).1 ≠ .returned () →
        (m.waitLoop t env fuel i total next timeout).2._state = m._state) := by
  induction fuel with
  | zero =>
    intro i total next timeout m
    simp [Impl.waitLoop, Impl.Frame.rfl_]
  | succ fuel ih =>
    intro i total next timeout m
    rw [Impl.waitLoop]
    simp only []
    split
    · simp [Impl.Frame.rfl_]
    · split
      · simp [Impl.frame_log]
      · have hc := Impl.timedLockFor_cases t ht
          (sec (env.waitForLock i t (sec (total + next)) next timeout).2.1)
          { m with log := m.log ++ [Event.waitForLock t (sec (total + next)) next timeout] }
        have hl := Impl.frame_log m
          (m.log ++ [Event.waitForLock t (sec (total + next)) next timeout])
        split
        · rename_i m2 hx
          rw [hx] at hc
          exact ⟨hl.trans_ hc.1, fun _ => hc.2.1 rfl, fun h => absurd rfl h⟩
        · rename_i m2 hx
          rw [hx] at hc
          have ih1 := ih (i + 1) (sec (total + next))
            (sec (env.waitForLock i t (sec (total + next)) next timeout).2.1)
            (sec (env.waitForLock i t (sec (total + next)) next timeout).2.2) m2
          refine ⟨(hl.trans_ hc.1).trans_ ih1.1, ih1.2.1, fun h => ?_⟩
          rw [ih1.2.2 h]
          exact (hc.2.2.1 rfl).1

theorem Impl.lock_cases (env : Env) (m : Impl) :
    Impl.Frame m (m.lock env).2 ∧
    ((m.lock env).1 = .returned () → (m.lock env).2._state = .EXCLUSIVE_LOCK) ∧
    ((m.lock env).1 ≠ .returned () → (m.lock env).2._state = .UNLOCKED) ∧
    (m.alwaysSucceeds → (m.lock env).1 = .returned ()) := by
  have hc := Impl.timedLock_cases initialLockWait m
  unfold Impl.lock
  split
  · rename_i m1 hx
    rw [hx] at hc
    exact ⟨hc.1, fun _ => hc.2.1 rfl, fun h => absurd rfl h, fun _ => rfl⟩
  · rename_i m1 hx
    rw [hx] at hc
    simp only []
    have hu : Impl.Frame m1 (if m1._state ≠ .UNLOCKED then m1.unlock else m1) := by
      split
      · exact Impl.frame_unlock m1
      · exact Impl.Frame.rfl_ m1
    have hus : (if m1._state ≠ .UNLOCKED then m1.unlock else m1)._state = .UNLOCKED := by
      split
      · exact Impl.unlock_state m1
      · rename_i h
        simpa using h
    have hw := Impl.waitLoop_cases .EXCLUSIVE_LOCK (by decide) env env.passes 0 0 initialLockWait
      (maxLockWait env) (if m1._state ≠ .UNLOCKED then m1.unlock else m1)
    refine ⟨(hc.1.trans_ hu).trans_ hw.1, hw.2.1, fun h => ?_, fun h => ?_⟩
    · rw [hw.2.2 h, hus]
    · exact absurd (hc.2.2.2 h) (by simp)

theorem Impl.lockSharable_cases (env : Env) (m : Impl) :
    Impl.Frame m (m.lockSharable env).2 ∧
    ((m.lockSharable env).1 = .returned () → (m.lockSharable env).2._state = .SHARED_LOCK) ∧
    ((m.lockSharable env).1 ≠ .returned () → (m.lockSharable env).2._state = m._state) ∧
    (m.alwaysSucceeds → (m.lockSharable env).1 = .returned ()) := by
  have hc := Impl.timedLockSharable_cases initialLockWait m
  unfold Impl.lockSharable
  split
  · rename_i m1 hx
    rw [hx] at hc
    exact ⟨hc.1, fun _ => hc.2.1 rfl, fun h => absurd rfl h, fun _ => rfl⟩
  · rename_i m1 hx
    rw [hx] at hc
    have hw := Impl.waitLoop_cases .SHARED_LOCK (by decide) env env.passes 0 0 initialLockWait
      (maxLockWait env) m1
    refine ⟨hc.1.trans_ hw.1, hw.2.1, fun h => ?_, fun h => ?_⟩
    · rw [hw.2.2 h]
      exact (hc.2.2.1 rfl).1
    · exact absurd (hc.2.2.2 h) (by simp)

/-! ## Claims on the basic mutex operations -/

/-- C8. The basic mutex operations switch to the requested state from every starting
state: when `lock()` returns normally the state is `EXCLUSIVE_LOCK`, when
`lockSharable()` returns normally the state is `SHARED_LOCK` (also when called in
`EXCLUSIVE_LOCK`), they do return when the attempts on the primitive succeed, and
after `unlock()` or `unlockSharable()` the state is `UNLOCKED`; so
`lock; unlock; lock; unlock` from `UNLOCKED` passes through
`UNLOCKED, EXCLUSIVE_LOCK, UNLOCKED, EXCLUSIVE_LOCK, UNLOCKED`. -/
theorem C8_basic_operations_switch_state (env env2 : Env) (m : Impl) :
    ((m.lock env).1 = .returned () → (m.lock env).2._state = .EXCLUSIVE_LOCK) ∧
    ((m.lockSharable env).1 = .returned () → (m.lockSharable env).2._state = .SHARED_LOCK) ∧
    (m.alwaysSucceeds →
      (m.lock env).1 = .returned () ∧ (m.lockSharable env).1 = .returned ()) ∧
    m.unlock._state = .UNLOCKED ∧ m.unlockSharable._state = .UNLOCKED ∧
    (m._state = .UNLOCKED → (m.lock env).1 = .returned () →
      ((m.lock env).2.unlock.lock env2).1 = .returned () →
      [m._state, (m.lock env).2._state, (m.lock env).2.unlock._state,
        ((m.lock env).2.unlock.lock env2).2._state,
        ((m.lock env).2.unlock.lock env2).2.unlock._state]
      = [.UNLOCKED, .EXCLUSIVE_LOCK, .UNLOCKED, .EXCLUSIVE_LOCK, .UNLOCKED]) := by
  refine ⟨(Impl.lock_cases env m).2.1, (Impl.lockSharable_cases env m).2.1,
    fun h => ⟨(Impl.lock_cases env m).2.2.2 h, (Impl.lockSharable_cases env m).2.2.2 h⟩,
    Impl.unlock_state m, Impl.unlockSharable_state m, fun h0 h1 h2 => ?_⟩
  rw [h0, (Impl.lock_cases env m).2.1 h1, (Impl.lock_cases env2 _).2.1 h2]
  simp

/-- Witness for C8 on a real file that nobody else holds. -/
theorem C8_basic_operations_switch_state_witness :
    (Impl.freeFile.lock Env.quiet).1 = .returned () ∧
    (Impl.freeFile.lock Env.quiet).2._state = .EXCLUSIVE_LOCK ∧
    (Impl.freeFile.lockSharable Env.quiet).2._state = .SHARED_LOCK ∧
    [Impl.freeFile._state, (Impl.freeFile.lock Env.quiet).2._state,
      (Impl.freeFile.lock Env.quiet).2.unlock._state,
      ((Impl.freeFile.lock Env.quiet).2.unlock.lock Env.quiet).2._state,
      ((Impl.freeFile.lock Env.quiet).2.unlock.lock Env.quiet).2.unlock._state]
    = [.UNLOCKED, .EXCLUSIVE_LOCK, .UNLOCKED, .EXCLUSIVE_LOCK, .UNLOCKED] :=
  ⟨by decide,
   (C8_basic_operations_switch_state Env.quiet Env.quiet Impl.freeFile).1 (by decide),
   (C8_basic_operations_switch_state Env.quiet Env.quiet Impl.freeFile).2.1 (by decide),
   (C8_basic_operations_switch_state Env.quiet Env.quiet Impl.freeFile).2.2.2.2.2
     (by decide) (by decide) (by decide)⟩

/-- C10. For every mutex state `unlock()` leaves the state `UNLOCKED` and is idempotent:
`unlock; unlock` gives the same mutex as `unlock`, and a call made in `UNLOCKED`
changes nothing at all (so it issues no OS call); `unlockSharable()` has the same
properties and ends in the same state as `unlock()` from every starting state. -/
theorem C10_unlock_idempotent (m : Impl) :
    m.unlock._state = .UNLOCKED ∧
    m.unlock.unlock = m.unlock ∧
    (m._state = .UNLOCKED → m.unlock = m ∧ m.unlockSharable = m) ∧
    m.unlockSharable._state = m.unlock._state ∧
    m.unlockSharable.unlockSharable = m.unlockSharable ∧
    m.unlock.unlockSharable = m.unlock ∧
    m.unlockSharable.unlock = m.unlockSharable := by
  have h1 : ∀ a : Impl, a._state = .UNLOCKED → a.unlock = a := by
    intro a h
    simp [Impl.unlock, h]
  have h2 : ∀ a : Impl, a._state = .UNLOCKED → a.unlockSharable = a := by
    intro a h
    simp [Impl.unlockSharable, h]
  refine ⟨Impl.unlock_state m, h1 _ (Impl.unlock_state m), fun h => ⟨h1 m h, h2 m h⟩, ?_,
    h2 _ (Impl.unlockSharable_state m), h2 _ (Impl.unlock_state m),
    h1 _ (Impl.unlockSharable_state m)⟩
  rw [Impl.unlock_state, Impl.unlockSharable_state]

/-- Witness for C10: a mutex in `UNLOCKED` is left as it is. -/
theorem C10_unlock_idempotent_witness :
    Impl.freeFile._state = .UNLOCKED ∧
    Impl.freeFile.unlock = Impl.freeFile ∧ Impl.freeFile.unlockSharable = Impl.freeFile :=
  ⟨rfl, (C10_unlock_idempotent Impl.freeFile).2.2.1 rfl⟩

/-- C9 fails for a mutex in `EXCLUSIVE_LOCK`: on the file locked by an explicit
`lock()`, each of `lockSharable`, `sleepLockSharable`, `tryLockSharable` and
`timedLockSharable` issues a call on the OS primitive and switches the state to
`SHARED_LOCK`. -/
theorem C9_counterexample :
    Impl.lockedFile._state = .EXCLUSIVE_LOCK ∧
    Impl.lockedFile.osCalls = [Event.os (.timed_lock 3) true] ∧
    (Impl.lockedFile.lockSharable Env.quiet).2._state = .SHARED_LOCK ∧
    (Impl.lockedFile.lockSharable Env.quiet).2.osCalls
      = [Event.os (.timed_lock 3) true, Event.os (.timed_lock_sharable 3) true] ∧
    Impl.lockedFile.sleepLockSharable._state = .SHARED_LOCK ∧
    Impl.lockedFile.sleepLockSharable.osCalls
      = [Event.os (.timed_lock 3) true, Event.os .lock_sharable true] ∧
    Impl.lockedFile.tryLockSharable.2._state = .SHARED_LOCK ∧
    Impl.lockedFile.tryLockSharable.2.osCalls
      = [Event.os (.timed_lock 3) true, Event.os .try_lock_sharable true] ∧
    (Impl.lockedFile.timedLockSharable 5).2._state = .SHARED_LOCK ∧
    (Impl.lockedFile.timedLockSharable 5).2.osCalls
      = [Event.os (.timed_lock 3) true, Event.os (.timed_lock_sharable 5) true] := by
  decide

/-- C9, amended. In `SHARED_LOCK` each of `lockSharable`, `sleepLockSharable`,
`tryLockSharable` and `timedLockSharable` is a no-op success: it succeeds and leaves
the mutex exactly as it was (no OS call). In `EXCLUSIVE_LOCK` it is not a no-op: the
shared acquire is issued on the primitive (if there is one) and the state becomes
`SHARED_LOCK` when the call succeeds (always for `sleepLockSharable`), and stays
`EXCLUSIVE_LOCK` when a non-blocking or timed attempt fails. -/
theorem C9_sharable_acquire_in_locked_state (env : Env) (secs : Nat) (m : Impl) :
    (m._state = .SHARED_LOCK →
      m.lockSharable env = (.returned (), m) ∧ m.sleepLockSharable = m ∧
      m.tryLockSharable = (true, m) ∧ m.timedLockSharable secs = (true, m)) ∧
    (m._state = .EXCLUSIVE_LOCK →
      m.sleepLockSharable._state = .SHARED_LOCK ∧
      ((m.lockSharable env).1 = .returned () → (m.lockSharable env).2._state = .SHARED_LOCK) ∧
      (m.tryLockSharable.1 = true → m.tryLockSharable.2._state = .SHARED_LOCK) ∧
      (m.tryLockSharable.1 = false → m.tryLockSharable.2._state = .EXCLUSIVE_LOCK) ∧
      ((m.timedLockSharable secs).1 = true →
        (m.timedLockSharable secs).2._state = .SHARED_LOCK) ∧
      ((m.timedLockSharable secs).1 = false →
        (m.timedLockSharable secs).2._state = .EXCLUSIVE_LOCK) ∧
      (∀ os, m._mutex = some os →
        m.sleepLockSharable.osCalls = m.osCalls ++ [Event.os .lock_sharable true] ∧
        m.tryLockSharable.1 = os.outcome 0 ∧
        m.tryLockSharable.2.osCalls
          = m.osCalls ++ [Event.os .try_lock_sharable (os.outcome 0)] ∧
        (m.timedLockSharable secs).1 = os.outcome 0 ∧
        (m.timedLockSharable secs).2.osCalls
          = m.osCalls ++ [Event.os (.timed_lock_sharable secs) (os.outcome 0)] ∧
        (os.outcome 0 = true →
          (m.lockSharable env).1 = .returned () ∧
          (m.lockSharable env).2.osCalls
            = m.osCalls ++ [Event.os (.timed_lock_sharable initialLockWait) true]))) := by
  constructor
  · intro h
    simp [Impl.lockSharable, Impl.sleepLockSharable, Impl.tryLockSharable,
      Impl.timedLockSharable, h]
  · intro h
    refine ⟨Impl.sleepLockSharable_state m, (Impl.lockSharable_cases env m).2.1,
      (Impl.tryLockSharable_cases m).2.1, fun hf => ?_,
      (Impl.timedLockSharable_cases secs m).2.1, fun hf => ?_, ?_⟩
    · rw [((Impl.tryLockSharable_cases m).2.2.1 hf).1, h]
    · rw [((Impl.timedLockSharable_cases secs m).2.2.1 hf).1, h]
    · intro os hos
      refine ⟨?_, ?_, ?_, ?_, ?_, ?_⟩
      · simp [Impl.sleepLockSharable, Impl.osCall, Impl.osCalls, h, hos, Event.isOs]
      · simp only [Impl.tryLockSharable, Impl.osTry, h, hos]
        cases os.outcome 0 <;> simp
      · simp only [Impl.tryLockSharable, Impl.osTry, h, hos]
        cases os.outcome 0 <;> simp [Impl.osCalls, Event.isOs]
      · simp only [Impl.timedLockSharable, Impl.osTry, h, hos]
        cases os.outcome 0 <;> simp
      · simp only [Impl.timedLockSharable, Impl.osTry, h, hos]
        cases os.outcome 0 <;> simp [Impl.osCalls, Event.isOs]
      · intro hok
        simp [Impl.lockSharable, Impl.timedLockSharable, Impl.osTry, h, hos, hok,
          Impl.osCalls, Event.isOs]

/-- Witness for the amended C9: the file locked by an explicit `lock()`, and the same
file after `lockSharable()`. -/
theorem C9_sharable_acquire_in_locked_state_witness :
    (Impl.lockedFile.lockSharable Env.quiet).2._state = .SHARED_LOCK ∧
    Impl.lockedFile._state = .EXCLUSIVE_LOCK ∧
    Impl.lockedFile.sleepLockSharable._state = .SHARED_LOCK ∧
    (Impl.lockedFile.lockSharable Env.quiet).2.tryLockSharable
      = (true, (Impl.lockedFile.lockSharable Env.quiet).2) :=
  ⟨by decide, by decide,
   ((C9_sharable_acquire_in_locked_state Env.quiet 5 Impl.lockedFile).2 (by decide)).1,
   ((C9_sharable_acquire_in_locked_state Env.quiet 5
      (Impl.lockedFile.lockSharable Env.quiet).2).1 (by decide)).2.2.1⟩

/-! ## Handles and slots -/

theorem Impl.Frame.slot {m m1 : Impl} (h : Impl.Frame m m1) (k : LockKind) :
    m1.slot k = m.slot k := by
  cases k <;> simp [Impl.slot, Impl.lockRef, LockKind._targetState, h.sharedRefs, h.scopedRefs]

theorem Impl.slot_setLockRef (m : Impl) (k k1 : LockKind) (w : WeakRef) :
    (m.setLockRef k._targetState w).slot k1 = if k1 = k then w else m.slot k1 := by
  cases k <;> cases k1 <;>
    simp [Impl.slot, Impl.lockRef, Impl.setLockRef, LockKind._targetState]

theorem LockKind.targetState_ne (k : LockKind) : k._targetState ≠ .UNLOCKED := by
  cases k <;> simp [LockKind._targetState]

/-- What `getRef` of the mutex does for a guard kind: it hands out a handle to the
token the slot watches if that is alive and to a fresh token otherwise, the slot
counts one more, and nothing else changes. -/
theorem Impl.getRef_spec (k : LockKind) (m : Impl) (hp : m.SlotOK) :
    ∃ tok, (m.getRef k._targetState).1 = some tok ∧ tok.p = k._targetState ∧
      (m.getRef k._targetState).2.slot k = .block tok ((m.slot k).use_count + 1) ∧
      (0 < (m.slot k).use_count → ∃ n, m.slot k = .block tok n) ∧
      (∀ k1, k1 ≠ k → (m.getRef k._targetState).2.slot k1 = m.slot k1) ∧
      (m.getRef k._targetState).2._state = m._state ∧
      (m.getRef k._targetState).2.log = m.log ∧
      (m.getRef k._targetState).2._mutex = m._mutex := by
  have hk := k.targetState_ne
  unfold Impl.getRef
  rw [if_neg hk]
  have hs : m.lockRef k._targetState = m.slot k := rfl
  rcases hw : m.slot k with _ | ⟨t, n⟩
  · rw [hs, hw]
    refine ⟨⟨m.nextToken, k._targetState⟩, rfl, rfl, ?_, ?_, ?_, ?_, ?_, ?_⟩
    · show Impl.slot (Impl.setLockRef _ _ m) k = _
      rw [Impl.slot_setLockRef]
      simp [WeakRef.use_count]
    · simp [WeakRef.use_count]
    · intro k1 h1
      show Impl.slot (Impl.setLockRef _ _ m) k1 = _
      rw [Impl.slot_setLockRef, if_neg h1]
    · cases k <;> simp [Impl.setLockRef, LockKind._targetState]
    · cases k <;> simp [Impl.setLockRef, LockKind._targetState]
    · cases k <;> simp [Impl.setLockRef, LockKind._targetState]
  · rw [hs, hw]
    cases n with
    | zero =>
      refine ⟨⟨m.nextToken, k._targetState⟩, rfl, rfl, ?_, ?_, ?_, ?_, ?_, ?_⟩
      · show Impl.slot (Impl.setLockRef _ _ m) k = _
        rw [Impl.slot_setLockRef]
        simp [WeakRef.use_count]
      · simp [WeakRef.use_count]
      · intro k1 h1
        show Impl.slot (Impl.setLockRef _ _ m) k1 = _
        rw [Impl.slot_setLockRef, if_neg h1]
      · cases k <;> simp [Impl.setLockRef, LockKind._targetState]
      · cases k <;> simp [Impl.setLockRef, LockKind._targetState]
      · cases k <;> simp [Impl.setLockRef, LockKind._targetState]
    | succ n =>
      refine ⟨t, rfl, ?_, ?_, ?_, ?_, ?_, ?_, ?_⟩
      · exact hp k t (n + 1) hw
      · rw [Impl.slot_setLockRef]
        simp [WeakRef.use_count]
      · intro _
        exact ⟨_, rfl⟩
      · intro k1 h1
        rw [Impl.slot_setLockRef, if_neg h1]
      · cases k <;> simp [Impl.setLockRef, LockKind._targetState]
      · cases k <;> simp [Impl.setLockRef, LockKind._targetState]
      · cases k <;> simp [Impl.setLockRef, LockKind._targetState]

theorem Impl.frame_setLockRef_state (m : Impl) (p : State) (w : WeakRef) :
    (m.setLockRef p w)._state = m._state ∧ (m.setLockRef p w).log = m.log ∧
    (m.setLockRef p w)._mutex = m._mutex ∧ (m.setLockRef p w)._mutexFile = m._mutexFile := by
  unfold Impl.setLockRef
  split <;> simp

/-- The state in which the deleter leaves the mutex when the shared acquire of the
demotion branch succeeds. -/
theorem Impl.unref_spec (env : Env) (p : State) (m : Impl) :
    Impl.Frame m (m.unref env p).2 ∧
    (p ≠ m._state → m.unref env p
      = (.returned (), { m with log := m.log ++ [Event.unref p] })) ∧
    (m._state = .UNLOCKED → m.unref env p
      = (.returned (), { m with log := m.log ++ [Event.unref p] })) ∧
    (m.alwaysSucceeds → (m.unref env p).1 = .returned () ∧
      (m.unref env p).2._state =
        if p = m._state then
          (if m._state = .EXCLUSIVE_LOCK ∧ m._sharedRefs.use_count ≠ 0 then .SHARED_LOCK
           else .UNLOCKED)
        else m._state) := by
  have hl := Impl.frame_log m (m.log ++ [Event.unref p])
  refine ⟨?_, ?_, ?_, ?_⟩
  · unfold Impl.unref
    simp only []
    split
    · split
      · split
        · exact hl.trans_ (Impl.frame_unlock _)
        · exact hl.trans_ (Impl.lockSharable_cases env _).1
      · exact hl.trans_ (Impl.frame_unlockSharable _)
      · exact hl
    · exact hl
  · intro h
    simp [Impl.unref, h]
  · intro h
    unfold Impl.unref
    simp only [h]
    split <;> rfl
  · intro hs
    have hs1 : Impl.alwaysSucceeds { m with log := m.log ++ [Event.unref p] } := hl.succ hs
    have hc := Impl.lockSharable_cases env { m with log := m.log ++ [Event.unref p] }
    unfold Impl.unref
    simp only []
    by_cases hp : p = m._state
    · rw [if_pos hp, if_pos hp]
      rcases hst : m._state with _ | _ | _
      · simp
      · simp
      · simp only [WeakRef.expired]
        by_cases hcnt : m._sharedRefs.use_count = 0
        · simp [hcnt]
        · simp only [hcnt, beq_iff_eq, if_false, ne_eq, not_false_eq_true, and_self, if_true]
          rw [hst] at hc hs1
          exact ⟨hc.2.2.2 hs1, hc.2.1 (hc.2.2.2 hs1)⟩
    · rw [if_neg hp, if_neg hp]
      exact ⟨rfl, rfl⟩

/-- The deleter run by `shared_ptr`: it ends as `unref` does unless `unref` raises;
then the process ends, with the fields as `unref` left them. -/
theorem Impl.runDeleter_cases (env : Env) (p : State) (m : Impl) :
    ((∀ e, (m.unref env p).1 ≠ .thrown e) → m.runDeleter env p = m.unref env p) ∧
    (∀ e, (m.unref env p).1 = .thrown e →
      m.runDeleter env p
        = (.terminated,
           { (m.unref env p).2 with log := (m.unref env p).2.log ++ [Event.terminate] })) ∧
    (∀ e, (m.runDeleter env p).1 ≠ .thrown e) ∧
    ((m.runDeleter env p).1 = .returned () ↔ (m.unref env p).1 = .returned ()) ∧
    (m.runDeleter env p).2._state = (m.unref env p).2._state ∧
    Impl.Frame (m.unref env p).2 (m.runDeleter env p).2 := by
  unfold Impl.runDeleter
  rcases hx : m.unref env p with ⟨_ | e | _ | _, m1⟩
  · simp [Impl.Frame.rfl_]
  · simp only [reduceCtorEq, ne_eq, not_false_eq_true, implies_true, iff_self, true_and,
      Outcome.thrown.injEq, forall_eq', not_true_eq_false, IsEmpty.forall_iff]
    exact Impl.frame_log _ _
  · simp [Impl.Frame.rfl_]
  · simp [Impl.Frame.rfl_]

theorem Impl.runDeleter_returned (env : Env) (p : State) (m : Impl)
    (h : (m.unref env p).1 = .returned ()) : m.runDeleter env p = m.unref env p :=
  (Impl.runDeleter_cases env p m).1 (fun e he => by rw [h] at he; cases he)

/-- What `Impl.unref_spec` says of the deleter holds as well when `shared_ptr` runs it. -/
theorem Impl.runDeleter_spec (env : Env) (p : State) (m : Impl) :
    Impl.Frame m (m.runDeleter env p).2 ∧
    (p ≠ m._state → m.runDeleter env p
      = (.returned (), { m with log := m.log ++ [Event.unref p] })) ∧
    (m._state = .UNLOCKED → m.runDeleter env p
      = (.returned (), { m with log := m.log ++ [Event.unref p] })) ∧
    (m.alwaysSucceeds → (m.runDeleter env p).1 = .returned () ∧
      (m.runDeleter env p).2._state =
        if p = m._state then
          (if m._state = .EXCLUSIVE_LOCK ∧ m._sharedRefs.use_count ≠ 0 then .SHARED_LOCK
           else .UNLOCKED)
        else m._state) := by
  have hu := Impl.unref_spec env p m
  have hc := Impl.runDeleter_cases env p m
  refine ⟨hu.1.trans_ hc.2.2.2.2.2, fun h => ?_, fun h => ?_, fun h => ?_⟩
  · rw [hc.1 (fun e he => by rw [hu.2.1 h] at he; cases he), hu.2.1 h]
  · rw [hc.1 (fun e he => by rw [hu.2.2.1 h] at he; cases he), hu.2.2.1 h]
  · have h1 := hu.2.2.2 h
    rw [hc.1 (fun e he => by rw [h1.1] at he; cases he)]
    exact h1

theorem Impl.SlotOK.slotOK_of_frame {m m1 : Impl} (h : Impl.Frame m m1) (hp : m.SlotOK) :
    m1.SlotOK := by
  intro k t n hk
  rw [h.slot k] at hk
  exact hp k t n hk

theorem RefLive.refLive_of_frame {m m1 : Impl} {g : LockImpl} (h : Impl.Frame m m1)
    (hl : RefLive m g) : RefLive m1 g := by
  intro tok ht
  rw [h.slot]
  exact hl tok ht

theorem Trans.frame_left {g g1 : LockImpl} {m m0 m1 : Impl} (h : Impl.Frame m m0)
    (ht : Trans g m0 g1 m1) : Trans g m g1 m1 := by
  cases ht with
  | keep h1 h2 => exact Trans.keep h1 (fun k => by rw [h2 k, h.slot k])
  | gain tok h1 h2 h3 h4 h5 h6 =>
    refine Trans.gain tok h1 h2 h3 ?_ ?_ (fun k hk => by rw [h6 k hk, h.slot k])
    · rw [h4, h.slot]
    · rw [← h.slot]
      exact h5
  | lose tok n h1 h2 h3 h4 h5 =>
    refine Trans.lose tok n h1 h2 ?_ h4 (fun k hk => by rw [h5 k hk, h.slot k])
    rw [← h.slot]
    exact h3

theorem Trans.frame_right {g g1 : LockImpl} {m m1 m2 : Impl} (h : Impl.Frame m1 m2)
    (ht : Trans g m g1 m1) : Trans g m g1 m2 := by
  cases ht with
  | keep h1 h2 => exact Trans.keep h1 (fun k => by rw [h.slot k, h2 k])
  | gain tok h1 h2 h3 h4 h5 h6 =>
    refine Trans.gain tok h1 h2 h3 ?_ h5 (fun k hk => by rw [h.slot k, h6 k hk])
    rw [h.slot, h4]
  | lose tok n h1 h2 h3 h4 h5 =>
    refine Trans.lose tok n h1 h2 h3 ?_ (fun k hk => by rw [h.slot k, h5 k hk])
    rw [h.slot, h4]

theorem Trans.trans_of_frame {g : LockImpl} {m m1 : Impl} (h : Impl.Frame m m1) :
    Trans g m g m1 :=
  Trans.keep rfl (fun k => h.slot k)

/-- The guard side of `getRef`: a guard that owns keeps its handle, a guard that does
not own obtains one; the mutex state, the log and the primitive are not touched. -/
theorem LockImpl.getRef_guard_spec (g : LockImpl) (m : Impl) (hp : m.SlotOK) :
    Trans g m (g.getRef m).1 (g.getRef m).2 ∧
    (g.getRef m).1.owns = true ∧ (g.getRef m).1.kind = g.kind ∧
    (g.getRef m).1._mutex = g._mutex ∧
    (g.getRef m).2._state = m._state ∧ (g.getRef m).2.log = m.log ∧
    (g.getRef m).2._mutex = m._mutex := by
  unfold LockImpl.getRef
  split
  · rename_i t ht
    exact ⟨Trans.keep rfl (fun _ => rfl), by simp [LockImpl.owns, ht], rfl, rfl, rfl, rfl, rfl⟩
  · rename_i hn
    obtain ⟨tok, h1, h2, h3, h4, h5, h6, h7, h8⟩ := Impl.getRef_spec g.kind m hp
    refine ⟨Trans.gain tok hn ?_ h2 h3 h4 h5, ?_, rfl, rfl, h6, h7, h8⟩
    · show ({ g with _mutexRef := (m.getRef g.kind._targetState).1 } : LockImpl) = _
      rw [h1]
    · show (LockImpl.owns { g with _mutexRef := (m.getRef g.kind._targetState).1 }) = true
      rw [h1]
      rfl

/-- The guard side of `unref` for a guard that owns: the slot counts one less, and the
deleter runs exactly when the count reaches zero. -/
theorem LockImpl.unref_eq (env : Env) (g : LockImpl) (m : Impl) (tok : Token) (n : Nat)
    (hg : g._mutexRef = some tok) (hp : tok.p = g.kind._targetState)
    (hs : m.slot g.kind = .block tok (n + 1)) :
    g.unref env m =
      (if n = 0 then ((m.setLockRef g.kind._targetState (.block tok 0)).runDeleter env
          g.kind._targetState).1 else .returned (),
       { g with _mutexRef := none },
       if n = 0 then ((m.setLockRef g.kind._targetState (.block tok 0)).runDeleter env
          g.kind._targetState).2
       else m.setLockRef g.kind._targetState (.block tok n)) := by
  have hs1 : m.lockRef tok.p = .block tok (n + 1) := by
    rw [hp]
    exact hs
  unfold LockImpl.unref
  rw [hg]
  simp only [Impl.dropRef, hs1, if_true]
  by_cases hn : n = 0
  · subst hn
    simp [hp]
  · simp [hn, hp]

theorem LockImpl.unref_none (env : Env) (g : LockImpl) (m : Impl) (hg : g._mutexRef = none) :
    g.unref env m = (.returned (), g, m) := by
  unfold LockImpl.unref
  rw [hg]

theorem Impl.frame_setLockRef_slot (m : Impl) (k : LockKind) (w : WeakRef) :
    (∀ k1, k1 ≠ k → (m.setLockRef k._targetState w).slot k1 = m.slot k1) ∧
    (m.setLockRef k._targetState w).slot k = w ∧
    (m.alwaysSucceeds → (m.setLockRef k._targetState w).alwaysSucceeds) := by
  refine ⟨fun k1 h1 => by rw [Impl.slot_setLockRef, if_neg h1],
    by rw [Impl.slot_setLockRef, if_pos rfl], fun h => ?_⟩
  intro os hos
  rw [(Impl.frame_setLockRef_state m k._targetState w).2.2.1] at hos
  exact h os hos

theorem LockImpl.unref_guard_spec (env : Env) (g : LockImpl) (m : Impl) (hl : RefLive m g) :
    Trans g m (g.unref env m).2.1 (g.unref env m).2.2 ∧
    (g.unref env m).2.1._mutexRef = none ∧ (g.unref env m).2.1.kind = g.kind ∧
    (g.unref env m).2.1._mutex = g._mutex := by
  rcases hg : g._mutexRef with _ | tok
  · rw [LockImpl.unref_none env g m hg]
    exact ⟨Trans.keep rfl (fun _ => rfl), hg, rfl, rfl⟩
  · obtain ⟨hp, n, hs⟩ := hl tok hg
    rw [LockImpl.unref_eq env g m tok n hg hp hs]
    refine ⟨?_, rfl, rfl, rfl⟩
    have hset := Impl.frame_setLockRef_slot m g.kind
    by_cases hn : n = 0
    · subst hn
      simp only [if_true]
      have hf := (Impl.runDeleter_spec env g.kind._targetState
        (m.setLockRef g.kind._targetState (.block tok 0))).1
      refine Trans.lose tok 0 hg rfl hs ?_ ?_
      · rw [hf.slot]
        exact (hset _).2.1
      · intro k hk
        rw [hf.slot]
        exact (hset _).1 k hk
    · simp only [hn, if_false]
      exact Trans.lose tok n hg rfl hs (hset _).2.1 (hset _).1

theorem LockKind.frame_lock (k : LockKind) (env : Env) (m : Impl) :
    Impl.Frame m (k.lock env m).2 := by
  cases k
  · exact (Impl.lockSharable_cases env m).1
  · exact (Impl.lock_cases env m).1

theorem LockKind.frame_sleepLockFor (k : LockKind) (m : Impl) :
    Impl.Frame m (k.sleepLock m) := by
  cases k
  · exact Impl.frame_sleepLockSharable m
  · exact Impl.frame_sleepLock m

theorem LockKind.frame_tryLock (k : LockKind) (m : Impl) :
    Impl.Frame m (k.tryLock m).2 := by
  cases k
  · exact (Impl.tryLockSharable_cases m).1
  · exact (Impl.tryLock_cases m).1

theorem LockKind.frame_timedLock (k : LockKind) (secs : Nat) (m : Impl) :
    Impl.Frame m (k.timedLock secs m).2 := by
  cases k
  · exact (Impl.timedLockSharable_cases secs m).1
  · exact (Impl.timedLock_cases secs m).1

/-- The three ways a guard operation ends, after a mutex operation that took `m` to
`m1`: with `getRef`, with the guard untouched, or with `unref`. -/
theorem Trans.endings (env : Env) (g : LockImpl) {m m1 : Impl} (hf : Impl.Frame m m1)
    (hp : m.SlotOK) (hl : RefLive m g) :
    (Trans g m (g.getRef m1).1 (g.getRef m1).2 ∧ (g.getRef m1).1.kind = g.kind) ∧
    Trans g m g m1 ∧
    (Trans g m (g.unref env m1).2.1 (g.unref env m1).2.2 ∧
      (g.unref env m1).2.1.kind = g.kind ∧ (g.unref env m1).2.1._mutexRef = none) := by
  have h1 := LockImpl.getRef_guard_spec g m1 (hp.slotOK_of_frame hf)
  have h2 := LockImpl.unref_guard_spec env g m1 (hl.refLive_of_frame hf)
  exact ⟨⟨h1.1.frame_left hf, h1.2.2.1⟩, Trans.trans_of_frame hf,
    h2.1.frame_left hf, h2.2.2.1, h2.2.1⟩

theorem LockImpl.lock_trans (env : Env) (g : LockImpl) (m : Impl) (hp : m.SlotOK)
    (hl : RefLive m g) :
    Trans g m (g.lock env m).2.1 (g.lock env m).2.2 ∧ (g.lock env m).2.1.kind = g.kind := by
  have hf := g.kind.frame_lock env m
  have h0 := Trans.endings env g (Impl.Frame.rfl_ m) hp hl
  unfold LockImpl.lock
  split
  · exact ⟨h0.2.1, rfl⟩
  · split
    · split
      · rename_i hx
        rw [hx] at hf
        exact (Trans.endings env g hf hp hl).1
      · rename_i hx
        rw [hx] at hf
        exact ⟨Trans.trans_of_frame hf, rfl⟩
      · rename_i hx
        rw [hx] at hf
        exact ⟨Trans.trans_of_frame hf, rfl⟩
      · rename_i hx
        rw [hx] at hf
        exact ⟨Trans.trans_of_frame hf, rfl⟩
    · exact h0.1

theorem LockImpl.sleepLock_trans (env : Env) (g : LockImpl) (m : Impl) (hp : m.SlotOK)
    (hl : RefLive m g) :
    Trans g m (g.sleepLock m).2.1 (g.sleepLock m).2.2 ∧ (g.sleepLock m).2.1.kind = g.kind := by
  have hf := g.kind.frame_sleepLockFor m
  have h0 := Trans.endings env g (Impl.Frame.rfl_ m) hp hl
  unfold LockImpl.sleepLock
  split
  · exact ⟨h0.2.1, rfl⟩
  · split
    · exact (Trans.endings env g hf hp hl).1
    · exact h0.1

theorem LockImpl.tryLock_trans (env : Env) (g : LockImpl) (m : Impl) (hp : m.SlotOK)
    (hl : RefLive m g) :
    Trans g m (g.tryLock env m).2.1 (g.tryLock env m).2.2 ∧
    (g.tryLock env m).2.1.kind = g.kind := by
  have hf := g.kind.frame_tryLock m
  have h0 := Trans.endings env g (Impl.Frame.rfl_ m) hp hl
  unfold LockImpl.tryLock
  split
  · exact ⟨h0.2.1, rfl⟩
  · split
    · split
      · rename_i hx
        rw [hx] at hf
        exact (Trans.endings env g hf hp hl).1
      · rename_i m1 hx
        rw [hx] at hf
        have h3 := (Trans.endings env g hf hp hl).2.2
        split <;> rename_i hy <;> rw [hy] at h3 <;> exact ⟨h3.1, h3.2.1⟩
    · exact h0.1

theorem LockImpl.timedLock_trans (env : Env) (secs : Nat) (g : LockImpl) (m : Impl)
    (hp : m.SlotOK) (hl : RefLive m g) :
    Trans g m (g.timedLock env secs m).2.1 (g.timedLock env secs m).2.2 ∧
    (g.timedLock env secs m).2.1.kind = g.kind := by
  have hf := g.kind.frame_timedLock secs m
  have h0 := Trans.endings env g (Impl.Frame.rfl_ m) hp hl
  unfold LockImpl.timedLock
  split
  · exact ⟨h0.2.1, rfl⟩
  · split
    · split
      · rename_i hx
        rw [hx] at hf
        exact (Trans.endings env g hf hp hl).1
      · rename_i m1 hx
        rw [hx] at hf
        have h3 := (Trans.endings env g hf hp hl).2.2
        split <;> rename_i hy <;> rw [hy] at h3 <;> exact ⟨h3.1, h3.2.1⟩
    · exact h0.1

theorem LockImpl.unlock_trans (env : Env) (g : LockImpl) (m : Impl) (hp : m.SlotOK)
    (hl : RefLive m g) :
    Trans g m (g.unlock env m).2.1 (g.unlock env m).2.2 ∧
    (g.unlock env m).2.1.kind = g.kind := by
  have h0 := Trans.endings env g (Impl.Frame.rfl_ m) hp hl
  unfold LockImpl.unlock
  split
  · exact ⟨h0.2.1, rfl⟩
  · exact ⟨h0.2.2.1, h0.2.2.2.1⟩

theorem Sys.mem_of_guard {l : List (Option LockImpl)} {i : Nat} {g : LockImpl}
    (hg : l[i]? = some (some g)) : some g ∈ l := by
  rw [List.getElem?_eq_some] at hg
  obtain ⟨h, he⟩ := hg
  rw [← he]
  exact List.getElem_mem h

theorem Sys.owners_pos {l : List (Option LockImpl)} {g : LockImpl} {tok : Token}
    (hm : some g ∈ l) (ht : g._mutexRef = some tok) :
    0 < l.countP (ownsKind g.kind) := by
  rw [List.countP_pos_iff]
  exact ⟨some g, hm, by simp [ownsKind, ht]⟩

theorem Sys.countP_update (k : LockKind) (l : List (Option LockImpl)) (i : Nat)
    (g : LockImpl) (x : Option LockImpl) (hg : l[i]? = some (some g)) :
    (l.set i x).countP (ownsKind k) + (if ownsKind k (some g) then 1 else 0)
      = l.countP (ownsKind k) + (if ownsKind k x then 1 else 0) := by
  rw [List.getElem?_eq_some] at hg
  obtain ⟨h, he⟩ := hg
  rw [List.countP_set (ownsKind k) l i x h, he]
  have hle : (if ownsKind k (some g) = true then 1 else 0) ≤ l.countP (ownsKind k) := by
    split
    · rename_i hown
      rw [Nat.succ_le, List.countP_pos_iff]
      exact ⟨some g, by rw [← he]; exact List.getElem_mem h, hown⟩
    · exact Nat.zero_le _
  omega

/-- Consistency survives an operation on one guard that acts as `Trans` describes. The
guard may be replaced by `none` afterwards when it does not own. -/
theorem Sys.WF.update {s : Sys} (h : s.WF) {i : Nat} {g g1 : LockImpl} {m1 : Impl}
    (x : Option LockImpl) (hg : s.guards[i]? = some (some g))
    (ht : Trans g s.mutex g1 m1)
    (hx : x = some g1 ∨ (x = none ∧ g1._mutexRef = none)) :
    Sys.WF { mutex := m1, guards := s.guards.set i x } := by
  have hmem := Sys.mem_of_guard hg
  have hcnt := fun k => Sys.countP_update k s.guards i g x hg
  have hxown : ∀ k, ownsKind k x = ownsKind k (some g1) := by
    intro k
    rcases hx with hx | ⟨hx, hn⟩
    · rw [hx]
    · rw [hx]
      simp [ownsKind, hn]
  have hxmem : ∀ g2 tok, some g2 ∈ s.guards.set i x → g2._mutexRef = some tok →
      some g2 ∈ s.guards ∨ g2 = g1 := by
    intro g2 tok hm _
    rcases List.mem_or_eq_of_mem_set hm with hm | hm
    · exact Or.inl hm
    · rcases hx with hx | ⟨hx, _⟩
      · rw [hx] at hm
        exact Or.inr (Option.some.inj hm)
      · rw [hx] at hm
        exact absurd hm (by simp)
  cases ht with
  | keep h1 h2 =>
    subst h1
    refine ⟨fun k => ?_, fun g2 tok hm ht2 => ?_, fun k t n hk => ?_⟩
    · have := hcnt k
      have hc := h.count k
      rw [hxown k] at this
      simp only [Sys.owners] at hc ⊢
      rw [h2 k]
      omega
    · show ∃ n, m1.slot g2.kind = _
      rw [h2]
      rcases hxmem g2 tok hm ht2 with hm | hm
      · exact h.live g2 tok hm ht2
      · subst hm
        exact h.live g2 tok hmem ht2
    · rw [h2] at hk
      exact h.slotOK k t n hk
  | gain tok h1 h2 h3 h4 h5 h6 =>
    have hg0 : ∀ k, ownsKind k (some g) = false := by
      intro k
      simp [ownsKind, h1]
    have hg1 : ∀ k, ownsKind k (some g1) = decide (g.kind = k) := by
      intro k
      simp [ownsKind, h2]
    refine ⟨fun k => ?_, fun g2 tok2 hm ht2 => ?_, fun k t n hk => ?_⟩
    · have := hcnt k
      have hc := h.count k
      rw [hxown k, hg0 k, hg1 k] at this
      simp only [Sys.owners] at hc ⊢
      by_cases hk : k = g.kind
      · subst hk
        show (m1.slot g.kind).use_count = _
        rw [h4]
        show (s.mutex.slot g.kind).use_count + 1 = _
        simp at this
        omega
      · show (m1.slot k).use_count = _
        rw [h6 k hk]
        have hne : ¬ g.kind = k := fun e => hk e.symm
        simp [hne] at this
        omega
    · show ∃ n, m1.slot g2.kind = _
      rcases hxmem g2 tok2 hm ht2 with hm | hm
      · by_cases hk : g2.kind = g.kind
        · have hpos := Sys.owners_pos hm ht2
          have hc := h.count g2.kind
          simp only [Sys.owners] at hc
          rw [hk] at hc hpos
          obtain ⟨n, hn⟩ := h5 (by omega)
          obtain ⟨n2, hn2⟩ := h.live g2 tok2 hm ht2
          rw [hk, hn] at hn2
          have : tok = tok2 := by
            injection hn2
          subst this
          rw [hk, h4]
          exact ⟨_, rfl⟩
        · rw [h6 _ hk]
          exact h.live g2 tok2 hm ht2
      · subst hm
        rw [h2] at ht2
        simp at ht2
        subst ht2
        rw [h2]
        exact ⟨_, h4⟩
    · by_cases hkk : k = g.kind
      · subst hkk
        rw [h4] at hk
        injection hk with e1 e2
        rw [← e1]
        exact h3
      · rw [h6 k hkk] at hk
        exact h.slotOK k t n hk
  | lose tok n h1 h2 h3 h4 h5 =>
    have hg0 : ∀ k, ownsKind k (some g) = decide (g.kind = k) := by
      intro k
      simp [ownsKind, h1]
    have hg1 : ∀ k, ownsKind k (some g1) = false := by
      intro k
      simp [ownsKind, h2]
    refine ⟨fun k => ?_, fun g2 tok2 hm ht2 => ?_, fun k t n2 hk => ?_⟩
    · have := hcnt k
      have hc := h.count k
      rw [hxown k, hg0 k, hg1 k] at this
      simp only [Sys.owners] at hc ⊢
      by_cases hk : k = g.kind
      · subst hk
        show (m1.slot g.kind).use_count = _
        rw [h4]
        rw [h3] at hc
        show n = _
        have hc2 : n + 1 = List.countP (ownsKind g.kind) s.guards := hc
        simp at this
        omega
      · show (m1.slot k).use_count = _
        rw [h5 k hk]
        have hne : ¬ g.kind = k := fun e => hk e.symm
        simp [hne] at this
        omega
    · show ∃ n, m1.slot g2.kind = _
      rcases hxmem g2 tok2 hm ht2 with hm | hm
      · by_cases hk : g2.kind = g.kind
        · obtain ⟨n2, hn2⟩ := h.live g2 tok2 hm ht2
          rw [hk, h3] at hn2
          have : tok = tok2 := by
            injection hn2
          subst this
          rw [hk, h4]
          exact ⟨_, rfl⟩
        · rw [h5 _ hk]
          exact h.live g2 tok2 hm ht2
      · subst hm
        rw [h2] at ht2
        simp at ht2
    · by_cases hkk : k = g.kind
      · subst hkk
        rw [h4] at hk
        injection hk with e1 e2
        rw [← e1]
        exact h.slotOK g.kind tok (n + 1) h3
      · rw [h5 k hkk] at hk
        exact h.slotOK k t n2 hk

theorem LockImpl.lock_raised (env : Env) (g : LockImpl) (m : Impl)
    (h : (g.lock env m).1 ≠ .returned ()) : (g.lock env m).2.1 = g := by
  revert h
  unfold LockImpl.lock
  split
  · intro _
    rfl
  · split
    · split <;> simp
    · simp

theorem LockImpl.tryLock_raised (env : Env) (g : LockImpl) (m : Impl)
    (h : ∀ b, (g.tryLock env m).1 ≠ .returned b) (hg : g._mutexRef = none) :
    (g.tryLock env m).2.1._mutexRef = none := by
  revert h
  unfold LockImpl.tryLock
  split
  · intro _
    exact hg
  · split
    · split
      · intro h
        exact absurd rfl (h true)
      · rename_i m1 hx
        rw [LockImpl.unref_none env g m1 hg]
        intro _
        exact hg
    · intro h
      exact absurd rfl (h true)

theorem LockImpl.timedLock_raised (env : Env) (secs : Nat) (g : LockImpl) (m : Impl)
    (h : ∀ b, (g.timedLock env secs m).1 ≠ .returned b) (hg : g._mutexRef = none) :
    (g.timedLock env secs m).2.1._mutexRef = none := by
  revert h
  unfold LockImpl.timedLock
  split
  · intro _
    exact hg
  · split
    · split
      · intro h
        exact absurd rfl (h true)
      · rename_i m1 hx
        rw [LockImpl.unref_none env g m1 hg]
        intro _
        exact hg
    · intro h
      exact absurd rfl (h true)

theorem Sys.WF.refLive {s : Sys} (h : s.WF) {i : Nat} {g : LockImpl}
    (hg : s.guards[i]? = some (some g)) : RefLive s.mutex g := by
  intro tok ht
  have hm := Sys.mem_of_guard hg
  obtain ⟨n, hn⟩ := h.live g tok hm ht
  have hpos := Sys.owners_pos hm ht
  have hc := h.count g.kind
  rw [hn] at hc
  simp only [Sys.owners, WeakRef.use_count] at hc
  refine ⟨h.slotOK g.kind tok n hn, ?_⟩
  cases n with
  | zero => omega
  | succ n => exact ⟨n, hn⟩

theorem Sys.guard_eq_some {s : Sys} {i : Nat} {g : LockImpl} (h : s.guard i = some g) :
    s.guards[i]? = some (some g) := by
  unfold Sys.guard at h
  rcases hx : s.guards[i]? with _ | x
  · rw [hx] at h
    simp at h
  · rw [hx] at h
    simp at h
    rw [h]

theorem Sys.WF.push {m : Impl} {l : List (Option LockImpl)} (k : LockKind)
    (h : Sys.WF { mutex := m, guards := l }) :
    Sys.WF { mutex := m, guards := l ++ [some (LockImpl.deferLock k)] } := by
  refine ⟨fun k1 => ?_, fun g tok hm ht => ?_, h.slotOK⟩
  · have := h.count k1
    simp only [Sys.owners, List.countP_append] at this ⊢
    rw [this]
    simp [List.countP_cons, ownsKind, LockImpl.deferLock]
  · simp only [List.mem_append, List.mem_singleton] at hm
    rcases hm with hm | hm
    · exact h.live g tok hm ht
    · have : g = LockImpl.deferLock k := Option.some.inj hm
      subst this
      simp [LockImpl.deferLock] at ht

theorem Sys.WF.pop {m : Impl} {l : List (Option LockImpl)} {g : LockImpl}
    (h : Sys.WF { mutex := m, guards := l ++ [some g] }) (hg : g._mutexRef = none) :
    Sys.WF { mutex := m, guards := l } := by
  refine ⟨fun k1 => ?_, fun g2 tok hm ht => ?_, h.slotOK⟩
  · have := h.count k1
    simp only [Sys.owners, List.countP_append] at this ⊢
    rw [this]
    simp [List.countP_cons, ownsKind, hg]
  · exact h.live g2 tok (by simp [hm]) ht

theorem Sys.set_last (l : List (Option LockImpl)) (a b : Option LockImpl) :
    (l ++ [a]).set l.length b = l ++ [b] := by
  induction l with
  | nil => rfl
  | cons x l ih => simp [List.set, ih]

theorem Sys.get_last (l : List (Option LockImpl)) (a : Option LockImpl) :
    (l ++ [a])[l.length]? = some a := by
  simp

/-- Consistency after constructing a guard. -/
theorem Sys.WF.construct (env : Env) (k : LockKind) (d : Disposition) {s : Sys} (h : s.WF) :
    (GuardOp.construct k d |>.apply env s).WF := by
  have hpush : Sys.WF { mutex := s.mutex, guards := s.guards ++ [some (LockImpl.deferLock k)] } :=
    Sys.WF.push k h
  have hget := Sys.get_last s.guards (some (LockImpl.deferLock k))
  have hsl := hpush.slotOK
  have hrl := hpush.refLive hget
  have hup : ∀ (g1 : LockImpl) (m1 : Impl), Trans (LockImpl.deferLock k) s.mutex g1 m1 →
      Sys.WF { mutex := m1, guards := s.guards ++ [some g1] } := by
    intro g1 m1 ht
    have := hpush.update (some g1) hget ht (Or.inl rfl)
    simp only [Sys.set_last] at this
    exact this
  cases d with
  | deferLock => exact hpush
  | eager =>
    simp only [GuardOp.apply, LockImpl.construct]
    have ht := (LockImpl.lock_trans env (LockImpl.deferLock k) s.mutex hsl hrl).1
    have hr := LockImpl.lock_raised env (LockImpl.deferLock k) s.mutex
    have hw := hup _ _ ht
    rcases hx : (LockImpl.deferLock k).lock env s.mutex with ⟨o, g1, m1⟩
    rw [hx] at hr hw
    cases o with
    | returned a => exact hw
    | thrown e => exact hw.pop (by rw [hr (by simp)]; rfl)
    | waiting => exact hw.pop (by rw [hr (by simp)]; rfl)
    | terminated => exact hw.pop (by rw [hr (by simp)]; rfl)
  | tryToLock =>
    simp only [GuardOp.apply, LockImpl.construct]
    have ht := (LockImpl.tryLock_trans env (LockImpl.deferLock k) s.mutex hsl hrl).1
    have hr := LockImpl.tryLock_raised env (LockImpl.deferLock k) s.mutex
    have hw := hup _ _ ht
    rcases hx : (LockImpl.deferLock k).tryLock env s.mutex with ⟨o, g1, m1⟩
    rw [hx] at hr hw
    cases o with
    | returned a => exact hw
    | thrown e => exact hw.pop (hr (by simp) rfl)
    | waiting => exact hw.pop (hr (by simp) rfl)
    | terminated => exact hw.pop (hr (by simp) rfl)
  | timed secs =>
    simp only [GuardOp.apply, LockImpl.construct]
    have ht := (LockImpl.timedLock_trans env secs (LockImpl.deferLock k) s.mutex hsl hrl).1
    have hr := LockImpl.timedLock_raised env secs (LockImpl.deferLock k) s.mutex
    have hw := hup _ _ ht
    rcases hx : (LockImpl.deferLock k).timedLock env secs s.mutex with ⟨o, g1, m1⟩
    rw [hx] at hr hw
    cases o with
    | returned a => exact hw
    | thrown e => exact hw.pop (hr (by simp) rfl)
    | waiting => exact hw.pop (hr (by simp) rfl)
    | terminated => exact hw.pop (hr (by simp) rfl)

theorem Sys.WF.wf_of_frame {s : Sys} (h : s.WF) {m1 : Impl} (hf : Impl.Frame s.mutex m1) :
    Sys.WF { s with mutex := m1 } := by
  refine ⟨fun k => ?_, fun g tok hm ht => ?_, h.slotOK.slotOK_of_frame hf⟩
  · show (m1.slot k).use_count = _
    rw [hf.slot]
    exact h.count k
  · show ∃ n, m1.slot g.kind = _
    rw [hf.slot]
    exact h.live g tok hm ht

theorem MutexOp.frame (env : Env) (o : MutexOp) (m : Impl) : Impl.Frame m (o.apply env m) := by
  cases o
  · exact (Impl.lock_cases env m).1
  · exact Impl.frame_sleepLock m
  · exact (Impl.tryLock_cases m).1
  · exact (Impl.timedLock_cases _ m).1
  · exact Impl.frame_unlock m
  · exact (Impl.lockSharable_cases env m).1
  · exact Impl.frame_sleepLockSharable m
  · exact (Impl.tryLockSharable_cases m).1
  · exact (Impl.timedLockSharable_cases _ m).1
  · exact Impl.frame_unlockSharable m

/-- Consistency is kept by every guard operation, whatever the primitive and the
observer do. -/
theorem Sys.WF.guardOp (env : Env) (o : GuardOp) {s : Sys} (h : s.WF) : (o.apply env s).WF := by
  cases o with
  | construct k d => exact h.construct env k d
  | lock i =>
    simp only [GuardOp.apply]
    split
    · rename_i g hg
      have hg1 := Sys.guard_eq_some hg
      exact h.update _ hg1 (LockImpl.lock_trans env g s.mutex h.slotOK (h.refLive hg1)).1
        (Or.inl rfl)
    · exact h
  | sleepLock i =>
    simp only [GuardOp.apply]
    split
    · rename_i g hg
      have hg1 := Sys.guard_eq_some hg
      exact h.update _ hg1 (LockImpl.sleepLock_trans env g s.mutex h.slotOK (h.refLive hg1)).1
        (Or.inl rfl)
    · exact h
  | tryLock i =>
    simp only [GuardOp.apply]
    split
    · rename_i g hg
      have hg1 := Sys.guard_eq_some hg
      exact h.update _ hg1 (LockImpl.tryLock_trans env g s.mutex h.slotOK (h.refLive hg1)).1
        (Or.inl rfl)
    · exact h
  | timedLock i secs =>
    simp only [GuardOp.apply]
    split
    · rename_i g hg
      have hg1 := Sys.guard_eq_some hg
      exact h.update _ hg1
        (LockImpl.timedLock_trans env secs g s.mutex h.slotOK (h.refLive hg1)).1 (Or.inl rfl)
    · exact h
  | unlock i =>
    simp only [GuardOp.apply]
    split
    · rename_i g hg
      have hg1 := Sys.guard_eq_some hg
      exact h.update _ hg1 (LockImpl.unlock_trans env g s.mutex h.slotOK (h.refLive hg1)).1
        (Or.inl rfl)
    · exact h
  | destroy i =>
    simp only [GuardOp.apply]
    split
    · rename_i g hg
      have hg1 := Sys.guard_eq_some hg
      have hu := LockImpl.unref_guard_spec env g s.mutex (h.refLive hg1)
      exact h.update none hg1 hu.1 (Or.inr ⟨rfl, hu.2.1⟩)
    · exact h

theorem Sys.WF.step (env : Env) (o : Op) {s : Sys} (h : s.WF) : (o.apply env s).WF := by
  cases o with
  | guard o => exact h.guardOp env o
  | mutex o => exact h.wf_of_frame (MutexOp.frame env o s.mutex)

theorem Sys.WF.run (script : List (Env × Op)) : ∀ {s : Sys}, s.WF → (s.run script).WF := by
  induction script with
  | nil =>
    intro s h
    exact h
  | cons x rest ih =>
    intro s h
    rw [Sys.run]
    split
    · exact h
    · exact ih (h.step x.1 x.2)

/-- A mutex whose slots are both expired, with no guards, is consistent. -/
theorem Sys.WF.init (m : Impl) (hp : m.SlotOK) (h1 : m._sharedRefs.use_count = 0)
    (h2 : m._scopedRefs.use_count = 0) : (Sys.init m).WF := by
  refine ⟨fun k => ?_, fun g tok hm _ => ?_, hp⟩
  · cases k
    · simpa [Sys.init, Sys.owners, Impl.slot, Impl.lockRef, LockKind._targetState] using h1
    · simpa [Sys.init, Sys.owners, Impl.slot, Impl.lockRef, LockKind._targetState] using h2
  · simp [Sys.init] at hm

/-! ## The state against the slots -/

theorem Impl.slot_sharable (m : Impl) : m.slot .SharableLock = m._sharedRefs := rfl

theorem Impl.slot_scoped (m : Impl) : m.slot .ScopedLock = m._scopedRefs := rfl

theorem State.lt_def (a b : State) : (a < b) = (a.toNat < b.toNat) := rfl

/-- A successful acquire by a guard of kind `k`, seen on the state and the use counts:
the state rises to the target if it was below, the slot of the guard counts one more
unless the guard owned already, the other slot is left alone. -/
theorem Impl.acquire_inv (k : LockKind) (own : Bool) (m m1 : Impl)
    (hst : m1._state = if m._state < k._targetState then k._targetState else m._state)
    (hk : (m1.slot k).use_count = (m.slot k).use_count + (if own then 0 else 1))
    (hown : own = true → 0 < (m.slot k).use_count)
    (hother : ∀ k1, k1 ≠ k → m1.slot k1 = m.slot k1) :
    (m.Backed → m1.Backed) ∧ (m.Covered → m1.Covered) := by
  unfold Impl.Backed Impl.Covered
  cases k
  · have h2 := hother .ScopedLock (by decide)
    rw [Impl.slot_sharable] at hk hown
    rw [Impl.slot_sharable] at hk
    rw [Impl.slot_scoped, Impl.slot_scoped] at h2
    rw [h2]
    rcases hs : m._state with _ | _ | _ <;>
      simp only [hs, LockKind._targetState, State.lt_def, State.toNat] at hst <;>
      simp at hst <;>
      rw [hst] <;> cases own <;> simp at hk hown ⊢ <;> omega
  · have h2 := hother .SharableLock (by decide)
    rw [Impl.slot_scoped] at hk hown
    rw [Impl.slot_scoped] at hk
    rw [Impl.slot_sharable, Impl.slot_sharable] at h2
    rw [h2]
    rcases hs : m._state with _ | _ | _ <;>
      simp only [hs, LockKind._targetState, State.lt_def, State.toNat] at hst <;>
      simp at hst <;>
      rw [hst] <;> cases own <;> simp at hk hown ⊢ <;> omega

/-- A guard of kind `k` drops its handle, seen on the state and the use counts: the slot
counts one less, and when it reaches zero while the state is the one of the slot, the
deleter releases (or demotes an exclusive lock while the shared slot is live). -/
theorem Impl.release_inv (k : LockKind) (m m1 : Impl) (n : Nat)
    (hk0 : (m.slot k).use_count = n + 1) (hk : (m1.slot k).use_count = n)
    (hother : ∀ k1, k1 ≠ k → m1.slot k1 = m.slot k1)
    (hst : m1._state =
      if n = 0 ∧ k._targetState = m._state then
        (if m._state = .EXCLUSIVE_LOCK ∧ m._sharedRefs.use_count ≠ 0 then .SHARED_LOCK
         else .UNLOCKED)
      else m._state) :
    (m.Backed → m1.Backed) ∧ (m.Covered → m1.Covered) := by
  unfold Impl.Backed Impl.Covered
  cases k
  · have h2 := hother .ScopedLock (by decide)
    rw [Impl.slot_sharable] at hk hk0
    rw [Impl.slot_scoped, Impl.slot_scoped] at h2
    rw [h2]
    rcases hs : m._state with _ | _ | _ <;> by_cases hn : n = 0 <;>
      by_cases hc : m._sharedRefs.use_count = 0 <;>
      simp [hs, hn, hc, LockKind._targetState] at hst <;>
      rw [hst] <;> (try simp) <;> (try omega)
  · have h2 := hother .SharableLock (by decide)
    rw [Impl.slot_scoped] at hk hk0
    rw [Impl.slot_sharable, Impl.slot_sharable] at h2
    rw [h2]
    rcases hs : m._state with _ | _ | _ <;> by_cases hn : n = 0 <;>
      by_cases hc : m._sharedRefs.use_count = 0 <;>
      simp [hs, hn, hc, LockKind._targetState] at hst <;>
      rw [hst] <;> (try simp) <;> (try omega)

theorem RefLive.count_pos {m : Impl} {g : LockImpl} (hl : RefLive m g)
    (ho : g._mutexRef.isSome = true) : 0 < (m.slot g.kind).use_count := by
  rcases hg : g._mutexRef with _ | tok
  · rw [hg] at ho
    simp at ho
  · obtain ⟨_, n, hn⟩ := hl tok hg
    rw [hn]
    simp [WeakRef.use_count]

theorem Impl.alwaysSucceeds_of_mutex_eq {m m1 : Impl} (h : m1._mutex = m._mutex)
    (hs : m.alwaysSucceeds) : m1.alwaysSucceeds := by
  intro os hos
  rw [h] at hos
  exact hs os hos

/-- The end of a successful guard acquire: after the mutex operation took `m` to `m1`,
raising the state to the target if it was below, `getRef` keeps both invariants. -/
theorem LockImpl.getRef_inv (g : LockImpl) {m m1 : Impl} (hf : Impl.Frame m m1)
    (hst : m1._state =
      if m._state < g.kind._targetState then g.kind._targetState else m._state)
    (hp : m.SlotOK) (hl : RefLive m g) :
    (m.Backed → (g.getRef m1).2.Backed) ∧ (m.Covered → (g.getRef m1).2.Covered) ∧
    (m.alwaysSucceeds → (g.getRef m1).2.alwaysSucceeds) := by
  have hspec := LockImpl.getRef_guard_spec g m1 (hp.slotOK_of_frame hf)
  obtain ⟨_, _, _, _, hs1, _, hmx⟩ := hspec
  have hsucc : m.alwaysSucceeds → (g.getRef m1).2.alwaysSucceeds :=
    fun h => Impl.alwaysSucceeds_of_mutex_eq hmx (hf.succ h)
  have key : (m.Backed → (g.getRef m1).2.Backed) ∧ (m.Covered → (g.getRef m1).2.Covered) := by
    apply Impl.acquire_inv g.kind g._mutexRef.isSome m (g.getRef m1).2
    · rw [hs1, hst]
    · rcases hg : g._mutexRef with _ | tok
      · obtain ⟨tok, _, _, h3, _, _, _⟩ := Impl.getRef_spec g.kind m1 (hp.slotOK_of_frame hf)
        simp only [LockImpl.getRef, hg]
        rw [h3, hf.slot]
        simp [WeakRef.use_count]
      · simp only [LockImpl.getRef, hg]
        rw [hf.slot]
        simp
    · exact fun ho => hl.count_pos ho
    · intro k1 hk1
      rcases hg : g._mutexRef with _ | tok
      · obtain ⟨tok, _, _, _, _, h5, _⟩ := Impl.getRef_spec g.kind m1 (hp.slotOK_of_frame hf)
        simp only [LockImpl.getRef, hg]
        rw [h5 k1 hk1, hf.slot]
      · simp only [LockImpl.getRef, hg]
        rw [hf.slot]
  exact ⟨key.1, key.2, hsucc⟩

/-- A guard drops its handle on a mutex whose attempts succeed: the deleter returns and
both invariants are kept. -/
theorem LockImpl.unref_inv (env : Env) (g : LockImpl) (m : Impl) (hl : RefLive m g)
    (hs : m.alwaysSucceeds) :
    (g.unref env m).1 = .returned () ∧
    (m.Backed → (g.unref env m).2.2.Backed) ∧ (m.Covered → (g.unref env m).2.2.Covered) ∧
    (g.unref env m).2.2.alwaysSucceeds := by
  rcases hg : g._mutexRef with _ | tok
  · rw [LockImpl.unref_none env g m hg]
    exact ⟨rfl, id, id, hs⟩
  · obtain ⟨hp, n, hsl⟩ := hl tok hg
    rw [LockImpl.unref_eq env g m tok n hg hp hsl]
    have hset := Impl.frame_setLockRef_slot m g.kind (.block tok n)
    have hsetst := Impl.frame_setLockRef_state m g.kind._targetState (.block tok n)
    by_cases hn : n = 0
    · subst hn
      simp only [if_true]
      have hu := Impl.runDeleter_spec env g.kind._targetState
        (m.setLockRef g.kind._targetState (.block tok 0))
      have hu4 := hu.2.2.2 (hset.2.2 hs)
      have hsh : m._state = .EXCLUSIVE_LOCK → g.kind._targetState = m._state →
          (m.setLockRef g.kind._targetState (.block tok 0))._sharedRefs = m._sharedRefs := by
        intro h1 h2
        rw [h2, h1]
        rfl
      have key := Impl.release_inv g.kind m
        ((m.setLockRef g.kind._targetState (.block tok 0)).runDeleter env
          g.kind._targetState).2 0
        (by rw [hsl]; rfl) (by rw [hu.1.slot, hset.2.1]; rfl)
        (fun k1 hk1 => by rw [hu.1.slot, hset.1 k1 hk1]) (by
          rw [hu4.2, hsetst.1]
          simp only [true_and]
          by_cases hst : g.kind._targetState = m._state
          · rw [if_pos hst, if_pos hst]
            by_cases he : m._state = .EXCLUSIVE_LOCK
            · rw [hsh he hst]
            · simp [he]
          · rw [if_neg hst, if_neg hst])
      exact ⟨hu4.1, key.1, key.2, hu.1.succ (hset.2.2 hs)⟩
    · simp only [hn, if_false]
      have key := Impl.release_inv g.kind m (m.setLockRef g.kind._targetState (.block tok n)) n
        (by rw [hsl]; rfl) (by rw [hset.2.1]; rfl) hset.1 (by
          rw [hsetst.1]
          simp [hn])
      exact ⟨trivial, key.1, key.2, hset.2.2 hs⟩

theorem LockKind.lock_succ (k : LockKind) (env : Env) (m : Impl) (hs : m.alwaysSucceeds) :
    (k.lock env m).1 = .returned () ∧ (k.lock env m).2._state = k._targetState := by
  cases k
  · have h := Impl.lockSharable_cases env m
    exact ⟨h.2.2.2 hs, h.2.1 (h.2.2.2 hs)⟩
  · have h := Impl.lock_cases env m
    exact ⟨h.2.2.2 hs, h.2.1 (h.2.2.2 hs)⟩

theorem LockKind.sleepLock_target (k : LockKind) (m : Impl) :
    (k.sleepLock m)._state = k._targetState := by
  cases k
  · exact Impl.sleepLockSharable_state m
  · exact Impl.sleepLock_state m

theorem LockKind.tryLock_succ (k : LockKind) (m : Impl) (hs : m.alwaysSucceeds) :
    (k.tryLock m).1 = true ∧ (k.tryLock m).2._state = k._targetState := by
  cases k
  · have h := Impl.tryLockSharable_cases m
    exact ⟨h.2.2.2 hs, h.2.1 (h.2.2.2 hs)⟩
  · have h := Impl.tryLock_cases m
    exact ⟨h.2.2.2 hs, h.2.1 (h.2.2.2 hs)⟩

theorem LockKind.timedLock_succ (k : LockKind) (secs : Nat) (m : Impl)
    (hs : m.alwaysSucceeds) :
    (k.timedLock secs m).1 = true ∧ (k.timedLock secs m).2._state = k._targetState := by
  cases k
  · have h := Impl.timedLockSharable_cases secs m
    exact ⟨h.2.2.2 hs, h.2.1 (h.2.2.2 hs)⟩
  · have h := Impl.timedLock_cases secs m
    exact ⟨h.2.2.2 hs, h.2.1 (h.2.2.2 hs)⟩

theorem Impl.Keeps.keeps_rfl (m : Impl) (hs : m.alwaysSucceeds) : Impl.Keeps m m :=
  ⟨hs, id, id⟩

/-- Every successful guard acquire has the shape `getRef` after a mutex operation that
raised the state to the target if it was below. -/
theorem LockImpl.acquire_keeps (g : LockImpl) {m m1 : Impl} (hp : m.SlotOK)
    (hl : RefLive m g) (hs : m.alwaysSucceeds) (hf : Impl.Frame m m1)
    (hst : g.needStateChange m = true → m1._state = g.kind._targetState)
    (hst0 : g.needStateChange m = false → m1._state = m._state) :
    Impl.Keeps m (g.getRef m1).2 := by
  have hst1 : m1._state =
      if m._state < g.kind._targetState then g.kind._targetState else m._state := by
    by_cases hn : m._state < g.kind._targetState
    · rw [if_pos hn]
      exact hst (by simp [LockImpl.needStateChange, hn])
    · rw [if_neg hn]
      exact hst0 (by simp [LockImpl.needStateChange, hn])
  have h := LockImpl.getRef_inv g hf hst1 hp hl
  exact ⟨h.2.2 hs, h.1, h.2.1⟩

theorem LockImpl.lock_keeps (env : Env) (g : LockImpl) (m : Impl) (hp : m.SlotOK)
    (hl : RefLive m g) (hs : m.alwaysSucceeds) :
    Impl.Keeps m (g.lock env m).2.2 ∧ (g._mutex = true → (g.lock env m).1 = .returned ()) := by
  have hf := g.kind.frame_lock env m
  have hk := g.kind.lock_succ env m hs
  unfold LockImpl.lock
  split
  · rename_i hm
    exact ⟨Impl.Keeps.keeps_rfl m hs, fun h => by rw [hm] at h; simp at h⟩
  · split
    · rename_i hn
      rcases hx : g.kind.lock env m with ⟨o, m1⟩
      rw [hx] at hf hk
      simp only at hk
      rw [hk.1]
      exact ⟨g.acquire_keeps hp hl hs hf (fun _ => hk.2) (fun h => by rw [hn] at h; simp at h),
        fun _ => rfl⟩
    · rename_i hn
      exact ⟨g.acquire_keeps hp hl hs (Impl.Frame.rfl_ m) (fun h => absurd h hn) (fun _ => rfl),
        fun _ => rfl⟩

theorem LockImpl.sleepLock_keeps (g : LockImpl) (m : Impl) (hp : m.SlotOK)
    (hl : RefLive m g) (hs : m.alwaysSucceeds) :
    Impl.Keeps m (g.sleepLock m).2.2 ∧ (g._mutex = true → (g.sleepLock m).1 = .returned ()) := by
  have hf := g.kind.frame_sleepLockFor m
  have hk := g.kind.sleepLock_target m
  unfold LockImpl.sleepLock
  split
  · rename_i hm
    exact ⟨Impl.Keeps.keeps_rfl m hs, fun h => by rw [hm] at h; simp at h⟩
  · split
    · rename_i hn
      exact ⟨g.acquire_keeps hp hl hs hf (fun _ => hk) (fun h => by rw [hn] at h; simp at h),
        fun _ => rfl⟩
    · rename_i hn
      exact ⟨g.acquire_keeps hp hl hs (Impl.Frame.rfl_ m) (fun h => absurd h hn) (fun _ => rfl),
        fun _ => rfl⟩

theorem LockImpl.tryLock_keeps (env : Env) (g : LockImpl) (m : Impl) (hp : m.SlotOK)
    (hl : RefLive m g) (hs : m.alwaysSucceeds) :
    Impl.Keeps m (g.tryLock env m).2.2 ∧
    (g._mutex = true → (g.tryLock env m).1 = .returned true) := by
  have hf := g.kind.frame_tryLock m
  have hk := g.kind.tryLock_succ m hs
  unfold LockImpl.tryLock
  split
  · rename_i hm
    exact ⟨Impl.Keeps.keeps_rfl m hs, fun h => by rw [hm] at h; simp at h⟩
  · split
    · rename_i hn
      rcases hx : g.kind.tryLock m with ⟨o, m1⟩
      rw [hx] at hf hk
      simp only at hk
      rw [hk.1]
      exact ⟨g.acquire_keeps hp hl hs hf (fun _ => hk.2) (fun h => by rw [hn] at h; simp at h),
        fun _ => rfl⟩
    · rename_i hn
      exact ⟨g.acquire_keeps hp hl hs (Impl.Frame.rfl_ m) (fun h => absurd h hn) (fun _ => rfl),
        fun _ => rfl⟩

theorem LockImpl.timedLock_keeps (env : Env) (secs : Nat) (g : LockImpl) (m : Impl)
    (hp : m.SlotOK) (hl : RefLive m g) (hs : m.alwaysSucceeds) :
    Impl.Keeps m (g.timedLock env secs m).2.2 ∧
    (g._mutex = true → (g.timedLock env secs m).1 = .returned true) := by
  have hf := g.kind.frame_timedLock secs m
  have hk := g.kind.timedLock_succ secs m hs
  unfold LockImpl.timedLock
  split
  · rename_i hm
    exact ⟨Impl.Keeps.keeps_rfl m hs, fun h => by rw [hm] at h; simp at h⟩
  · split
    · rename_i hn
      rcases hx : g.kind.timedLock secs m with ⟨o, m1⟩
      rw [hx] at hf hk
      simp only at hk
      rw [hk.1]
      exact ⟨g.acquire_keeps hp hl hs hf (fun _ => hk.2) (fun h => by rw [hn] at h; simp at h),
        fun _ => rfl⟩
    · rename_i hn
      exact ⟨g.acquire_keeps hp hl hs (Impl.Frame.rfl_ m) (fun h => absurd h hn) (fun _ => rfl),
        fun _ => rfl⟩

theorem LockImpl.unref_keeps (env : Env) (g : LockImpl) (m : Impl)
    (hl : RefLive m g) (hs : m.alwaysSucceeds) :
    Impl.Keeps m (g.unref env m).2.2 ∧ (g.unref env m).1 = .returned () := by
  have h := LockImpl.unref_inv env g m hl hs
  exact ⟨⟨h.2.2.2, h.2.1, h.2.2.1⟩, h.1⟩

theorem LockImpl.unlock_keeps (env : Env) (g : LockImpl) (m : Impl)
    (hl : RefLive m g) (hs : m.alwaysSucceeds) :
    Impl.Keeps m (g.unlock env m).2.2 ∧ (g._mutex = true → (g.unlock env m).1 = .returned ()) := by
  unfold LockImpl.unlock
  split
  · rename_i hm
    exact ⟨Impl.Keeps.keeps_rfl m hs, fun h => by rw [hm] at h; simp at h⟩
  · exact ⟨(LockImpl.unref_keeps env g m hl hs).1, fun _ => (LockImpl.unref_keeps env g m hl hs).2⟩

theorem RefLive.deferLock (m : Impl) (k : LockKind) : RefLive m (LockImpl.deferLock k) := by
  intro tok h
  simp [LockImpl.deferLock] at h

/-- On a mutex whose attempts succeed every guard operation keeps both invariants. -/
theorem GuardOp.keeps (env : Env) (o : GuardOp) {s : Sys} (h : s.WF)
    (hs : s.mutex.alwaysSucceeds) : Impl.Keeps s.mutex (o.apply env s).mutex := by
  have hp := h.slotOK
  cases o with
  | construct k d =>
    have hl := RefLive.deferLock s.mutex k
    cases d with
    | deferLock => exact Impl.Keeps.keeps_rfl _ hs
    | eager =>
      have hk := (LockImpl.lock_keeps env (LockImpl.deferLock k) s.mutex hp hl hs).1
      simp only [GuardOp.apply, LockImpl.construct]
      rcases hx : (LockImpl.deferLock k).lock env s.mutex with ⟨o, g1, m1⟩
      rw [hx] at hk
      cases o <;> exact hk
    | tryToLock =>
      have hk := (LockImpl.tryLock_keeps env (LockImpl.deferLock k) s.mutex hp hl hs).1
      simp only [GuardOp.apply, LockImpl.construct]
      rcases hx : (LockImpl.deferLock k).tryLock env s.mutex with ⟨o, g1, m1⟩
      rw [hx] at hk
      cases o <;> exact hk
    | timed secs =>
      have hk := (LockImpl.timedLock_keeps env secs (LockImpl.deferLock k) s.mutex hp hl hs).1
      simp only [GuardOp.apply, LockImpl.construct]
      rcases hx : (LockImpl.deferLock k).timedLock env secs s.mutex with ⟨o, g1, m1⟩
      rw [hx] at hk
      cases o <;> exact hk
  | lock i =>
    simp only [GuardOp.apply]
    split
    · rename_i g hg
      exact (LockImpl.lock_keeps env g s.mutex hp (h.refLive (Sys.guard_eq_some hg)) hs).1
    · exact Impl.Keeps.keeps_rfl _ hs
  | sleepLock i =>
    simp only [GuardOp.apply]
    split
    · rename_i g hg
      exact (LockImpl.sleepLock_keeps g s.mutex hp (h.refLive (Sys.guard_eq_some hg)) hs).1
    · exact Impl.Keeps.keeps_rfl _ hs
  | tryLock i =>
    simp only [GuardOp.apply]
    split
    · rename_i g hg
      exact (LockImpl.tryLock_keeps env g s.mutex hp (h.refLive (Sys.guard_eq_some hg)) hs).1
    · exact Impl.Keeps.keeps_rfl _ hs
  | timedLock i secs =>
    simp only [GuardOp.apply]
    split
    · rename_i g hg
      exact (LockImpl.timedLock_keeps env secs g s.mutex hp
        (h.refLive (Sys.guard_eq_some hg)) hs).1
    · exact Impl.Keeps.keeps_rfl _ hs
  | unlock i =>
    simp only [GuardOp.apply]
    split
    · rename_i g hg
      exact (LockImpl.unlock_keeps env g s.mutex (h.refLive (Sys.guard_eq_some hg)) hs).1
    · exact Impl.Keeps.keeps_rfl _ hs
  | destroy i =>
    simp only [GuardOp.apply]
    split
    · rename_i g hg
      exact (LockImpl.unref_keeps env g s.mutex (h.refLive (Sys.guard_eq_some hg)) hs).1
    · exact Impl.Keeps.keeps_rfl _ hs

/-- Induction over a program whose steps all satisfy `ok`. -/
theorem Sys.run_induct (P : Sys → Prop) (ok : Op → Prop)
    (hstep : ∀ env o s, ok o → P s → P (o.apply env s)) :
    ∀ (script : List (Env × Op)) (s : Sys), (∀ x ∈ script, ok x.2) → P s → P (s.run script) := by
  intro script
  induction script with
  | nil =>
    intro s _ h
    exact h
  | cons x rest ih =>
    intro s hok h
    rw [Sys.run]
    split
    · exact h
    · exact ih _ (fun y hy => hok y (List.mem_cons_of_mem _ hy))
        (hstep x.1 x.2 s (hok x (List.mem_cons_self _ _)) h)

theorem Sys.guard_run_inv (script : List (Env × GuardOp)) (s : Sys) (h : s.WF)
    (hs : s.mutex.alwaysSucceeds) (hb : s.mutex.Backed) (hc : s.mutex.Covered) :
    (s.run (guardScript script)).mutex.Backed ∧ (s.run (guardScript script)).mutex.Covered := by
  have := Sys.run_induct
    (fun s => s.WF ∧ s.mutex.alwaysSucceeds ∧ s.mutex.Backed ∧ s.mutex.Covered)
    (fun o => ∃ g, o = Op.guard g)
    (by
      rintro env o s ⟨g, rfl⟩ ⟨h1, h2, h3, h4⟩
      have hk := GuardOp.keeps env g h1 h2
      exact ⟨h1.guardOp env g, hk.1, hk.2.1 h3, hk.2.2 h4⟩)
    (guardScript script) s
    (by
      intro x hx
      simp only [guardScript, List.mem_map] at hx
      obtain ⟨y, _, rfl⟩ := hx
      exact ⟨y.2, rfl⟩)
    ⟨h, hs, hb, hc⟩
  exact ⟨this.2.2.1, this.2.2.2⟩

theorem Impl.fresh_facts (m : Impl)
    (hm : m = Impl.fake ∨ ∃ path os, (∀ n, os.outcome n = true) ∧ m = Impl.create path os) :
    (Sys.init m).WF ∧ m.alwaysSucceeds ∧ m.Backed ∧ m.Covered := by
  have hfresh : m._state = .UNLOCKED ∧ m._sharedRefs = .empty ∧ m._scopedRefs = .empty ∧
      m.alwaysSucceeds := by
    rcases hm with rfl | ⟨path, os, hos, rfl⟩
    · refine ⟨rfl, rfl, rfl, ?_⟩
      intro os h
      simp [Impl.fake] at h
    · refine ⟨rfl, rfl, rfl, ?_⟩
      intro os1 h
      simp [Impl.create] at h
      subst h
      exact hos
  obtain ⟨h1, h2, h3, h4⟩ := hfresh
  refine ⟨Sys.WF.init m ?_ (by rw [h2]; rfl) (by rw [h3]; rfl), h4, ?_, ?_⟩
  · intro k t n hk
    cases k
    · rw [Impl.slot_sharable, h2] at hk
      cases hk
    · rw [Impl.slot_scoped, h3] at hk
      cases hk
  · simp [Impl.Backed, h1]
  · simp [Impl.Covered, h2, h3, WeakRef.use_count]

/-! ## Claims on the state and the slots -/

/-- C1. On a freshly constructed mutex whose acquisitions always succeed (a fake mutex,
or a real one on which every attempt succeeds), after each operation of every program
of guard operations only (construct in any disposition, `lock`, `sleepLock`, `tryLock`,
`timedLock`, `unlock`, destroy): the state is `UNLOCKED` iff both the shared and the
exclusive slot are expired; `SHARED_LOCK` implies the shared slot is live and the
exclusive slot expired; `EXCLUSIVE_LOCK` implies the exclusive slot is live. -/
theorem C1_state_matches_slots_under_guards (script : List (Env × GuardOp)) (n : Nat)
    (m : Impl)
    (hm : m = Impl.fake ∨ ∃ path os, (∀ i, os.outcome i = true) ∧ m = Impl.create path os) :
    (((Sys.init m).run (guardScript (script.take n))).mutex._state = .UNLOCKED ↔
      ((Sys.init m).run (guardScript (script.take n))).mutex._sharedRefs.expired = true ∧
      ((Sys.init m).run (guardScript (script.take n))).mutex._scopedRefs.expired = true) ∧
    (((Sys.init m).run (guardScript (script.take n))).mutex._state = .SHARED_LOCK →
      ((Sys.init m).run (guardScript (script.take n))).mutex._sharedRefs.expired = false ∧
      ((Sys.init m).run (guardScript (script.take n))).mutex._scopedRefs.expired = true) ∧
    (((Sys.init m).run (guardScript (script.take n))).mutex._state = .EXCLUSIVE_LOCK →
      ((Sys.init m).run (guardScript (script.take n))).mutex._scopedRefs.expired = false) := by
  obtain ⟨h1, h2, h3, h4⟩ := Impl.fresh_facts m hm
  obtain ⟨hb, hc⟩ := Sys.guard_run_inv (script.take n) (Sys.init m) h1 h2 h3 h4
  generalize ((Sys.init m).run (guardScript (script.take n))).mutex = m1 at hb hc
  unfold Impl.Backed at hb
  unfold Impl.Covered at hc
  simp only [WeakRef.expired, beq_iff_eq, beq_eq_false_iff_ne, ne_eq]
  rcases hs : m1._state with _ | _ | _ <;> simp [hs] at hb hc ⊢ <;> omega

/-- Witness for C1: the nested scopes of test `mixed_lock` on a real file that nobody
else holds; after two steps the state is `EXCLUSIVE_LOCK` and the exclusive slot is
live. -/
theorem C1_state_matches_slots_under_guards_witness :
    ((Sys.init Impl.freeFile).run (guardScript (mixedLock.take 2))).mutex._state
      = .EXCLUSIVE_LOCK ∧
    ((Sys.init Impl.freeFile).run (guardScript (mixedLock.take 2))).mutex._scopedRefs.expired
      = false :=
  ⟨by decide,
   (C1_state_matches_slots_under_guards mixedLock 2 Impl.freeFile
     (Or.inr ⟨_, _, fun _ => rfl, rfl⟩)).2.2 (by decide)⟩

/-- C2 fails in both directions once explicit calls on the mutex are allowed. After an
explicit `lock()` with no guard the state is `EXCLUSIVE_LOCK` although both slots are
expired; after an explicit `unlock()` while a `ScopedLock` is alive the state is
`UNLOCKED` although the exclusive slot is live. -/
theorem C2_counterexample :
    (((Sys.init Impl.freeFile).run explicitLock).mutex._state = .EXCLUSIVE_LOCK ∧
      ((Sys.init Impl.freeFile).run explicitLock).mutex._sharedRefs.expired = true ∧
      ((Sys.init Impl.freeFile).run explicitLock).mutex._scopedRefs.expired = true) ∧
    (((Sys.init Impl.freeFile).run explicitUnlock).mutex._state = .UNLOCKED ∧
      ((Sys.init Impl.freeFile).run explicitUnlock).mutex._scopedRefs.expired = false) := by
  decide

theorem MutexOp.unlock_keeps_backed (env : Env) (o : MutexOp) (m : Impl)
    (ho : Op.isGuardOrUnlock (.mutex o) = true) (hs : m.alwaysSucceeds) :
    (o.apply env m).alwaysSucceeds ∧ (o.apply env m).Backed := by
  refine ⟨(MutexOp.frame env o m).succ hs, ?_⟩
  cases o <;> simp [Op.isGuardOrUnlock] at ho <;> simp [MutexOp.apply, Impl.Backed]

theorem MutexOp.exclusive_keeps_covered (env : Env) (o : MutexOp) (m : Impl)
    (ho : Op.isGuardOrExclusive (.mutex o) = true) (hs : m.alwaysSucceeds) :
    (o.apply env m).alwaysSucceeds ∧ (o.apply env m).Covered := by
  refine ⟨(MutexOp.frame env o m).succ hs, ?_⟩
  have hE : ∀ m1 : Impl, m1._state = .EXCLUSIVE_LOCK → m1.Covered := by
    intro m1 h
    simp [Impl.Covered, h]
  cases o <;> simp [Op.isGuardOrExclusive] at ho
  · have h := Impl.lock_cases env m
    exact hE _ (h.2.1 (h.2.2.2 hs))
  · exact hE _ (Impl.sleepLock_state m)
  · have h := Impl.tryLock_cases m
    exact hE _ (h.2.1 (h.2.2.2 hs))
  · rename_i secs
    have h := Impl.timedLock_cases secs m
    exact hE _ (h.2.1 (h.2.2.2 hs))

/-- C2, amended. On a freshly constructed mutex whose acquisitions always succeed:
after every program of guard operations interleaved with explicit `unlock()` /
`unlockSharable()` calls, both slots expired implies the state is `UNLOCKED` (in
`SHARED_LOCK` the shared slot is live, in `EXCLUSIVE_LOCK` the exclusive slot is live);
after every program of guard operations interleaved with explicit exclusive acquires
(`lock`, `sleepLock`, `tryLock`, `timedLock`), the state `UNLOCKED` implies that both
slots are expired. -/
theorem C2_state_against_slots_with_explicit_calls (script : List (Env × Op)) (m : Impl)
    (hm : m = Impl.fake ∨ ∃ path os, (∀ i, os.outcome i = true) ∧ m = Impl.create path os) :
    ((∀ x ∈ script, Op.isGuardOrUnlock x.2 = true) →
      (((Sys.init m).run script).mutex._sharedRefs.expired = true ∧
        ((Sys.init m).run script).mutex._scopedRefs.expired = true →
        ((Sys.init m).run script).mutex._state = .UNLOCKED) ∧
      (((Sys.init m).run script).mutex._state = .SHARED_LOCK →
        ((Sys.init m).run script).mutex._sharedRefs.expired = false) ∧
      (((Sys.init m).run script).mutex._state = .EXCLUSIVE_LOCK →
        ((Sys.init m).run script).mutex._scopedRefs.expired = false)) ∧
    ((∀ x ∈ script, Op.isGuardOrExclusive x.2 = true) →
      (((Sys.init m).run script).mutex._state = .UNLOCKED →
        ((Sys.init m).run script).mutex._sharedRefs.expired = true ∧
        ((Sys.init m).run script).mutex._scopedRefs.expired = true)) := by
  obtain ⟨h1, h2, h3, h4⟩ := Impl.fresh_facts m hm
  constructor
  · intro hok
    have := Sys.run_induct (fun s => s.WF ∧ s.mutex.alwaysSucceeds ∧ s.mutex.Backed)
      (fun o => Op.isGuardOrUnlock o = true)
      (by
        rintro env o s ho ⟨w, a, b⟩
        refine ⟨w.step env o, ?_⟩
        cases o with
        | guard g =>
          have hk := GuardOp.keeps env g w a
          exact ⟨hk.1, hk.2.1 b⟩
        | mutex o => exact MutexOp.unlock_keeps_backed env o s.mutex ho a)
      script (Sys.init m) hok ⟨h1, h2, h3⟩
    have hb := this.2.2
    generalize ((Sys.init m).run script).mutex = m1 at hb
    unfold Impl.Backed at hb
    simp only [WeakRef.expired, beq_iff_eq, beq_eq_false_iff_ne, ne_eq]
    rcases hs : m1._state with _ | _ | _ <;> simp [hs] at hb ⊢ <;> omega
  · intro hok
    have := Sys.run_induct (fun s => s.WF ∧ s.mutex.alwaysSucceeds ∧ s.mutex.Covered)
      (fun o => Op.isGuardOrExclusive o = true)
      (by
        rintro env o s ho ⟨w, a, c⟩
        refine ⟨w.step env o, ?_⟩
        cases o with
        | guard g =>
          have hk := GuardOp.keeps env g w a
          exact ⟨hk.1, hk.2.2 c⟩
        | mutex o => exact MutexOp.exclusive_keeps_covered env o s.mutex ho a)
      script (Sys.init m) hok ⟨h1, h2, h4⟩
    have hc := this.2.2
    generalize ((Sys.init m).run script).mutex = m1 at hc
    unfold Impl.Covered at hc
    simp only [WeakRef.expired, beq_iff_eq]
    intro hs
    simp [hs] at hc
    omega

/-- Witness for the amended C2. A `SharableLock` constructed after the explicit unlock
of test `basicLockTest` brings the state to `SHARED_LOCK`, and the shared slot is live;
a `ScopedLock` constructed and destroyed after an explicit `lock()` leaves the state
`UNLOCKED`, and both slots are expired. -/
theorem C2_state_against_slots_with_explicit_calls_witness :
    (((Sys.init Impl.freeFile).run lockAfterUnlock).mutex._state = .SHARED_LOCK ∧
      ((Sys.init Impl.freeFile).run lockAfterUnlock).mutex._sharedRefs.expired = false) ∧
    (((Sys.init Impl.freeFile).run guardAfterLock).mutex._state = .UNLOCKED ∧
      ((Sys.init Impl.freeFile).run guardAfterLock).mutex._sharedRefs.expired = true ∧
      ((Sys.init Impl.freeFile).run guardAfterLock).mutex._scopedRefs.expired = true) :=
  ⟨⟨by decide,
    ((C2_state_against_slots_with_explicit_calls lockAfterUnlock Impl.freeFile
      (Or.inr ⟨_, _, fun _ => rfl, rfl⟩)).1 (by decide)).2.1 (by decide)⟩,
   by decide,
   (C2_state_against_slots_with_explicit_calls guardAfterLock Impl.freeFile
      (Or.inr ⟨_, _, fun _ => rfl, rfl⟩)).2 (by decide) (by decide)⟩

/-! ## Claims on single guard operations -/

theorem Impl.osCalls_of_log {m m1 : Impl} (h : m1.log = m.log) : m1.osCalls = m.osCalls := by
  simp [Impl.osCalls, h]

theorem Impl.unrefs_of_log {m m1 : Impl} (h : m1.log = m.log) : m1.unrefs = m.unrefs := by
  simp [Impl.unrefs, h]

/-- Dropping a handle to a token whose state is not the state of the mutex changes
neither the state nor the calls issued on the primitive. -/
theorem Impl.dropRef_mismatch (env : Env) (t : Token) (m : Impl) (h : t.p ≠ m._state) :
    (m.dropRef env t).1 = .returned () ∧ (m.dropRef env t).2._state = m._state ∧
    (m.dropRef env t).2.osCalls = m.osCalls ∧
    (m.dropRef env t).2._mutex = m._mutex := by
  unfold Impl.dropRef
  split
  · rename_i t1 n hx
    split
    · have hset := Impl.frame_setLockRef_state m t.p (.block t1 n)
      split
      · have hu := (Impl.runDeleter_spec env t.p (m.setLockRef t.p (.block t1 n))).2.1
          (by rw [hset.1]; exact h)
        rw [hu]
        refine ⟨rfl, hset.1, ?_, hset.2.2.1⟩
        simp [Impl.osCalls, hset.2.1, List.filter_append, Event.isOs]
      · exact ⟨rfl, hset.1, Impl.osCalls_of_log hset.2.1, hset.2.2.1⟩
    · exact ⟨rfl, rfl, rfl, rfl⟩
  · exact ⟨rfl, rfl, rfl, rfl⟩

/-- In `UNLOCKED` dropping any handle changes neither the state nor the calls issued on
the primitive. -/
theorem Impl.dropRef_unlocked (env : Env) (t : Token) (m : Impl) (h : m._state = .UNLOCKED) :
    (m.dropRef env t).1 = .returned () ∧ (m.dropRef env t).2._state = .UNLOCKED ∧
    (m.dropRef env t).2.osCalls = m.osCalls := by
  unfold Impl.dropRef
  split
  · rename_i t1 n hx
    split
    · have hset := Impl.frame_setLockRef_state m t.p (.block t1 n)
      split
      · have hu := (Impl.runDeleter_spec env t.p (m.setLockRef t.p (.block t1 n))).2.2.1
          (by rw [hset.1]; exact h)
        rw [hu]
        refine ⟨rfl, by rw [← h]; exact hset.1, ?_⟩
        simp [Impl.osCalls, hset.2.1, List.filter_append, Event.isOs]
      · exact ⟨rfl, by rw [← h]; exact hset.1, Impl.osCalls_of_log hset.2.1⟩
    · exact ⟨rfl, h, rfl⟩
  · exact ⟨rfl, h, rfl⟩

theorem LockImpl.getRef_token (g : LockImpl) (m : Impl) (hp : m.SlotOK) (hl : RefLive m g)
    (tok : Token) (h : (g.getRef m).1._mutexRef = some tok) : tok.p = g.kind._targetState := by
  cases (LockImpl.getRef_guard_spec g m hp).1 with
  | keep h1 h2 =>
    rw [h1] at h
    exact (hl tok h).1
  | gain tok1 h1 h2 h3 h4 h5 h6 =>
    rw [h2] at h
    simp at h
    rw [← h]
    exact h3
  | lose tok1 n h1 h2 h3 h4 h5 =>
    rw [h2] at h
    simp at h

theorem LockImpl.destroy_eq_dropRef (env : Env) (g : LockImpl) (m : Impl) (tok : Token)
    (h : g._mutexRef = some tok) : g.destroy env m = m.dropRef env tok := by
  simp [LockImpl.destroy, LockImpl.unref, h]

/-- C3. For every mutex in `EXCLUSIVE_LOCK`, acquiring a `SharableLock` guard requests no
state change. The guard asks for a state change iff the state is below its target, and
when it is not below, `lock`, `sleepLock`, `tryLock` and `timedLock` are `getRef` alone.
So in `EXCLUSIVE_LOCK` each of them (and the eager constructor) succeeds, leaves the
state `EXCLUSIVE_LOCK` and the event log as it was (no OS call), the guard owns
afterwards, and destroying that guard leaves the state `EXCLUSIVE_LOCK` and issues no
OS call. -/
theorem C3_sharable_guard_in_exclusive_state (env : Env) (secs : Nat) (m : Impl)
    (g : LockImpl) (hst : m._state = .EXCLUSIVE_LOCK) (hk : g.kind = .SharableLock)
    (hm : g._mutex = true) (hp : m.SlotOK) (hl : RefLive m g) :
    (∀ (g1 : LockImpl) (m1 : Impl),
      (g1.needStateChange m1 = true ↔ m1._state < g1.kind._targetState) ∧
      (g1._mutex = true → ¬ m1._state < g1.kind._targetState →
        g1.lock env m1 = (.returned (), g1.getRef m1) ∧
        g1.sleepLock m1 = (.returned (), g1.getRef m1) ∧
        g1.tryLock env m1 = (.returned true, g1.getRef m1) ∧
        g1.timedLock env secs m1 = (.returned true, g1.getRef m1))) ∧
    g.lock env m = (.returned (), g.getRef m) ∧
    g.sleepLock m = (.returned (), g.getRef m) ∧
    g.tryLock env m = (.returned true, g.getRef m) ∧
    g.timedLock env secs m = (.returned true, g.getRef m) ∧
    LockImpl.construct env .SharableLock .eager m
      = (.returned ((LockImpl.deferLock .SharableLock).getRef m).1,
         ((LockImpl.deferLock .SharableLock).getRef m).2) ∧
    (g.getRef m).2._state = .EXCLUSIVE_LOCK ∧ (g.getRef m).2.log = m.log ∧
    (g.getRef m).1.owns = true ∧
    ((g.getRef m).1.destroy env (g.getRef m).2).1 = .returned () ∧
    ((g.getRef m).1.destroy env (g.getRef m).2).2._state = .EXCLUSIVE_LOCK ∧
    ((g.getRef m).1.destroy env (g.getRef m).2).2.osCalls = m.osCalls := by
  have rule : ∀ (g1 : LockImpl) (m1 : Impl),
      (g1.needStateChange m1 = true ↔ m1._state < g1.kind._targetState) ∧
      (g1._mutex = true → ¬ m1._state < g1.kind._targetState →
        g1.lock env m1 = (.returned (), g1.getRef m1) ∧
        g1.sleepLock m1 = (.returned (), g1.getRef m1) ∧
        g1.tryLock env m1 = (.returned true, g1.getRef m1) ∧
        g1.timedLock env secs m1 = (.returned true, g1.getRef m1)) := by
    intro g1 m1
    refine ⟨by simp [LockImpl.needStateChange], fun h1 h2 => ?_⟩
    simp [LockImpl.lock, LockImpl.sleepLock, LockImpl.tryLock, LockImpl.timedLock,
      LockImpl.needStateChange, h1, h2]
  have hnot : ∀ g1 : LockImpl, g1.kind = .SharableLock → ¬ m._state < g1.kind._targetState := by
    intro g1 h1
    rw [hst, h1]
    decide
  have hg := (rule g m).2 hm (hnot g hk)
  have hd := (rule (LockImpl.deferLock .SharableLock) m).2 rfl (hnot _ rfl)
  have hspec := LockImpl.getRef_guard_spec g m hp
  refine ⟨rule, hg.1, hg.2.1, hg.2.2.1, hg.2.2.2, ?_, ?_, hspec.2.2.2.2.2.1, hspec.2.1, ?_⟩
  · simp only [LockImpl.construct, hd.1]
  · rw [hspec.2.2.2.2.1, hst]
  · have hown := hspec.2.1
    rcases hr : (g.getRef m).1._mutexRef with _ | tok
    · simp [LockImpl.owns, hr] at hown
    · have hpt := LockImpl.getRef_token g m hp hl tok hr
      rw [LockImpl.destroy_eq_dropRef env _ _ tok hr]
      have hd2 := Impl.dropRef_mismatch env tok (g.getRef m).2 (by
        rw [hpt, hspec.2.2.2.2.1, hst, hk]
        decide)
      refine ⟨hd2.1, ?_, ?_⟩
      · rw [hd2.2.1, hspec.2.2.2.2.1, hst]
      · rw [hd2.2.2.1]
        exact Impl.osCalls_of_log hspec.2.2.2.2.2.1

theorem Impl.scopedFile_slotOK : Impl.scopedFile.SlotOK := by
  intro k t n h
  cases k
  · have : Impl.scopedFile._sharedRefs = .empty := by decide
    rw [Impl.slot_sharable, this] at h
    cases h
  · have : Impl.scopedFile._scopedRefs = .block ⟨0, .EXCLUSIVE_LOCK⟩ 1 := by decide
    rw [Impl.slot_scoped, this] at h
    injection h with h1 h2
    rw [← h1]
    rfl

/-- Witness for C3: a `SharableLock` is locked while a `ScopedLock` holds the file. -/
theorem C3_sharable_guard_in_exclusive_state_witness :
    Impl.scopedFile._state = .EXCLUSIVE_LOCK ∧
    ((LockImpl.deferLock .SharableLock).lock Env.quiet Impl.scopedFile).1 = .returned () ∧
    ((LockImpl.deferLock .SharableLock).lock Env.quiet Impl.scopedFile).2.2._state
      = .EXCLUSIVE_LOCK ∧
    ((LockImpl.deferLock .SharableLock).lock Env.quiet Impl.scopedFile).2.2.log
      = Impl.scopedFile.log := by
  have h := C3_sharable_guard_in_exclusive_state Env.quiet 5 Impl.scopedFile
    (LockImpl.deferLock .SharableLock) (by decide) rfl rfl Impl.scopedFile_slotOK
    (RefLive.deferLock _ _)
  refine ⟨by decide, ?_, ?_, ?_⟩
  · rw [h.2.1]
  · rw [h.2.1]
    exact h.2.2.2.2.2.2.1
  · rw [h.2.1]
    exact h.2.2.2.2.2.2.2.1

/-- The deleter of an exclusive token demotes to `SHARED_LOCK` when the shared slot is
live and the shared acquire succeeds at once; slots are left alone. -/
theorem Impl.unref_demote (env : Env) (m : Impl) (hst : m._state = .EXCLUSIVE_LOCK)
    (hsh : m._sharedRefs.use_count ≠ 0) (hok : m.nextSucceeds) :
    (m.unref env .EXCLUSIVE_LOCK).1 = .returned () ∧
    (m.unref env .EXCLUSIVE_LOCK).2._state = .SHARED_LOCK := by
  have hexp : m._sharedRefs.expired = false := by
    simp [WeakRef.expired, hsh]
  rcases hmx : m._mutex with _ | os
  · simp [Impl.unref, hst, hexp, Impl.lockSharable, Impl.timedLockSharable, Impl.osTry, hmx]
  · have h0 := hok os hmx
    simp [Impl.unref, hst, hexp, Impl.lockSharable, Impl.timedLockSharable, Impl.osTry, hmx, h0]

/-- The deleter of a shared token releases a mutex in `SHARED_LOCK`. -/
theorem Impl.unref_release (env : Env) (m : Impl) (hst : m._state = .SHARED_LOCK) :
    (m.unref env .SHARED_LOCK).1 = .returned () ∧
    (m.unref env .SHARED_LOCK).2._state = .UNLOCKED := by
  simp [Impl.unref, hst]

theorem Sys.guard_set_ne (s : Sys) (m1 : Impl) (i j : Nat) (x : Option LockImpl) (h : i ≠ j) :
    Sys.guard { mutex := m1, guards := s.guards.set i x } j = s.guard j := by
  simp [Sys.guard, List.getElem?_set_ne h]

theorem Sys.destroy_apply (env : Env) (s : Sys) (i : Nat) (g : LockImpl) (h : s.guard i = some g) :
    (GuardOp.destroy i).apply env s
      = { mutex := (g.destroy env s.mutex).2, guards := s.guards.set i none } := by
  simp [GuardOp.apply, h]

/-- The last owning guard of its kind is destroyed: the deleter runs on the mutex with
the slot of the guard expired. -/
theorem Sys.destroy_last (env : Env) (s : Sys) (hw : s.WF) (i : Nat) (g : LockImpl)
    (h : s.guard i = some g) (ho : g.owns = true) (hlast : s.owners g.kind = 1) :
    ∃ tok, s.mutex.slot g.kind = .block tok 1 ∧
      g.destroy env s.mutex =
        (s.mutex.setLockRef g.kind._targetState (.block tok 0)).runDeleter env
          g.kind._targetState := by
  rcases hg : g._mutexRef with _ | tok
  · simp [LockImpl.owns, hg] at ho
  · obtain ⟨hp, n, hn⟩ := hw.refLive (Sys.guard_eq_some h) tok hg
    have hc := hw.count g.kind
    rw [hn, hlast] at hc
    simp only [WeakRef.use_count] at hc
    have h0 : n = 0 := by omega
    subst h0
    refine ⟨tok, hn, ?_⟩
    have := LockImpl.unref_eq env g s.mutex tok 0 hg hp hn
    simp only [LockImpl.destroy, this, if_true]

theorem LockType.eq_free (os : LockType) (hos : ∀ i, os.outcome i = true) :
    os = LockType.free := by
  cases os with
  | mk f =>
    have : f = fun _ => true := funext hos
    rw [this]
    rfl

theorem mixedLock_states (m : Impl)
    (hm : m = Impl.fake ∨ ∃ path os, (∀ i, os.outcome i = true) ∧ m = Impl.create path os) :
    (Sys.init m).states (guardScript mixedLock)
      = [.SHARED_LOCK, .EXCLUSIVE_LOCK, .EXCLUSIVE_LOCK, .EXCLUSIVE_LOCK, .SHARED_LOCK,
         .UNLOCKED] := by
  rcases hm with rfl | ⟨path, os, hos, rfl⟩
  · decide
  · rw [LockType.eq_free os hos]
    simp [Sys.states, guardScript, mixedLock, Op.apply, GuardOp.apply, LockImpl.construct,
      LockImpl.lock, LockImpl.deferLock, LockImpl.needStateChange, Sys.init, Impl.create,
      State.lt_def, State.toNat, LockKind._targetState, LockKind.lock, Impl.lock,
      Impl.lockSharable, Impl.timedLock, Impl.timedLockSharable, Impl.osTry, LockType.free,
      LockImpl.getRef, Impl.getRef, Impl.lockRef, Impl.setLockRef, Sys.guard,
      LockImpl.destroy, LockImpl.unref, Impl.dropRef, Impl.runDeleter, Impl.unref,
      WeakRef.expired, WeakRef.use_count, Impl.unlock, Impl.unlockSharable, Impl.osCall,
      Impl.terminated, Event.isTerminate]

/-- C4. Demotion. When the last owning `ScopedLock` guard is dropped while the mutex is
in `EXCLUSIVE_LOCK`, another guard, a `SharableLock`, still owns, and the shared
re-acquire on the primitive succeeds, the state becomes `SHARED_LOCK` and the sharable
guard is untouched (it still owns); when that guard is the last owning `SharableLock`,
dropping it afterwards yields `UNLOCKED`. On a fresh mutex whose attempts succeed the
nested scopes shared, exclusive, shared, exit, exit, exit pass through `SHARED_LOCK`,
`EXCLUSIVE_LOCK`, `EXCLUSIVE_LOCK`, `EXCLUSIVE_LOCK`, `SHARED_LOCK`, `UNLOCKED`. -/
theorem C4_demotion_to_shared (env env2 : Env) (s : Sys) (i j : Nat) (e sh : LockImpl)
    (hw : s.WF) (hst : s.mutex._state = .EXCLUSIVE_LOCK)
    (he : s.guard i = some e) (hek : e.kind = .ScopedLock) (heo : e.owns = true)
    (hlast : s.owners .ScopedLock = 1)
    (hj : s.guard j = some sh) (hsk : sh.kind = .SharableLock) (hso : sh.owns = true)
    (hok : s.mutex.nextSucceeds) :
    ((GuardOp.destroy i).apply env s).mutex._state = .SHARED_LOCK ∧
    ((GuardOp.destroy i).apply env s).guard j = some sh ∧
    (s.owners .SharableLock = 1 →
      ((GuardOp.destroy j).apply env2 ((GuardOp.destroy i).apply env s)).mutex._state
        = .UNLOCKED) ∧
    (∀ m : Impl,
      (m = Impl.fake ∨ ∃ path os, (∀ n, os.outcome n = true) ∧ m = Impl.create path os) →
      (Sys.init m).states (guardScript mixedLock)
        = [.SHARED_LOCK, .EXCLUSIVE_LOCK, .EXCLUSIVE_LOCK, .EXCLUSIVE_LOCK, .SHARED_LOCK,
           .UNLOCKED]) := by
  have hij : i ≠ j := by
    intro hij
    subst hij
    rw [he] at hj
    injection hj with hj
    rw [hj, hsk] at hek
    cases hek
  have hs1 := Sys.destroy_apply env s i e he
  have hw1 := hw.guardOp env (GuardOp.destroy i)
  have hgj : ((GuardOp.destroy i).apply env s).guard j = some sh := by
    rw [hs1, Sys.guard_set_ne s _ i j none hij]
    exact hj
  obtain ⟨tok, hslot, hd⟩ := Sys.destroy_last env s hw i e he heo (by rw [hek]; exact hlast)
  rw [hek] at hd hslot
  have hsetst := Impl.frame_setLockRef_state s.mutex (LockKind.ScopedLock._targetState)
    (.block tok 0)
  have hsetsl := Impl.frame_setLockRef_slot s.mutex .ScopedLock (.block tok 0)
  have hshared : (s.mutex.slot .SharableLock).use_count ≠ 0 := by
    have hpos := (hw.refLive (Sys.guard_eq_some hj)).count_pos (by simpa [LockImpl.owns] using hso)
    rw [hsk] at hpos
    omega
  have hdem := Impl.unref_demote env
    (s.mutex.setLockRef LockKind.ScopedLock._targetState (.block tok 0))
    (by rw [hsetst.1]; exact hst)
    (by
      have := hsetsl.1 .SharableLock (by decide)
      rw [Impl.slot_sharable] at this
      rw [this]
      exact hshared)
    (by
      intro os hos
      rw [hsetst.2.2.1] at hos
      exact hok os hos)
  have hstate1 : ((GuardOp.destroy i).apply env s).mutex._state = .SHARED_LOCK := by
    rw [hs1, hd, Impl.runDeleter_returned env LockKind.ScopedLock._targetState _ hdem.1]
    exact hdem.2
  refine ⟨hstate1, hgj, ?_, mixedLock_states⟩
  intro hone
  have hfr := (Impl.runDeleter_spec env LockKind.ScopedLock._targetState
    (s.mutex.setLockRef LockKind.ScopedLock._targetState (.block tok 0))).1
  have hown1 : ((GuardOp.destroy i).apply env s).owners sh.kind = 1 := by
    rw [← hw1.count, hsk, hs1, hd]
    show (Impl.slot _ .SharableLock).use_count = 1
    rw [hfr.slot, hsetsl.1 .SharableLock (by decide), hw.count, hone]
  obtain ⟨tok2, _, hd2⟩ := Sys.destroy_last env2 _ hw1 j sh hgj hso hown1
  rw [Sys.destroy_apply env2 _ j sh hgj, hd2, hsk]
  have hsetst2 := Impl.frame_setLockRef_state ((GuardOp.destroy i).apply env s).mutex
    (LockKind.SharableLock._targetState) (.block tok2 0)
  have hrel := Impl.unref_release env2
    (((GuardOp.destroy i).apply env s).mutex.setLockRef LockKind.SharableLock._targetState
      (.block tok2 0)) (by rw [hsetst2.1]; exact hstate1)
  rw [Impl.runDeleter_returned env2 LockKind.SharableLock._targetState _ hrel.1]
  exact hrel.2

theorem Sys.nested_wf : Sys.nested.WF :=
  Sys.WF.run _ (Impl.fresh_facts Impl.freeFile (Or.inr ⟨_, _, fun _ => rfl, rfl⟩)).1

theorem Sys.nested_nextSucceeds : Sys.nested.mutex.nextSucceeds := by
  intro os h
  have h2 : Sys.nested.mutex._mutex = some ⟨fun _ => true⟩ := rfl
  rw [h2] at h
  injection h with h
  rw [← h]

/-- Witness for C4: leaving the `ScopedLock` scope of `Sys.nested` demotes to
`SHARED_LOCK`, leaving the `SharableLock` scope afterwards unlocks. -/
theorem C4_demotion_to_shared_witness :
    Sys.nested.mutex._state = .EXCLUSIVE_LOCK ∧
    ((GuardOp.destroy 1).apply Env.quiet Sys.nested).mutex._state = .SHARED_LOCK ∧
    ((GuardOp.destroy 0).apply Env.quiet
      ((GuardOp.destroy 1).apply Env.quiet Sys.nested)).mutex._state = .UNLOCKED := by
  have h := C4_demotion_to_shared Env.quiet Env.quiet Sys.nested 1 0
    { kind := .ScopedLock, _mutex := true, _mutexRef := some ⟨1, .EXCLUSIVE_LOCK⟩ }
    { kind := .SharableLock, _mutex := true, _mutexRef := some ⟨0, .SHARED_LOCK⟩ }
    Sys.nested_wf (by decide) (by decide) rfl rfl (by decide) (by decide) rfl rfl
    Sys.nested_nextSucceeds
  exact ⟨by decide, h.1, h.2.2.1 (by decide)⟩

theorem LockImpl.destroy_unlocked (env : Env) (g : LockImpl) (m : Impl)
    (h : m._state = .UNLOCKED) :
    (g.destroy env m).1 = .returned () ∧ (g.destroy env m).2._state = .UNLOCKED ∧
    (g.destroy env m).2.osCalls = m.osCalls := by
  rcases hg : g._mutexRef with _ | tok
  · simp [LockImpl.destroy, LockImpl.unref_none env g m hg, h]
  · rw [LockImpl.destroy_eq_dropRef env g m tok hg]
    exact Impl.dropRef_unlocked env tok m h

/-- Destroying guards while the mutex is in `UNLOCKED` keeps it there, issues no call
on the primitive, and leaves the other guards as they are. -/
theorem Sys.destroy_run_unlocked (drops : List (Env × Nat)) :
    ∀ s : Sys, s.mutex._state = .UNLOCKED →
      (s.run (destroyScript drops)).mutex._state = .UNLOCKED ∧
      (s.run (destroyScript drops)).mutex.osCalls = s.mutex.osCalls ∧
      (∀ j, (∀ x ∈ drops, x.2 ≠ j) → (s.run (destroyScript drops)).guard j = s.guard j) := by
  induction drops with
  | nil =>
    intro s h
    exact ⟨h, rfl, fun _ _ => rfl⟩
  | cons x rest ih =>
    intro s h
    have hstep : ((Op.guard (.destroy x.2)).apply x.1 s).mutex._state = .UNLOCKED ∧
        ((Op.guard (.destroy x.2)).apply x.1 s).mutex.osCalls = s.mutex.osCalls ∧
        (∀ j, x.2 ≠ j → ((Op.guard (.destroy x.2)).apply x.1 s).guard j = s.guard j) := by
      simp only [Op.apply, GuardOp.apply]
      split
      · rename_i g hg
        have hd := LockImpl.destroy_unlocked x.1 g s.mutex h
        exact ⟨hd.2.1, hd.2.2, fun j hj => Sys.guard_set_ne s _ x.2 j none hj⟩
      · exact ⟨h, rfl, fun _ _ => rfl⟩
    have := ih _ hstep.1
    show (Sys.run s ((x.1, Op.guard (.destroy x.2)) :: destroyScript rest)).mutex._state
        = .UNLOCKED ∧
      (Sys.run s ((x.1, Op.guard (.destroy x.2)) :: destroyScript rest)).mutex.osCalls
        = s.mutex.osCalls ∧
      (∀ j, (∀ y ∈ x :: rest, y.2 ≠ j) →
        (Sys.run s ((x.1, Op.guard (.destroy x.2)) :: destroyScript rest)).guard j
          = s.guard j)
    rw [Sys.run]
    split
    · exact ⟨h, rfl, fun _ _ => rfl⟩
    · refine ⟨this.1, this.2.1.trans hstep.2.1, fun j hj => ?_⟩
      rw [← hstep.2.2 j (hj x (List.mem_cons_self _ _))]
      exact this.2.2 j (fun y hy => hj y (List.mem_cons_of_mem _ hy))

/-- C5. Explicit-unlock override. For every mutex state and every set of guards, an
explicit `unlock()` or `unlockSharable()` on the mutex leaves the state `UNLOCKED` and
the guards untouched; every subsequent destruction of guards leaves the state
`UNLOCKED` and issues no call on the primitive, and a guard that has not been destroyed
is still as it was before the explicit unlock (it owns if it owned). -/
theorem C5_explicit_unlock_overrides_guards (env : Env) (s : Sys) (drops : List (Env × Nat))
    (o : MutexOp) (ho : o = .unlock ∨ o = .unlockSharable) :
    ((Op.mutex o).apply env s).mutex._state = .UNLOCKED ∧
    ((Op.mutex o).apply env s).guards = s.guards ∧
    (((Op.mutex o).apply env s).run (destroyScript drops)).mutex._state = .UNLOCKED ∧
    (((Op.mutex o).apply env s).run (destroyScript drops)).mutex.osCalls
      = ((Op.mutex o).apply env s).mutex.osCalls ∧
    (∀ j, (∀ x ∈ drops, x.2 ≠ j) →
      (((Op.mutex o).apply env s).run (destroyScript drops)).guard j = s.guard j ∧
      ((((Op.mutex o).apply env s).run (destroyScript drops)).guard j).map LockImpl.owns
        = (s.guard j).map LockImpl.owns) := by
  have hst : ((Op.mutex o).apply env s).mutex._state = .UNLOCKED := by
    rcases ho with rfl | rfl
    · exact Impl.unlock_state s.mutex
    · exact Impl.unlockSharable_state s.mutex
  have hrun := Sys.destroy_run_unlocked drops _ hst
  refine ⟨hst, rfl, hrun.1, hrun.2.1, fun j hj => ?_⟩
  have hg : (((Op.mutex o).apply env s).run (destroyScript drops)).guard j = s.guard j :=
    hrun.2.2 j hj
  exact ⟨hg, by rw [hg]⟩

/-- Witness for C5: on `Sys.nested` the mutex is unlocked explicitly and the
`ScopedLock` is destroyed; the state stays `UNLOCKED`, only the explicit unlock reached
the primitive, and the `SharableLock` at position 0 still owns. -/
theorem C5_explicit_unlock_overrides_guards_witness :
    (((Op.mutex .unlock).apply Env.quiet Sys.nested).run
      (destroyScript [(Env.quiet, 1)])).mutex._state = .UNLOCKED ∧
    (((Op.mutex .unlock).apply Env.quiet Sys.nested).run
      (destroyScript [(Env.quiet, 1)])).mutex.osCalls
      = ((Op.mutex .unlock).apply Env.quiet Sys.nested).mutex.osCalls ∧
    ((((Op.mutex .unlock).apply Env.quiet Sys.nested).run
      (destroyScript [(Env.quiet, 1)])).guard 0).map LockImpl.owns = some true := by
  have h := C5_explicit_unlock_overrides_guards Env.quiet Sys.nested [(Env.quiet, 1)]
    .unlock (Or.inl rfl)
  refine ⟨h.2.2.1, h.2.2.2.1, ?_⟩
  rw [(h.2.2.2.2 0 (by decide)).2]
  decide

/-! ## Deleter runs -/

theorem Impl.osCall_unrefs (c : OsCall) (m : Impl) : (m.osCall c).unrefs = m.unrefs := by
  unfold Impl.osCall
  split
  · rfl
  · simp [Impl.unrefs, List.filter_append, Event.isUnref]

theorem Impl.osTry_unrefs (c : OsCall) (m : Impl) : (m.osTry c).2.unrefs = m.unrefs := by
  unfold Impl.osTry
  split
  · rfl
  · simp [Impl.unrefs, List.filter_append, Event.isUnref]

theorem Impl.unlock_unrefs (m : Impl) : m.unlock.unrefs = m.unrefs := by
  unfold Impl.unlock
  split
  · exact Impl.osCall_unrefs _ m
  · rfl

theorem Impl.unlockSharable_unrefs (m : Impl) : m.unlockSharable.unrefs = m.unrefs := by
  unfold Impl.unlockSharable
  split
  · exact Impl.osCall_unrefs _ m
  · rfl

theorem Impl.timedLockFor_unrefs (t : State) (secs : Nat) (m : Impl) :
    (m.timedLockFor t secs).2.unrefs = m.unrefs := by
  unfold Impl.timedLockFor
  split
  · unfold Impl.timedLock
    split
    · rfl
    · have h := Impl.osTry_unrefs (.timed_lock secs) m
      split <;> rename_i hx <;> rw [hx] at h <;> exact h
  · unfold Impl.timedLockSharable
    split
    · rfl
    · have h := Impl.osTry_unrefs (.timed_lock_sharable secs) m
      split <;> rename_i hx <;> rw [hx] at h <;> exact h

theorem Impl.waitLoop_unrefs (t : State) (env : Env) (fuel : Nat) :
    ∀ (i total next timeout : Nat) (m : Impl),
      (m.waitLoop t env fuel i total next timeout).2.unrefs = m.unrefs := by
  induction fuel with
  | zero =>
    intro i total next timeout m
    rfl
  | succ fuel ih =>
    intro i total next timeout m
    have hlog : Impl.unrefs
        { m with log := m.log ++ [Event.waitForLock t (sec (total + next)) next timeout] }
        = m.unrefs := by
      simp [Impl.unrefs, List.filter_append, Event.isUnref]
    rw [Impl.waitLoop]
    simp only []
    split
    · rfl
    · split
      · exact hlog
      · have hc := Impl.timedLockFor_unrefs t
          (sec (env.waitForLock i t (sec (total + next)) next timeout).2.1)
          { m with log := m.log ++ [Event.waitForLock t (sec (total + next)) next timeout] }
        split
        · rename_i m2 hx
          rw [hx] at hc
          exact hc.trans hlog
        · rename_i m2 hx
          rw [hx] at hc
          rw [ih]
          exact hc.trans hlog

theorem Impl.lockSharable_unrefs (env : Env) (m : Impl) :
    (m.lockSharable env).2.unrefs = m.unrefs := by
  have hc := Impl.timedLockFor_unrefs .SHARED_LOCK initialLockWait m
  simp only [Impl.timedLockFor] at hc
  unfold Impl.lockSharable
  split
  · rename_i m1 hx
    rw [hx] at hc
    exact hc
  · rename_i m1 hx
    rw [hx] at hc
    rw [Impl.waitLoop_unrefs]
    exact hc

/-- One run of the deleter is logged as exactly one run. -/
theorem Impl.unref_unrefs (env : Env) (p : State) (m : Impl) :
    (m.unref env p).2.unrefs = m.unrefs ++ [Event.unref p] := by
  have hlog : Impl.unrefs { m with log := m.log ++ [Event.unref p] }
      = m.unrefs ++ [Event.unref p] := by
    simp [Impl.unrefs, List.filter_append, Event.isUnref]
  unfold Impl.unref
  simp only []
  split
  · split
    · split
      · rw [Impl.unlock_unrefs, hlog]
      · rw [Impl.lockSharable_unrefs, hlog]
    · rw [Impl.unlockSharable_unrefs, hlog]
    · exact hlog
  · exact hlog

theorem Impl.runDeleter_unrefs (env : Env) (p : State) (m : Impl) :
    (m.runDeleter env p).2.unrefs = m.unrefs ++ [Event.unref p] := by
  rw [← Impl.unref_unrefs env p m]
  unfold Impl.runDeleter
  split
  · rename_i e m1 hx
    rw [hx]
    simp [Impl.unrefs, List.filter_append, Event.isUnref]
  · rfl

theorem Impl.fresh_wf (m : Impl) (hm : m = Impl.fake ∨ ∃ path os, m = Impl.create path os) :
    (Sys.init m).WF := by
  have hfresh : m._sharedRefs = .empty ∧ m._scopedRefs = .empty := by
    rcases hm with rfl | ⟨path, os, rfl⟩
    · exact ⟨rfl, rfl⟩
    · exact ⟨rfl, rfl⟩
  refine Sys.WF.init m ?_ (by rw [hfresh.1]; rfl) (by rw [hfresh.2]; rfl)
  intro k t n hk
  cases k
  · rw [Impl.slot_sharable, hfresh.1] at hk
    cases hk
  · rw [Impl.slot_scoped, hfresh.2] at hk
    cases hk

/-- C6. In every system reached from a freshly constructed mutex by any program (guard
operations and explicit calls, whatever the primitive and the observer do), the owning
guards of one kind all hold a handle to one and the same token. Dropping an owning guard
while at least two guards of its kind own leaves the mutex state and the whole event
log unchanged (no deleter run, no OS call) and leaves one owner less; dropping the last
owning guard of its kind runs the deleter exactly once and leaves no owner. -/
theorem C6_guards_of_one_kind_share_one_token (script : List (Env × Op)) (m : Impl)
    (hm : m = Impl.fake ∨ ∃ path os, m = Impl.create path os) (env : Env) (i : Nat)
    (g : LockImpl) (hg : ((Sys.init m).run script).guard i = some g) (ho : g.owns = true) :
    (∀ j g2, ((Sys.init m).run script).guard j = some g2 → g2.kind = g.kind →
      g2.owns = true → g2._mutexRef = g._mutexRef) ∧
    (2 ≤ ((Sys.init m).run script).owners g.kind →
      ((GuardOp.destroy i).apply env ((Sys.init m).run script)).mutex._state
        = ((Sys.init m).run script).mutex._state ∧
      ((GuardOp.destroy i).apply env ((Sys.init m).run script)).mutex.log
        = ((Sys.init m).run script).mutex.log ∧
      ((GuardOp.destroy i).apply env ((Sys.init m).run script)).mutex.unrefs
        = ((Sys.init m).run script).mutex.unrefs ∧
      ((GuardOp.destroy i).apply env ((Sys.init m).run script)).owners g.kind + 1
        = ((Sys.init m).run script).owners g.kind) ∧
    (((Sys.init m).run script).owners g.kind = 1 →
      ((GuardOp.destroy i).apply env ((Sys.init m).run script)).mutex.unrefs
        = ((Sys.init m).run script).mutex.unrefs ++ [Event.unref g.kind._targetState] ∧
      ((GuardOp.destroy i).apply env ((Sys.init m).run script)).owners g.kind = 0) := by
  have hw : ((Sys.init m).run script).WF := Sys.WF.run script (Impl.fresh_wf m hm)
  generalize (Sys.init m).run script = s at hg hw
  have hw1 := hw.guardOp env (GuardOp.destroy i)
  have hs1 := Sys.destroy_apply env s i g hg
  rcases hgt : g._mutexRef with _ | tok
  · simp [LockImpl.owns, hgt] at ho
  obtain ⟨hp, n, hn⟩ := hw.refLive (Sys.guard_eq_some hg) tok hgt
  have hcnt := hw.count g.kind
  rw [hn] at hcnt
  simp only [WeakRef.use_count] at hcnt
  have hue := LockImpl.unref_eq env g s.mutex tok n hgt hp hn
  have hset := Impl.frame_setLockRef_state s.mutex g.kind._targetState (.block tok n)
  have hsl := Impl.frame_setLockRef_slot s.mutex g.kind (.block tok n)
  refine ⟨fun j g2 hj hk2 ho2 => ?_, fun h2 => ?_, fun h1 => ?_⟩
  · rcases hg2 : g2._mutexRef with _ | tok2
    · simp [LockImpl.owns, hg2] at ho2
    · obtain ⟨_, n2, hn2⟩ := hw.refLive (Sys.guard_eq_some hj) tok2 hg2
      rw [hk2, hn] at hn2
      injection hn2 with e1 e2
      rw [e1]
  · have hn0 : n ≠ 0 := by omega
    have hmx : ((GuardOp.destroy i).apply env s).mutex
        = s.mutex.setLockRef g.kind._targetState (.block tok n) := by
      rw [hs1]
      simp only [LockImpl.destroy, hue, hn0, if_false]
    have hc1 := hw1.count g.kind
    rw [hmx, hsl.2.1] at hc1
    simp only [WeakRef.use_count] at hc1
    rw [hmx]
    exact ⟨hset.1, hset.2.1, Impl.unrefs_of_log hset.2.1, by omega⟩
  · have hn0 : n = 0 := by omega
    subst hn0
    have hmx : ((GuardOp.destroy i).apply env s).mutex
        = ((s.mutex.setLockRef g.kind._targetState (.block tok 0)).runDeleter env
            g.kind._targetState).2 := by
      rw [hs1]
      simp only [LockImpl.destroy, hue, if_true]
    have hfr := (Impl.runDeleter_spec env g.kind._targetState
      (s.mutex.setLockRef g.kind._targetState (.block tok 0))).1
    have hc1 := hw1.count g.kind
    rw [hmx, hfr.slot, hsl.2.1] at hc1
    simp only [WeakRef.use_count] at hc1
    rw [hmx, Impl.runDeleter_unrefs, Impl.unrefs_of_log hset.2.1]
    exact ⟨rfl, hc1.symm⟩

/-- Witness for C6: of two `ScopedLock` guards on a free file the inner one is dropped
without a deleter run, and dropping the outer one then runs the deleter once. -/
theorem C6_guards_of_one_kind_share_one_token_witness :
    Sys.twoScoped.owners .ScopedLock = 2 ∧
    ((GuardOp.destroy 1).apply Env.quiet Sys.twoScoped).mutex._state = .EXCLUSIVE_LOCK ∧
    ((GuardOp.destroy 1).apply Env.quiet Sys.twoScoped).mutex.unrefs = [] ∧
    ((GuardOp.destroy 0).apply Env.quiet
      ((GuardOp.destroy 1).apply Env.quiet Sys.twoScoped)).mutex.unrefs
      = [Event.unref .EXCLUSIVE_LOCK] := by
  have h := C6_guards_of_one_kind_share_one_token
    [(Env.quiet, .guard (.construct .ScopedLock .eager)),
     (Env.quiet, .guard (.construct .ScopedLock .eager))] Impl.freeFile
    (Or.inr ⟨_, _, rfl⟩) Env.quiet 1
    { kind := .ScopedLock, _mutex := true, _mutexRef := some ⟨0, .EXCLUSIVE_LOCK⟩ }
    (by decide) rfl
  have h2 := C6_guards_of_one_kind_share_one_token
    [(Env.quiet, .guard (.construct .ScopedLock .eager)),
     (Env.quiet, .guard (.construct .ScopedLock .eager)),
     (Env.quiet, .guard (.destroy 1))] Impl.freeFile
    (Or.inr ⟨_, _, rfl⟩) Env.quiet 0
    { kind := .ScopedLock, _mutex := true, _mutexRef := some ⟨0, .EXCLUSIVE_LOCK⟩ }
    (by decide) rfl
  refine ⟨by decide, ?_, ?_, ?_⟩
  · exact (h.2.1 (by decide)).1.trans (by decide)
  · exact (h.2.1 (by decide)).2.2.1.trans (by decide)
  · exact (h2.2.2 (by decide)).1.trans (by decide)

theorem Trans.fields {g g1 : LockImpl} {m m1 : Impl} (h : Trans g m g1 m1) :
    g1.kind = g.kind ∧ g1._mutex = g._mutex := by
  cases h with
  | keep h1 _ => rw [h1]; exact ⟨rfl, rfl⟩
  | gain tok _ h2 _ _ _ _ => rw [h2]; exact ⟨rfl, rfl⟩
  | lose tok n _ h2 _ _ _ => rw [h2]; exact ⟨rfl, rfl⟩

theorem LockImpl.getRef_owns (g : LockImpl) (m : Impl) : (g.getRef m).1.owns = true := by
  unfold LockImpl.getRef
  split
  · rename_i t ht
    simp [LockImpl.owns, ht]
  · have hk := g.kind.targetState_ne
    simp only [LockImpl.owns, Impl.getRef, if_neg hk]
    split <;> rfl

theorem LockImpl.lock_owns (env : Env) (g : LockImpl) (m : Impl)
    (h : (g.lock env m).1 = .returned ()) : (g.lock env m).2.1.owns = true := by
  revert h
  unfold LockImpl.lock
  split
  · simp
  · split
    · split
      · intro _
        exact LockImpl.getRef_owns _ _
      · simp
      · simp
      · simp
    · intro _
      exact LockImpl.getRef_owns _ _

theorem LockImpl.tryLock_owns (env : Env) (g : LockImpl) (m : Impl)
    (h : (g.tryLock env m).1 = .returned true) : (g.tryLock env m).2.1.owns = true := by
  revert h
  unfold LockImpl.tryLock
  split
  · simp
  · split
    · split
      · intro _
        exact LockImpl.getRef_owns _ _
      · split <;> simp
    · intro _
      exact LockImpl.getRef_owns _ _

theorem Impl.state_ne_unlocked_of_owner {s : Sys} (hw : s.WF) (hc : s.mutex.Covered)
    {g : LockImpl} (hg : s.guards = [some g]) (ho : g.owns = true) :
    s.mutex._state ≠ .UNLOCKED := by
  have hpos := (hw.refLive (i := 0) (g := g) (by rw [hg]; rfl)).count_pos
    (by simpa [LockImpl.owns] using ho)
  unfold Impl.Covered at hc
  rcases hk : g.kind with _ | _
  · rw [hk, Impl.slot_sharable] at hpos
    exact hc.2 hpos
  · rw [hk, Impl.slot_scoped] at hpos
    rw [hc.1 hpos]
    decide

theorem Impl.state_unlocked_of_no_owner {s : Sys} (hw : s.WF) (hb : s.mutex.Backed)
    {g : LockImpl} (hg : s.guards = [some g]) (ho : g._mutexRef = none) :
    s.mutex._state = .UNLOCKED := by
  have h1 := hw.count .SharableLock
  have h2 := hw.count .ScopedLock
  simp only [Sys.owners, hg, List.countP_cons, List.countP_nil, ownsKind, ho,
    Impl.slot_sharable, Impl.slot_scoped] at h1 h2
  simp at h1 h2
  unfold Impl.Backed at hb
  rcases hs : s.mutex._state with _ | _ | _
  · rfl
  · have := hb.1 hs
    omega
  · have := hb.2 hs
    omega

/-- C7. A guard constructed with `deferLock` that is the only guard on an `UNLOCKED`
mutex whose acquires succeed: construction leaves the mutex as it is and the guard does
not own; after `lock()` the guard owns and the state is not `UNLOCKED`; after `unlock()`
it does not own and the state is `UNLOCKED`; a following `tryLock()` returns true, the
guard owns and the state is again not `UNLOCKED`. A guard owns exactly when it holds a
state reference. -/
theorem C7_deferred_guard_lifecycle (env env2 env3 : Env) (k : LockKind) (m : Impl)
    (hst : m._state = .UNLOCKED) (h1 : m._sharedRefs.expired = true)
    (h2 : m._scopedRefs.expired = true) (hp : m.SlotOK) (hs : m.alwaysSucceeds) :
    LockImpl.construct env k .deferLock m = (.returned (LockImpl.deferLock k), m) ∧
    (LockImpl.deferLock k).owns = false ∧
    (LockImpl.lockStep env k m).1 = .returned () ∧
    (LockImpl.lockStep env k m).2.1.owns = true ∧
    (LockImpl.lockStep env k m).2.2._state ≠ .UNLOCKED ∧
    (LockImpl.unlockStep env env2 k m).1 = .returned () ∧
    (LockImpl.unlockStep env env2 k m).2.1.owns = false ∧
    (LockImpl.unlockStep env env2 k m).2.2._state = .UNLOCKED ∧
    (LockImpl.tryLockStep env env2 env3 k m).1 = .returned true ∧
    (LockImpl.tryLockStep env env2 env3 k m).2.1.owns = true ∧
    (LockImpl.tryLockStep env env2 env3 k m).2.2._state ≠ .UNLOCKED ∧
    (∀ g : LockImpl, g.owns = true ↔ ∃ tok, g._mutexRef = some tok) := by
  have hc1 : m._sharedRefs.use_count = 0 := by simpa [WeakRef.expired] using h1
  have hc2 : m._scopedRefs.use_count = 0 := by simpa [WeakRef.expired] using h2
  have hb0 : m.Backed := by simp [Impl.Backed, hst]
  have hv0 : m.Covered := by simp [Impl.Covered, hc1, hc2]
  -- the system with the deferred guard as its only guard
  have hw0 : Sys.WF { mutex := m, guards := [some (LockImpl.deferLock k)] } :=
    Sys.WF.push k (Sys.WF.init m hp hc1 hc2)
  have hl0 := hw0.refLive (i := 0) (g := LockImpl.deferLock k) rfl
  -- lock
  have hk1 := LockImpl.lock_keeps env (LockImpl.deferLock k) m hp hl0 hs
  have hr1 : (LockImpl.lockStep env k m).1 = .returned () := hk1.2 rfl
  have ho1 : (LockImpl.lockStep env k m).2.1.owns = true := LockImpl.lock_owns env _ m hr1
  have ht1 := LockImpl.lock_trans env (LockImpl.deferLock k) m hp hl0
  have hw1 : Sys.WF (Sys.mk (LockImpl.lockStep env k m).2.2
      [some (LockImpl.lockStep env k m).2.1]) :=
    hw0.update (i := 0) _ rfl ht1.1 (Or.inl rfl)
  have hs1 : (LockImpl.lockStep env k m).2.2._state ≠ .UNLOCKED :=
    Impl.state_ne_unlocked_of_owner hw1 (hk1.1.2.2 hv0) rfl ho1
  have hm1 : (LockImpl.lockStep env k m).2.1._mutex = true := ht1.1.fields.2
  -- unlock
  have hl1 := hw1.refLive (i := 0) (g := (LockImpl.lockStep env k m).2.1) rfl
  have hk2 := LockImpl.unlock_keeps env2 (LockImpl.lockStep env k m).2.1
    (LockImpl.lockStep env k m).2.2 hl1 hk1.1.1
  have ht2 := LockImpl.unlock_trans env2 (LockImpl.lockStep env k m).2.1
    (LockImpl.lockStep env k m).2.2 hw1.slotOK hl1
  have hw2 : Sys.WF (Sys.mk (LockImpl.unlockStep env env2 k m).2.2
      [some (LockImpl.unlockStep env env2 k m).2.1]) :=
    hw1.update (i := 0) _ rfl ht2.1 (Or.inl rfl)
  have hn2 : (LockImpl.unlockStep env env2 k m).2.1._mutexRef = none := by
    show ((LockImpl.lockStep env k m).2.1.unlock env2 (LockImpl.lockStep env k m).2.2).2.1._mutexRef
      = none
    unfold LockImpl.unlock
    rw [if_neg (by rw [hm1]; simp)]
    exact (LockImpl.unref_guard_spec env2 _ _ hl1).2.1
  have hs2 : (LockImpl.unlockStep env env2 k m).2.2._state = .UNLOCKED :=
    Impl.state_unlocked_of_no_owner hw2 (hk2.1.2.1 (hk1.1.2.1 hb0)) rfl hn2
  have hm2 : (LockImpl.unlockStep env env2 k m).2.1._mutex = true :=
    ht2.1.fields.2.trans hm1
  -- tryLock
  have hl2 := hw2.refLive (i := 0) (g := (LockImpl.unlockStep env env2 k m).2.1) rfl
  have hk3 := LockImpl.tryLock_keeps env3 (LockImpl.unlockStep env env2 k m).2.1
    (LockImpl.unlockStep env env2 k m).2.2 hw2.slotOK hl2 hk2.1.1
  have hr3 : (LockImpl.tryLockStep env env2 env3 k m).1 = .returned true := hk3.2 hm2
  have ho3 := LockImpl.tryLock_owns env3 _ _ hr3
  have ht3 := LockImpl.tryLock_trans env3 (LockImpl.unlockStep env env2 k m).2.1
    (LockImpl.unlockStep env env2 k m).2.2 hw2.slotOK hl2
  have hw3 : Sys.WF (Sys.mk (LockImpl.tryLockStep env env2 env3 k m).2.2
      [some (LockImpl.tryLockStep env env2 env3 k m).2.1]) :=
    hw2.update (i := 0) _ rfl ht3.1 (Or.inl rfl)
  have hs3 : (LockImpl.tryLockStep env env2 env3 k m).2.2._state ≠ .UNLOCKED :=
    Impl.state_ne_unlocked_of_owner hw3
      (hk3.1.2.2 (hk2.1.2.2 (hk1.1.2.2 hv0))) rfl ho3
  refine ⟨rfl, rfl, hr1, ho1, hs1, hk2.2 hm1, ?_, hs2, hr3, ho3, hs3, fun g => ?_⟩
  · simp [LockImpl.owns, hn2]
  · cases hg : g._mutexRef <;> simp [LockImpl.owns, hg]

/-- Witness for C7: a deferred `ScopedLock` on a free file. -/
theorem C7_deferred_guard_lifecycle_witness :
    (LockImpl.lockStep Env.quiet .ScopedLock Impl.freeFile).2.2._state ≠ .UNLOCKED ∧
    (LockImpl.unlockStep Env.quiet Env.quiet .ScopedLock Impl.freeFile).2.2._state
      = .UNLOCKED ∧
    (LockImpl.tryLockStep Env.quiet Env.quiet Env.quiet .ScopedLock Impl.freeFile).1
      = .returned true := by
  have hf := Impl.fresh_facts Impl.freeFile (Or.inr ⟨_, _, fun _ => rfl, rfl⟩)
  have h := C7_deferred_guard_lifecycle Env.quiet Env.quiet Env.quiet .ScopedLock
    Impl.freeFile rfl rfl rfl hf.1.slotOK hf.2.1
  exact ⟨h.2.2.2.2.1, h.2.2.2.2.2.2.2.1, h.2.2.2.2.2.2.2.2.1⟩

/-! ## The wait protocol -/

/-- An exception that escapes the wait loop is a lock-timeout, raised with a non-zero
timeout that the total has reached, or a lock-abort; both carry the target state. -/
theorem Impl.waitLoop_thrown (t : State) (env : Env) (fuel : Nat) :
    ∀ (i total next timeout : Nat) (m : Impl) (e : Thrown),
      (m.waitLoop t env fuel i total next timeout).1 = .thrown e →
      (∃ x, e = .InterProcessLockTimeoutException x ∧ x._targetState = t ∧
        x._timeout ≠ 0 ∧ x._timeout ≤ x._total) ∨
      (∃ x, e = .InterProcessLockAbortException x ∧ x._targetState = t) := by
  induction fuel with
  | zero =>
    intro i total next timeout m e h
    simp [Impl.waitLoop] at h
  | succ fuel ih =>
    intro i total next timeout m e
    rw [Impl.waitLoop]
    simp only []
    split
    · rename_i hc
      intro h
      injection h with h
      exact Or.inl ⟨_, h.symm, rfl, hc.1, hc.2⟩
    · split
      · intro h
        injection h with h
        exact Or.inr ⟨_, h.symm, rfl⟩
      · split
        · intro h
          cases h
        · exact ih _ _ _ _ _ e

theorem Impl.lock_thrown (env : Env) (m : Impl) (e : Thrown)
    (h : (m.lock env).1 = .thrown e) :
    (∃ x, e = .InterProcessLockTimeoutException x ∧ x._targetState = .EXCLUSIVE_LOCK ∧
      x._timeout ≠ 0 ∧ x._timeout ≤ x._total) ∨
    (∃ x, e = .InterProcessLockAbortException x ∧ x._targetState = .EXCLUSIVE_LOCK) := by
  revert h
  unfold Impl.lock
  split
  · intro h
    cases h
  · exact Impl.waitLoop_thrown _ env _ _ _ _ _ _ e

theorem Impl.lockSharable_thrown (env : Env) (m : Impl) (e : Thrown)
    (h : (m.lockSharable env).1 = .thrown e) :
    (∃ x, e = .InterProcessLockTimeoutException x ∧ x._targetState = .SHARED_LOCK ∧
      x._timeout ≠ 0 ∧ x._timeout ≤ x._total) ∨
    (∃ x, e = .InterProcessLockAbortException x ∧ x._targetState = .SHARED_LOCK) := by
  revert h
  unfold Impl.lockSharable
  split
  · intro h
    cases h
  · exact Impl.waitLoop_thrown _ env _ _ _ _ _ _ e

/-- C11. For every starting state and every observer: when the exclusive `lock()`
raises, the exception is a lock-timeout or a lock-abort and the mutex state is
`UNLOCKED` (also when the call started in `SHARED_LOCK`); when `lockSharable()` raises,
the exception is a lock-timeout or a lock-abort and the mutex state is the one before
the call. In both cases the slots are left as they were. -/
theorem C11_state_after_raise (env : Env) (m : Impl) (e : Thrown) :
    ((m.lock env).1 = .thrown e →
      ((∃ x, e = .InterProcessLockTimeoutException x) ∨
        (∃ x, e = .InterProcessLockAbortException x)) ∧
      (m.lock env).2._state = .UNLOCKED ∧
      (m.lock env).2._sharedRefs = m._sharedRefs ∧
      (m.lock env).2._scopedRefs = m._scopedRefs) ∧
    ((m.lockSharable env).1 = .thrown e →
      ((∃ x, e = .InterProcessLockTimeoutException x) ∨
        (∃ x, e = .InterProcessLockAbortException x)) ∧
      (m.lockSharable env).2._state = m._state ∧
      (m.lockSharable env).2._sharedRefs = m._sharedRefs ∧
      (m.lockSharable env).2._scopedRefs = m._scopedRefs) := by
  constructor
  · intro h
    have hc := Impl.lock_cases env m
    refine ⟨?_, hc.2.2.1 (by rw [h]; simp), hc.1.sharedRefs, hc.1.scopedRefs⟩
    rcases Impl.lock_thrown env m e h with ⟨x, hx, _⟩ | ⟨x, hx, _⟩
    · exact Or.inl ⟨x, hx⟩
    · exact Or.inr ⟨x, hx⟩
  · intro h
    have hc := Impl.lockSharable_cases env m
    refine ⟨?_, hc.2.2.1 (by rw [h]; simp), hc.1.sharedRefs, hc.1.scopedRefs⟩
    rcases Impl.lockSharable_thrown env m e h with ⟨x, hx, _⟩ | ⟨x, hx, _⟩
    · exact Or.inl ⟨x, hx⟩
    · exact Or.inr ⟨x, hx⟩

/-- Witness for C11. On a file that other processes share, `lock()` from `SHARED_LOCK`
with a maximum wait of five seconds raises lock-timeout and leaves `UNLOCKED`; with an
observer that gives up it raises lock-abort and leaves `UNLOCKED`; `lockSharable()` on
a file held by another process raises and leaves the state as it was. -/
theorem C11_state_after_raise_witness :
    Impl.sharedFile._state = .SHARED_LOCK ∧
    (Impl.sharedFile.lock (Env.quietFor 5)).1
      = .thrown (.InterProcessLockTimeoutException ⟨.EXCLUSIVE_LOCK, 6, 5⟩) ∧
    (Impl.sharedFile.lock (Env.quietFor 5)).2._state = .UNLOCKED ∧
    (Impl.sharedFile.lock Env.giveUp).1
      = .thrown (.InterProcessLockAbortException ⟨.EXCLUSIVE_LOCK, 3, 180⟩) ∧
    (Impl.sharedFile.lock Env.giveUp).2._state = .UNLOCKED ∧
    (Impl.heldFile.lockSharable Env.giveUp).1
      = .thrown (.InterProcessLockAbortException ⟨.SHARED_LOCK, 3, 180⟩) ∧
    (Impl.heldFile.lockSharable Env.giveUp).2._state = Impl.heldFile._state :=
  ⟨by decide, by decide,
   ((C11_state_after_raise (Env.quietFor 5) Impl.sharedFile
      (.InterProcessLockTimeoutException ⟨.EXCLUSIVE_LOCK, 6, 5⟩)).1 (by decide)).2.1,
   by decide,
   ((C11_state_after_raise Env.giveUp Impl.sharedFile
      (.InterProcessLockAbortException ⟨.EXCLUSIVE_LOCK, 3, 180⟩)).1 (by decide)).2.1,
   by decide,
   ((C11_state_after_raise Env.giveUp Impl.heldFile
      (.InterProcessLockAbortException ⟨.SHARED_LOCK, 3, 180⟩)).2 (by decide)).2.1⟩

/-- The lock-timeout variant is always classified as a timeout: `timeout()` is true and
`aborted()` is false for every lock-timeout raised by `lock()` or `lockSharable()`. -/
theorem Impl.timeout_classified (env : Env) (m : Impl) (x : InterProcessLockException)
    (h : (m.lock env).1 = .thrown (.InterProcessLockTimeoutException x) ∨
      (m.lockSharable env).1 = .thrown (.InterProcessLockTimeoutException x)) :
    x.timeout = true ∧ x.aborted = false := by
  have key : x._timeout ≠ 0 ∧ x._timeout ≤ x._total := by
    rcases h with h | h
    · rcases Impl.lock_thrown env m _ h with ⟨y, hy, _, h1, h2⟩ | ⟨y, hy, _⟩
      · injection hy with hy
        subst hy
        exact ⟨h1, h2⟩
      · cases hy
    · rcases Impl.lockSharable_thrown env m _ h with ⟨y, hy, _, h1, h2⟩ | ⟨y, hy, _⟩
      · injection hy with hy
        subst hy
        exact ⟨h1, h2⟩
      · cases hy
  have ha : x.aborted = false := by
    simp [InterProcessLockException.aborted, key.1]
    exact key.2
  exact ⟨by simp [InterProcessLockException.timeout, ha], ha⟩

/-- C13 fails on the code. On a file held by another process, with an observer that at
its first invocation lowers the timeout to one second and asks to give up, `lock()` and
`lockSharable()` raise the abort variant with total 3 and timeout 1; for that exception
`aborted()` is false and `timeout()` is true. -/
theorem C13_abort_classified_as_timeout :
    (Impl.heldFile.lock Env.lowerAndGiveUp).1
      = .thrown (.InterProcessLockAbortException ⟨.EXCLUSIVE_LOCK, 3, 1⟩) ∧
    (Impl.heldFile.lockSharable Env.lowerAndGiveUp).1
      = .thrown (.InterProcessLockAbortException ⟨.SHARED_LOCK, 3, 1⟩) ∧
    InterProcessLockException.aborted ⟨.EXCLUSIVE_LOCK, 3, 1⟩ = false ∧
    InterProcessLockException.timeout ⟨.EXCLUSIVE_LOCK, 3, 1⟩ = true ∧
    InterProcessLockException.aborted ⟨.SHARED_LOCK, 3, 1⟩ = false ∧
    InterProcessLockException.timeout ⟨.SHARED_LOCK, 3, 1⟩ = true := by
  decide

/-! ## Non-blocking and timed acquires -/

theorem Impl.attempt_iff (t : State) (c : OsCall) (m : Impl) :
    let r : Bool × Impl :=
      if m._state = t then (true, m)
      else
        match m.osTry c with
        | (true, m1) => (true, { m1 with _state := t })
        | (false, m1) => (false, m1)
    (r.1 = true ↔ m._state = t ∨ m.nextSucceeds) ∧
    (m._state = t → r = (true, m)) ∧
    (m._mutex = none → r.1 = true ∧ r.2.log = m.log) ∧
    (∀ os, m._mutex = some os → m._state ≠ t →
      r.1 = os.outcome 0 ∧ r.2.log = m.log ++ [Event.os c (os.outcome 0)]) := by
  intro r
  by_cases hst : m._state = t
  · have hr : r = (true, m) := by simp [r, hst]
    rw [hr]
    exact ⟨by simp [hst], fun _ => rfl, fun _ => ⟨rfl, rfl⟩, fun os _ h => absurd hst h⟩
  · rcases hmx : m._mutex with _ | os
    · have hr : r = (true, { m with _state := t }) := by simp [r, hst, Impl.osTry, hmx]
      rw [hr]
      refine ⟨?_, fun h => absurd h hst, fun _ => ⟨rfl, rfl⟩, fun os h => by simp at h⟩
      simp only [true_iff]
      right
      intro os h
      rw [hmx] at h
      cases h
    · have hns : m.nextSucceeds ↔ os.outcome 0 = true := by
        constructor
        · intro h
          exact h os hmx
        · intro h os1 h1
          rw [hmx] at h1
          injection h1 with h1
          rw [← h1]
          exact h
      refine ⟨?_, fun h => absurd h hst, fun h => by simp at h, fun os1 h1 _ => ?_⟩
      · rcases ho : os.outcome 0 with _ | _ <;> simp [r, hst, Impl.osTry, hmx, ho, hns]
      · injection h1 with h1
        subst h1
        rcases ho : os.outcome 0 with _ | _ <;> simp [r, hst, Impl.osTry, hmx, ho]

theorem Impl.nextSucceeds_of_fake (m : Impl) (h : m._mutex = none) : m.nextSucceeds := by
  intro os hos
  rw [h] at hos
  cases hos

/-- C17. For every mutex state `tryLock()` returns true iff the state was already
`EXCLUSIVE_LOCK` or the non-blocking acquire on the primitive succeeds (it always does
for a fake mutex); when it returns true the state is `EXCLUSIVE_LOCK`, when it returns
false the state is unchanged; in `EXCLUSIVE_LOCK` it leaves the mutex exactly as it was
(no OS call), otherwise a real primitive sees exactly one call. The same holds for
`timedLock`, and for `tryLockSharable` / `timedLockSharable` with `SHARED_LOCK` as
target. -/
theorem C17_try_and_timed_acquire (secs : Nat) (m : Impl) :
    ((m.tryLock.1 = true ↔ m._state = .EXCLUSIVE_LOCK ∨ m.nextSucceeds) ∧
      (m.tryLock.1 = true → m.tryLock.2._state = .EXCLUSIVE_LOCK) ∧
      (m.tryLock.1 = false → m.tryLock.2._state = m._state) ∧
      (m._state = .EXCLUSIVE_LOCK → m.tryLock = (true, m)) ∧
      (m._mutex = none → m.tryLock.1 = true ∧ m.tryLock.2.log = m.log) ∧
      (∀ os, m._mutex = some os → m._state ≠ .EXCLUSIVE_LOCK →
        m.tryLock.1 = os.outcome 0 ∧
        m.tryLock.2.log = m.log ++ [Event.os .try_lock (os.outcome 0)])) ∧
    (((m.timedLock secs).1 = true ↔ m._state = .EXCLUSIVE_LOCK ∨ m.nextSucceeds) ∧
      ((m.timedLock secs).1 = true → (m.timedLock secs).2._state = .EXCLUSIVE_LOCK) ∧
      ((m.timedLock secs).1 = false → (m.timedLock secs).2._state = m._state) ∧
      (m._state = .EXCLUSIVE_LOCK → m.timedLock secs = (true, m)) ∧
      (m._mutex = none → (m.timedLock secs).1 = true ∧ (m.timedLock secs).2.log = m.log) ∧
      (∀ os, m._mutex = some os → m._state ≠ .EXCLUSIVE_LOCK →
        (m.timedLock secs).1 = os.outcome 0 ∧
        (m.timedLock secs).2.log = m.log ++ [Event.os (.timed_lock secs) (os.outcome 0)])) ∧
    ((m.tryLockSharable.1 = true ↔ m._state = .SHARED_LOCK ∨ m.nextSucceeds) ∧
      (m.tryLockSharable.1 = true → m.tryLockSharable.2._state = .SHARED_LOCK) ∧
      (m.tryLockSharable.1 = false → m.tryLockSharable.2._state = m._state) ∧
      (m._state = .SHARED_LOCK → m.tryLockSharable = (true, m)) ∧
      (m._mutex = none → m.tryLockSharable.1 = true ∧ m.tryLockSharable.2.log = m.log) ∧
      (∀ os, m._mutex = some os → m._state ≠ .SHARED_LOCK →
        m.tryLockSharable.1 = os.outcome 0 ∧
        m.tryLockSharable.2.log = m.log ++ [Event.os .try_lock_sharable (os.outcome 0)])) ∧
    (((m.timedLockSharable secs).1 = true ↔ m._state = .SHARED_LOCK ∨ m.nextSucceeds) ∧
      ((m.timedLockSharable secs).1 = true →
        (m.timedLockSharable secs).2._state = .SHARED_LOCK) ∧
      ((m.timedLockSharable secs).1 = false →
        (m.timedLockSharable secs).2._state = m._state) ∧
      (m._state = .SHARED_LOCK → m.timedLockSharable secs = (true, m)) ∧
      (m._mutex = none →
        (m.timedLockSharable secs).1 = true ∧ (m.timedLockSharable secs).2.log = m.log) ∧
      (∀ os, m._mutex = some os → m._state ≠ .SHARED_LOCK →
        (m.timedLockSharable secs).1 = os.outcome 0 ∧
        (m.timedLockSharable secs).2.log
          = m.log ++ [Event.os (.timed_lock_sharable secs) (os.outcome 0)])) := by
  have a1 := Impl.attempt_iff .EXCLUSIVE_LOCK .try_lock m
  have a2 := Impl.attempt_iff .EXCLUSIVE_LOCK (.timed_lock secs) m
  have a3 := Impl.attempt_iff .SHARED_LOCK .try_lock_sharable m
  have a4 := Impl.attempt_iff .SHARED_LOCK (.timed_lock_sharable secs) m
  have c1 := Impl.tryLock_cases m
  have c2 := Impl.timedLock_cases secs m
  have c3 := Impl.tryLockSharable_cases m
  have c4 := Impl.timedLockSharable_cases secs m
  exact ⟨⟨a1.1, c1.2.1, fun h => (c1.2.2.1 h).1, a1.2.1, a1.2.2.1, a1.2.2.2⟩,
    ⟨a2.1, c2.2.1, fun h => (c2.2.2.1 h).1, a2.2.1, a2.2.2.1, a2.2.2.2⟩,
    ⟨a3.1, c3.2.1, fun h => (c3.2.2.1 h).1, a3.2.1, a3.2.2.1, a3.2.2.2⟩,
    ⟨a4.1, c4.2.1, fun h => (c4.2.2.1 h).1, a4.2.1, a4.2.2.1, a4.2.2.2⟩⟩

/-- Witness for C17: on a file held by another process `tryLock()` returns false and
leaves `UNLOCKED`; on a free file it returns true and leaves `EXCLUSIVE_LOCK`; on the
file locked by an explicit `lock()` it changes nothing. -/
theorem C17_try_and_timed_acquire_witness :
    Impl.heldFile.tryLock.1 = false ∧ Impl.heldFile.tryLock.2._state = .UNLOCKED ∧
    Impl.freeFile.tryLock.1 = true ∧ Impl.freeFile.tryLock.2._state = .EXCLUSIVE_LOCK ∧
    Impl.lockedFile.tryLock = (true, Impl.lockedFile) :=
  ⟨by decide,
   ((C17_try_and_timed_acquire 3 Impl.heldFile).1.2.2.1 (by decide)).trans (by decide),
   by decide,
   (C17_try_and_timed_acquire 3 Impl.freeFile).1.2.1 (by decide),
   (C17_try_and_timed_acquire 3 Impl.lockedFile).1.2.2.2.1 (by decide)⟩

/-! ## Contended waits -/

theorem sec_sec_add (a b : Nat) : sec (sec a + b) = sec (a + b) := by
  unfold sec
  omega

theorem sec_of_lt {a : Nat} (h : a < 4294967296) : sec a = a := by
  unfold sec
  omega

theorem sec_idem (a : Nat) : sec (sec a) = sec a := by
  unfold sec
  omega

theorem Impl.afterAttempts_zero (m : Impl) (os : LockType) (h : m._mutex = some os) :
    m.afterAttempts os 0 [] = m := by
  cases m
  simp only [Impl.afterAttempts, LockType.drop, List.append_nil, Nat.add_zero] at h ⊢
  simp [h]

theorem Impl.afterAttempts_twice (m : Impl) (os : LockType) (a b : Nat)
    (e1 e2 : List Event) :
    (m.afterAttempts os a e1).afterAttempts (os.drop a) b e2
      = m.afterAttempts os (a + b) (e1 ++ e2) := by
  simp only [Impl.afterAttempts, LockType.drop, List.append_assoc]
  congr
  funext n
  congr 1
  omega

theorem Impl.afterAttempts_facts (m : Impl) (os : LockType) (k : Nat) (ev : List Event) :
    (m.afterAttempts os k ev)._state = m._state ∧
    (m.afterAttempts os k ev)._mutex = some (os.drop k) ∧
    (m.afterAttempts os k ev).log = m.log ++ ev ∧
    (m.afterAttempts os k ev)._sharedRefs = m._sharedRefs ∧
    (m.afterAttempts os k ev)._scopedRefs = m._scopedRefs :=
  ⟨rfl, rfl, rfl, rfl, rfl⟩

/-- One timed attempt of the wait loop on a real primitive, away from the target
state: it is logged with its result, and only success changes the state. -/
theorem Impl.timedLockFor_eq (t : State) (ht : t ≠ .UNLOCKED) (secs : Nat) (m : Impl)
    (os : LockType) (hmx : m._mutex = some os) (hst : m._state ≠ t) :
    m.timedLockFor t secs =
      if os.outcome 0 = true then
        (true, { m.afterAttempts os 1 [Event.os (timedCall t secs) true] with _state := t })
      else (false, m.afterAttempts os 1 [Event.os (timedCall t secs) false]) := by
  cases t
  · exact absurd rfl ht
  · rcases ho : os.outcome 0 with _ | _ <;>
      simp [Impl.timedLockFor, Impl.timedLockSharable, Impl.osTry, hmx, hst, ho, timedCall,
        Impl.afterAttempts, LockType.drop]
  · rcases ho : os.outcome 0 with _ | _ <;>
      simp [Impl.timedLockFor, Impl.timedLock, Impl.osTry, hmx, hst, ho, timedCall,
        Impl.afterAttempts, LockType.drop]

/-- One pass of the wait loop on a real primitive, away from the target state, spelled
out: the total grows by `next`; a non-zero timeout reached by the total raises
lock-timeout before the observer is asked; else the observer is invoked with the new
total, its answer for `next` and `timeout` replaces the old values at once; a refusal
raises lock-abort; else one timed attempt is made that waits the new `next`, and if it
fails the loop goes on with the new values. -/
theorem Impl.waitLoop_pass (t : State) (ht : t ≠ .UNLOCKED) (env : Env)
    (fuel i total next timeout : Nat) (m : Impl) (os : LockType)
    (hmx : m._mutex = some os) (hst : m._state ≠ t) :
    m.waitLoop t env (fuel + 1) i total next timeout =
      if timeout ≠ 0 ∧ sec (total + next) ≥ timeout then
        (.thrown (.InterProcessLockTimeoutException ⟨t, sec (total + next), timeout⟩), m)
      else if (env.waitForLock i t (sec (total + next)) next timeout).1 = false then
        (.thrown (.InterProcessLockAbortException ⟨t, sec (total + next),
            sec (env.waitForLock i t (sec (total + next)) next timeout).2.2⟩),
          m.logged [Event.waitForLock t (sec (total + next)) next timeout])
      else if os.outcome 0 = true then
        (.returned (),
          { m.afterAttempts os 1
              [Event.waitForLock t (sec (total + next)) next timeout,
               Event.os (timedCall t
                 (sec (env.waitForLock i t (sec (total + next)) next timeout).2.1)) true]
            with _state := t })
      else
        (m.afterAttempts os 1
            [Event.waitForLock t (sec (total + next)) next timeout,
             Event.os (timedCall t
               (sec (env.waitForLock i t (sec (total + next)) next timeout).2.1)) false]
          ).waitLoop t env fuel (i + 1) (sec (total + next))
            (sec (env.waitForLock i t (sec (total + next)) next timeout).2.1)
            (sec (env.waitForLock i t (sec (total + next)) next timeout).2.2) := by
  rw [Impl.waitLoop]
  simp only []
  by_cases hto : timeout ≠ 0 ∧ sec (total + next) ≥ timeout
  · rw [if_pos hto, if_pos hto]
  · rw [if_neg hto, if_neg hto]
    by_cases hr : (env.waitForLock i t (sec (total + next)) next timeout).1 = false
    · rw [if_pos hr, if_pos hr]
      rfl
    · rw [if_neg hr, if_neg hr]
      have he := Impl.timedLockFor_eq t ht
        (sec (env.waitForLock i t (sec (total + next)) next timeout).2.1)
        (m.logged [Event.waitForLock t (sec (total + next)) next timeout]) os hmx hst
      have hm1 : ({ m with log := m.log ++ [Event.waitForLock t (sec (total + next)) next timeout] } : Impl)
          = m.logged [Event.waitForLock t (sec (total + next)) next timeout] := rfl
      rw [hm1, he]
      by_cases ho : os.outcome 0 = true
      · rw [if_pos ho, if_pos ho]
        simp [Impl.afterAttempts, Impl.logged]
      · rw [if_neg ho, if_neg ho]
        simp [Impl.afterAttempts, Impl.logged]

/-- With an observer that always continues and changes nothing, `k` passes of the wait
loop in which the timeout is not reached and the timed attempt fails lead to the loop
state with the total grown `k` times by `next`; what happened is `failedPasses`. -/
theorem Impl.waitLoop_failed (t : State) (ht : t ≠ .UNLOCKED) (env : Env) (hq : env.isQuiet)
    (next timeout : Nat) (hn : sec next = next) (hT : sec timeout = timeout) :
    ∀ (k fuel i total : Nat) (m : Impl) (os : LockType),
      sec total = total → m._mutex = some os → m._state ≠ t →
      (∀ j, j < k → os.outcome j = false) →
      (∀ j, j < k → ¬ (timeout ≠ 0 ∧ sec (total + next * (j + 1)) ≥ timeout)) →
      m.waitLoop t env (fuel + k) i total next timeout =
        (m.afterAttempts os k (failedPasses t next timeout total k)).waitLoop t env fuel
          (i + k) (sec (total + next * k)) next timeout := by
  intro k
  induction k with
  | zero =>
    intro fuel i total m os hs hmx _ _ _
    simp only [failedPasses, Nat.mul_zero, Nat.add_zero, hs]
    rw [Impl.afterAttempts_zero m os hmx]
  | succ k ih =>
    intro fuel i total m os hs hmx hst hos hno
    have e1 : fuel + (k + 1) = (fuel + k) + 1 := by omega
    rw [e1, Impl.waitLoop_pass t ht env _ i total next timeout m os hmx hst]
    have h0 := hno 0 (by omega)
    simp only [Nat.zero_add, Nat.mul_one] at h0
    rw [if_neg h0]
    rw [hq i t (sec (total + next)) next timeout]
    simp only [hn, hT]
    rw [if_neg (by simp), if_neg (by rw [hos 0 (by omega)]; simp)]
    have hf := Impl.afterAttempts_facts m os 1
      [Event.waitForLock t (sec (total + next)) next timeout,
       Event.os (timedCall t next) false]
    rw [ih fuel (i + 1) (sec (total + next)) _ (os.drop 1) (sec_idem _) hf.2.1
      (by rw [hf.1]; exact hst)
      (fun j hj => hos (j + 1) (by omega))
      (fun j hj => by
        have := hno (j + 1) (by omega)
        rw [sec_sec_add]
        have e : total + next + next * (j + 1) = total + next * (j + 1 + 1) := by ring
        rw [e]
        exact this)]
    rw [Impl.afterAttempts_twice]
    have e2 : 1 + k = k + 1 := by omega
    have e3 : i + 1 + k = i + (k + 1) := by omega
    have e4 : sec (sec (total + next) + next * k) = sec (total + next * (k + 1)) := by
      rw [sec_sec_add]
      congr 1
      ring
    rw [e2, e3, e4]
    rfl

theorem LockKind.entered_facts (k : LockKind) (m : Impl) (os : LockType)
    (hst : m._state ≠ k._targetState) :
    (k.entered m os)._mutex = some (os.drop 1) ∧
    (k.entered m os)._state ≠ k._targetState ∧
    (k.entered m os).log = m.log ++ k.entryEvents m ∧
    (k.entered m os)._state = (if k = .ScopedLock then .UNLOCKED else m._state) := by
  cases k
  · exact ⟨rfl, hst, rfl, rfl⟩
  · exact ⟨rfl, by simp [LockKind.entered, LockKind._targetState], rfl, rfl⟩

/-- A contended `lock()` / `lockSharable()`: when the first timed attempt fails, the call
is the wait loop started at total 0 with `next` the initial wait and `timeout` the
maximum wait. -/
theorem LockKind.lock_entry (k : LockKind) (env : Env) (m : Impl) (os : LockType)
    (hmx : m._mutex = some os) (hst : m._state ≠ k._targetState)
    (ho : os.outcome 0 = false) :
    k.lock env m = (k.entered m os).waitLoop k._targetState env env.passes 0 0
      initialLockWait (maxLockWait env) := by
  cases k
  · simp only [LockKind._targetState] at hst
    simp [LockKind.lock, Impl.lockSharable, Impl.timedLockSharable, Impl.osTry, hmx, hst, ho,
      LockKind.entered, LockKind.entryEvents, Impl.afterAttempts, LockType.drop,
      LockKind._targetState]
  · simp only [LockKind._targetState] at hst
    by_cases hu : m._state = .UNLOCKED
    · simp [LockKind.lock, Impl.lock, Impl.timedLock, Impl.osTry, hmx, hst, ho,
        LockKind.entered, LockKind.entryEvents, Impl.afterAttempts, LockType.drop,
        LockKind._targetState, hu]
    · simp [LockKind.lock, Impl.lock, Impl.timedLock, Impl.osTry, hmx, hst, ho,
        LockKind.entered, LockKind.entryEvents, Impl.afterAttempts, LockType.drop,
        LockKind._targetState, hu, Impl.unlock, Impl.osCall]

theorem waitedSecs_append (a b : List Event) :
    waitedSecs (a ++ b) = waitedSecs a + waitedSecs b := by
  induction a with
  | nil => simp [waitedSecs]
  | cons e a ih =>
    cases e with
    | os c ok => cases c <;> simp [waitedSecs, ih] <;> omega
    | waitForLock t a1 a2 a3 => simp [waitedSecs, ih]
    | unref p => simp [waitedSecs, ih]
    | terminate => simp [waitedSecs, ih]

theorem waitedSecs_timedCall (t : State) (secs : Nat) (ok : Bool) (rest : List Event) :
    waitedSecs (Event.os (timedCall t secs) ok :: rest) = secs + waitedSecs rest := by
  unfold timedCall
  split <;> simp [waitedSecs]

theorem waitedSecs_failedPasses (t : State) (next timeout : Nat) :
    ∀ (k total : Nat), waitedSecs (failedPasses t next timeout total k) = next * k := by
  intro k
  induction k with
  | zero =>
    intro total
    simp [failedPasses, waitedSecs]
  | succ k ih =>
    intro total
    simp only [failedPasses, waitedSecs]
    rw [waitedSecs_timedCall, ih]
    ring

theorem waitedSecs_entryEvents (k : LockKind) (m : Impl) :
    waitedSecs (k.entryEvents m) = initialLockWait := by
  cases k
  · simp [LockKind.entryEvents, waitedSecs]
  · by_cases h : m._state = .UNLOCKED <;> simp [LockKind.entryEvents, waitedSecs, h]

theorem maxLockWait_lt (env : Env) : maxLockWait env < 4294967296 := by
  unfold maxLockWait sec
  omega

/-- A contended `lock()` / `lockSharable()` under an observer that continues and changes
nothing, with a maximum wait `T > 0`, while every timed attempt fails: after
`(T + 2) / 3 - 1` failed passes the next pass raises lock-timeout with total
`3 * ((T + 2) / 3)`. -/
theorem LockKind.lock_times_out (k : LockKind) (env : Env) (m : Impl) (os : LockType)
    (hq : env.isQuiet) (hmx : m._mutex = some os) (hst : m._state ≠ k._targetState)
    (hT : 0 < maxLockWait env)
    (hos : ∀ j, j < (maxLockWait env + 2) / 3 → os.outcome j = false)
    (hfuel : (maxLockWait env + 2) / 3 ≤ env.passes) :
    k.lock env m =
      (.thrown (.InterProcessLockTimeoutException
          ⟨k._targetState, 3 * ((maxLockWait env + 2) / 3), maxLockWait env⟩),
        (k.entered m os).afterAttempts (os.drop 1) ((maxLockWait env + 2) / 3 - 1)
          (failedPasses k._targetState initialLockWait (maxLockWait env) 0
            ((maxLockWait env + 2) / 3 - 1))) := by
  have hlt := maxLockWait_lt env
  have hK : 1 ≤ (maxLockWait env + 2) / 3 := by omega
  have hef := LockKind.entered_facts k m os hst
  have h3 : initialLockWait = 3 := rfl
  rw [LockKind.lock_entry k env m os hmx hst (hos 0 (by omega))]
  have hp : env.passes
      = (env.passes - (maxLockWait env + 2) / 3 + 1) + ((maxLockWait env + 2) / 3 - 1) := by
    omega
  rw [hp, Impl.waitLoop_failed k._targetState k.targetState_ne env hq initialLockWait
    (maxLockWait env) rfl (sec_idem _) ((maxLockWait env + 2) / 3 - 1) _ 0 0
    (k.entered m os) (os.drop 1) rfl hef.1 hef.2.1
    (fun j hj => hos (j + 1) (by omega))
    (fun j hj => by
      rw [h3]
      unfold sec
      omega)]
  have haf := Impl.afterAttempts_facts (k.entered m os) (os.drop 1)
    ((maxLockWait env + 2) / 3 - 1)
    (failedPasses k._targetState initialLockWait (maxLockWait env) 0
      ((maxLockWait env + 2) / 3 - 1))
  rw [Impl.waitLoop_pass k._targetState k.targetState_ne env _ _ _ _ _ _ _ haf.2.1
    (by rw [haf.1]; exact hef.2.1)]
  have htot : sec (sec (0 + initialLockWait * ((maxLockWait env + 2) / 3 - 1)) + initialLockWait)
      = 3 * ((maxLockWait env + 2) / 3) := by
    rw [h3]
    unfold sec
    omega
  rw [htot, if_pos ⟨by omega, by omega⟩]

theorem Env.quietFor_isQuiet (maxWait : Nat) : (Env.quietFor maxWait).isQuiet := by
  intro i t total next timeout
  rfl

/-- C12. Timeout boundary. With the initial wait `W = 3` and a maximum wait `T > 0`
(180 when `ZYPP_MAX_LOCK_WAIT` is unset), on a real mutex that is not in
`EXCLUSIVE_LOCK`, if every timed acquire fails and the observer always continues without
changing `next` or `timeout`, then `lock()` raises lock-timeout as soon as enough passes
are explored; the total it carries is `3 * ((T + 2) / 3)`, the least multiple of `W`
that is at least `T`, so `T <= total < T + W`; the waits of all timed acquires attempted
sum up to that total; the mutex is left `UNLOCKED`. With `T = 5` the total is 6. -/
theorem C12_timeout_boundary (env : Env) (m : Impl) (os : LockType)
    (hq : env.isQuiet) (hmx : m._mutex = some os) (hst : m._state ≠ .EXCLUSIVE_LOCK)
    (hT : 0 < maxLockWait env) (hos : ∀ j, os.outcome j = false)
    (hfuel : (maxLockWait env + 2) / 3 ≤ env.passes) :
    (m.lock env).1 = .thrown (.InterProcessLockTimeoutException
      ⟨.EXCLUSIVE_LOCK, 3 * ((maxLockWait env + 2) / 3), maxLockWait env⟩) ∧
    maxLockWait env ≤ 3 * ((maxLockWait env + 2) / 3) ∧
    3 * ((maxLockWait env + 2) / 3) < maxLockWait env + initialLockWait ∧
    initialLockWait ∣ 3 * ((maxLockWait env + 2) / 3) ∧
    (∀ n, initialLockWait ∣ n → maxLockWait env ≤ n → 3 * ((maxLockWait env + 2) / 3) ≤ n) ∧
    waitedSecs (m.lock env).2.log = waitedSecs m.log + 3 * ((maxLockWait env + 2) / 3) ∧
    (m.lock env).2._state = .UNLOCKED ∧
    (env.ZYPP_MAX_LOCK_WAIT = none → maxLockWait env = 180) ∧
    (maxLockWait env = 5 → 3 * ((maxLockWait env + 2) / 3) = 6) := by
  have h := LockKind.lock_times_out .ScopedLock env m os hq hmx hst hT (fun j _ => hos j) hfuel
  have hl : LockKind.ScopedLock.lock env m = m.lock env := rfl
  rw [hl] at h
  have h3 : initialLockWait = 3 := rfl
  have hef := LockKind.entered_facts .ScopedLock m os hst
  refine ⟨by rw [h]; rfl, by omega, by omega, ⟨(maxLockWait env + 2) / 3, by rw [h3]⟩,
    fun n hd hn => ?_, ?_, ?_, fun hnone => ?_, fun h5 => by omega⟩
  · obtain ⟨c, hc⟩ := hd
    rw [h3] at hc
    omega
  · rw [h]
    simp only [Impl.afterAttempts_facts, hef.2.2.1, waitedSecs_append, waitedSecs_failedPasses,
      waitedSecs_entryEvents]
    rw [h3]
    omega
  · have hc := Impl.lock_cases env m
    exact hc.2.2.1 (by rw [h]; simp)
  · simp [maxLockWait, hnone, sec]

/-- Witness for C12: a file held by another process, a maximum wait of five seconds. -/
theorem C12_timeout_boundary_witness :
    (Impl.heldFile.lock (Env.quietFor 5)).1 = .thrown (.InterProcessLockTimeoutException
      ⟨.EXCLUSIVE_LOCK, 6, 5⟩) ∧
    waitedSecs (Impl.heldFile.lock (Env.quietFor 5)).2.log = 6 := by
  have h := C12_timeout_boundary (Env.quietFor 5) Impl.heldFile LockType.held
    (Env.quietFor_isQuiet 5) rfl (by decide) (by decide) (fun _ => rfl) (by decide)
  exact ⟨h.1, h.2.2.2.2.2.1⟩

/-- A contended `lock()` / `lockSharable()` under an observer that continues and changes
nothing, when the first `n` timed attempts fail, the next one succeeds and the timeout
is not reached meanwhile: the call returns in the target state after `n` passes. -/
theorem LockKind.lock_succeeds_after (k : LockKind) (env : Env) (m : Impl) (os : LockType)
    (n : Nat) (hq : env.isQuiet) (hmx : m._mutex = some os) (hst : m._state ≠ k._targetState)
    (hn : 1 ≤ n) (hos : ∀ j, j < n → os.outcome j = false) (hok : os.outcome n = true)
    (hT : maxLockWait env = 0 ∨ 3 * n < maxLockWait env) (hfuel : n ≤ env.passes) :
    k.lock env m =
      (.returned (),
        { (k.entered m os).afterAttempts (os.drop 1) n
            (failedPasses k._targetState initialLockWait (maxLockWait env) 0 (n - 1) ++
              [Event.waitForLock k._targetState (sec (3 * n)) initialLockWait (maxLockWait env),
               Event.os (timedCall k._targetState initialLockWait) true])
          with _state := k._targetState }) := by
  have hlt := maxLockWait_lt env
  have hef := LockKind.entered_facts k m os hst
  have h3 : initialLockWait = 3 := rfl
  rw [LockKind.lock_entry k env m os hmx hst (hos 0 (by omega))]
  have hp : env.passes = (env.passes - n + 1) + (n - 1) := by omega
  rw [hp, Impl.waitLoop_failed k._targetState k.targetState_ne env hq initialLockWait
    (maxLockWait env) rfl (sec_idem _) (n - 1) _ 0 0
    (k.entered m os) (os.drop 1) rfl hef.1 hef.2.1
    (fun j hj => hos (j + 1) (by omega))
    (fun j hj => by
      rw [h3]
      unfold sec
      omega)]
  have haf := Impl.afterAttempts_facts (k.entered m os) (os.drop 1) (n - 1)
    (failedPasses k._targetState initialLockWait (maxLockWait env) 0 (n - 1))
  rw [Impl.waitLoop_pass k._targetState k.targetState_ne env _ _ _ _ _ _ _ haf.2.1
    (by rw [haf.1]; exact hef.2.1)]
  have htot : sec (sec (0 + initialLockWait * (n - 1)) + initialLockWait) = sec (3 * n) := by
    rw [h3]
    unfold sec
    omega
  rw [htot]
  have hno : ¬ (maxLockWait env ≠ 0 ∧ sec (3 * n) ≥ maxLockWait env) := by
    unfold sec
    omega
  rw [if_neg hno, hq]
  have hout : ((os.drop 1).drop (n - 1)).outcome 0 = true := by
    have e : 0 + (n - 1) + 1 = n := by omega
    simp only [LockType.drop, e]
    exact hok
  rw [if_neg (by simp), if_pos hout, Impl.afterAttempts_twice]
  have e2 : n - 1 + 1 = n := by omega
  rw [e2]
  rfl

theorem failedPasses_reports (t : State) (next timeout : Nat) :
    ∀ (k total : Nat), (failedPasses t next timeout total k).filter Event.isReport =
      (List.range k).map (fun j => Event.waitForLock t (sec (total + next * (j + 1))) next timeout) := by
  intro k
  induction k with
  | zero =>
    intro total
    simp [failedPasses]
  | succ k ih =>
    intro total
    rw [List.range_succ_eq_map]
    simp only [failedPasses, List.filter, Event.isReport, List.map_cons, List.map_map]
    rw [ih]
    congr 1
    · simp
    · apply List.map_congr_left
      intro j _
      simp only [Function.comp, sec_sec_add]
      congr 2
      rw [Nat.succ_eq_add_one]
      ring

theorem LockKind.scoped_lock_eq (env : Env) (m : Impl) :
    LockKind.ScopedLock.lock env m = m.lock env := rfl

theorem LockKind.entryEvents_reports (k : LockKind) (m : Impl) :
    (k.entryEvents m).filter Event.isReport = [] := by
  cases k
  · rfl
  · by_cases h : m._state = .UNLOCKED <;> simp [LockKind.entryEvents, h, Event.isReport]

/-- What the observer saw during a contended `lock()` / `lockSharable()` that succeeds
at the attempt after `n` failed ones: one invocation per pass, the `j`-th with the total
`3 * j` as an unsigned 32-bit value. -/
theorem LockKind.lock_reports_after (k : LockKind) (env : Env) (m : Impl) (os : LockType)
    (n : Nat) (hq : env.isQuiet) (hmx : m._mutex = some os) (hst : m._state ≠ k._targetState)
    (hn : 1 ≤ n) (hos : ∀ j, j < n → os.outcome j = false) (hok : os.outcome n = true)
    (hT : maxLockWait env = 0 ∨ 3 * n < maxLockWait env) (hfuel : n ≤ env.passes) :
    (k.lock env m).2.reports = m.reports ++ (List.range n).map (fun j =>
      Event.waitForLock k._targetState (sec (initialLockWait * (j + 1))) initialLockWait
        (maxLockWait env)) := by
  rw [LockKind.lock_succeeds_after k env m os n hq hmx hst hn hos hok hT hfuel]
  obtain ⟨n1, rfl⟩ : ∃ n1, n = n1 + 1 := ⟨n - 1, by omega⟩
  have hef := LockKind.entered_facts k m os hst
  show List.filter Event.isReport ((k.entered m os).log ++ _) = _
  rw [hef.2.2.1, List.range_succ]
  simp only [List.filter_append, LockKind.entryEvents_reports, failedPasses_reports,
    Nat.add_sub_cancel, List.append_nil, List.map_append, List.map_cons, List.map_nil,
    Nat.zero_add, Impl.reports, List.append_assoc]
  have h3 : initialLockWait = 3 := rfl
  simp [List.filter, Event.isReport, h3]

/-- Counterexample to C14 as stated: with `ZYPP_MAX_LOCK_WAIT=0` and the default observer,
on a file that is released only after 1431655766 failed timed attempts, `lock()`
returns, but its last observer invocation gets the total 2 (the unsigned 32-bit total
`3 * 1431655766` wrapped around), so the totals are not `W, 2W, ..., kW`. -/
theorem C14_counterexample :
    (Env.unbounded 1431655766).isQuiet ∧
    maxLockWait (Env.unbounded 1431655766) = 0 ∧
    (∀ j, j < 1431655766 → (LockType.heldFor 1431655766).outcome j = false) ∧
    (LockType.heldFor 1431655766).outcome 1431655766 = true ∧
    Event.waitForLock .EXCLUSIVE_LOCK 2 3 0 ∈
      ((Impl.create "/var/run/zypp/common.lock" (LockType.heldFor 1431655766)).lock
        (Env.unbounded 1431655766)).2.reports ∧
    ((Impl.create "/var/run/zypp/common.lock" (LockType.heldFor 1431655766)).lock
        (Env.unbounded 1431655766)).2.reports ≠
      (List.range 1431655766).map (fun j =>
        Event.waitForLock .EXCLUSIVE_LOCK (initialLockWait * (j + 1)) 3 0) := by
  have hq : (Env.unbounded 1431655766).isQuiet := by
    intro i t total next timeout
    rfl
  have hT : maxLockWait (Env.unbounded 1431655766) = 0 := by
    simp [maxLockWait, Env.unbounded, sec]
  have hos : ∀ j, j < 1431655766 → (LockType.heldFor 1431655766).outcome j = false := by
    intro j hj
    simp only [LockType.heldFor, decide_eq_false_iff_not]
    omega
  have hok : (LockType.heldFor 1431655766).outcome 1431655766 = true := by
    simp [LockType.heldFor]
  have hr := LockKind.lock_reports_after .ScopedLock (Env.unbounded 1431655766)
    (Impl.create "/var/run/zypp/common.lock" (LockType.heldFor 1431655766))
    (LockType.heldFor 1431655766) 1431655766 hq rfl
    (by simp [Impl.create, LockKind._targetState]) (by omega) hos hok (Or.inl hT)
    (Nat.le_refl _)
  rw [LockKind.scoped_lock_eq, hT] at hr
  have hs : sec (initialLockWait * (1431655765 + 1)) = 2 := by
    norm_num [sec, initialLockWait]
  have hmem : Event.waitForLock .EXCLUSIVE_LOCK 2 3 0 ∈
      ((Impl.create "/var/run/zypp/common.lock" (LockType.heldFor 1431655766)).lock
        (Env.unbounded 1431655766)).2.reports := by
    rw [hr]
    apply List.mem_append_right
    apply List.mem_map.2
    refine ⟨1431655765, List.mem_range.2 (by omega), ?_⟩
    simp only [hs]
    rfl
  refine ⟨hq, hT, hos, hok, hmem, ?_⟩
  intro heq
  rw [heq] at hmem
  obtain ⟨j, _, hj⟩ := List.mem_map.1 hmem
  have h3 : initialLockWait = 3 := rfl
  rw [h3] at hj
  injection hj with _ h2
  omega

/-- C14 (amended). For every `n >= 1`: if the first `n` timed acquires of `lock()` (for
`ScopedLock`) or `lockSharable()` (for `SharableLock`) fail and the next one succeeds,
the observer always continues without changing `next` or `timeout`, and `n * W < T` or
`T == 0` (`W = 3`), then the call returns normally in the target state; the observer is
invoked exactly `n` times, the `j`-th time with the total `j * W` taken modulo `2^32`;
each invocation is followed by exactly one timed acquire (the log is the entry events,
`n - 1` passes of one invocation and one failed attempt, then one invocation and the
successful attempt). The totals are exactly `W, 2W, ..., nW` whenever `n * W < 2^32`,
which is always the case when `T != 0`. -/
theorem C14_observer_calls_until_success (k : LockKind) (env : Env) (m : Impl) (os : LockType)
    (n : Nat) (hq : env.isQuiet) (hmx : m._mutex = some os) (hst : m._state ≠ k._targetState)
    (hn : 1 ≤ n) (hos : ∀ j, j < n → os.outcome j = false) (hok : os.outcome n = true)
    (hT : initialLockWait * n < maxLockWait env ∨ maxLockWait env = 0)
    (hfuel : n ≤ env.passes) :
    (k.lock env m).1 = .returned () ∧
    (k.lock env m).2._state = k._targetState ∧
    (k.lock env m).2.reports = m.reports ++ (List.range n).map (fun j =>
      Event.waitForLock k._targetState (sec (initialLockWait * (j + 1))) initialLockWait
        (maxLockWait env)) ∧
    (k.lock env m).2.log = m.log ++ k.entryEvents m ++
      (failedPasses k._targetState initialLockWait (maxLockWait env) 0 (n - 1) ++
        [Event.waitForLock k._targetState (sec (initialLockWait * n)) initialLockWait
           (maxLockWait env),
         Event.os (timedCall k._targetState initialLockWait) true]) ∧
    (initialLockWait * n < 4294967296 →
      ∀ j, j < n → sec (initialLockWait * (j + 1)) = initialLockWait * (j + 1)) ∧
    (maxLockWait env ≠ 0 → initialLockWait * n < 4294967296) := by
  have h3 : initialLockWait = 3 := rfl
  have hlt := maxLockWait_lt env
  have hT1 : maxLockWait env = 0 ∨ 3 * n < maxLockWait env := by
    rw [h3] at hT
    omega
  have h := LockKind.lock_succeeds_after k env m os n hq hmx hst hn hos hok hT1 hfuel
  have hef := LockKind.entered_facts k m os hst
  refine ⟨by rw [h], by rw [h], ?_, ?_, ?_, ?_⟩
  · exact LockKind.lock_reports_after k env m os n hq hmx hst hn hos hok hT1 hfuel
  · rw [h]
    show (k.entered m os).log ++ _ = _
    rw [hef.2.2.1, h3]
  · intro hb j hj
    rw [h3] at hb ⊢
    apply sec_of_lt
    omega
  · intro h0
    rw [h3] at hT ⊢
    omega

/-- Witness for C14: the holder releases the file after seven seconds, so the first two
timed acquires fail and the third succeeds; two observer calls, at totals 3 and 6. -/
theorem C14_observer_calls_until_success_witness :
    (Impl.create "/var/run/zypp/common.lock" (LockType.heldFor 2)).reports = [] ∧
    ((Impl.create "/var/run/zypp/common.lock" (LockType.heldFor 2)).lock Env.quiet).1
      = .returned () ∧
    ((Impl.create "/var/run/zypp/common.lock" (LockType.heldFor 2)).lock Env.quiet).2.reports
      = [Event.waitForLock .EXCLUSIVE_LOCK 3 3 180, Event.waitForLock .EXCLUSIVE_LOCK 6 3 180] :=
  ⟨by decide,
   (C14_observer_calls_until_success .ScopedLock Env.quiet
      (Impl.create "/var/run/zypp/common.lock" (LockType.heldFor 2)) (LockType.heldFor 2) 2
      (fun _ _ _ _ _ => rfl) rfl (by decide) (by decide) (by decide) (by decide)
      (Or.inl (by decide)) (by decide)).1,
   ((C14_observer_calls_until_success .ScopedLock Env.quiet
      (Impl.create "/var/run/zypp/common.lock" (LockType.heldFor 2)) (LockType.heldFor 2) 2
      (fun _ _ _ _ _ => rfl) rfl (by decide) (by decide) (by decide) (by decide)
      (Or.inl (by decide)) (by decide)).2.2.1).trans (by decide)⟩

/-! ## Observers that change the wait -/

/-- While the timeout is 0 or above the total of the coming pass, and the observer keeps
it so, the wait loop does not raise lock-timeout, however many passes it makes. -/
theorem Impl.waitLoop_keepsAhead (t : State) (env : Env) (hk : env.keepsAhead) :
    ∀ (fuel i total next timeout : Nat) (m : Impl),
      (timeout = 0 ∨ sec (total + next) < timeout) →
      ∀ e, (m.waitLoop t env fuel i total next timeout).1
        ≠ .thrown (.InterProcessLockTimeoutException e) := by
  intro fuel
  induction fuel with
  | zero =>
    intro i total next timeout m _ e
    simp [Impl.waitLoop]
  | succ fuel ih =>
    intro i total next timeout m h0 e
    rw [Impl.waitLoop]
    simp only []
    have hno : ¬ (timeout ≠ 0 ∧ sec (total + next) ≥ timeout) := by omega
    rw [if_neg hno]
    split
    · simp
    · split
      · simp
      · exact ih _ _ _ _ _ (hk i t (sec (total + next)) next timeout) e

theorem LockKind.lock_keepsAhead (k : LockKind) (env : Env) (hk : env.keepsAhead)
    (hT : maxLockWait env = 0 ∨ initialLockWait < maxLockWait env) (m : Impl)
    (e : InterProcessLockException) :
    (k.lock env m).1 ≠ .thrown (.InterProcessLockTimeoutException e) := by
  have h3 : sec (0 + initialLockWait) = initialLockWait := rfl
  cases k
  · simp only [LockKind.lock, Impl.lockSharable]
    split
    · simp
    · exact Impl.waitLoop_keepsAhead _ env hk _ _ _ _ _ _ (by rw [h3]; exact hT) e
  · simp only [LockKind.lock, Impl.lock]
    split
    · simp
    · exact Impl.waitLoop_keepsAhead _ env hk _ _ _ _ _ _ (by rw [h3]; exact hT) e

theorem Env.extending_keepsAhead : Env.extending.keepsAhead := by
  intro i t total next timeout
  simp only [Env.extending, sec]
  omega

/-- One pass of the wait loop raises lock-timeout exactly when the timeout it is entered
with is not 0 and is reached by the total it computes; the exception carries that total
and that timeout, and nothing was done to the mutex. -/
theorem Impl.waitLoop_timeout_iff (t : State) (env : Env) (i total next timeout : Nat)
    (m : Impl) :
    ((∃ e, (m.waitLoop t env 1 i total next timeout).1
        = .thrown (.InterProcessLockTimeoutException e)) ↔
      (timeout ≠ 0 ∧ sec (total + next) ≥ timeout)) ∧
    (timeout ≠ 0 ∧ sec (total + next) ≥ timeout → ∀ fuel,
      m.waitLoop t env (fuel + 1) i total next timeout =
        (.thrown (.InterProcessLockTimeoutException ⟨t, sec (total + next), timeout⟩), m)) := by
  constructor
  · rw [Impl.waitLoop]
    simp only []
    by_cases hc : timeout ≠ 0 ∧ sec (total + next) ≥ timeout
    · rw [if_pos hc]
      exact ⟨fun _ => hc, fun _ => ⟨_, rfl⟩⟩
    · rw [if_neg hc]
      refine ⟨fun h => ?_, fun h => absurd h hc⟩
      obtain ⟨e, he⟩ := h
      exfalso
      revert he
      split
      · simp
      · split
        · simp
        · simp [Impl.waitLoop]
  · intro hc fuel
    rw [Impl.waitLoop]
    simp only []
    rw [if_pos hc]

/-- Counterexample to C15: an observer that at every invocation continues and raises the
timeout above the total it is handed (to `total + 2`) does not prevent lock-timeout. With
a maximum wait of four seconds on a file held for good, `lock()` asks the observer once
(total 3, timeout 4), gets timeout 5, and raises lock-timeout in the next pass, whose
total is 6. With a maximum wait of three seconds `lock()` raises lock-timeout before the
observer is asked at all. -/
theorem C15_counterexample :
    (∀ i t total next timeout,
      ((Env.raising 4).waitForLock i t total next timeout).1 = true ∧
      total < ((Env.raising 4).waitForLock i t total next timeout).2.2) ∧
    (Impl.heldFile.lock (Env.raising 4)).1
      = .thrown (.InterProcessLockTimeoutException ⟨.EXCLUSIVE_LOCK, 6, 5⟩) ∧
    (Impl.heldFile.lock (Env.raising 4)).2.reports
      = [Event.waitForLock .EXCLUSIVE_LOCK 3 3 4] ∧
    (Impl.heldFile.lock (Env.raising 3)).1
      = .thrown (.InterProcessLockTimeoutException ⟨.EXCLUSIVE_LOCK, 3, 3⟩) ∧
    (Impl.heldFile.lock (Env.raising 3)).2.reports = [] :=
  ⟨fun _ _ total _ _ => ⟨rfl, Nat.lt_add_of_pos_right (by decide)⟩,
   by decide, by decide, by decide, by decide⟩

/-- C15 (amended). In the wait loop of `lock()` (for `ScopedLock`) and `lockSharable()` (for
`SharableLock`), on a real mutex away from the target state, in a pass that does not
time out: if the observer sets `next := n` and `timeout := tt` and returns true, then the
timed acquire that follows at once waits `n` seconds; if it succeeds the loop returns in
the target state; if it fails the loop goes on with the new values, so the next pass
computes `total := total + n` (unsigned 32-bit) and raises lock-timeout iff `tt != 0` and
that total is at least `tt`. Hence with an observer that always leaves the timeout at 0
or above the total of the coming pass, `lock()` / `lockSharable()` never raise
lock-timeout, whatever the number of passes, provided the first pass is not timed out
before the observer is asked (maximum wait 0 or above the initial wait). -/
theorem C15_observer_writes_take_effect (k : LockKind) (env : Env)
    (fuel i total next timeout n tt : Nat) (m : Impl) (os : LockType)
    (hmx : m._mutex = some os) (hst : m._state ≠ k._targetState)
    (hno : ¬ (timeout ≠ 0 ∧ sec (total + next) ≥ timeout))
    (hobs : env.waitForLock i k._targetState (sec (total + next)) next timeout = (true, n, tt))
    (hn : sec n = n) (htt : sec tt = tt) :
    (os.outcome 0 = true →
      m.waitLoop k._targetState env (fuel + 1) i total next timeout =
        (.returned (),
          { m.afterAttempts os 1
              [Event.waitForLock k._targetState (sec (total + next)) next timeout,
               Event.os (timedCall k._targetState n) true]
            with _state := k._targetState })) ∧
    (os.outcome 0 = false →
      m.waitLoop k._targetState env (fuel + 1) i total next timeout =
        (m.afterAttempts os 1
            [Event.waitForLock k._targetState (sec (total + next)) next timeout,
             Event.os (timedCall k._targetState n) false]
          ).waitLoop k._targetState env fuel (i + 1) (sec (total + next)) n tt) ∧
    (∀ m1 : Impl,
      ((∃ e, (m1.waitLoop k._targetState env 1 (i + 1) (sec (total + next)) n tt).1
          = .thrown (.InterProcessLockTimeoutException e)) ↔
        (tt ≠ 0 ∧ sec (sec (total + next) + n) ≥ tt)) ∧
      (tt ≠ 0 ∧ sec (sec (total + next) + n) ≥ tt → ∀ fuel1,
        m1.waitLoop k._targetState env (fuel1 + 1) (i + 1) (sec (total + next)) n tt =
          (.thrown (.InterProcessLockTimeoutException
            ⟨k._targetState, sec (sec (total + next) + n), tt⟩), m1))) ∧
    (env.keepsAhead → (maxLockWait env = 0 ∨ initialLockWait < maxLockWait env) →
      ∀ (m0 : Impl) (e : InterProcessLockException),
        (k.lock env m0).1 ≠ .thrown (.InterProcessLockTimeoutException e)) := by
  have hp := Impl.waitLoop_pass k._targetState k.targetState_ne env fuel i total next timeout
    m os hmx hst
  rw [if_neg hno, hobs] at hp
  simp only [hn, htt] at hp
  rw [if_neg (by simp)] at hp
  refine ⟨fun ho => ?_, fun ho => ?_, fun m1 => ?_, fun hk hT m0 e => ?_⟩
  · rw [hp, if_pos ho]
  · rw [hp, if_neg (by rw [ho]; simp)]
  · exact Impl.waitLoop_timeout_iff k._targetState env (i + 1) (sec (total + next)) n tt m1
  · exact LockKind.lock_keepsAhead k env hk hT m0 e

/-- Witness for C15: a file held for good, five seconds of maximum wait, and an observer
that sets the timeout one second above the total of the coming pass. -/
theorem C15_observer_writes_take_effect_witness :
    (∀ (m0 : Impl) (e : InterProcessLockException),
      (LockKind.ScopedLock.lock Env.extending m0).1
        ≠ .thrown (.InterProcessLockTimeoutException e)) ∧
    (Impl.heldFile.lock Env.extending).1 = .waiting ∧
    (Impl.heldFile.lock (Env.quietFor 5)).1
      = .thrown (.InterProcessLockTimeoutException ⟨.EXCLUSIVE_LOCK, 6, 5⟩) :=
  ⟨(C15_observer_writes_take_effect .ScopedLock Env.extending 0 0 0 3 5 3 7 Impl.heldFile
      LockType.held rfl (by decide) (by decide) (by decide) (by decide) (by decide)).2.2.2
      Env.extending_keepsAhead (Or.inr (by decide)),
   by decide, by decide⟩

/-- With timeout 0 and an observer that never changes it, the wait loop does not raise
lock-timeout, however many passes it makes. -/
theorem Impl.waitLoop_zero_timeout (t : State) (env : Env) (hk : env.keepsTimeout) :
    ∀ (fuel i total next : Nat) (m : Impl) (e : InterProcessLockException),
      (m.waitLoop t env fuel i total next 0).1
        ≠ .thrown (.InterProcessLockTimeoutException e) := by
  intro fuel
  induction fuel with
  | zero =>
    intro i total next m e
    simp [Impl.waitLoop]
  | succ fuel ih =>
    intro i total next m e
    rw [Impl.waitLoop]
    simp only []
    rw [if_neg (by simp)]
    split
    · simp
    · split
      · simp
      · rw [hk i t (sec (total + next)) next 0]
        exact ih _ _ _ _ e

theorem LockKind.lock_zero_timeout (k : LockKind) (env : Env) (hk : env.keepsTimeout)
    (hz : maxLockWait env = 0) (m : Impl) (e : InterProcessLockException) :
    (k.lock env m).1 ≠ .thrown (.InterProcessLockTimeoutException e) := by
  cases k
  · simp only [LockKind.lock, Impl.lockSharable]
    split
    · simp
    · rw [hz]
      exact Impl.waitLoop_zero_timeout _ env hk _ _ _ _ _ e
  · simp only [LockKind.lock, Impl.lock]
    split
    · simp
    · rw [hz]
      exact Impl.waitLoop_zero_timeout _ env hk _ _ _ _ _ e

theorem LockKind.lock_thrown_kind (k : LockKind) (env : Env) (m : Impl) (e : Thrown)
    (h : (k.lock env m).1 = .thrown e) :
    (∃ x, e = .InterProcessLockTimeoutException x) ∨
    (∃ x, e = .InterProcessLockAbortException x) := by
  cases k
  · rcases Impl.lockSharable_thrown env m e h with ⟨x, hx, _⟩ | ⟨x, hx, _⟩
    · exact Or.inl ⟨x, hx⟩
    · exact Or.inr ⟨x, hx⟩
  · rcases Impl.lock_thrown env m e h with ⟨x, hx, _⟩ | ⟨x, hx, _⟩
    · exact Or.inl ⟨x, hx⟩
    · exact Or.inr ⟨x, hx⟩

/-- A contended `lock()` / `lockSharable()` with maximum wait 0 under an observer that
continues and changes nothing, while every timed attempt fails: each of the passes that
are explored invokes the observer and makes one more timed attempt, and the call is
still waiting after them. -/
theorem LockKind.lock_waits_on (k : LockKind) (env : Env) (m : Impl) (os : LockType)
    (hq : env.isQuiet) (hz : maxLockWait env = 0) (hmx : m._mutex = some os)
    (hst : m._state ≠ k._targetState) (hos : ∀ j, os.outcome j = false) :
    k.lock env m =
      (.waiting, (k.entered m os).afterAttempts (os.drop 1) env.passes
        (failedPasses k._targetState initialLockWait 0 0 env.passes)) := by
  have hef := LockKind.entered_facts k m os hst
  rw [LockKind.lock_entry k env m os hmx hst (hos 0), hz]
  have hp : env.passes = 0 + env.passes := by omega
  rw [hp, Impl.waitLoop_failed k._targetState k.targetState_ne env hq initialLockWait 0 rfl rfl
    env.passes 0 0 0 (k.entered m os) (os.drop 1) rfl hef.1 hef.2.1
    (fun j _ => hos (j + 1)) (fun j _ => by simp)]
  simp [Impl.waitLoop]

/-- C16. With maximum wait 0 (`ZYPP_MAX_LOCK_WAIT=0`) and an observer that never changes
`timeout_r`, `lock()` (for `ScopedLock`) and `lockSharable()` (for `SharableLock`) never
raise lock-timeout, whatever the number of passes and of failed acquires, and the only
exception they can raise is lock-abort. Each pass of the wait loop, entered after a failed
timed acquire with timeout 0, invokes the observer again and, unless it asks to give up,
makes another timed acquire; if that fails the loop goes on with timeout 0. With an
observer that always continues and a file that stays held, the call is still waiting
after any number of passes, with one observer call per pass. -/
theorem C16_no_timeout_with_zero_wait (k : LockKind) (env : Env) (m : Impl)
    (hz : maxLockWait env = 0) (hk : env.keepsTimeout) :
    (∀ e, (k.lock env m).1 ≠ .thrown (.InterProcessLockTimeoutException e)) ∧
    (∀ ex, (k.lock env m).1 = .thrown ex → ∃ e, ex = .InterProcessLockAbortException e) ∧
    (∀ (fuel i total next : Nat) (m1 : Impl) (os : LockType),
      m1._mutex = some os → m1._state ≠ k._targetState →
      m1.waitLoop k._targetState env (fuel + 1) i total next 0 =
        if (env.waitForLock i k._targetState (sec (total + next)) next 0).1 = false then
          (.thrown (.InterProcessLockAbortException ⟨k._targetState, sec (total + next), 0⟩),
            m1.logged [Event.waitForLock k._targetState (sec (total + next)) next 0])
        else if os.outcome 0 = true then
          (.returned (),
            { m1.afterAttempts os 1
                [Event.waitForLock k._targetState (sec (total + next)) next 0,
                 Event.os (timedCall k._targetState (sec (env.waitForLock i k._targetState
                   (sec (total + next)) next 0).2.1)) true]
              with _state := k._targetState })
        else
          (m1.afterAttempts os 1
              [Event.waitForLock k._targetState (sec (total + next)) next 0,
               Event.os (timedCall k._targetState (sec (env.waitForLock i k._targetState
                 (sec (total + next)) next 0).2.1)) false]
            ).waitLoop k._targetState env fuel (i + 1) (sec (total + next))
              (sec (env.waitForLock i k._targetState (sec (total + next)) next 0).2.1) 0) ∧
    (env.isQuiet → ∀ os, m._mutex = some os → m._state ≠ k._targetState →
      (∀ j, os.outcome j = false) →
      (k.lock env m).1 = .waiting ∧
      (k.lock env m).2.reports.length = m.reports.length + env.passes ∧
      (k.lock env m).2.log = m.log ++ k.entryEvents m ++
        failedPasses k._targetState initialLockWait 0 0 env.passes) := by
  refine ⟨fun e => LockKind.lock_zero_timeout k env hk hz m e, fun ex hex => ?_,
    fun fuel i total next m1 os hmx hst => ?_, fun hq os hmx hst hos => ?_⟩
  · rcases LockKind.lock_thrown_kind k env m ex hex with ⟨x, hx⟩ | ⟨x, hx⟩
    · rw [hx] at hex
      exact absurd hex (LockKind.lock_zero_timeout k env hk hz m x)
    · exact ⟨x, hx⟩
  · rw [Impl.waitLoop_pass k._targetState k.targetState_ne env fuel i total next 0 m1 os hmx hst,
      if_neg (by simp), hk i k._targetState (sec (total + next)) next 0]
    rfl
  · have h := LockKind.lock_waits_on k env m os hq hz hmx hst hos
    have hef := LockKind.entered_facts k m os hst
    refine ⟨by rw [h], ?_, ?_⟩
    · rw [h]
      show (List.filter Event.isReport ((k.entered m os).log ++ _)).length = _
      rw [hef.2.2.1]
      simp [List.filter_append, LockKind.entryEvents_reports, failedPasses_reports,
        Impl.reports]
    · rw [h]
      show (k.entered m os).log ++ _ = _
      rw [hef.2.2.1]

/-- Witness for C16: a file held for good, `ZYPP_MAX_LOCK_WAIT=0`, the default observer,
eight passes explored. -/
theorem C16_no_timeout_with_zero_wait_witness :
    maxLockWait (Env.unbounded 8) = 0 ∧
    (∀ e, (LockKind.ScopedLock.lock (Env.unbounded 8) Impl.heldFile).1
      ≠ .thrown (.InterProcessLockTimeoutException e)) ∧
    (Impl.heldFile.lock (Env.unbounded 8)).1 = .waiting ∧
    (Impl.heldFile.lock (Env.unbounded 8)).2.reports.length = 8 :=
  ⟨by decide,
   (C16_no_timeout_with_zero_wait .ScopedLock (Env.unbounded 8) Impl.heldFile (by decide)
      (fun _ _ _ _ _ => rfl)).1,
   by decide, by decide⟩

/-! ## Handles and the registry -/

theorem Process.modify_facts (p : Process) (a : Nat) (f : Instance → Instance) :
    (p.modify a f).heap.length = p.heap.length ∧
    (p.modify a f)._phoenixMap = p._phoenixMap ∧
    (∀ b, (p.modify a f).heap[b]? = if b = a then p.heap[b]?.map f else p.heap[b]?) := by
  unfold Process.modify
  rcases hc : p.heap[a]? with _ | c
  · refine ⟨rfl, rfl, fun b => ?_⟩
    by_cases hb : b = a
    · subst hb
      simp [hc]
    · simp [hb]
  · refine ⟨by simp, rfl, fun b => ?_⟩
    by_cases hb : b = a
    · subst hb
      have hlt : b < p.heap.length := by
        rcases Nat.lt_or_ge b p.heap.length with h | h
        · exact h
        · rw [List.getElem?_eq_none h] at hc
          cases hc
      simp [hc, List.getElem?_set, hlt]
    · have hab : ¬ a = b := fun h => hb h.symm
      simp [List.getElem?_set, hb, hab]

theorem Process.alloc_facts (p : Process) (m : Impl) :
    (p.alloc m).1 = p.heap.length ∧
    (p.alloc m).2.heap.length = p.heap.length + 1 ∧
    (p.alloc m).2._phoenixMap = p._phoenixMap ∧
    (p.alloc m).2.heap[p.heap.length]? = some ⟨m, 1⟩ ∧
    (∀ b, b < p.heap.length → (p.alloc m).2.heap[b]? = p.heap[b]?) := by
  refine ⟨rfl, by simp [Process.alloc], rfl, by simp [Process.alloc], fun b hb => ?_⟩
  simp [Process.alloc, List.getElem?_append_left, hb]

theorem Impl.fake_ops (secs : Nat) (m : Impl) (hf : m._mutex = none) :
    m.tryLock = (true, { m with _state := .EXCLUSIVE_LOCK }) ∧
    m.timedLock secs = (true, { m with _state := .EXCLUSIVE_LOCK }) ∧
    m.tryLockSharable = (true, { m with _state := .SHARED_LOCK }) ∧
    m.timedLockSharable secs = (true, { m with _state := .SHARED_LOCK }) ∧
    m.sleepLock = { m with _state := .EXCLUSIVE_LOCK } ∧
    m.sleepLockSharable = { m with _state := .SHARED_LOCK } ∧
    m.unlock = { m with _state := .UNLOCKED } ∧
    m.unlockSharable = { m with _state := .UNLOCKED } := by
  cases m
  simp only at hf
  subst hf
  refine ⟨?_, ?_, ?_, ?_, ?_, ?_, ?_, ?_⟩
  · simp only [Impl.tryLock, Impl.osTry]
    split
    · simp_all
    · rfl
  · simp only [Impl.timedLock, Impl.osTry]
    split
    · simp_all
    · rfl
  · simp only [Impl.tryLockSharable, Impl.osTry]
    split
    · simp_all
    · rfl
  · simp only [Impl.timedLockSharable, Impl.osTry]
    split
    · simp_all
    · rfl
  · simp only [Impl.sleepLock, Impl.osCall]
    split
    · rfl
    · simp_all
  · simp only [Impl.sleepLockSharable, Impl.osCall]
    split
    · rfl
    · simp_all
  · simp only [Impl.unlock, Impl.osCall]
    split
    · rfl
    · simp_all
  · simp only [Impl.unlockSharable, Impl.osCall]
    split
    · rfl
    · simp_all

theorem Impl.fake_lock (env : Env) (m : Impl) (hf : m._mutex = none) :
    m.lock env = (.returned (), { m with _state := .EXCLUSIVE_LOCK }) ∧
    m.lockSharable env = (.returned (), { m with _state := .SHARED_LOCK }) := by
  have h := Impl.fake_ops initialLockWait m hf
  constructor
  · simp only [Impl.lock, h.2.1]
  · simp only [Impl.lockSharable, h.2.2.2.1]

theorem InterProcessMutex.fake_constructed (p : Process) (os : LockType) :
    (InterProcessMutex.ofFakeLock p).1.impl (InterProcessMutex.ofFakeLock p).2
      = some Impl.fake ∧
    (InterProcessMutex.ofPath fakeLockPath os p).1.impl
      (InterProcessMutex.ofPath fakeLockPath os p).2 = some Impl.fake := by
  have ha := Process.alloc_facts p Impl.fake
  constructor
  · simp only [InterProcessMutex.ofFakeLock, InterProcessMutex.impl]
    rw [ha.1, ha.2.2.2.1]
    rfl
  · simp only [InterProcessMutex.ofPath, ne_eq, not_true_eq_false, if_false,
      InterProcessMutex.impl]
    rw [ha.1, ha.2.2.2.1]
    rfl

/-- C18. A fake mutex is what `InterProcessMutex( fakeLock )` and
`InterProcessMutex( "/<fakelock>" )` construct: an implementation without a primitive
whose path is the fake-lock path, and every mutex operation keeps it so. For such a
mutex, in every state: `tryLock`, `timedLock`, `tryLockSharable` and `timedLockSharable`
return true; `lock`, `sleepLock`, `lockSharable` and `sleepLockSharable` return without
raising; each leaves the mutex in its target state and changes nothing else, so the log
gets no call on an OS primitive and no observer invocation; `unlock` and
`unlockSharable` log nothing either; and `isFakeLock()` is true. -/
theorem C18_fake_mutex_operations (env : Env) (secs : Nat) (p : Process) (os : LockType)
    (m : Impl) (hf : m._mutex = none) (hp : m._mutexFile = fakeLockPath) :
    ((InterProcessMutex.ofFakeLock p).1.impl (InterProcessMutex.ofFakeLock p).2
        = some Impl.fake ∧
      (InterProcessMutex.ofPath fakeLockPath os p).1.impl
        (InterProcessMutex.ofPath fakeLockPath os p).2 = some Impl.fake ∧
      (InterProcessMutex.ofFakeLock p).1.isFakeLock (InterProcessMutex.ofFakeLock p).2
        = some true ∧
      (InterProcessMutex.ofPath fakeLockPath os p).1.isFakeLock
        (InterProcessMutex.ofPath fakeLockPath os p).2 = some true ∧
      Impl.fake._mutex = none ∧ Impl.fake._mutexFile = fakeLockPath) ∧
    (∀ (env1 : Env) (o : MutexOp),
      (o.apply env1 m)._mutex = none ∧ (o.apply env1 m)._mutexFile = fakeLockPath) ∧
    (m.tryLock = (true, { m with _state := .EXCLUSIVE_LOCK }) ∧
      m.timedLock secs = (true, { m with _state := .EXCLUSIVE_LOCK }) ∧
      m.tryLockSharable = (true, { m with _state := .SHARED_LOCK }) ∧
      m.timedLockSharable secs = (true, { m with _state := .SHARED_LOCK })) ∧
    (m.lock env = (.returned (), { m with _state := .EXCLUSIVE_LOCK }) ∧
      m.sleepLock = { m with _state := .EXCLUSIVE_LOCK } ∧
      m.lockSharable env = (.returned (), { m with _state := .SHARED_LOCK }) ∧
      m.sleepLockSharable = { m with _state := .SHARED_LOCK }) ∧
    (∀ (env1 : Env) (o : MutexOp), (o.apply env1 m).log = m.log) ∧
    ((m.lock env).2.osCalls = m.osCalls ∧ (m.lock env).2.reports = m.reports ∧
      (m.lockSharable env).2.osCalls = m.osCalls ∧
      (m.lockSharable env).2.reports = m.reports) ∧
    m.isFakeLock = true := by
  have hc := InterProcessMutex.fake_constructed p os
  have ho := Impl.fake_ops secs m hf
  have hl := Impl.fake_lock env m hf
  refine ⟨⟨hc.1, hc.2, ?_, ?_, rfl, rfl⟩, fun env1 o => ?_, ⟨ho.1, ho.2.1, ho.2.2.1, ho.2.2.2.1⟩,
    ⟨hl.1, ho.2.2.2.2.1, hl.2, ho.2.2.2.2.2.1⟩, fun env1 o => ?_,
    ⟨by rw [hl.1]; rfl, by rw [hl.1]; rfl, by rw [hl.2]; rfl, by rw [hl.2]; rfl⟩,
    by simp [Impl.isFakeLock, hp]⟩
  · simp only [InterProcessMutex.isFakeLock, hc.1]
    rfl
  · simp only [InterProcessMutex.isFakeLock, hc.2]
    rfl
  · have hfr := MutexOp.frame env1 o m
    refine ⟨?_, hfr.file.trans hp⟩
    have h1 := hfr.prim
    rw [hf] at h1
    rcases h2 : (o.apply env1 m)._mutex with _ | x
    · rfl
    · rw [h2] at h1
      cases h1
  · have ho1 := fun s => Impl.fake_ops s m hf
    have hl1 := Impl.fake_lock env1 m hf
    cases o with
    | lock => simp only [MutexOp.apply, hl1.1]
    | sleepLock => simp only [MutexOp.apply, (ho1 0).2.2.2.2.1]
    | tryLock => simp only [MutexOp.apply, (ho1 0).1]
    | timedLock s => simp only [MutexOp.apply, (ho1 s).2.1]
    | unlock => simp only [MutexOp.apply, (ho1 0).2.2.2.2.2.2.1]
    | lockSharable => simp only [MutexOp.apply, hl1.2]
    | sleepLockSharable => simp only [MutexOp.apply, (ho1 0).2.2.2.2.2.1]
    | tryLockSharable => simp only [MutexOp.apply, (ho1 0).2.2.1]
    | timedLockSharable s => simp only [MutexOp.apply, (ho1 s).2.2.2.1]
    | unlockSharable => simp only [MutexOp.apply, (ho1 0).2.2.2.2.2.2.2]

/-- Witness for C18: the mutex that `InterProcessMutex( fakeLock )` constructs. -/
theorem C18_fake_mutex_operations_witness :
    Impl.fake.tryLock.1 = true ∧ (Impl.fake.lock Env.giveUp).1 = .returned () ∧
    (Impl.fake.lock Env.giveUp).2._state = .EXCLUSIVE_LOCK ∧
    (Impl.fake.lock Env.giveUp).2.log = [] ∧ Impl.fake.isFakeLock = true :=
  ⟨by decide, by decide, by decide, by decide,
   (C18_fake_mutex_operations Env.giveUp 3 Process.start LockType.free Impl.fake rfl rfl).2.2.2.2.2.2⟩

theorem Process.use_count_modify_ne (p : Process) (a b : Nat) (f : Instance → Instance)
    (h : a ≠ b) : (p.modify b f).use_count a = p.use_count a := by
  simp only [Process.use_count, (Process.modify_facts p b f).2.2 a, if_neg h]

theorem Process.use_count_modify_self (p : Process) (a : Nat) (f : Instance → Instance) :
    (p.modify a f).use_count a =
      match p.heap[a]? with
      | some c => (f c).use_count
      | none => 0 := by
  simp only [Process.use_count, (Process.modify_facts p a f).2.2 a, if_true]
  rcases p.heap[a]? with _ | c <;> rfl

theorem Process.use_count_alloc (p : Process) (m : Impl) (a : Nat) (h : a < p.heap.length) :
    (p.alloc m).2.use_count a = p.use_count a := by
  simp only [Process.use_count, (Process.alloc_facts p m).2.2.2.2 a h]

theorem Process.use_count_pos (p : Process) (a : Nat) (h : 0 < p.use_count a) :
    a < p.heap.length := by
  rcases Nat.lt_or_ge a p.heap.length with h1 | h1
  · exact h1
  · simp [Process.use_count, List.getElem?_eq_none h1] at h

theorem Process.weakLock_some (p : Process) (key : String) (a : Nat)
    (h : p.weakLock key = some a) :
    p._phoenixMap.lookup key = some a ∧ 0 < p.use_count a := by
  unfold Process.weakLock at h
  rcases hl : p._phoenixMap.lookup key with _ | b
  · rw [hl] at h
    cases h
  · rw [hl] at h
    simp only at h
    by_cases hb : 0 < p.use_count b
    · rw [if_pos hb] at h
      injection h with h
      subst h
      exact ⟨rfl, hb⟩
    · rw [if_neg hb] at h
      cases h

theorem Process.weakLock_of_alive (p : Process) (key : String) (a : Nat)
    (hl : p._phoenixMap.lookup key = some a) (ha : 0 < p.use_count a) :
    p.weakLock key = some a := by
  simp [Process.weakLock, hl, ha]

/-- What `PhoenixMap::get` does: either the path's entry watches an implementation that
is still owned, which is returned with one more owner while the map stays as it is; or a
new implementation for the path is created at a fresh address and entered for the path. -/
theorem PhoenixMap.get_cases (key : String) (os : LockType) (p : Process) :
    (∃ a, p.weakLock key = some a ∧ (PhoenixMap.get key os p).1 = a ∧
      (PhoenixMap.get key os p).2
        = p.modify a (fun c => { c with use_count := c.use_count + 1 })) ∨
    (p.weakLock key = none ∧ (PhoenixMap.get key os p).1 = p.heap.length ∧
      (PhoenixMap.get key os p).2.heap = p.heap ++ [⟨Impl.create key os, 1⟩] ∧
      (PhoenixMap.get key os p).2._phoenixMap = (key, p.heap.length) :: p._phoenixMap) := by
  unfold PhoenixMap.get
  rcases hw : p.weakLock key with _ | a
  · exact Or.inr ⟨rfl, rfl, rfl, rfl⟩
  · exact Or.inl ⟨a, rfl, rfl, rfl⟩

theorem PhoenixMap.get_facts (key : String) (os : LockType) (p : Process) (a : Nat)
    (path : String) (ha : a < p.heap.length) :
    p.heap.length ≤ (PhoenixMap.get key os p).2.heap.length ∧
    (p.use_count a = 0 → (PhoenixMap.get key os p).2.use_count a = 0) ∧
    (p._phoenixMap.lookup path = some a → 0 < p.use_count a →
      (PhoenixMap.get key os p).2._phoenixMap.lookup path = some a) := by
  rcases PhoenixMap.get_cases key os p with ⟨b, hw, _, h2⟩ | ⟨hw, _, hheap, hmap⟩
  · have hb := Process.weakLock_some p key b hw
    rw [h2]
    have hm := Process.modify_facts p b (fun c => { c with use_count := c.use_count + 1 })
    refine ⟨by rw [hm.1], fun h0 => ?_, fun hl _ => by rw [hm.2.1]; exact hl⟩
    have hab : a ≠ b := by
      intro h
      subst h
      omega
    rw [Process.use_count_modify_ne p a b _ hab]
    exact h0
  · refine ⟨by rw [hheap]; simp, fun h0 => ?_, fun hl hpos => ?_⟩
    · simp only [Process.use_count, hheap, List.getElem?_append_left ha]
      exact h0
    · rw [hmap]
      by_cases hk : path = key
      · subst hk
        rw [Process.weakLock_of_alive p path a hl hpos] at hw
        cases hw
      · rw [List.lookup_cons]
        have hne : (path == key) = false := by simpa using hk
        rw [hne]
        exact hl

theorem ProcessOp.apply_facts (o : ProcessOp) (p : Process) (a : Nat) (path : String)
    (ha : a < p.heap.length) :
    p.heap.length ≤ (o.apply p).heap.length ∧
    (p.use_count a = 0 → (o.apply p).use_count a = 0) ∧
    (p._phoenixMap.lookup path = some a → 0 < p.use_count a →
      (o.apply p)._phoenixMap.lookup path = some a) := by
  have hfake : ∀ m : Impl, p.heap.length ≤ (p.alloc m).2.heap.length ∧
      (p.use_count a = 0 → (p.alloc m).2.use_count a = 0) ∧
      (p._phoenixMap.lookup path = some a → 0 < p.use_count a →
        (p.alloc m).2._phoenixMap.lookup path = some a) := by
    intro m
    have hal := Process.alloc_facts p m
    refine ⟨by rw [hal.2.1]; omega, fun h0 => ?_, fun hl _ => by rw [hal.2.2.1]; exact hl⟩
    rw [Process.use_count_alloc p m a ha]
    exact h0
  cases o with
  | construct path_r os =>
    simp only [ProcessOp.apply, InterProcessMutex.ofPath]
    by_cases hp : path_r ≠ fakeLockPath
    · rw [if_pos hp]
      exact PhoenixMap.get_facts path_r os p a path ha
    · rw [if_neg hp]
      exact hfake Impl.fake
  | constructFake => exact hfake Impl.fake
  | copy h =>
    simp only [ProcessOp.apply, InterProcessMutex.copy]
    rcases h with ⟨_ | b⟩
    · exact ⟨Nat.le_refl _, id, fun hl _ => hl⟩
    · simp only
      by_cases hb : 0 < p.use_count b
      · rw [if_pos hb]
        have hm := Process.modify_facts p b (fun c => { c with use_count := c.use_count + 1 })
        refine ⟨by rw [hm.1], fun h0 => ?_, fun hl _ => by rw [hm.2.1]; exact hl⟩
        have hab : a ≠ b := by
          intro h
          subst h
          omega
        rw [Process.use_count_modify_ne p a b _ hab]
        exact h0
      · rw [if_neg hb]
        exact ⟨Nat.le_refl _, id, fun hl _ => hl⟩
  | destroy h =>
    simp only [ProcessOp.apply, InterProcessMutex.destroy]
    rcases h with ⟨_ | b⟩
    · exact ⟨Nat.le_refl _, id, fun hl _ => hl⟩
    · simp only
      have hm := Process.modify_facts p b (fun c => { c with use_count := c.use_count - 1 })
      refine ⟨by rw [hm.1], fun h0 => ?_, fun hl _ => by rw [hm.2.1]; exact hl⟩
      by_cases hab : a = b
      · subst hab
        rw [Process.use_count_modify_self]
        unfold Process.use_count at h0
        rcases hc : p.heap[a]? with _ | c
        · rfl
        · have h1 : c.use_count = 0 := by
            rw [hc] at h0
            exact h0
          show c.use_count - 1 = 0
          omega
      · rw [Process.use_count_modify_ne p a b _ hab]
        exact h0
  | perform h f =>
    simp only [ProcessOp.apply, InterProcessMutex.perform]
    rcases h with ⟨_ | b⟩
    · exact ⟨Nat.le_refl _, id, fun hl _ => hl⟩
    · simp only
      have hm := Process.modify_facts p b (fun c => { c with impl := f c.impl })
      refine ⟨by rw [hm.1], fun h0 => ?_, fun hl _ => by rw [hm.2.1]; exact hl⟩
      by_cases hab : a = b
      · subst hab
        rw [Process.use_count_modify_self]
        unfold Process.use_count at h0
        rcases hc : p.heap[a]? with _ | c
        · rfl
        · rw [hc] at h0
          exact h0
      · rw [Process.use_count_modify_ne p a b _ hab]
        exact h0

/-- An implementation that no handle owns any more stays so, whatever the process does. -/
theorem Process.run_dead (ops : List ProcessOp) :
    ∀ (p : Process) (a : Nat), a < p.heap.length → p.use_count a = 0 →
      (p.run ops).use_count a = 0 := by
  induction ops with
  | nil =>
    intro p a _ h0
    exact h0
  | cons o rest ih =>
    intro p a ha h0
    have hf := ProcessOp.apply_facts o p a "" ha
    exact ih (o.apply p) a (by omega) (hf.2.1 h0)

/-- While the implementation that the entry of a path watches is owned by some handle
after the steps of the process, the entry has not changed. -/
theorem Process.run_entry (ops : List ProcessOp) :
    ∀ (p : Process) (a : Nat) (path : String), a < p.heap.length →
      p._phoenixMap.lookup path = some a → 0 < (p.run ops).use_count a →
      (p.run ops)._phoenixMap.lookup path = some a := by
  induction ops with
  | nil =>
    intro p a path _ hl _
    exact hl
  | cons o rest ih =>
    intro p a path ha hl hpos
    have hf := ProcessOp.apply_facts o p a path ha
    have halive : 0 < p.use_count a := by
      rcases Nat.eq_zero_or_pos (p.use_count a) with h0 | h0
      · have := Process.run_dead rest (o.apply p) a (by omega) (hf.2.1 h0)
        have e : p.run (o :: rest) = (o.apply p).run rest := rfl
        rw [e, this] at hpos
        omega
      · exact h0
    exact ih (o.apply p) a path (by omega) (hf.2.2 hl halive) hpos

/-- After `PhoenixMap::get` the entry of the path watches the address returned, which is
on the heap. -/
theorem PhoenixMap.get_entry (key : String) (os : LockType) (p : Process) :
    (PhoenixMap.get key os p).1 < (PhoenixMap.get key os p).2.heap.length ∧
    (PhoenixMap.get key os p).2._phoenixMap.lookup key = some (PhoenixMap.get key os p).1 := by
  rcases PhoenixMap.get_cases key os p with ⟨b, hw, h1, h2⟩ | ⟨hw, h1, hheap, hmap⟩
  · have hb := Process.weakLock_some p key b hw
    have hm := Process.modify_facts p b (fun c => { c with use_count := c.use_count + 1 })
    rw [h1, h2, hm.1, hm.2.1]
    exact ⟨Process.use_count_pos p b hb.2, hb.1⟩
  · rw [h1, hheap, hmap]
    refine ⟨by simp, ?_⟩
    rw [List.lookup_cons]
    simp

/-- A second `PhoenixMap::get` for a path whose entry watches an owned implementation
returns that address, creates nothing and leaves the implementation as it is. -/
theorem PhoenixMap.get_reuse (key : String) (os : LockType) (p : Process) (a : Nat)
    (hl : p._phoenixMap.lookup key = some a) (ha : 0 < p.use_count a) :
    (PhoenixMap.get key os p).1 = a ∧
    (PhoenixMap.get key os p).2.heap.length = p.heap.length ∧
    (PhoenixMap.get key os p).2._phoenixMap = p._phoenixMap ∧
    (PhoenixMap.get key os p).2.use_count a = p.use_count a + 1 ∧
    (∀ b : Nat, ((PhoenixMap.get key os p).2.heap[b]?).map Instance.impl
      = (p.heap[b]?).map Instance.impl) := by
  have hw := Process.weakLock_of_alive p key a hl ha
  rcases PhoenixMap.get_cases key os p with ⟨b, hw1, h1, h2⟩ | ⟨hw1, _, _, _⟩
  · rw [hw] at hw1
    injection hw1 with hw1
    subst hw1
    have hm := Process.modify_facts p a (fun c => { c with use_count := c.use_count + 1 })
    rw [h1, h2]
    refine ⟨rfl, hm.1, hm.2.1, ?_, fun b => ?_⟩
    · rw [Process.use_count_modify_self]
      unfold Process.use_count at ha ⊢
      rcases hc : p.heap[a]? with _ | c
      · rw [hc] at ha
        exact absurd ha (by decide)
      · rfl
    · rw [hm.2.2 b]
      by_cases hb : b = a
      · rw [if_pos hb]
        rcases p.heap[b]? with _ | c <;> rfl
      · rw [if_neg hb]
  · rw [hw] at hw1
    cases hw1

/-- An operation carried out through a handle is seen through every handle with the same
address and through no other handle. -/
theorem InterProcessMutex.impl_perform (h1 h2 : InterProcessMutex) (f : Impl → Impl)
    (p : Process) (hb : h1.toBool = true) :
    h2.impl (h1.perform f p) = if h2 = h1 then (h2.impl p).map f else h2.impl p := by
  rcases h1 with ⟨_ | a⟩
  · cases hb
  · rcases h2 with ⟨_ | b⟩
    · simp [InterProcessMutex.impl]
    · have hm := Process.modify_facts p a (fun c => { c with impl := f c.impl })
      simp only [InterProcessMutex.impl, InterProcessMutex.perform, hm.2.2 b]
      by_cases hab : b = a
      · subst hab
        simp only [if_true]
        rcases p.heap[b]? with _ | c <;> rfl
      · have hne : ¬ (⟨some b⟩ : InterProcessMutex) = ⟨some a⟩ := by
          intro h
          injection h with h
          injection h with h
          exact hab h
        rw [if_neg hab, if_neg hne]

/-- Every entry of the registry of a running process watches an address on the heap. -/
theorem Process.run_entries (ops : List ProcessOp) :
    ∀ (p : Process), (∀ key a, p._phoenixMap.lookup key = some a → a < p.heap.length) →
      ∀ key a, (p.run ops)._phoenixMap.lookup key = some a → a < (p.run ops).heap.length := by
  induction ops with
  | nil =>
    intro p h
    exact h
  | cons o rest ih =>
    intro p h
    apply ih (o.apply p)
    intro key a hl
    have hget : ∀ path os, (PhoenixMap.get path os p).2._phoenixMap.lookup key = some a →
        a < (PhoenixMap.get path os p).2.heap.length := by
      intro path os hl1
      rcases PhoenixMap.get_cases path os p with ⟨b, _, _, h2⟩ | ⟨_, _, hheap, hmap⟩
      · have hm := Process.modify_facts p b (fun c => { c with use_count := c.use_count + 1 })
        rw [h2, hm.2.1] at hl1
        rw [h2, hm.1]
        exact h key a hl1
      · rw [hmap, List.lookup_cons] at hl1
        rw [hheap]
        simp only [List.length_append, List.length_singleton]
        rcases hk : (key == path) with _ | _
        · rw [hk] at hl1
          have := h key a hl1
          omega
        · rw [hk] at hl1
          injection hl1 with hl1
          omega
    have hfake : (p.alloc Impl.fake).2._phoenixMap.lookup key = some a →
        a < (p.alloc Impl.fake).2.heap.length := by
      intro hl1
      have hal := Process.alloc_facts p Impl.fake
      rw [hal.2.2.1] at hl1
      rw [hal.2.1]
      have := h key a hl1
      omega
    cases o with
    | construct path_r os =>
      simp only [ProcessOp.apply, InterProcessMutex.ofPath] at hl ⊢
      by_cases hp : path_r ≠ fakeLockPath
      · rw [if_pos hp] at hl ⊢
        exact hget path_r os hl
      · rw [if_neg hp] at hl ⊢
        exact hfake hl
    | constructFake => exact hfake hl
    | copy hd =>
      simp only [ProcessOp.apply, InterProcessMutex.copy] at hl ⊢
      rcases hd with ⟨_ | b⟩
      · exact h key a hl
      · simp only at hl ⊢
        by_cases hb : 0 < p.use_count b
        · rw [if_pos hb] at hl ⊢
          have hm := Process.modify_facts p b (fun c => { c with use_count := c.use_count + 1 })
          rw [hm.2.1] at hl
          rw [hm.1]
          exact h key a hl
        · rw [if_neg hb] at hl ⊢
          exact h key a hl
    | destroy hd =>
      simp only [ProcessOp.apply, InterProcessMutex.destroy] at hl ⊢
      rcases hd with ⟨_ | b⟩
      · exact h key a hl
      · simp only at hl ⊢
        have hm := Process.modify_facts p b (fun c => { c with use_count := c.use_count - 1 })
        rw [hm.2.1] at hl
        rw [hm.1]
        exact h key a hl
    | perform hd f =>
      simp only [ProcessOp.apply, InterProcessMutex.perform] at hl ⊢
      rcases hd with ⟨_ | b⟩
      · exact h key a hl
      · simp only at hl ⊢
        have hm := Process.modify_facts p b (fun c => { c with impl := f c.impl })
        rw [hm.2.1] at hl
        rw [hm.1]
        exact h key a hl

theorem ProcessOp.apply_length (o : ProcessOp) (p : Process) :
    p.heap.length ≤ (o.apply p).heap.length := by
  have hfake : p.heap.length ≤ (p.alloc Impl.fake).2.heap.length := by
    rw [(Process.alloc_facts p Impl.fake).2.1]
    omega
  have hmod : ∀ b f, p.heap.length ≤ (p.modify b f).heap.length := by
    intro b f
    rw [(Process.modify_facts p b f).1]
  cases o with
  | construct path_r os =>
    simp only [ProcessOp.apply, InterProcessMutex.ofPath]
    by_cases hp : path_r ≠ fakeLockPath
    · rw [if_pos hp]
      rcases PhoenixMap.get_cases path_r os p with ⟨b, _, _, h2⟩ | ⟨_, _, hheap, _⟩
      · rw [h2]
        exact hmod _ _
      · rw [hheap]
        simp
    · rw [if_neg hp]
      exact hfake
  | constructFake => exact hfake
  | copy h =>
    simp only [ProcessOp.apply, InterProcessMutex.copy]
    rcases h with ⟨_ | b⟩
    · exact Nat.le_refl _
    · simp only
      split
      · exact hmod _ _
      · exact Nat.le_refl _
  | destroy h =>
    simp only [ProcessOp.apply, InterProcessMutex.destroy]
    rcases h with ⟨_ | b⟩
    · exact Nat.le_refl _
    · exact hmod _ _
  | perform h f =>
    simp only [ProcessOp.apply, InterProcessMutex.perform]
    rcases h with ⟨_ | b⟩
    · exact Nat.le_refl _
    · exact hmod _ _

theorem Process.run_length (ops : List ProcessOp) :
    ∀ p : Process, p.heap.length ≤ (p.run ops).heap.length := by
  induction ops with
  | nil =>
    intro p
    exact Nat.le_refl _
  | cons o rest ih =>
    intro p
    exact Nat.le_trans (ProcessOp.apply_length o p) (ih (o.apply p))

theorem InterProcessMutex.ofFakeLock_facts (q : Process) (os : LockType) :
    InterProcessMutex.ofPath fakeLockPath os q = InterProcessMutex.ofFakeLock q ∧
    (InterProcessMutex.ofFakeLock q).1 = ⟨some q.heap.length⟩ ∧
    (InterProcessMutex.ofFakeLock q).2._phoenixMap = q._phoenixMap ∧
    (InterProcessMutex.ofFakeLock q).2.heap.length = q.heap.length + 1 := by
  refine ⟨?_, rfl, rfl, (Process.alloc_facts q Impl.fake).2.1⟩
  simp [InterProcessMutex.ofPath, InterProcessMutex.ofFakeLock]

/-- C19. Registry identity. Two `InterProcessMutex` constructions with the same non-fake
path, the second made after any steps of the process that leave a handle to the first
one's implementation alive, yield handles to one implementation: the second handle
equals the first, nothing is created, the implementation is as it was, and an operation
carried out through either handle is seen through the other. Constructions with
`fakeLock` and with the fake-lock path are the same thing; they leave `_phoenixMap` as it
is, return a fresh address that no entry of the registry of a running process watches,
two of them never return the same handle, and an operation carried out through one is
not seen through the other. -/
theorem C19_registry_identity (p : Process) (path : String) (os1 os2 : LockType)
    (ops : List ProcessOp) (hp : path ≠ fakeLockPath)
    (halive : 0 < (InterProcessMutex.ofPath path os1 p).1.use_count
      ((InterProcessMutex.ofPath path os1 p).2.run ops)) :
    ((InterProcessMutex.ofPath path os2 ((InterProcessMutex.ofPath path os1 p).2.run ops)).1
        = (InterProcessMutex.ofPath path os1 p).1 ∧
      (InterProcessMutex.ofPath path os1 p).1.toBool = true ∧
      (InterProcessMutex.ofPath path os2
          ((InterProcessMutex.ofPath path os1 p).2.run ops)).2.heap.length
        = ((InterProcessMutex.ofPath path os1 p).2.run ops).heap.length ∧
      (InterProcessMutex.ofPath path os1 p).1.impl
          (InterProcessMutex.ofPath path os2 ((InterProcessMutex.ofPath path os1 p).2.run ops)).2
        = (InterProcessMutex.ofPath path os1 p).1.impl
            ((InterProcessMutex.ofPath path os1 p).2.run ops) ∧
      (∀ (f : Impl → Impl) (q : Process),
        (InterProcessMutex.ofPath path os2
            ((InterProcessMutex.ofPath path os1 p).2.run ops)).1.impl
          ((InterProcessMutex.ofPath path os1 p).1.perform f q)
        = ((InterProcessMutex.ofPath path os2
            ((InterProcessMutex.ofPath path os1 p).2.run ops)).1.impl q).map f) ∧
      (∀ (f : Impl → Impl) (q : Process),
        (InterProcessMutex.ofPath path os1 p).1.impl
          ((InterProcessMutex.ofPath path os2
            ((InterProcessMutex.ofPath path os1 p).2.run ops)).1.perform f q)
        = ((InterProcessMutex.ofPath path os1 p).1.impl q).map f)) ∧
    (∀ (q : Process) (os : LockType) (ops1 : List ProcessOp),
      InterProcessMutex.ofPath fakeLockPath os q = InterProcessMutex.ofFakeLock q ∧
      (InterProcessMutex.ofFakeLock q).2._phoenixMap = q._phoenixMap ∧
      (InterProcessMutex.ofFakeLock q).1 = ⟨some q.heap.length⟩ ∧
      (InterProcessMutex.ofFakeLock ((InterProcessMutex.ofFakeLock q).2.run ops1)).1
        ≠ (InterProcessMutex.ofFakeLock q).1 ∧
      (∀ (f : Impl → Impl) (q1 : Process),
        (InterProcessMutex.ofFakeLock ((InterProcessMutex.ofFakeLock q).2.run ops1)).1.impl
          ((InterProcessMutex.ofFakeLock q).1.perform f q1)
        = (InterProcessMutex.ofFakeLock ((InterProcessMutex.ofFakeLock q).2.run ops1)).1.impl q1) ∧
      (∀ (f : Impl → Impl) (q1 : Process),
        (InterProcessMutex.ofFakeLock q).1.impl
          ((InterProcessMutex.ofFakeLock ((InterProcessMutex.ofFakeLock q).2.run ops1)).1.perform
            f q1)
        = (InterProcessMutex.ofFakeLock q).1.impl q1)) ∧
    (∀ (ops0 : List ProcessOp) (key : String),
      (InterProcessMutex.ofFakeLock (Process.start.run ops0)).2._phoenixMap.lookup key
        ≠ (InterProcessMutex.ofFakeLock (Process.start.run ops0)).1._pimpl) := by
  have h1 : InterProcessMutex.ofPath path os1 p
      = (⟨some (PhoenixMap.get path os1 p).1⟩, (PhoenixMap.get path os1 p).2) := by
    simp [InterProcessMutex.ofPath, hp]
  have h2 : ∀ q, InterProcessMutex.ofPath path os2 q
      = (⟨some (PhoenixMap.get path os2 q).1⟩, (PhoenixMap.get path os2 q).2) := by
    intro q
    simp [InterProcessMutex.ofPath, hp]
  rw [h1] at halive ⊢
  simp only [h2]
  have he := PhoenixMap.get_entry path os1 p
  have hl := Process.run_entry ops (PhoenixMap.get path os1 p).2 (PhoenixMap.get path os1 p).1
    path he.1 he.2 halive
  have hr := PhoenixMap.get_reuse path os2 ((PhoenixMap.get path os1 p).2.run ops)
    (PhoenixMap.get path os1 p).1 hl halive
  refine ⟨⟨by rw [hr.1], rfl, hr.2.1, ?_, fun f q => ?_, fun f q => ?_⟩,
    fun q os ops1 => ?_, fun ops0 key => ?_⟩
  · simp only [InterProcessMutex.impl]
    exact hr.2.2.2.2 _
  · rw [hr.1, InterProcessMutex.impl_perform ⟨some (PhoenixMap.get path os1 p).1⟩
      ⟨some (PhoenixMap.get path os1 p).1⟩ f q rfl, if_pos rfl]
  · rw [hr.1, InterProcessMutex.impl_perform ⟨some (PhoenixMap.get path os1 p).1⟩
      ⟨some (PhoenixMap.get path os1 p).1⟩ f q rfl, if_pos rfl]
  · have hf := InterProcessMutex.ofFakeLock_facts q os
    have hlen := Process.run_length ops1 (InterProcessMutex.ofFakeLock q).2
    have hf2 := InterProcessMutex.ofFakeLock_facts
      ((InterProcessMutex.ofFakeLock q).2.run ops1) os
    have hne : (InterProcessMutex.ofFakeLock ((InterProcessMutex.ofFakeLock q).2.run ops1)).1
        ≠ (InterProcessMutex.ofFakeLock q).1 := by
      rw [hf2.2.1, hf.2.1]
      intro h
      injection h with h
      injection h with h
      rw [hf.2.2.2] at hlen
      omega
    refine ⟨hf.1, hf.2.2.1, hf.2.1, hne, fun f q1 => ?_, fun f q1 => ?_⟩
    · rw [InterProcessMutex.impl_perform (InterProcessMutex.ofFakeLock q).1
        (InterProcessMutex.ofFakeLock ((InterProcessMutex.ofFakeLock q).2.run ops1)).1 f q1 rfl,
        if_neg hne]
    · rw [InterProcessMutex.impl_perform
        (InterProcessMutex.ofFakeLock ((InterProcessMutex.ofFakeLock q).2.run ops1)).1
        (InterProcessMutex.ofFakeLock q).1 f q1 rfl, if_neg (fun h => hne h.symm)]
  · have hf := InterProcessMutex.ofFakeLock_facts (Process.start.run ops0) LockType.free
    rw [hf.2.1, hf.2.2.1]
    intro h
    have := Process.run_entries ops0 Process.start
      (fun key a hk => by simp [Process.start] at hk) key _ h
    omega

/-- Witness for C19: a process constructs a mutex for the zypp lock file, puts it to
sleep-locked through the handle and constructs a mutex for the same file again. -/
theorem C19_registry_identity_witness :
    (InterProcessMutex.ofPath "/var/run/zypp/common.lock" LockType.free
      ((InterProcessMutex.ofPath "/var/run/zypp/common.lock" LockType.free Process.start).2.run
        [ProcessOp.perform ⟨some 0⟩ Impl.sleepLock])).1
      = (InterProcessMutex.ofPath "/var/run/zypp/common.lock" LockType.free Process.start).1 ∧
    (InterProcessMutex.ofPath "/var/run/zypp/common.lock" LockType.free
      ((InterProcessMutex.ofPath "/var/run/zypp/common.lock" LockType.free Process.start).2.run
        [ProcessOp.perform ⟨some 0⟩ Impl.sleepLock])).1.state
      (InterProcessMutex.ofPath "/var/run/zypp/common.lock" LockType.free
        ((InterProcessMutex.ofPath "/var/run/zypp/common.lock" LockType.free Process.start).2.run
          [ProcessOp.perform ⟨some 0⟩ Impl.sleepLock])).2 = some .EXCLUSIVE_LOCK :=
  ⟨(C19_registry_identity Process.start "/var/run/zypp/common.lock" LockType.free LockType.free
      [ProcessOp.perform ⟨some 0⟩ Impl.sleepLock] (by decide) (by decide)).1.1,
   by decide⟩

/-! ## Guards over a default-constructed mutex -/

/-- C20. For a guard (`SharableLock` or `ScopedLock`) wrapping a default-constructed
mutex: the deferred construction returns a guard with `owns() == false` and an empty
`mutex()`; `lock()`, `tryLock()` and `timedLock()` each raise `lock_exception`, which is
neither lock-timeout nor lock-abort, and leave the guard as it was, so `owns()` stays
false, and touch nothing else. A default-constructed guard has `owns() == false` and an
empty `mutex()` too. -/
theorem C20_guard_over_default_mutex (k : LockKind) (env : Env) (secs : Nat) (m : Impl) :
    Lock.construct env k .deferLock InterProcessMutex.null m
      = (.returned ⟨some (LockImpl.over k InterProcessMutex.null)⟩, m) ∧
    (⟨some (LockImpl.over k InterProcessMutex.null)⟩ : Lock).owns = false ∧
    (⟨some (LockImpl.over k InterProcessMutex.null)⟩ : Lock).mutex = false ∧
    Lock.lock env ⟨some (LockImpl.over k InterProcessMutex.null)⟩ m
      = some (.thrown .lock_exception, ⟨some (LockImpl.over k InterProcessMutex.null)⟩, m) ∧
    Lock.tryLock env ⟨some (LockImpl.over k InterProcessMutex.null)⟩ m
      = some (.thrown .lock_exception, ⟨some (LockImpl.over k InterProcessMutex.null)⟩, m) ∧
    Lock.timedLock env secs ⟨some (LockImpl.over k InterProcessMutex.null)⟩ m
      = some (.thrown .lock_exception, ⟨some (LockImpl.over k InterProcessMutex.null)⟩, m) ∧
    (∀ e, Thrown.lock_exception ≠ .InterProcessLockTimeoutException e ∧
      Thrown.lock_exception ≠ .InterProcessLockAbortException e) ∧
    Lock.null.owns = false ∧ Lock.null.mutex = false := by
  refine ⟨rfl, rfl, rfl, ?_, ?_, ?_, fun e => ⟨by simp, by simp⟩, rfl, rfl⟩
  · simp [Lock.lock, LockImpl.lock, LockImpl.over, InterProcessMutex.null,
      InterProcessMutex.toBool]
  · simp [Lock.tryLock, LockImpl.tryLock, LockImpl.over, InterProcessMutex.null,
      InterProcessMutex.toBool]
  · simp [Lock.timedLock, LockImpl.timedLock, LockImpl.over, InterProcessMutex.null,
      InterProcessMutex.toBool]

/-! ## Unlocking -/

/-- Counterexample to C21: `unlock()` of a deferred guard over a default-constructed mutex
raises `lock_exception`, for a `ScopedLock` and for a `SharableLock`; the guard is the one
that the `deferLock` constructor yields. -/
theorem C21_counterexample :
    (Lock.construct Env.quiet .ScopedLock .deferLock InterProcessMutex.null Impl.fake).1
      = .returned ⟨some (LockImpl.over .ScopedLock InterProcessMutex.null)⟩ ∧
    ((LockImpl.over .ScopedLock InterProcessMutex.null).unlock Env.quiet Impl.fake).1
      = .thrown .lock_exception ∧
    ((LockImpl.over .SharableLock InterProcessMutex.null).unlock Env.quiet Impl.fake).1
      = .thrown .lock_exception := by
  decide

/-- When the release hook raises: only for an expired exclusive token on a mutex in
`EXCLUSIVE_LOCK` whose shared slot is live and whose next attempt on the primitive fails;
what it raises is the lock-timeout or lock-abort of `lockSharable()`. -/
theorem Impl.unref_outcome (env : Env) (p : State) (m : Impl) :
    ((p ≠ .EXCLUSIVE_LOCK ∨ m._state ≠ .EXCLUSIVE_LOCK ∨ m._sharedRefs.use_count = 0 ∨
        m.nextSucceeds) → (m.unref env p).1 = .returned ()) ∧
    (∀ ex, (m.unref env p).1 = .thrown ex →
      ∃ e, (ex = .InterProcessLockTimeoutException e ∨ ex = .InterProcessLockAbortException e) ∧
        e._targetState = .SHARED_LOCK) := by
  by_cases hp : p = m._state
  · rcases hst : m._state with _ | _ | _
    · have h := (Impl.unref_spec env p m).2.2.1 hst
      rw [h]
      exact ⟨fun _ => rfl, fun ex hex => by cases hex⟩
    · rw [hst] at hp
      subst hp
      have h := Impl.unref_release env m hst
      rw [h.1]
      exact ⟨fun _ => rfl, fun ex hex => by cases hex⟩
    · rw [hst] at hp
      subst hp
      by_cases hcnt : m._sharedRefs.use_count = 0
      · have : (m.unref env .EXCLUSIVE_LOCK).1 = .returned () := by
          simp [Impl.unref, hst, WeakRef.expired, hcnt]
        rw [this]
        exact ⟨fun _ => rfl, fun ex hex => by cases hex⟩
      · have hu : m.unref env .EXCLUSIVE_LOCK
            = Impl.lockSharable env { m with log := m.log ++ [Event.unref .EXCLUSIVE_LOCK] } := by
          simp [Impl.unref, hst, WeakRef.expired, hcnt]
        refine ⟨fun h => ?_, fun ex hex => ?_⟩
        · rcases h with h | h | h | h
          · exact absurd rfl h
          · exact absurd rfl h
          · exact absurd h hcnt
          · exact (Impl.unref_demote env m hst hcnt h).1
        · rw [hu] at hex
          rcases Impl.lockSharable_thrown env _ ex hex with ⟨x, hx, ht, _⟩ | ⟨x, hx, ht⟩
          · exact ⟨x, Or.inl hx, ht⟩
          · exact ⟨x, Or.inr hx, ht⟩
  · have h := (Impl.unref_spec env p m).2.1 hp
    rw [h]
    exact ⟨fun _ => rfl, fun ex hex => by cases hex⟩

/-- On `Sys.contended` the `ScopedLock` is unlocked while the observer gives up: the
release hook has to demote, its `lockSharable()` raises inside `reset()`, and the process
ends; no exception reaches the caller and the program takes no further step. -/
theorem Sys.contended_unlock_terminates :
    Sys.contended.mutex._state = .EXCLUSIVE_LOCK ∧
    (Sys.contended.guard 1).map (fun g => (g.unlock Env.giveUp Sys.contended.mutex).1)
      = some .terminated ∧
    ((GuardOp.unlock 1).apply Env.giveUp Sys.contended).mutex.terminated = true ∧
    (Sys.contended.run
        [(Env.giveUp, .guard (.unlock 1)), (Env.quiet, .guard (.destroy 0))]).guards
      = ((GuardOp.unlock 1).apply Env.giveUp Sys.contended).guards := by
  decide

/-- C21 (amended). Mutex `unlock()` and `unlockSharable()` return in every state, leaving
`UNLOCKED`. Guard `unlock()` raises `lock_exception` for a guard over a default-constructed
mutex and changes nothing. For a guard over a mutex with an implementation `unlock()`
raises no exception to its caller, and it returns normally, leaving the guard not owning,
whenever the guard does not own, is a `SharableLock`, the mutex is not in
`EXCLUSIVE_LOCK`, no shared reference exists, another guard of its kind still owns, or
the next attempt on the primitive succeeds. -/
theorem C21_unlock_outcomes (env : Env) (g : LockImpl) (m : Impl) (hl : RefLive m g) :
    m.unlock._state = .UNLOCKED ∧ m.unlockSharable._state = .UNLOCKED ∧
    (g._mutex = false → g.unlock env m = (.thrown .lock_exception, g, m)) ∧
    (g._mutex = true →
      (∀ ex, (g.unlock env m).1 ≠ .thrown ex) ∧
      ((g.owns = false ∨ g.kind = .SharableLock ∨ m._state ≠ .EXCLUSIVE_LOCK ∨
          m._sharedRefs.use_count = 0 ∨ 2 ≤ (m.slot g.kind).use_count ∨ m.nextSucceeds) →
        (g.unlock env m).1 = .returned () ∧ (g.unlock env m).2.1.owns = false)) := by
  refine ⟨Impl.unlock_state m, Impl.unlockSharable_state m, fun hm => ?_, fun hm => ?_⟩
  · simp [LockImpl.unlock, hm]
  · have hu : g.unlock env m = g.unref env m := by
      simp [LockImpl.unlock, hm]
    rw [hu]
    have hspec := LockImpl.unref_guard_spec env g m hl
    have hown : (g.unref env m).2.1.owns = false := by simp [LockImpl.owns, hspec.2.1]
    rcases hg : g._mutexRef with _ | tok
    · rw [LockImpl.unref_none env g m hg]
      exact ⟨fun ex hex => (by cases hex), fun _ => ⟨rfl, by simp [LockImpl.owns, hg]⟩⟩
    · obtain ⟨hp, n, hsl⟩ := hl tok hg
      rw [LockImpl.unref_eq env g m tok n hg hp hsl] at hown ⊢
      by_cases hn : n = 0
      · subst hn
        simp only [if_true] at hown ⊢
        have hset := Impl.frame_setLockRef_state m g.kind._targetState (.block tok 0)
        have ho := Impl.unref_outcome env g.kind._targetState
          (m.setLockRef g.kind._targetState (.block tok 0))
        have hc := Impl.runDeleter_cases env g.kind._targetState
          (m.setLockRef g.kind._targetState (.block tok 0))
        refine ⟨hc.2.2.1, fun h => ⟨hc.2.2.2.1.2 (ho.1 ?_), hown⟩⟩
        rcases h with h | h | h | h | h | h
        · simp [LockImpl.owns, hg] at h
        · rw [h]
          exact Or.inl (by decide)
        · exact Or.inr (Or.inl (by rw [hset.1]; exact h))
        · rcases hk : g.kind with _ | _
          · exact Or.inl (by decide)
          · exact Or.inr (Or.inr (Or.inl (by
              simp only [Impl.setLockRef, LockKind._targetState, if_true]
              exact h)))
        · rw [hsl] at h
          simp [WeakRef.use_count] at h
        · refine Or.inr (Or.inr (Or.inr ?_))
          intro os hos
          rw [hset.2.2.1] at hos
          exact h os hos
      · simp only [hn, if_false] at hown ⊢
        exact ⟨fun ex hex => (by cases hex), fun _ => ⟨trivial, hown⟩⟩

/-- Witness for C21: the owning `ScopedLock` of the nested scopes on a free file. -/
theorem C21_unlock_outcomes_witness :
    Sys.nested.guards[1]? = some (some ⟨.ScopedLock, true, some ⟨1, .EXCLUSIVE_LOCK⟩⟩) ∧
    ((⟨.ScopedLock, true, some ⟨1, .EXCLUSIVE_LOCK⟩⟩ : LockImpl).unlock Env.quiet
      Sys.nested.mutex).1 = .returned () :=
  ⟨by decide,
   (((C21_unlock_outcomes Env.quiet ⟨.ScopedLock, true, some ⟨1, .EXCLUSIVE_LOCK⟩⟩
      Sys.nested.mutex (Sys.nested_wf.refLive (i := 1) (by decide))).2.2.2 rfl).2
      (Or.inr (Or.inr (Or.inr (Or.inr (Or.inr Sys.nested_nextSucceeds)))))).1⟩

/-! ## The common lock file -/

/-- C22. The common-lock path resolver `IPMutexUseLockFile`, for a real lock-file path
(one that is not the fake-lock path): it returns the real path when the caller may read
and write the file, without touching the file system; it returns the real path when the
caller may not, the file does not exist, creation is requested and `assert_file` with
mode 0644 succeeds, and then mode 0660 is added; otherwise it returns the real path when
the effective uid is 0 and the fake-lock path for every other user. The fake path is
returned only to non-root callers; with creation not requested, as in `usepath`, no call
is made on the file system; whatever is attempted is the creation with mode 0644,
followed by `addmod` 0660 when it succeeded. -/
theorem C22_lock_file_resolver (path : String) (create : Bool) (h : Host)
    (hreal : path ≠ fakeLockPath) :
    (h.userMayRW = true → IPMutexUseLockFile path create h = (path, [])) ∧
    (h.userMayRW = false → h.isExist = false → create = true → h.assert_file = 0 →
      IPMutexUseLockFile path create h
        = (path, [.assert_file path 0o644, .addmod path 0o660])) ∧
    (h.userMayRW = false → ¬ (h.isExist = false ∧ create = true ∧ h.assert_file = 0) →
      (IPMutexUseLockFile path create h).1 = if h.geteuid = 0 then path else fakeLockPath) ∧
    ((IPMutexUseLockFile path create h).1 = fakeLockPath → h.geteuid ≠ 0) ∧
    ((IPMutexUseLockFile path create h).1 = path ∨
      (IPMutexUseLockFile path create h).1 = fakeLockPath) ∧
    (create = false → (IPMutexUseLockFile path create h).2 = []) ∧
    IPMutex.usepath path h = IPMutexUseLockFile path false h ∧
    (IPMutex.usepath path h).2 = [] ∧
    ((IPMutexUseLockFile path create h).2 = [] ∨
      (IPMutexUseLockFile path create h).2 = [.assert_file path 0o644] ∨
      (IPMutexUseLockFile path create h).2
        = [.assert_file path 0o644, .addmod path 0o660]) := by
  rcases h with ⟨rw, ex, af, uid⟩
  cases rw <;> cases ex <;> cases create <;> by_cases ha : af = 0 <;>
    by_cases hu : uid = 0 <;>
    simp [IPMutexUseLockFile, IPMutex.usepath, ha, hu, hreal, Ne.symm hreal]

/-- Witness for C22: a non-root caller without access to the common lock file, which does
not exist and cannot be created, gets the fake-lock path; root gets the real one. -/
theorem C22_lock_file_resolver_witness :
    IPMutexUseLockFile "/var/run/zypp/common.lock" true ⟨false, false, 13, 1000⟩
      = ("/<fakelock>", [.assert_file "/var/run/zypp/common.lock" 0o644]) ∧
    (IPMutexUseLockFile "/var/run/zypp/common.lock" true ⟨false, false, 13, 0⟩).1
      = "/var/run/zypp/common.lock" ∧
    ((IPMutexUseLockFile "/var/run/zypp/common.lock" true ⟨false, false, 13, 1000⟩).1
      = fakeLockPath → (⟨false, false, 13, 1000⟩ : Host).geteuid ≠ 0) :=
  ⟨by decide, by decide,
   (C22_lock_file_resolver "/var/run/zypp/common.lock" true ⟨false, false, 13, 1000⟩
      (by decide)).2.2.2.1⟩

/-! ## The release hook -/

/-- C25. The release hook `unref`, run for an expired token of state `t` on a mutex in
state `s` (the embedding logs each run of the hook). If `t != s` it changes nothing else
and issues no OS call. If `t == s == EXCLUSIVE_LOCK` it calls `unlock()` when the shared
slot is expired, which leaves `UNLOCKED`, and `lockSharable()` when the shared slot is
live, which leaves `SHARED_LOCK` when it returns. If `t == s == SHARED_LOCK` it calls
`unlockSharable()`, which leaves `UNLOCKED`, whatever the exclusive slot holds. A state
reference requested for `UNLOCKED` is the null handle, and the request leaves the mutex
with both slots as it is; a guard with a null handle has nothing to drop. -/
theorem C25_release_hook (env : Env) (t : State) (m : Impl) (g : LockImpl) :
    (t ≠ m._state →
      m.unref env t = (.returned (), m.logged [Event.unref t]) ∧
      (m.unref env t).2._state = m._state ∧ (m.unref env t).2.osCalls = m.osCalls ∧
      (m.unref env t).2._sharedRefs = m._sharedRefs ∧
      (m.unref env t).2._scopedRefs = m._scopedRefs) ∧
    (t = .EXCLUSIVE_LOCK → m._state = .EXCLUSIVE_LOCK → m._sharedRefs.expired = true →
      m.unref env t = (.returned (), (m.logged [Event.unref t]).unlock) ∧
      (m.unref env t).2._state = .UNLOCKED) ∧
    (t = .EXCLUSIVE_LOCK → m._state = .EXCLUSIVE_LOCK → m._sharedRefs.expired = false →
      m.unref env t = (m.logged [Event.unref t]).lockSharable env ∧
      ((m.unref env t).1 = .returned () → (m.unref env t).2._state = .SHARED_LOCK)) ∧
    (t = .SHARED_LOCK → m._state = .SHARED_LOCK →
      m.unref env t = (.returned (), (m.logged [Event.unref t]).unlockSharable) ∧
      (m.unref env t).2._state = .UNLOCKED) ∧
    m.getRef .UNLOCKED = (none, m) ∧
    (g._mutexRef = none → g.unref env m = (.returned (), g, m)) := by
  refine ⟨fun h => ?_, fun ht hs he => ?_, fun ht hs he => ?_, fun ht hs => ?_, ?_,
    fun hg => LockImpl.unref_none env g m hg⟩
  · have hu := (Impl.unref_spec env t m).2.1 h
    rw [hu]
    exact ⟨rfl, rfl, by simp [Impl.osCalls, Event.isOs], rfl, rfl⟩
  · subst ht
    have hu : m.unref env .EXCLUSIVE_LOCK
        = (.returned (), (m.logged [Event.unref .EXCLUSIVE_LOCK]).unlock) := by
      simp [Impl.unref, hs, he, Impl.logged]
    rw [hu]
    exact ⟨rfl, Impl.unlock_state _⟩
  · subst ht
    have hu : m.unref env .EXCLUSIVE_LOCK
        = (m.logged [Event.unref .EXCLUSIVE_LOCK]).lockSharable env := by
      simp [Impl.unref, hs, he, Impl.logged]
    rw [hu]
    exact ⟨rfl, (Impl.lockSharable_cases env _).2.1⟩
  · subst ht
    have hu : m.unref env .SHARED_LOCK
        = (.returned (), (m.logged [Event.unref .SHARED_LOCK]).unlockSharable) := by
      simp [Impl.unref, hs, Impl.logged]
    rw [hu]
    exact ⟨rfl, Impl.unlockSharable_state _⟩
  · simp [Impl.getRef]

/-- Witness for C25: the hook of an exclusive token on a mutex that an explicit `lock()`
brought to `EXCLUSIVE_LOCK`, with no shared reference around. -/
theorem C25_release_hook_witness :
    Impl.lockedFile._state = .EXCLUSIVE_LOCK ∧ Impl.lockedFile._sharedRefs.expired = true ∧
    (Impl.lockedFile.unref Env.quiet .EXCLUSIVE_LOCK).2._state = .UNLOCKED ∧
    (Impl.lockedFile.unref Env.quiet .SHARED_LOCK).2._state = .EXCLUSIVE_LOCK :=
  ⟨by decide, by decide,
   ((C25_release_hook Env.quiet .EXCLUSIVE_LOCK Impl.lockedFile
      (LockImpl.deferLock .ScopedLock)).2.1 rfl (by decide) (by decide)).2,
   by decide⟩

/-! ## Guards on exceptional paths -/

theorem LockImpl.lock_raised_frame (env : Env) (g : LockImpl) (m : Impl)
    (h : (g.lock env m).1 ≠ .returned ()) : Impl.Frame m (g.lock env m).2.2 := by
  revert h
  unfold LockImpl.lock
  split
  · intro _
    exact Impl.Frame.rfl_ m
  · split
    · have hf := g.kind.frame_lock env m
      rcases hx : g.kind.lock env m with ⟨o, m1⟩
      rw [hx] at hf
      cases o with
      | returned u => intro h; exact absurd rfl h
      | thrown e => intro _; exact hf
      | waiting => intro _; exact hf
      | terminated => intro _; exact hf
    · intro h
      exact absurd rfl h

/-- C28. If `lock()` of a guard raises (lock-timeout, lock-abort, or `lock_exception`),
the guard is as it was before the call, so a guard that was not owning is not owning, and
both reference slots of the mutex and its token counter are as before: no token was
installed and no reference taken. An eager guard constructor whose acquire raises
yields no guard and leaves both slots and the token counter as they were. -/
theorem C28_no_reference_survives_raise (env : Env) (g : LockImpl) (k : LockKind) (m : Impl) :
    (∀ ex, (g.lock env m).1 = .thrown ex →
      (g.lock env m).2.1 = g ∧ (g.lock env m).2.1.owns = g.owns ∧
      (g.lock env m).2.2._sharedRefs = m._sharedRefs ∧
      (g.lock env m).2.2._scopedRefs = m._scopedRefs ∧
      (g.lock env m).2.2.nextToken = m.nextToken) ∧
    (∀ ex, (LockImpl.construct env k .eager m).1 = .thrown ex →
      (∀ g1, (LockImpl.construct env k .eager m).1 ≠ .returned g1) ∧
      (LockImpl.construct env k .eager m).2._sharedRefs = m._sharedRefs ∧
      (LockImpl.construct env k .eager m).2._scopedRefs = m._scopedRefs ∧
      (LockImpl.construct env k .eager m).2.nextToken = m.nextToken ∧
      ((GuardOp.construct k .eager).apply env (Sys.init m)).guards = []) := by
  have hlock : ∀ (g : LockImpl) ex, (g.lock env m).1 = .thrown ex →
      (g.lock env m).2.1 = g ∧ Impl.Frame m (g.lock env m).2.2 := by
    intro g ex h
    have hne : (g.lock env m).1 ≠ .returned () := by
      rw [h]
      simp
    exact ⟨LockImpl.lock_raised env g m hne, LockImpl.lock_raised_frame env g m hne⟩
  have hcon : ∀ ex, (LockImpl.construct env k .eager m).1 = .thrown ex →
      (LockImpl.deferLock k).lock env m
        = (.thrown ex, ((LockImpl.deferLock k).lock env m).2.1,
            (LockImpl.construct env k .eager m).2) := by
    intro ex h
    revert h
    simp only [LockImpl.construct]
    rcases hx : (LockImpl.deferLock k).lock env m with ⟨o, g1, m1⟩
    cases o with
    | returned u => intro h; cases h
    | thrown e =>
      intro h
      injection h with h
      rw [h]
    | waiting => intro h; cases h
    | terminated => intro h; cases h
  refine ⟨fun ex h => ?_, fun ex h => ?_⟩
  · obtain ⟨h1, h2⟩ := hlock g ex h
    exact ⟨h1, by rw [h1], h2.sharedRefs, h2.scopedRefs, h2.next⟩
  · have hc := hcon ex h
    have h1 : ((LockImpl.deferLock k).lock env m).1 = .thrown ex := by rw [hc]
    obtain ⟨_, h2⟩ := hlock (LockImpl.deferLock k) ex h1
    have h3 : ((LockImpl.deferLock k).lock env m).2.2
        = (LockImpl.construct env k .eager m).2 := by rw [hc]
    rw [h3] at h2
    refine ⟨fun g1 hg1 => ?_, h2.sharedRefs, h2.scopedRefs, h2.next, ?_⟩
    · rw [h] at hg1
      cases hg1
    · simp only [GuardOp.apply, Sys.init]
      rcases hx : LockImpl.construct env k .eager m with ⟨o, m1⟩
      rw [hx] at h
      simp only at h
      subst h
      rfl

/-- Witness for C28: a `ScopedLock` is constructed on a file held by another process
while the observer gives up. -/
theorem C28_no_reference_survives_raise_witness :
    (LockImpl.construct Env.giveUp .ScopedLock .eager Impl.heldFile).1
      = .thrown (.InterProcessLockAbortException ⟨.EXCLUSIVE_LOCK, 3, 180⟩) ∧
    (LockImpl.construct Env.giveUp .ScopedLock .eager Impl.heldFile).2._scopedRefs
      = Impl.heldFile._scopedRefs ∧
    (LockImpl.construct Env.giveUp .ScopedLock .eager Impl.heldFile).2.nextToken = 0 :=
  ⟨by decide,
   ((C28_no_reference_survives_raise Env.giveUp (LockImpl.deferLock .ScopedLock) .ScopedLock
      Impl.heldFile).2 (.InterProcessLockAbortException ⟨.EXCLUSIVE_LOCK, 3, 180⟩)
      (by decide)).2.2.1,
   ((C28_no_reference_survives_raise Env.giveUp (LockImpl.deferLock .ScopedLock) .ScopedLock
      Impl.heldFile).2 (.InterProcessLockAbortException ⟨.EXCLUSIVE_LOCK, 3, 180⟩)
      (by decide)).2.2.2.1⟩

/-- Dropping the handle of a guard while the mutex is below the target of the guard: the
release hook, if it runs, finds a mismatched state, so the drop returns. -/
theorem LockImpl.unref_below_target (env : Env) (g : LockImpl) {m m1 : Impl}
    (hf : Impl.Frame m m1) (hst : m1._state = m._state)
    (hlt : m._state < g.kind._targetState) (hl : RefLive m g) :
    (g.unref env m1).1 = .returned () ∧ (g.unref env m1).2.1._mutexRef = none ∧
    (g.unref env m1).2.2._state = m._state := by
  have hl1 : RefLive m1 g := hl.refLive_of_frame hf
  have hspec := LockImpl.unref_guard_spec env g m1 hl1
  refine ⟨?_, hspec.2.1, ?_⟩
  · rcases hg : g._mutexRef with _ | tok
    · rw [LockImpl.unref_none env g m1 hg]
    · obtain ⟨hp, n, hsl⟩ := hl1 tok hg
      rw [LockImpl.unref_eq env g m1 tok n hg hp hsl]
      by_cases hn : n = 0
      · subst hn
        simp only [if_true]
        have hset := Impl.frame_setLockRef_state m1 g.kind._targetState (.block tok 0)
        have hne : g.kind._targetState
            ≠ (m1.setLockRef g.kind._targetState (.block tok 0))._state := by
          rw [hset.1, hst]
          intro h
          rw [← h, State.lt_def] at hlt
          omega
        rw [(Impl.runDeleter_spec env _ _).2.1 hne]
      · simp only [hn, if_false]
  · rcases hg : g._mutexRef with _ | tok
    · rw [LockImpl.unref_none env g m1 hg]
      exact hst
    · obtain ⟨hp, n, hsl⟩ := hl1 tok hg
      rw [LockImpl.unref_eq env g m1 tok n hg hp hsl]
      have hset := fun w => Impl.frame_setLockRef_state m1 g.kind._targetState w
      by_cases hn : n = 0
      · subst hn
        simp only [if_true]
        have hne : g.kind._targetState
            ≠ (m1.setLockRef g.kind._targetState (.block tok 0))._state := by
          rw [(hset _).1, hst]
          intro h
          rw [← h, State.lt_def] at hlt
          omega
        rw [(Impl.runDeleter_spec env _ _).2.1 hne]
        show (m1.setLockRef g.kind._targetState (.block tok 0))._state = _
        rw [(hset _).1, hst]
      · simp only [hn, if_false]
        rw [(hset _).1, hst]

/-- C26. For every guard over a mutex with an implementation: if `tryLock()` or
`timedLock()` needs a state change (mutex state below the target) and the acquire on the
mutex fails, it returns false and afterwards `owns()` is false, also when the guard held
a state reference before the call; the mutex state is as before. When no state change
is needed or the acquire succeeds it returns true and `owns()` is true. -/
theorem C26_failed_try_drops_reference (env : Env) (secs : Nat) (g : LockImpl) (m : Impl)
    (hm : g._mutex = true) (hp : m.SlotOK) (hl : RefLive m g) :
    (m._state < g.kind._targetState → (g.kind.tryLock m).1 = false →
      (g.tryLock env m).1 = .returned false ∧ (g.tryLock env m).2.1.owns = false ∧
      (g.tryLock env m).2.2._state = m._state) ∧
    ((¬ m._state < g.kind._targetState ∨ (g.kind.tryLock m).1 = true) →
      (g.tryLock env m).1 = .returned true ∧ (g.tryLock env m).2.1.owns = true) ∧
    (m._state < g.kind._targetState → (g.kind.timedLock secs m).1 = false →
      (g.timedLock env secs m).1 = .returned false ∧
      (g.timedLock env secs m).2.1.owns = false ∧
      (g.timedLock env secs m).2.2._state = m._state) ∧
    ((¬ m._state < g.kind._targetState ∨ (g.kind.timedLock secs m).1 = true) →
      (g.timedLock env secs m).1 = .returned true ∧
      (g.timedLock env secs m).2.1.owns = true) := by
  have hfail : ∀ (r : Bool × Impl), Impl.Frame m r.2 → r.1 = false → r.2._state = m._state →
      m._state < g.kind._targetState →
      (g.unref env r.2).1 = .returned () ∧ (g.unref env r.2).2.1.owns = false ∧
      (g.unref env r.2).2.2._state = m._state := by
    intro r hf _ hst hlt
    have h := LockImpl.unref_below_target env g hf hst hlt hl
    exact ⟨h.1, by simp [LockImpl.owns, h.2.1], h.2.2⟩
  have hown : ∀ m1 : Impl, Impl.Frame m m1 → (g.getRef m1).1.owns = true :=
    fun m1 hf => (LockImpl.getRef_guard_spec g m1 (hp.slotOK_of_frame hf)).2.1
  have hst1 : (g.kind.tryLock m).1 = false → (g.kind.tryLock m).2._state = m._state := by
    cases hk : g.kind
    · exact fun h => ((Impl.tryLockSharable_cases m).2.2.1 h).1
    · exact fun h => ((Impl.tryLock_cases m).2.2.1 h).1
  have hst2 : (g.kind.timedLock secs m).1 = false →
      (g.kind.timedLock secs m).2._state = m._state := by
    cases hk : g.kind
    · exact fun h => ((Impl.timedLockSharable_cases secs m).2.2.1 h).1
    · exact fun h => ((Impl.timedLock_cases secs m).2.2.1 h).1
  have hf1 := g.kind.frame_tryLock m
  have hf2 := g.kind.frame_timedLock secs m
  refine ⟨fun hlt hno => ?_, fun h => ?_, fun hlt hno => ?_, fun h => ?_⟩
  · have hu := hfail (g.kind.tryLock m) hf1 hno (hst1 hno) hlt
    have hn : g.needStateChange m = true := by simp [LockImpl.needStateChange, hlt]
    rcases hx : g.kind.tryLock m with ⟨b, m1⟩
    rw [hx] at hu hno
    simp only at hu hno
    subst hno
    rcases hy : g.unref env m1 with ⟨o, g1, m2⟩
    rw [hy] at hu
    simp only at hu
    obtain ⟨h1, h2, h3⟩ := hu
    subst h1
    simp [LockImpl.tryLock, hm, hn, hx, hy, h2, h3]
  · by_cases hlt : m._state < g.kind._targetState
    · have hok : (g.kind.tryLock m).1 = true := by
        rcases h with h | h
        · exact absurd hlt h
        · exact h
      have hn : g.needStateChange m = true := by simp [LockImpl.needStateChange, hlt]
      have ho := hown _ hf1
      rcases hx : g.kind.tryLock m with ⟨b, m1⟩
      rw [hx] at hok ho
      simp only at hok ho
      subst hok
      simp [LockImpl.tryLock, hm, hn, hx, ho]
    · have hn : g.needStateChange m = false := by simp [LockImpl.needStateChange, hlt]
      simp [LockImpl.tryLock, hm, hn, hown m (Impl.Frame.rfl_ m)]
  · have hu := hfail (g.kind.timedLock secs m) hf2 hno (hst2 hno) hlt
    have hn : g.needStateChange m = true := by simp [LockImpl.needStateChange, hlt]
    rcases hx : g.kind.timedLock secs m with ⟨b, m1⟩
    rw [hx] at hu hno
    simp only at hu hno
    subst hno
    rcases hy : g.unref env m1 with ⟨o, g1, m2⟩
    rw [hy] at hu
    simp only at hu
    obtain ⟨h1, h2, h3⟩ := hu
    subst h1
    simp [LockImpl.timedLock, hm, hn, hx, hy, h2, h3]
  · by_cases hlt : m._state < g.kind._targetState
    · have hok : (g.kind.timedLock secs m).1 = true := by
        rcases h with h | h
        · exact absurd hlt h
        · exact h
      have hn : g.needStateChange m = true := by simp [LockImpl.needStateChange, hlt]
      have ho := hown _ hf2
      rcases hx : g.kind.timedLock secs m with ⟨b, m1⟩
      rw [hx] at hok ho
      simp only at hok ho
      subst hok
      simp [LockImpl.timedLock, hm, hn, hx, ho]
    · have hn : g.needStateChange m = false := by simp [LockImpl.needStateChange, hlt]
      simp [LockImpl.timedLock, hm, hn, hown m (Impl.Frame.rfl_ m)]

theorem Sys.unlockedUnderGuard_wf : Sys.unlockedUnderGuard.WF :=
  Sys.WF.run explicitUnlock (Impl.fresh_wf _ (Or.inr ⟨_, _, rfl⟩))

/-- Witness for C26: the guard owns, the mutex was unlocked explicitly, and the file is
taken: `tryLock()` returns false and the guard does not own any more. -/
theorem C26_failed_try_drops_reference_witness :
    Sys.unlockedUnderGuard.guards[0]?
      = some (some ⟨.ScopedLock, true, some ⟨0, .EXCLUSIVE_LOCK⟩⟩) ∧
    Sys.unlockedUnderGuard.mutex._state = .UNLOCKED ∧
    ((⟨.ScopedLock, true, some ⟨0, .EXCLUSIVE_LOCK⟩⟩ : LockImpl).tryLock Env.quiet
      Sys.unlockedUnderGuard.mutex).1 = .returned false ∧
    ((⟨.ScopedLock, true, some ⟨0, .EXCLUSIVE_LOCK⟩⟩ : LockImpl).tryLock Env.quiet
      Sys.unlockedUnderGuard.mutex).2.1.owns = false :=
  ⟨by decide, by decide,
   ((C26_failed_try_drops_reference Env.quiet 3 ⟨.ScopedLock, true, some ⟨0, .EXCLUSIVE_LOCK⟩⟩
      Sys.unlockedUnderGuard.mutex rfl Sys.unlockedUnderGuard_wf.slotOK
      (Sys.unlockedUnderGuard_wf.refLive (i := 0) (by decide))).1 (by decide) (by decide)).1,
   ((C26_failed_try_drops_reference Env.quiet 3 ⟨.ScopedLock, true, some ⟨0, .EXCLUSIVE_LOCK⟩⟩
      Sys.unlockedUnderGuard.mutex rfl Sys.unlockedUnderGuard_wf.slotOK
      (Sys.unlockedUnderGuard_wf.refLive (i := 0) (by decide))).1 (by decide) (by decide)).2.1⟩

/-! ## Acquiring again -/

/-- A guard that owns gains nothing by a guard operation: no slot counts more than
before, and its handle is the one it had or none. -/
theorem Trans.no_gain {g g1 : LockImpl} {m m1 : Impl} (ho : g.owns = true)
    (h : Trans g m g1 m1) :
    (∀ k, (m1.slot k).use_count ≤ (m.slot k).use_count) ∧
    (g1._mutexRef = g._mutexRef ∨ g1._mutexRef = none) := by
  cases h with
  | keep h1 h2 =>
    refine ⟨fun k => ?_, Or.inl (by rw [h1])⟩
    rw [h2 k]
  | gain tok h1 _ _ _ _ _ =>
    simp [LockImpl.owns, h1] at ho
  | lose tok n _ h2 h3 h4 h5 =>
    refine ⟨fun k => ?_, Or.inr (by rw [h2])⟩
    by_cases hk : k = g.kind
    · subst hk
      rw [h3, h4]
      simp [WeakRef.use_count]
    · rw [h5 k hk]

/-- An owning guard on a mutex that is not below its target: every acquire returns at
once and changes neither the guard nor the mutex. -/
theorem LockImpl.acquire_again (env : Env) (secs : Nat) (g : LockImpl) (m : Impl)
    (hm : g._mutex = true) (ho : g.owns = true) (hst : ¬ m._state < g.kind._targetState) :
    g.lock env m = (.returned (), g, m) ∧ g.sleepLock m = (.returned (), g, m) ∧
    g.tryLock env m = (.returned true, g, m) ∧
    g.timedLock env secs m = (.returned true, g, m) := by
  have hn : g.needStateChange m = false := by simp [LockImpl.needStateChange, hst]
  have hg : g.getRef m = (g, m) := by
    rcases h : g._mutexRef with _ | tok
    · simp [LockImpl.owns, h] at ho
    · simp [LockImpl.getRef, h]
  simp [LockImpl.lock, LockImpl.sleepLock, LockImpl.tryLock, LockImpl.timedLock, hm, hn, hg]

theorem LockImpl.lockStep_facts (env : Env) (k : LockKind) (m : Impl)
    (hst : m._state = .UNLOCKED) (hp : m.SlotOK) (hs : m.alwaysSucceeds) :
    (LockImpl.lockStep env k m).1 = .returned () ∧
    (LockImpl.lockStep env k m).2.1.owns = true ∧
    (LockImpl.lockStep env k m).2.1._mutex = true ∧
    (LockImpl.lockStep env k m).2.1.kind = k ∧
    (LockImpl.lockStep env k m).2.2._state = k._targetState := by
  have hk := k.lock_succ env m hs
  have hf := k.frame_lock env m
  have hn : (LockImpl.deferLock k).needStateChange m = true := by
    cases k <;> simp [LockImpl.needStateChange, LockImpl.deferLock, hst, State.lt_def,
      State.toNat, LockKind._targetState]
  have hl : LockImpl.lockStep env k m
      = (.returned (), (LockImpl.deferLock k).getRef (k.lock env m).2) := by
    rcases hx : k.lock env m with ⟨o, m1⟩
    rw [hx] at hk
    simp only at hk
    have ho : o = .returned () := hk.1
    subst ho
    have hx1 : LockKind.lock (LockImpl.deferLock k).kind env m = (.returned (), m1) := hx
    simp only [LockImpl.lockStep, LockImpl.lock, hn, hx1]
    rfl
  have hspec := LockImpl.getRef_guard_spec (LockImpl.deferLock k) (k.lock env m).2
    (hp.slotOK_of_frame hf)
  rw [hl]
  exact ⟨rfl, hspec.2.1, hspec.2.2.2.1, hspec.2.2.1, hspec.2.2.2.2.1.trans hk.2⟩

theorem LockImpl.unref_owns (env : Env) (g : LockImpl) (m : Impl) :
    (g.unref env m).2.1.owns = false := by
  unfold LockImpl.unref
  rcases h : g._mutexRef with _ | tok
  · simp [LockImpl.owns, h]
  · simp [LockImpl.owns]

theorem LockImpl.getRef_mutex (g : LockImpl) (m : Impl) : (g.getRef m).1._mutex = g._mutex := by
  unfold LockImpl.getRef
  split <;> rfl

theorem LockImpl.lock_mutex (env : Env) (g : LockImpl) (m : Impl) :
    (g.lock env m).2.1._mutex = g._mutex := by
  unfold LockImpl.lock
  split
  · rfl
  · split
    · split
      · exact LockImpl.getRef_mutex _ _
      · rfl
      · rfl
      · rfl
    · exact LockImpl.getRef_mutex _ _

/-- C29. Guard acquisition is not counted per guard. For a guard that already owns, over
a mutex with an implementation: `lock()`, `sleepLock()`, `tryLock()` and `timedLock()`
take no additional state reference (no slot counts more than before, and the handle of
the guard is the one it had or none); when the mutex is not below the target they
return at once and change nothing. After `lock(); lock(); unlock()` the guard does not
own. For a deferred guard that is the only guard on an `UNLOCKED` mutex whose acquires
succeed, the second `lock()` changes nothing and `lock(); lock(); unlock()` leaves the
mutex `UNLOCKED` with both slots expired. -/
theorem C29_acquire_not_counted (env env2 env3 : Env) (secs : Nat) (k : LockKind)
    (g : LockImpl) (m m0 : Impl)
    (hm : g._mutex = true) (ho : g.owns = true) (hp : m.SlotOK) (hl : RefLive m g)
    (hst0 : m0._state = .UNLOCKED) (h1 : m0._sharedRefs.expired = true)
    (h2 : m0._scopedRefs.expired = true) (hp0 : m0.SlotOK) (hs0 : m0.alwaysSucceeds) :
    ((∀ k1, ((g.lock env m).2.2.slot k1).use_count ≤ (m.slot k1).use_count) ∧
      (∀ k1, ((g.sleepLock m).2.2.slot k1).use_count ≤ (m.slot k1).use_count) ∧
      (∀ k1, ((g.tryLock env m).2.2.slot k1).use_count ≤ (m.slot k1).use_count) ∧
      (∀ k1, ((g.timedLock env secs m).2.2.slot k1).use_count ≤ (m.slot k1).use_count)) ∧
    (((g.lock env m).2.1._mutexRef = g._mutexRef ∨ (g.lock env m).2.1._mutexRef = none) ∧
      ((g.sleepLock m).2.1._mutexRef = g._mutexRef ∨ (g.sleepLock m).2.1._mutexRef = none) ∧
      ((g.tryLock env m).2.1._mutexRef = g._mutexRef ∨
        (g.tryLock env m).2.1._mutexRef = none) ∧
      ((g.timedLock env secs m).2.1._mutexRef = g._mutexRef ∨
        (g.timedLock env secs m).2.1._mutexRef = none)) ∧
    (¬ m._state < g.kind._targetState →
      g.lock env m = (.returned (), g, m) ∧ g.sleepLock m = (.returned (), g, m) ∧
      g.tryLock env m = (.returned true, g, m) ∧
      g.timedLock env secs m = (.returned true, g, m)) ∧
    (((g.lock env m).2.1.lock env2 (g.lock env m).2.2).2.1.unlock env3
      ((g.lock env m).2.1.lock env2 (g.lock env m).2.2).2.2).2.1.owns = false ∧
    (LockImpl.relockStep env env2 k m0
        = (.returned (), (LockImpl.lockStep env k m0).2.1, (LockImpl.lockStep env k m0).2.2) ∧
      (LockImpl.relockStep env env2 k m0).2.1.owns = true ∧
      (LockImpl.relockUnlockStep env env2 env3 k m0).1 = .returned () ∧
      (LockImpl.relockUnlockStep env env2 env3 k m0).2.1.owns = false ∧
      (LockImpl.relockUnlockStep env env2 env3 k m0).2.2._state = .UNLOCKED ∧
      (LockImpl.relockUnlockStep env env2 env3 k m0).2.2._sharedRefs.expired = true ∧
      (LockImpl.relockUnlockStep env env2 env3 k m0).2.2._scopedRefs.expired = true) := by
  have t1 := (LockImpl.lock_trans env g m hp hl).1.no_gain ho
  have t2 := (LockImpl.sleepLock_trans env g m hp hl).1.no_gain ho
  have t3 := (LockImpl.tryLock_trans env g m hp hl).1.no_gain ho
  have t4 := (LockImpl.timedLock_trans env secs g m hp hl).1.no_gain ho
  refine ⟨⟨t1.1, t2.1, t3.1, t4.1⟩, ⟨t1.2, t2.2, t3.2, t4.2⟩,
    fun hst => LockImpl.acquire_again env secs g m hm ho hst, ?_, ?_⟩
  · have hm2 : ((g.lock env m).2.1.lock env2 (g.lock env m).2.2).2.1._mutex = true := by
      rw [LockImpl.lock_mutex, LockImpl.lock_mutex, hm]
    unfold LockImpl.unlock
    rw [if_neg (by rw [hm2]; simp)]
    exact LockImpl.unref_owns _ _ _
  · have hc1 : m0._sharedRefs.use_count = 0 := by simpa [WeakRef.expired] using h1
    have hc2 : m0._scopedRefs.use_count = 0 := by simpa [WeakRef.expired] using h2
    have hb0 : m0.Backed := by simp [Impl.Backed, hst0]
    have hw0 : Sys.WF { mutex := m0, guards := [some (LockImpl.deferLock k)] } :=
      Sys.WF.push k (Sys.WF.init m0 hp0 hc1 hc2)
    have hl0 := hw0.refLive (i := 0) (g := LockImpl.deferLock k) rfl
    have hf := LockImpl.lockStep_facts env k m0 hst0 hp0 hs0
    have hk1 := LockImpl.lock_keeps env (LockImpl.deferLock k) m0 hp0 hl0 hs0
    have ht1 := LockImpl.lock_trans env (LockImpl.deferLock k) m0 hp0 hl0
    have hw1 : Sys.WF (Sys.mk (LockImpl.lockStep env k m0).2.2
        [some (LockImpl.lockStep env k m0).2.1]) :=
      hw0.update (i := 0) _ rfl ht1.1 (Or.inl rfl)
    have hre : LockImpl.relockStep env env2 k m0
        = (.returned (), (LockImpl.lockStep env k m0).2.1, (LockImpl.lockStep env k m0).2.2) :=
      (LockImpl.acquire_again env2 0 _ _ hf.2.2.1 hf.2.1 (by
        rw [hf.2.2.2.2, hf.2.2.2.1, State.lt_def]
        omega)).1
    have hun : LockImpl.relockUnlockStep env env2 env3 k m0
        = (LockImpl.lockStep env k m0).2.1.unlock env3 (LockImpl.lockStep env k m0).2.2 := by
      simp only [LockImpl.relockUnlockStep, hre]
    have hl1 := hw1.refLive (i := 0) (g := (LockImpl.lockStep env k m0).2.1) rfl
    have hk2 := LockImpl.unlock_keeps env3 (LockImpl.lockStep env k m0).2.1
      (LockImpl.lockStep env k m0).2.2 hl1 hk1.1.1
    have ht2 := LockImpl.unlock_trans env3 (LockImpl.lockStep env k m0).2.1
      (LockImpl.lockStep env k m0).2.2 hw1.slotOK hl1
    have hw2 := hw1.update (i := 0) _ rfl ht2.1 (Or.inl rfl)
    have hn2 : ((LockImpl.lockStep env k m0).2.1.unlock env3
        (LockImpl.lockStep env k m0).2.2).2.1._mutexRef = none := by
      unfold LockImpl.unlock
      rw [if_neg (by rw [hf.2.2.1]; simp)]
      exact (LockImpl.unref_guard_spec env3 _ _ hl1).2.1
    have hs2 := Impl.state_unlocked_of_no_owner hw2 (hk2.1.2.1 (hk1.1.2.1 hb0)) rfl hn2
    have hcnt1 := hw2.count .SharableLock
    have hcnt2 := hw2.count .ScopedLock
    simp only [Sys.owners, List.set, List.countP_cons, List.countP_nil, ownsKind, hn2,
      Impl.slot_sharable, Impl.slot_scoped] at hcnt1 hcnt2
    simp at hcnt1 hcnt2
    rw [hun]
    refine ⟨hre, ?_, hk2.2 hf.2.2.1, by simp [LockImpl.owns, hn2], hs2, ?_, ?_⟩
    · rw [hre]
      exact hf.2.1
    · simp [WeakRef.expired, hcnt1]
    · simp [WeakRef.expired, hcnt2]

/-- Witness for C29: a deferred `ScopedLock` on a free file is locked twice and unlocked
once; the owning guard of the nested scopes is the general guard. -/
theorem C29_acquire_not_counted_witness :
    (LockImpl.relockUnlockStep Env.quiet Env.quiet Env.quiet .ScopedLock Impl.freeFile).2.1.owns
      = false ∧
    (LockImpl.relockUnlockStep Env.quiet Env.quiet Env.quiet .ScopedLock Impl.freeFile).2.2._state
      = .UNLOCKED := by
  have hf := Impl.fresh_facts Impl.freeFile (Or.inr ⟨_, _, fun _ => rfl, rfl⟩)
  have h := C29_acquire_not_counted Env.quiet Env.quiet Env.quiet 3 .ScopedLock
    ⟨.ScopedLock, true, some ⟨1, .EXCLUSIVE_LOCK⟩⟩ Sys.nested.mutex Impl.freeFile rfl rfl
    Sys.nested_wf.slotOK (Sys.nested_wf.refLive (i := 1) (by decide)) rfl rfl rfl
    hf.1.slotOK hf.2.1
  exact ⟨h.2.2.2.2.2.2.2.1, h.2.2.2.2.2.2.2.2.1⟩

/-! ## Guards after explicit acquires -/

/-- A scope with a guard of kind `k` on a mutex that is not below the target of `k` and
whose slot for `k` is expired: the constructor makes no attempt on the primitive, and
the end of the scope runs the release hook for the target of `k` on the mutex as the
explicit caller left it. -/
theorem LockImpl.scopeStep_eq (env env2 : Env) (k : LockKind) (m : Impl) (hp : m.SlotOK)
    (hst : ¬ m._state < k._targetState) (hk : (m.slot k).use_count = 0) :
    ∃ tok, tok.p = k._targetState ∧
      LockImpl.construct env k .eager m
        = (.returned ⟨k, true, some tok⟩, (m.getRef k._targetState).2) ∧
      (m.getRef k._targetState).2.log = m.log ∧
      LockImpl.scopeStep env env2 k m
        = (((m.getRef k._targetState).2.setLockRef k._targetState (.block tok 0)).runDeleter
            env2 k._targetState) ∧
      ((m.getRef k._targetState).2.setLockRef k._targetState (.block tok 0))._state
        = m._state ∧
      (∀ k1, k1 ≠ k →
        ((m.getRef k._targetState).2.setLockRef k._targetState (.block tok 0)).slot k1
          = m.slot k1) := by
  obtain ⟨tok, h1, h2, h3, _, h5, h6, h7, _⟩ := Impl.getRef_spec k m hp
  rw [hk] at h3
  have hn : (LockImpl.deferLock k).needStateChange m = false := by
    simp [LockImpl.needStateChange, LockImpl.deferLock, hst]
  have hg : (LockImpl.deferLock k).getRef m
      = (⟨k, true, some tok⟩, (m.getRef k._targetState).2) := by
    simp [LockImpl.getRef, LockImpl.deferLock, h1]
  have hm : (LockImpl.deferLock k)._mutex = true := rfl
  have hc : LockImpl.construct env k .eager m
      = (.returned ⟨k, true, some tok⟩, (m.getRef k._targetState).2) := by
    simp only [LockImpl.construct, LockImpl.lock, hn, hg, hm]
    simp
  have hset := Impl.frame_setLockRef_state (m.getRef k._targetState).2 k._targetState
    (.block tok 0)
  have hsl := Impl.frame_setLockRef_slot (m.getRef k._targetState).2 k (.block tok 0)
  refine ⟨tok, h2, hc, h7, ?_, hset.1.trans h6, fun k1 hk1 => (hsl.1 k1 hk1).trans (h5 k1 hk1)⟩
  have hu := LockImpl.unref_eq env2 ⟨k, true, some tok⟩ (m.getRef k._targetState).2 tok 0 rfl
    h2 h3
  simp only [if_true] at hu
  simp only [LockImpl.scopeStep, hc, LockImpl.destroy, hu]

/-- The release hook of an exclusive token on a mutex in `EXCLUSIVE_LOCK` without shared
references unlocks. -/
theorem Impl.unref_unlock (env : Env) (m : Impl) (hs : m._state = .EXCLUSIVE_LOCK)
    (he : m._sharedRefs.expired = true) :
    (m.unref env .EXCLUSIVE_LOCK).1 = .returned () ∧
    (m.unref env .EXCLUSIVE_LOCK).2._state = .UNLOCKED := by
  have hu : m.unref env .EXCLUSIVE_LOCK
      = (.returned (), (m.logged [Event.unref .EXCLUSIVE_LOCK]).unlock) := by
    simp [Impl.unref, hs, he, Impl.logged]
  rw [hu]
  exact ⟨rfl, Impl.unlock_state _⟩

/-- C30. A guard releases a lock it did not acquire. On a mutex with no guard alive (both
slots expired): in `SHARED_LOCK`, as after an explicit `lockSharable()`, constructing
and destroying a `SharableLock` makes no attempt on the primitive in the constructor and
leaves the mutex `UNLOCKED`; in `EXCLUSIVE_LOCK`, as after an explicit `lock()`,
constructing and destroying a `ScopedLock` leaves the mutex `UNLOCKED`, whereas
constructing and destroying a `SharableLock` leaves it in `EXCLUSIVE_LOCK` without any
call on the primitive. -/
theorem C30_guard_releases_foreign_lock (env0 env env2 : Env) (m : Impl) (hp : m.SlotOK)
    (h1 : m._sharedRefs.expired = true) (h2 : m._scopedRefs.expired = true) :
    (m._state = .SHARED_LOCK →
      (LockImpl.scopeStep env env2 .SharableLock m).1 = .returned () ∧
      (LockImpl.scopeStep env env2 .SharableLock m).2._state = .UNLOCKED ∧
      (LockImpl.construct env .SharableLock .eager m).2.log = m.log) ∧
    (m._state = .EXCLUSIVE_LOCK →
      (LockImpl.scopeStep env env2 .ScopedLock m).1 = .returned () ∧
      (LockImpl.scopeStep env env2 .ScopedLock m).2._state = .UNLOCKED ∧
      (LockImpl.construct env .ScopedLock .eager m).2.log = m.log) ∧
    (m._state = .EXCLUSIVE_LOCK →
      (LockImpl.scopeStep env env2 .SharableLock m).1 = .returned () ∧
      (LockImpl.scopeStep env env2 .SharableLock m).2._state = .EXCLUSIVE_LOCK ∧
      (LockImpl.scopeStep env env2 .SharableLock m).2.osCalls = m.osCalls) ∧
    ((m.lockSharable env0).1 = .returned () →
      (LockImpl.scopeStep env env2 .SharableLock (m.lockSharable env0).2).2._state
        = .UNLOCKED) ∧
    ((m.lock env0).1 = .returned () →
      (LockImpl.scopeStep env env2 .ScopedLock (m.lock env0).2).2._state = .UNLOCKED ∧
      (LockImpl.scopeStep env env2 .SharableLock (m.lock env0).2).2._state
        = .EXCLUSIVE_LOCK) := by
  have key : ∀ m : Impl, m.SlotOK → m._sharedRefs.use_count = 0 → m._scopedRefs.use_count = 0 →
      (m._state = .SHARED_LOCK →
        (LockImpl.scopeStep env env2 .SharableLock m).1 = .returned () ∧
        (LockImpl.scopeStep env env2 .SharableLock m).2._state = .UNLOCKED ∧
        (LockImpl.construct env .SharableLock .eager m).2.log = m.log) ∧
      (m._state = .EXCLUSIVE_LOCK →
        (LockImpl.scopeStep env env2 .ScopedLock m).1 = .returned () ∧
        (LockImpl.scopeStep env env2 .ScopedLock m).2._state = .UNLOCKED ∧
        (LockImpl.construct env .ScopedLock .eager m).2.log = m.log) ∧
      (m._state = .EXCLUSIVE_LOCK →
        (LockImpl.scopeStep env env2 .SharableLock m).1 = .returned () ∧
        (LockImpl.scopeStep env env2 .SharableLock m).2._state = .EXCLUSIVE_LOCK ∧
        (LockImpl.scopeStep env env2 .SharableLock m).2.osCalls = m.osCalls) := by
    intro m hp hc1 hc2
    refine ⟨fun hst => ?_, fun hst => ?_, fun hst => ?_⟩
    · obtain ⟨tok, _, hc, hlog, hs, hstate, _⟩ :=
        LockImpl.scopeStep_eq env env2 .SharableLock m hp
          (by rw [hst, State.lt_def]; decide) hc1
      rw [hs, hc]
      have hst2 := hstate.trans hst
      have hu := Impl.unref_release env2 _ hst2
      rw [Impl.runDeleter_returned env2 LockKind.SharableLock._targetState _ hu.1]
      exact ⟨hu.1, hu.2, hlog⟩
    · obtain ⟨tok, _, hc, hlog, hs, hstate, hoth⟩ :=
        LockImpl.scopeStep_eq env env2 .ScopedLock m hp
          (by rw [hst, State.lt_def]; decide) hc2
      rw [hs, hc]
      have hst2 := hstate.trans hst
      have hsh := hoth .SharableLock (by decide)
      rw [Impl.slot_sharable, Impl.slot_sharable] at hsh
      have hexp : (((m.getRef LockKind.ScopedLock._targetState).2.setLockRef
          LockKind.ScopedLock._targetState (.block tok 0)))._sharedRefs.expired = true := by
        rw [hsh]
        simp [WeakRef.expired, hc1]
      have hu := Impl.unref_unlock env2 _ hst2 hexp
      rw [Impl.runDeleter_returned env2 LockKind.ScopedLock._targetState _ hu.1]
      exact ⟨hu.1, hu.2, hlog⟩
    · obtain ⟨tok, _, hc, hlog, hs, hstate, _⟩ :=
        LockImpl.scopeStep_eq env env2 .SharableLock m hp
          (by rw [hst, State.lt_def]; decide) hc1
      rw [hs]
      have hst2 := hstate.trans hst
      have hne : LockKind.SharableLock._targetState
          ≠ ((m.getRef LockKind.SharableLock._targetState).2.setLockRef
              LockKind.SharableLock._targetState (.block tok 0))._state := by
        rw [hst2]
        decide
      rw [(Impl.runDeleter_spec env2 _ _).2.1 hne]
      refine ⟨rfl, hst2, ?_⟩
      have hl2 := (Impl.frame_setLockRef_state (m.getRef LockKind.SharableLock._targetState).2
        LockKind.SharableLock._targetState (.block tok 0)).2.1
      simp only [Impl.osCalls, hl2, hlog, List.filter_append]
      simp [Event.isOs]
  have hc1 : m._sharedRefs.use_count = 0 := by simpa [WeakRef.expired] using h1
  have hc2 : m._scopedRefs.use_count = 0 := by simpa [WeakRef.expired] using h2
  have k0 := key m hp hc1 hc2
  refine ⟨k0.1, k0.2.1, k0.2.2, fun hr => ?_, fun hr => ?_⟩
  · have hcs := Impl.lockSharable_cases env0 m
    have k1 := key (m.lockSharable env0).2 (hp.slotOK_of_frame hcs.1)
      (by rw [hcs.1.sharedRefs]; exact hc1) (by rw [hcs.1.scopedRefs]; exact hc2)
    exact (k1.1 (hcs.2.1 hr)).2.1
  · have hcs := Impl.lock_cases env0 m
    have k1 := key (m.lock env0).2 (hp.slotOK_of_frame hcs.1)
      (by rw [hcs.1.sharedRefs]; exact hc1) (by rw [hcs.1.scopedRefs]; exact hc2)
    exact ⟨(k1.2.1 (hcs.2.1 hr)).2.1, (k1.2.2 (hcs.2.1 hr)).2.1⟩

/-- Witness for C30: the mutex on a free file after an explicit `lock()`. -/
theorem C30_guard_releases_foreign_lock_witness :
    Impl.lockedFile._state = .EXCLUSIVE_LOCK ∧
    (LockImpl.scopeStep Env.quiet Env.quiet .ScopedLock Impl.lockedFile).2._state
      = .UNLOCKED ∧
    (LockImpl.scopeStep Env.quiet Env.quiet .SharableLock Impl.lockedFile).2._state
      = .EXCLUSIVE_LOCK := by
  have hp : Impl.lockedFile.SlotOK := by
    intro k t n h
    cases k <;> simp [Impl.lockedFile, Impl.slot, Impl.lockRef, LockKind._targetState] at h <;>
      cases h
  have h := C30_guard_releases_foreign_lock Env.quiet Env.quiet Env.quiet Impl.lockedFile hp
    (by decide) (by decide)
  exact ⟨by decide, (h.2.1 (by decide)).2.1, (h.2.2.1 (by decide)).2.1⟩

/-! ## Upgrading to the exclusive lock -/

theorem Impl.osTry_log (c : OsCall) (m : Impl) :
    ∃ ev, (m.osTry c).2.log = m.log ++ ev ∧
      (∀ b, Event.isUnlock (Event.os c b) = false → ev.filter Event.isUnlock = []) := by
  unfold Impl.osTry
  split
  · exact ⟨[], by simp, fun _ _ => rfl⟩
  · rename_i os _
    exact ⟨[Event.os c (os.outcome 0)], rfl, fun b hb => by
      have : Event.isUnlock (Event.os c (os.outcome 0)) = false := by
        cases c <;> simp [Event.isUnlock] at hb ⊢
      simp [List.filter, this]⟩

theorem Impl.timedLockFor_log (t : State) (secs : Nat) (m : Impl) :
    ∃ ev, (m.timedLockFor t secs).2.log = m.log ++ ev ∧ ev.filter Event.isUnlock = [] := by
  unfold Impl.timedLockFor
  split
  · unfold Impl.timedLock
    split
    · exact ⟨[], by simp, rfl⟩
    · obtain ⟨ev, h1, h2⟩ := Impl.osTry_log (.timed_lock secs) m
      refine ⟨ev, ?_, h2 true rfl⟩
      split <;> rename_i hx <;> rw [hx] at h1 <;> exact h1
  · unfold Impl.timedLockSharable
    split
    · exact ⟨[], by simp, rfl⟩
    · obtain ⟨ev, h1, h2⟩ := Impl.osTry_log (.timed_lock_sharable secs) m
      refine ⟨ev, ?_, h2 true rfl⟩
      split <;> rename_i hx <;> rw [hx] at h1 <;> exact h1

/-- The wait loop only adds to the log, and what it adds holds no release call. -/
theorem Impl.waitLoop_log (t : State) (env : Env) (fuel : Nat) :
    ∀ (i total next timeout : Nat) (m : Impl),
      ∃ ev, (m.waitLoop t env fuel i total next timeout).2.log = m.log ++ ev ∧
        ev.filter Event.isUnlock = [] := by
  induction fuel with
  | zero =>
    intro i total next timeout m
    exact ⟨[], by simp [Impl.waitLoop], rfl⟩
  | succ fuel ih =>
    intro i total next timeout m
    rw [Impl.waitLoop]
    simp only []
    split
    · exact ⟨[], by simp, rfl⟩
    · split
      · exact ⟨[Event.waitForLock t (sec (total + next)) next timeout], rfl, rfl⟩
      · obtain ⟨ev, h1, h2⟩ := Impl.timedLockFor_log t
          (sec (env.waitForLock i t (sec (total + next)) next timeout).2.1)
          { m with log := m.log ++ [Event.waitForLock t (sec (total + next)) next timeout] }
        split
        · rename_i m2 hx
          rw [hx] at h1
          refine ⟨Event.waitForLock t (sec (total + next)) next timeout :: ev, ?_, ?_⟩
          · show m2.log = _
            rw [h1]
            simp
          · simp [List.filter, Event.isUnlock, h2]
        · rename_i m2 hx
          rw [hx] at h1
          obtain ⟨ev2, h3, h4⟩ := ih (i + 1) (sec (total + next))
            (sec (env.waitForLock i t (sec (total + next)) next timeout).2.1)
            (sec (env.waitForLock i t (sec (total + next)) next timeout).2.2) m2
          refine ⟨Event.waitForLock t (sec (total + next)) next timeout :: (ev ++ ev2), ?_, ?_⟩
          · rw [h3]
            show m2.log ++ ev2 = _
            rw [h1]
            simp
          · simp [List.filter, Event.isUnlock, h2, h4]

/-- An exclusive `lock()` entered in `UNLOCKED` only adds to the log, and what it adds
holds no release call. -/
theorem Impl.lock_log_unlocked (env : Env) (m : Impl) (hst : m._state = .UNLOCKED) :
    ∃ ev, (m.lock env).2.log = m.log ++ ev ∧ ev.filter Event.isUnlock = [] := by
  have hc := Impl.timedLock_cases initialLockWait m
  obtain ⟨ev, h1, h2⟩ := Impl.timedLockFor_log .EXCLUSIVE_LOCK initialLockWait m
  simp only [Impl.timedLockFor, if_true] at h1
  unfold Impl.lock
  rcases hx : m.timedLock initialLockWait with ⟨b, m1⟩
  rw [hx] at hc h1
  cases b
  · have hs1 : m1._state = .UNLOCKED := (hc.2.2.1 rfl).1.trans hst
    simp only [hs1, ne_eq, not_true_eq_false, if_false]
    obtain ⟨ev2, h3, h4⟩ := Impl.waitLoop_log .EXCLUSIVE_LOCK env env.passes 0 0
      initialLockWait (maxLockWait env) m1
    refine ⟨ev ++ ev2, ?_, by simp [h2, h4]⟩
    rw [h3]
    show m1.log ++ ev2 = _
    rw [h1]
    simp
  · exact ⟨ev, h1, h2⟩

/-- C24. Exclusive `lock()` on a mutex with a primitive. Entered in `SHARED_LOCK`: if the
first timed acquire (3 s) succeeds, that acquire is all that is logged, no unlock is
issued, and the state is `EXCLUSIVE_LOCK`; if it fails, exactly one unlock is issued
right after it, before the wait loop and so before the first observer invocation, the
loop is entered in `UNLOCKED`, adds no release call, and the state is `UNLOCKED` for as
long as the loop has not succeeded; if the second timed acquire succeeds (the first pass
is not timed out and the observer continues), the OS-call trace is
`[timed_lock (fail), unlock, timed_lock (success)]` and the state is `EXCLUSIVE_LOCK`.
Entered in `UNLOCKED`, `lock()` issues no release call at all. -/
theorem C24_exclusive_lock_from_shared (env : Env) (m : Impl) (os : LockType)
    (hmx : m._mutex = some os) :
    (m._state = .SHARED_LOCK → os.outcome 0 = true →
      m.lock env = (.returned (),
        { m.afterAttempts os 1 [Event.os (.timed_lock initialLockWait) true]
          with _state := .EXCLUSIVE_LOCK })) ∧
    (m._state = .SHARED_LOCK → os.outcome 0 = false →
      m.lock env = (LockKind.ScopedLock.entered m os).waitLoop .EXCLUSIVE_LOCK env env.passes
        0 0 initialLockWait (maxLockWait env) ∧
      (LockKind.ScopedLock.entered m os)._state = .UNLOCKED ∧
      (LockKind.ScopedLock.entered m os).log
        = m.log ++ [Event.os (.timed_lock initialLockWait) false, Event.os .unlock true] ∧
      (∃ ev, (m.lock env).2.log
          = m.log ++ [Event.os (.timed_lock initialLockWait) false, Event.os .unlock true]
            ++ ev ∧
        ev.filter Event.isUnlock = [] ∧
        (m.lock env).2.reports = m.reports ++ ev.filter Event.isReport) ∧
      (∀ n, ((LockKind.ScopedLock.entered m os).waitLoop .EXCLUSIVE_LOCK env n 0 0
            initialLockWait (maxLockWait env)).1 ≠ .returned () →
        ((LockKind.ScopedLock.entered m os).waitLoop .EXCLUSIVE_LOCK env n 0 0
            initialLockWait (maxLockWait env)).2._state = .UNLOCKED)) ∧
    (m._state = .SHARED_LOCK → os.outcome 0 = false → os.outcome 1 = true →
      (env.waitForLock 0 .EXCLUSIVE_LOCK initialLockWait initialLockWait
        (maxLockWait env)).1 = true →
      (maxLockWait env = 0 ∨ initialLockWait < maxLockWait env) → 1 ≤ env.passes →
      (m.lock env).1 = .returned () ∧ (m.lock env).2._state = .EXCLUSIVE_LOCK ∧
      (m.lock env).2.osCalls = m.osCalls ++
        [Event.os (.timed_lock initialLockWait) false, Event.os .unlock true,
         Event.os (.timed_lock (sec (env.waitForLock 0 .EXCLUSIVE_LOCK initialLockWait
           initialLockWait (maxLockWait env)).2.1)) true]) ∧
    (m._state = .UNLOCKED →
      ∃ ev, (m.lock env).2.log = m.log ++ ev ∧ ev.filter Event.isUnlock = []) := by
  have hentry : m._state = .SHARED_LOCK → os.outcome 0 = false →
      m.lock env = (LockKind.ScopedLock.entered m os).waitLoop .EXCLUSIVE_LOCK env env.passes
        0 0 initialLockWait (maxLockWait env) ∧
      (LockKind.ScopedLock.entered m os)._state = .UNLOCKED ∧
      (LockKind.ScopedLock.entered m os).log
        = m.log ++ [Event.os (.timed_lock initialLockWait) false, Event.os .unlock true] ∧
      (LockKind.ScopedLock.entered m os)._mutex = some (os.drop 1) := by
    intro hst ho
    have hne : m._state ≠ LockKind.ScopedLock._targetState := by
      rw [hst]
      decide
    have he := LockKind.lock_entry .ScopedLock env m os hmx hne ho
    have hf := LockKind.entered_facts .ScopedLock m os hne
    rw [LockKind.scoped_lock_eq] at he
    refine ⟨he, by rw [hf.2.2.2]; rfl, ?_, hf.1⟩
    rw [hf.2.2.1]
    simp [LockKind.entryEvents, hst]
  refine ⟨fun hst ho => ?_, fun hst ho => ?_, fun hst ho h1 hobs hT hfuel => ?_,
    fun hst => Impl.lock_log_unlocked env m hst⟩
  · simp [Impl.lock, Impl.timedLock, Impl.osTry, hmx, hst, ho, Impl.afterAttempts,
      LockType.drop]
  · obtain ⟨he, hs, hl, _⟩ := hentry hst ho
    obtain ⟨ev, h3, h4⟩ := Impl.waitLoop_log .EXCLUSIVE_LOCK env env.passes 0 0
      initialLockWait (maxLockWait env) (LockKind.ScopedLock.entered m os)
    refine ⟨he, hs, hl, ⟨ev, ?_, h4, ?_⟩, fun n hn => ?_⟩
    · rw [he, h3, hl]
    · simp only [Impl.reports]
      rw [he, h3, hl]
      simp [List.filter_append, List.filter, Event.isReport]
    · exact ((Impl.waitLoop_cases .EXCLUSIVE_LOCK (by decide) env n 0 0 initialLockWait
        (maxLockWait env) (LockKind.ScopedLock.entered m os)).2.2 hn).trans hs
  · obtain ⟨he, hs, hl, hmx1⟩ := hentry hst ho
    have hlt := maxLockWait_lt env
    have h3 : initialLockWait = 3 := rfl
    have hp : env.passes = (env.passes - 1) + 1 := by omega
    have hs3 : sec (0 + initialLockWait) = initialLockWait := rfl
    have hpass := Impl.waitLoop_pass .EXCLUSIVE_LOCK (by decide) env (env.passes - 1) 0 0
      initialLockWait (maxLockWait env) (LockKind.ScopedLock.entered m os) (os.drop 1) hmx1
      (by rw [hs]; decide)
    rw [hs3] at hpass
    have hno : ¬ (maxLockWait env ≠ 0 ∧ initialLockWait ≥ maxLockWait env) := by
      rw [h3] at hT ⊢
      omega
    have ho1 : (os.drop 1).outcome 0 = true := by
      simp only [LockType.drop]
      exact h1
    rw [if_neg hno, if_neg (by rw [hobs]; simp), if_pos ho1, ← hp, ← he] at hpass
    rw [hpass]
    refine ⟨rfl, rfl, ?_⟩
    show List.filter Event.isOs ((LockKind.ScopedLock.entered m os).log ++ _) = _
    rw [hl]
    simp [Impl.osCalls, List.filter_append, List.filter, Event.isOs, timedCall]

/-- Witness for C24: a mutex in `SHARED_LOCK` on a file that is busy for the first timed
attempt of `lock()` and free for the second. -/
theorem C24_exclusive_lock_from_shared_witness :
    Impl.sharedBusyOnce._state = .SHARED_LOCK ∧
    (Impl.sharedBusyOnce.lock Env.quiet).2._state = .EXCLUSIVE_LOCK ∧
    (Impl.sharedBusyOnce.lock Env.quiet).2.osCalls
      = [Event.os (.timed_lock_sharable 3) true, Event.os (.timed_lock 3) false,
         Event.os .unlock true, Event.os (.timed_lock 3) true] :=
  ⟨by decide,
   ((C24_exclusive_lock_from_shared Env.quiet Impl.sharedBusyOnce (LockType.busyOnce.drop 1)
      rfl).2.2.1 (by decide) (by decide) (by decide) (by decide) (Or.inr (by decide))
      (by decide)).2.1,
   ((C24_exclusive_lock_from_shared Env.quiet Impl.sharedBusyOnce (LockType.busyOnce.drop 1)
      rfl).2.2.1 (by decide) (by decide) (by decide) (by decide) (Or.inr (by decide))
      (by decide)).2.2.trans (by decide)⟩

/-! ## The recorded state and the file lock -/

theorem heldMode_append (l ev : List Event) :
    heldMode (l ++ ev) = ev.foldl HeldMode.after (heldMode l) := by
  simp [heldMode, List.foldl_append]

/-- A non-blocking or timed attempt for target `t` with an acquire call `c` of the mode
of `t` keeps the recorded state in step with the held mode. -/
theorem Impl.Tracks.attempt (t : State) (c : OsCall) (m : Impl) (h : m.Tracks)
    (hc : ∀ x, HeldMode.after x (Event.os c true) = t.held)
    (hf : ∀ x, HeldMode.after x (Event.os c false) = x) :
    Impl.Tracks (if m._state = t then (true, m)
      else
        match m.osTry c with
        | (true, m1) => (true, { m1 with _state := t })
        | (false, m1) => (false, m1)).2 := by
  by_cases hst : m._state = t
  · rw [if_pos hst]
    exact h
  · rw [if_neg hst]
    obtain ⟨h1, h2⟩ := h
    rcases hmx : m._mutex with _ | os
    · rw [hmx] at h1
      cases h1
    · rcases ho : os.outcome 0 with _ | _
      · simp only [Impl.osTry, hmx, ho]
        exact ⟨rfl, by
          show heldMode (m.log ++ [Event.os c false]) = m._state.held
          rw [heldMode_append]
          simp [hf, h2]⟩
      · simp only [Impl.osTry, hmx, ho]
        exact ⟨rfl, by
          show heldMode (m.log ++ [Event.os c true]) = t.held
          rw [heldMode_append]
          simp [hc]⟩

/-- A blocking or releasing call `c` that leaves the mode of `t` keeps the recorded state
in step with the held mode. -/
theorem Impl.Tracks.call (t : State) (c : OsCall) (m : Impl) (h : m.Tracks)
    (hc : ∀ x, HeldMode.after x (Event.os c true) = t.held) :
    Impl.Tracks (if m._state ≠ t then { m.osCall c with _state := t } else m) := by
  by_cases hst : m._state = t
  · rw [if_neg (by simp [hst])]
    exact h
  · rw [if_pos hst]
    obtain ⟨h1, h2⟩ := h
    rcases hmx : m._mutex with _ | os
    · rw [hmx] at h1
      cases h1
    · simp only [Impl.osCall, hmx]
      exact ⟨by simp [hmx], by
        show heldMode (m.log ++ [Event.os c true]) = t.held
        rw [heldMode_append]
        simp [hc]⟩

theorem Impl.Tracks.basic (secs : Nat) (m : Impl) (h : m.Tracks) :
    m.sleepLock.Tracks ∧ m.tryLock.2.Tracks ∧ (m.timedLock secs).2.Tracks ∧ m.unlock.Tracks ∧
    m.sleepLockSharable.Tracks ∧ m.tryLockSharable.2.Tracks ∧
    (m.timedLockSharable secs).2.Tracks ∧ m.unlockSharable.Tracks :=
  ⟨Impl.Tracks.call .EXCLUSIVE_LOCK .lock m h (fun _ => rfl),
   Impl.Tracks.attempt .EXCLUSIVE_LOCK .try_lock m h (fun _ => rfl) (fun _ => rfl),
   Impl.Tracks.attempt .EXCLUSIVE_LOCK (.timed_lock secs) m h (fun _ => rfl) (fun _ => rfl),
   Impl.Tracks.call .UNLOCKED .unlock m h (fun _ => rfl),
   Impl.Tracks.call .SHARED_LOCK .lock_sharable m h (fun _ => rfl),
   Impl.Tracks.attempt .SHARED_LOCK .try_lock_sharable m h (fun _ => rfl) (fun _ => rfl),
   Impl.Tracks.attempt .SHARED_LOCK (.timed_lock_sharable secs) m h (fun _ => rfl)
     (fun _ => rfl),
   Impl.Tracks.call .UNLOCKED .unlock_sharable m h (fun _ => rfl)⟩

theorem Impl.Tracks.timedLockFor (t : State) (secs : Nat) (m : Impl) (h : m.Tracks) :
    (m.timedLockFor t secs).2.Tracks := by
  unfold Impl.timedLockFor
  split
  · exact (Impl.Tracks.basic secs m h).2.2.1
  · exact (Impl.Tracks.basic secs m h).2.2.2.2.2.2.1

theorem Impl.Tracks.waitLoop (t : State) (env : Env) (fuel : Nat) :
    ∀ (i total next timeout : Nat) (m : Impl), m.Tracks →
      (m.waitLoop t env fuel i total next timeout).2.Tracks := by
  induction fuel with
  | zero =>
    intro i total next timeout m h
    exact h
  | succ fuel ih =>
    intro i total next timeout m h
    have hlog : Impl.Tracks
        { m with log := m.log ++ [Event.waitForLock t (sec (total + next)) next timeout] } := by
      refine ⟨h.1, ?_⟩
      show heldMode (m.log ++ [_]) = m._state.held
      rw [heldMode_append]
      exact h.2
    rw [Impl.waitLoop]
    simp only []
    split
    · exact h
    · split
      · exact hlog
      · have hc := Impl.Tracks.timedLockFor t
          (sec (env.waitForLock i t (sec (total + next)) next timeout).2.1) _ hlog
        split
        · rename_i m2 hx
          rw [hx] at hc
          exact hc
        · rename_i m2 hx
          rw [hx] at hc
          exact ih _ _ _ _ m2 hc

theorem Impl.Tracks.lock (env : Env) (m : Impl) (h : m.Tracks) :
    (m.lock env).2.Tracks ∧ (m.lockSharable env).2.Tracks := by
  constructor
  · have hc := (Impl.Tracks.basic initialLockWait m h).2.2.1
    unfold Impl.lock
    split
    · rename_i m1 hx
      rw [hx] at hc
      exact hc
    · rename_i m1 hx
      rw [hx] at hc
      apply Impl.Tracks.waitLoop
      split
      · exact (Impl.Tracks.basic 0 m1 hc).2.2.2.1
      · exact hc
  · have hc := (Impl.Tracks.basic initialLockWait m h).2.2.2.2.2.2.1
    unfold Impl.lockSharable
    split
    · rename_i m1 hx
      rw [hx] at hc
      exact hc
    · rename_i m1 hx
      rw [hx] at hc
      exact Impl.Tracks.waitLoop _ env _ _ _ _ _ _ hc

theorem Impl.Tracks.apply (env : Env) (o : MutexOp) (m : Impl) (h : m.Tracks) :
    (o.apply env m).Tracks := by
  have hb := fun s => Impl.Tracks.basic s m h
  have hl := Impl.Tracks.lock env m h
  cases o with
  | lock => exact hl.1
  | sleepLock => exact (hb 0).1
  | tryLock => exact (hb 0).2.1
  | timedLock s => exact (hb s).2.2.1
  | unlock => exact (hb 0).2.2.2.1
  | lockSharable => exact hl.2
  | sleepLockSharable => exact (hb 0).2.2.2.2.1
  | tryLockSharable => exact (hb 0).2.2.2.2.2.1
  | timedLockSharable s => exact (hb s).2.2.2.2.2.2.1
  | unlockSharable => exact (hb 0).2.2.2.2.2.2.2

/-- Counterexample to C27. On a file that another process takes after the first
acquire: a `SharableLock` owns, then the constructor of a `ScopedLock` fails its first
timed acquire, unlocks to avoid the deadlock and raises (the observer gives up, or the
wait times out); the `SharableLock` still owns and the mutex is `UNLOCKED`. And with
every acquire succeeding: after an explicit `lockSharable()` under a `ScopedLock`, the
destruction of a `SharableLock` unlocks the mutex while the `ScopedLock` owns. -/
theorem C27_counterexample :
    (((Sys.init (Impl.create "/var/run/zypp/common.lock" (LockType.freeFor 1))).run
        failedUpgrade).guard 0).map LockImpl.owns = some true ∧
    ((Sys.init (Impl.create "/var/run/zypp/common.lock" (LockType.freeFor 1))).run
        failedUpgrade).mutex._state = .UNLOCKED ∧
    (((Sys.init (Impl.create "/var/run/zypp/common.lock" (LockType.freeFor 1))).run
        timedOutUpgrade).guard 0).map LockImpl.owns = some true ∧
    ((Sys.init (Impl.create "/var/run/zypp/common.lock" (LockType.freeFor 1))).run
        timedOutUpgrade).mutex._state = .UNLOCKED ∧
    (((Sys.init Impl.freeFile).run explicitDemotion).guard 0).map LockImpl.owns = some true ∧
    ((Sys.init Impl.freeFile).run explicitDemotion).mutex._state = .UNLOCKED := by
  decide

theorem Impl.Covered.of_exclusive {m : Impl} (h : m._state = .EXCLUSIVE_LOCK) : m.Covered := by
  unfold Impl.Covered
  rw [h]
  exact ⟨fun _ => rfl, fun _ => by decide⟩

theorem Impl.Covered.of_le {m m1 : Impl} (hc : m.Covered)
    (hle : ∀ k, (m1.slot k).use_count ≤ (m.slot k).use_count)
    (hst : m1._state = m._state) : m1.Covered := by
  have h1 := hle .SharableLock
  have h2 := hle .ScopedLock
  rw [Impl.slot_sharable, Impl.slot_sharable] at h1
  rw [Impl.slot_scoped, Impl.slot_scoped] at h2
  unfold Impl.Covered at hc ⊢
  rw [hst]
  exact ⟨fun h => hc.1 (by omega), fun h => hc.2 (by omega)⟩

theorem Impl.Covered.of_frame {m m1 : Impl} (hc : m.Covered) (hf : Impl.Frame m m1)
    (hst : m1._state = m._state) : m1.Covered :=
  hc.of_le (fun k => by rw [hf.slot]) hst

theorem Impl.Covered.of_zero {m : Impl} (h1 : m._sharedRefs.use_count = 0)
    (h2 : m._scopedRefs.use_count = 0) : m.Covered := by
  unfold Impl.Covered
  exact ⟨fun h => by omega, fun h => by omega⟩

theorem Impl.nextSucceeds_of_nextFails {m : Impl} (h : m.nextFails = false) :
    m.nextSucceeds := by
  intro os hos
  simp only [Impl.nextFails, hos] at h
  simpa using h

/-- The exclusive `lock()` returns when the mutex is in `EXCLUSIVE_LOCK` already or the
first timed attempt succeeds. -/
theorem Impl.lock_returns (env : Env) (m : Impl)
    (h : m._state = .EXCLUSIVE_LOCK ∨ m.nextSucceeds) : (m.lock env).1 = .returned () := by
  have hi := (Impl.attempt_iff .EXCLUSIVE_LOCK (.timed_lock initialLockWait) m).1
  have ht : (m.timedLock initialLockWait).1 = true := hi.2 h
  unfold Impl.lock
  rcases hx : m.timedLock initialLockWait with ⟨b, m1⟩
  rw [hx] at ht
  simp only at ht
  subst ht
  rfl

/-- The state after the release hook: unchanged, or, when the expired state is the state
of the mutex, `SHARED_LOCK` after a demotion from `EXCLUSIVE_LOCK` with shared references
around, else `UNLOCKED`. -/
theorem Impl.unref_state (env : Env) (p : State) (m : Impl) :
    (m.unref env p).2._state = m._state ∨
    (p = m._state ∧ m._state = .EXCLUSIVE_LOCK ∧ m._sharedRefs.use_count ≠ 0 ∧
      (m.unref env p).2._state = .SHARED_LOCK) ∨
    (p = m._state ∧ (m._state ≠ .EXCLUSIVE_LOCK ∨ m._sharedRefs.use_count = 0) ∧
      (m.unref env p).2._state = .UNLOCKED) := by
  by_cases hp : p = m._state
  · rcases hst : m._state with _ | _ | _
    · left
      rw [(Impl.unref_spec env p m).2.2.1 hst]
      exact hst
    · right
      right
      rw [hst] at hp
      subst hp
      exact ⟨rfl, Or.inl (by decide), (Impl.unref_release env m hst).2⟩
    · rw [hst] at hp
      subst hp
      by_cases hcnt : m._sharedRefs.use_count = 0
      · right
        right
        exact ⟨rfl, Or.inr hcnt,
          (Impl.unref_unlock env m hst (by simp [WeakRef.expired, hcnt])).2⟩
      · have hu : m.unref env .EXCLUSIVE_LOCK
            = Impl.lockSharable env { m with log := m.log ++ [Event.unref .EXCLUSIVE_LOCK] } := by
          simp [Impl.unref, hst, WeakRef.expired, hcnt]
        have hc := Impl.lockSharable_cases env
          { m with log := m.log ++ [Event.unref .EXCLUSIVE_LOCK] }
        rw [← hu] at hc
        by_cases hr : (m.unref env .EXCLUSIVE_LOCK).1 = .returned ()
        · right
          left
          exact ⟨rfl, rfl, hcnt, hc.2.1 hr⟩
        · left
          rw [hc.2.2.1 hr]
          exact hst
  · left
    rw [(Impl.unref_spec env p m).2.1 hp]

/-- The release of the last handle of kind `k`, seen on the state and the use counts,
whatever the primitive does: a live slot still shows in the state. -/
theorem Impl.Covered.release (k : LockKind) {m r : Impl} (hc : m.Covered)
    (hk0 : (r.slot k).use_count = 0) (hoth : ∀ k1, k1 ≠ k → r.slot k1 = m.slot k1)
    (hs : r._state = m._state ∨
      (k._targetState = m._state ∧ m._state = .EXCLUSIVE_LOCK ∧ r._state = .SHARED_LOCK) ∨
      (k._targetState = m._state ∧
        (m._state ≠ .EXCLUSIVE_LOCK ∨ (m.slot .SharableLock).use_count = 0) ∧
        r._state = .UNLOCKED)) : r.Covered := by
  unfold Impl.Covered at hc ⊢
  cases k
  · have h2 := hoth .ScopedLock (by decide)
    rw [Impl.slot_sharable] at hk0
    rw [Impl.slot_scoped, Impl.slot_scoped] at h2
    rw [h2, hk0]
    rcases hs with hs | ⟨h1, h3, _⟩ | ⟨h1, _, hs⟩
    · rw [hs]
      exact ⟨hc.1, fun h => by omega⟩
    · rw [h3] at h1
      cases h1
    · refine ⟨fun h => ?_, fun h => by omega⟩
      have := hc.1 h
      rw [this] at h1
      cases h1
  · have h2 := hoth .SharableLock (by decide)
    rw [Impl.slot_scoped] at hk0
    rw [Impl.slot_sharable, Impl.slot_sharable] at h2
    rw [h2, hk0]
    rcases hs with hs | ⟨_, _, hs⟩ | ⟨h1, hz, hs⟩
    · rw [hs]
      exact ⟨fun h => by omega, hc.2⟩
    · rw [hs]
      exact ⟨fun h => by omega, fun _ => by decide⟩
    · refine ⟨fun h => by omega, fun h => ?_⟩
      rcases hz with hz | hz
      · exact absurd h1.symm hz
      · rw [Impl.slot_sharable] at hz
        omega

/-- A guard drops its handle, whatever the primitive does: a live slot still shows in the
state. -/
theorem LockImpl.unref_covered (env : Env) (g : LockImpl) (m : Impl) (hl : RefLive m g)
    (hc : m.Covered) : (g.unref env m).2.2.Covered := by
  rcases hg : g._mutexRef with _ | tok
  · rw [LockImpl.unref_none env g m hg]
    exact hc
  · obtain ⟨hp, n, hsl⟩ := hl tok hg
    rw [LockImpl.unref_eq env g m tok n hg hp hsl]
    have hset := fun w => Impl.frame_setLockRef_slot m g.kind w
    have hsetst := fun w => Impl.frame_setLockRef_state m g.kind._targetState w
    by_cases hn : n = 0
    · subst hn
      simp only [if_true]
      have hf := (Impl.runDeleter_spec env g.kind._targetState
        (m.setLockRef g.kind._targetState (.block tok 0))).1
      have hs := Impl.unref_state env g.kind._targetState
        (m.setLockRef g.kind._targetState (.block tok 0))
      rw [← (Impl.runDeleter_cases env g.kind._targetState
        (m.setLockRef g.kind._targetState (.block tok 0))).2.2.2.2.1, (hsetst _).1] at hs
      apply Impl.Covered.release g.kind hc
      · rw [hf.slot, (hset _).2.1]
        rfl
      · intro k1 hk1
        rw [hf.slot, (hset _).1 k1 hk1]
      · rcases hs with hs | ⟨h1, h2, _, hs⟩ | ⟨h1, hz, hs⟩
        · exact Or.inl hs
        · exact Or.inr (Or.inl ⟨h1, h2, hs⟩)
        · refine Or.inr (Or.inr ⟨h1, ?_, hs⟩)
          rcases hz with hz | hz
          · exact Or.inl hz
          · by_cases hk : LockKind.SharableLock = g.kind
            · left
              rw [← hk] at h1
              rw [← h1]
              decide
            · right
              rw [← (hset (.block tok 0)).1 .SharableLock hk, Impl.slot_sharable]
              exact hz
    · simp only [hn, if_false]
      refine hc.of_le (fun k1 => ?_) (hsetst _).1
      by_cases hk1 : k1 = g.kind
      · subst hk1
        rw [(hset _).2.1, hsl]
        simp [WeakRef.use_count]
      · rw [(hset _).1 k1 hk1]

/-- The end of an acquire that raised the state to the target if it was below: after
`getRef` a live slot shows in the state, whatever the primitive did. -/
theorem LockImpl.acquire_covered (g : LockImpl) {m m1 : Impl} (hp : m.SlotOK)
    (hl : RefLive m g) (hf : Impl.Frame m m1)
    (hst : g.needStateChange m = true → m1._state = g.kind._targetState)
    (hst0 : g.needStateChange m = false → m1._state = m._state) (hc : m.Covered) :
    (g.getRef m1).2.Covered := by
  have hst1 : m1._state =
      if m._state < g.kind._targetState then g.kind._targetState else m._state := by
    by_cases hn : m._state < g.kind._targetState
    · rw [if_pos hn]
      exact hst (by simp [LockImpl.needStateChange, hn])
    · rw [if_neg hn]
      exact hst0 (by simp [LockImpl.needStateChange, hn])
  exact (LockImpl.getRef_inv g hf hst1 hp hl).2.1 hc

/-- The exclusive `lock()` that does not run into the deadlock-avoiding unlock keeps a
live slot showing in the state, whatever else the primitive does. -/
theorem Impl.mutex_lock_covered (env : Env) (m : Impl) (hc : m.Covered)
    (hd : m._state = .SHARED_LOCK → m.nextSucceeds) : (m.lock env).2.Covered := by
  have hcs := Impl.lock_cases env m
  by_cases hr : (m.lock env).1 = .returned ()
  · exact Impl.Covered.of_exclusive (hcs.2.1 hr)
  · have hst := hcs.2.2.1 hr
    have hne : m._state ≠ .EXCLUSIVE_LOCK := fun h => hr (Impl.lock_returns env m (Or.inl h))
    have hns : ¬ m.nextSucceeds := fun h => hr (Impl.lock_returns env m (Or.inr h))
    apply Impl.Covered.of_zero
    · rw [hcs.1.sharedRefs]
      rcases Nat.eq_zero_or_pos m._sharedRefs.use_count with h0 | h0
      · exact h0
      · have h1 := hc.2 h0
        rcases hs : m._state with _ | _ | _
        · exact absurd hs h1
        · exact absurd (hd hs) hns
        · exact absurd hs hne
    · rw [hcs.1.scopedRefs]
      rcases Nat.eq_zero_or_pos m._scopedRefs.use_count with h0 | h0
      · exact h0
      · exact absurd (hc.1 h0) hne

theorem LockKind.kind_lock_covered (k : LockKind) (env : Env) (m : Impl) (hc : m.Covered)
    (hd : k = .ScopedLock → m._state = .SHARED_LOCK → m.nextSucceeds) :
    ((k.lock env m).1 = .returned () → (k.lock env m).2._state = k._targetState) ∧
    ((k.lock env m).1 ≠ .returned () → (k.lock env m).2.Covered) := by
  cases k
  · have hcs := Impl.lockSharable_cases env m
    exact ⟨hcs.2.1, fun h => hc.of_frame hcs.1 (hcs.2.2.1 h)⟩
  · have hcs := Impl.lock_cases env m
    exact ⟨hcs.2.1, fun _ => Impl.mutex_lock_covered env m hc (hd rfl)⟩

theorem LockImpl.guard_lock_covered (env : Env) (g : LockImpl) (m : Impl) (hp : m.SlotOK)
    (hl : RefLive m g) (hc : m.Covered)
    (hd : g.kind = .ScopedLock → g._mutex = true → m._state = .SHARED_LOCK → m.nextSucceeds) :
    (g.lock env m).2.2.Covered := by
  have hf := g.kind.frame_lock env m
  unfold LockImpl.lock
  split
  · exact hc
  · rename_i hm
    have hm1 : g._mutex = true := by simpa using hm
    split
    · rename_i hn
      have hkl := g.kind.kind_lock_covered env m hc (fun hk => hd hk hm1)
      rcases hx : g.kind.lock env m with ⟨o, m1⟩
      rw [hx] at hf hkl
      cases o with
      | returned u =>
        exact g.acquire_covered hp hl hf (fun _ => hkl.1 rfl)
          (fun h => by rw [hn] at h; cases h) hc
      | thrown e => exact hkl.2 (by simp)
      | waiting => exact hkl.2 (by simp)
      | terminated => exact hkl.2 (by simp)
    · rename_i hn
      exact g.acquire_covered hp hl (Impl.Frame.rfl_ m) (fun h => absurd h hn) (fun _ => rfl) hc

theorem LockImpl.sleepLock_covered (g : LockImpl) (m : Impl) (hp : m.SlotOK)
    (hl : RefLive m g) (hc : m.Covered) : (g.sleepLock m).2.2.Covered := by
  have hf := g.kind.frame_sleepLockFor m
  have hk := g.kind.sleepLock_target m
  unfold LockImpl.sleepLock
  split
  · exact hc
  · split
    · rename_i hn
      exact g.acquire_covered hp hl hf (fun _ => hk) (fun h => by rw [hn] at h; cases h) hc
    · rename_i hn
      exact g.acquire_covered hp hl (Impl.Frame.rfl_ m) (fun h => absurd h hn) (fun _ => rfl) hc

/-- The end of a `tryLock()` or `timedLock()` of a guard whose attempt `r` on the mutex
was needed. -/
theorem LockImpl.attempt_covered (env : Env) (g : LockImpl) (m : Impl) (r : Bool × Impl)
    (hp : m.SlotOK) (hl : RefLive m g) (hc : m.Covered) (hf : Impl.Frame m r.2)
    (hlt : m._state < g.kind._targetState)
    (ht : r.1 = true → r.2._state = g.kind._targetState)
    (hfl : r.1 = false → r.2._state = m._state) :
    (r.1 = true → (g.getRef r.2).2.Covered) ∧ (r.1 = false → (g.unref env r.2).2.2.Covered) := by
  have hn : g.needStateChange m = true := by simp [LockImpl.needStateChange, hlt]
  refine ⟨fun h => g.acquire_covered hp hl hf (fun _ => ht h)
    (fun h0 => by rw [hn] at h0; cases h0) hc, fun h => ?_⟩
  exact LockImpl.unref_covered env g r.2 (hl.refLive_of_frame hf) (hc.of_frame hf (hfl h))

theorem LockKind.attempt_state (k : LockKind) (secs : Nat) (m : Impl) :
    ((k.tryLock m).1 = true → (k.tryLock m).2._state = k._targetState) ∧
    ((k.tryLock m).1 = false → (k.tryLock m).2._state = m._state) ∧
    ((k.timedLock secs m).1 = true → (k.timedLock secs m).2._state = k._targetState) ∧
    ((k.timedLock secs m).1 = false → (k.timedLock secs m).2._state = m._state) := by
  cases k
  · exact ⟨(Impl.tryLockSharable_cases m).2.1, fun h => ((Impl.tryLockSharable_cases m).2.2.1 h).1,
      (Impl.timedLockSharable_cases secs m).2.1,
      fun h => ((Impl.timedLockSharable_cases secs m).2.2.1 h).1⟩
  · exact ⟨(Impl.tryLock_cases m).2.1, fun h => ((Impl.tryLock_cases m).2.2.1 h).1,
      (Impl.timedLock_cases secs m).2.1, fun h => ((Impl.timedLock_cases secs m).2.2.1 h).1⟩

theorem LockImpl.tryLock_covered (env : Env) (g : LockImpl) (m : Impl) (hp : m.SlotOK)
    (hl : RefLive m g) (hc : m.Covered) : (g.tryLock env m).2.2.Covered := by
  have hf := g.kind.frame_tryLock m
  have hs := g.kind.attempt_state 0 m
  unfold LockImpl.tryLock
  split
  · exact hc
  · split
    · rename_i hn
      have hlt : m._state < g.kind._targetState := by
        simpa [LockImpl.needStateChange] using hn
      have ha := LockImpl.attempt_covered env g m (g.kind.tryLock m) hp hl hc hf hlt hs.1 hs.2.1
      rcases hx : g.kind.tryLock m with ⟨b, m1⟩
      rw [hx] at ha
      cases b
      · have h2 := ha.2 rfl
        simp only at h2 ⊢
        rcases hy : g.unref env m1 with ⟨o, g1, m2⟩
        rw [hy] at h2
        cases o <;> exact h2
      · exact ha.1 rfl
    · rename_i hn
      exact g.acquire_covered hp hl (Impl.Frame.rfl_ m) (fun h => absurd h hn) (fun _ => rfl) hc

theorem LockImpl.timedLock_covered (env : Env) (secs : Nat) (g : LockImpl) (m : Impl)
    (hp : m.SlotOK) (hl : RefLive m g) (hc : m.Covered) :
    (g.timedLock env secs m).2.2.Covered := by
  have hf := g.kind.frame_timedLock secs m
  have hs := g.kind.attempt_state secs m
  unfold LockImpl.timedLock
  split
  · exact hc
  · split
    · rename_i hn
      have hlt : m._state < g.kind._targetState := by
        simpa [LockImpl.needStateChange] using hn
      have ha := LockImpl.attempt_covered env g m (g.kind.timedLock secs m) hp hl hc hf hlt
        hs.2.2.1 hs.2.2.2
      rcases hx : g.kind.timedLock secs m with ⟨b, m1⟩
      rw [hx] at ha
      cases b
      · have h2 := ha.2 rfl
        simp only at h2 ⊢
        rcases hy : g.unref env m1 with ⟨o, g1, m2⟩
        rw [hy] at h2
        cases o <;> exact h2
      · exact ha.1 rfl
    · rename_i hn
      exact g.acquire_covered hp hl (Impl.Frame.rfl_ m) (fun h => absurd h hn) (fun _ => rfl) hc

theorem LockImpl.unlock_covered (env : Env) (g : LockImpl) (m : Impl) (hl : RefLive m g)
    (hc : m.Covered) : (g.unlock env m).2.2.Covered := by
  unfold LockImpl.unlock
  split
  · exact hc
  · exact LockImpl.unref_covered env g m hl hc

theorem Op.dropsShared_false {o : Op} {s : Sys} (hd : o.dropsShared s = false)
    (hx : o.locksExclusive s = true) (hst : s.mutex._state = .SHARED_LOCK) :
    s.mutex.nextSucceeds := by
  apply Impl.nextSucceeds_of_nextFails
  simpa [Op.dropsShared, hx, hst] using hd

/-- A guard operation that does not run into the deadlock-avoiding unlock keeps a live
slot showing in the state, whatever the primitive does. -/
theorem GuardOp.guardOp_covered (env : Env) (o : GuardOp) {s : Sys} (h : s.WF)
    (hc : s.mutex.Covered) (hd : Op.dropsShared (.guard o) s = false) :
    (o.apply env s).mutex.Covered := by
  have hp := h.slotOK
  cases o with
  | construct k d =>
    have hl := RefLive.deferLock s.mutex k
    cases d with
    | deferLock => exact hc
    | eager =>
      have hk := LockImpl.guard_lock_covered env (LockImpl.deferLock k) s.mutex hp hl hc
        (fun hk _ hst => by
          have hk1 : k = .ScopedLock := hk
          subst hk1
          exact Op.dropsShared_false hd rfl hst)
      simp only [GuardOp.apply, LockImpl.construct]
      rcases hx : (LockImpl.deferLock k).lock env s.mutex with ⟨o, g1, m1⟩
      rw [hx] at hk
      cases o <;> exact hk
    | tryToLock =>
      have hk := LockImpl.tryLock_covered env (LockImpl.deferLock k) s.mutex hp hl hc
      simp only [GuardOp.apply, LockImpl.construct]
      rcases hx : (LockImpl.deferLock k).tryLock env s.mutex with ⟨o, g1, m1⟩
      rw [hx] at hk
      cases o <;> exact hk
    | timed secs =>
      have hk := LockImpl.timedLock_covered env secs (LockImpl.deferLock k) s.mutex hp hl hc
      simp only [GuardOp.apply, LockImpl.construct]
      rcases hx : (LockImpl.deferLock k).timedLock env secs s.mutex with ⟨o, g1, m1⟩
      rw [hx] at hk
      cases o <;> exact hk
  | lock i =>
    simp only [GuardOp.apply]
    split
    · rename_i g hg
      exact LockImpl.guard_lock_covered env g s.mutex hp (h.refLive (Sys.guard_eq_some hg)) hc
        (fun hk hm hst => Op.dropsShared_false hd (by simp [Op.locksExclusive, hg, hk, hm]) hst)
    · exact hc
  | sleepLock i =>
    simp only [GuardOp.apply]
    split
    · rename_i g hg
      exact LockImpl.sleepLock_covered g s.mutex hp (h.refLive (Sys.guard_eq_some hg)) hc
    · exact hc
  | tryLock i =>
    simp only [GuardOp.apply]
    split
    · rename_i g hg
      exact LockImpl.tryLock_covered env g s.mutex hp (h.refLive (Sys.guard_eq_some hg)) hc
    · exact hc
  | timedLock i secs =>
    simp only [GuardOp.apply]
    split
    · rename_i g hg
      exact LockImpl.timedLock_covered env secs g s.mutex hp
        (h.refLive (Sys.guard_eq_some hg)) hc
    · exact hc
  | unlock i =>
    simp only [GuardOp.apply]
    split
    · rename_i g hg
      exact LockImpl.unlock_covered env g s.mutex (h.refLive (Sys.guard_eq_some hg)) hc
    · exact hc
  | destroy i =>
    simp only [GuardOp.apply]
    split
    · rename_i g hg
      exact LockImpl.unref_covered env g s.mutex (h.refLive (Sys.guard_eq_some hg)) hc
    · exact hc

/-- An explicit exclusive acquire that does not run into the deadlock-avoiding unlock
keeps a live slot showing in the state. -/
theorem MutexOp.mutexOp_covered (env : Env) (o : MutexOp) (m : Impl) (hc : m.Covered)
    (hok : Op.isGuardOrExclusive (.mutex o) = true)
    (hd : o = .lock → m._state = .SHARED_LOCK → m.nextSucceeds) :
    (o.apply env m).Covered := by
  cases o <;> simp [Op.isGuardOrExclusive] at hok
  · exact Impl.mutex_lock_covered env m hc (hd rfl)
  · exact Impl.Covered.of_exclusive (Impl.sleepLock_state m)
  · have hcs := Impl.tryLock_cases m
    show m.tryLock.2.Covered
    rcases hb : m.tryLock.1 with _ | _
    · exact hc.of_frame hcs.1 (hcs.2.2.1 hb).1
    · exact Impl.Covered.of_exclusive (hcs.2.1 hb)
  · rename_i secs
    have hcs := Impl.timedLock_cases secs m
    show (m.timedLock secs).2.Covered
    rcases hb : (m.timedLock secs).1 with _ | _
    · exact hc.of_frame hcs.1 (hcs.2.2.1 hb).1
    · exact Impl.Covered.of_exclusive (hcs.2.1 hb)

theorem Op.op_covered (env : Env) (o : Op) {s : Sys} (h : s.WF) (hc : s.mutex.Covered)
    (hok : o.isGuardOrExclusive = true) (hd : o.dropsShared s = false) :
    (o.apply env s).mutex.Covered := by
  cases o with
  | guard o => exact GuardOp.guardOp_covered env o h hc hd
  | mutex o =>
    exact MutexOp.mutexOp_covered env o s.mutex hc hok (fun ho hst => by
      subst ho
      exact Op.dropsShared_false hd rfl hst)

theorem Sys.covered_run (script : List (Env × Op)) :
    ∀ s : Sys, s.WF → s.mutex.Covered → (∀ x ∈ script, Op.isGuardOrExclusive x.2 = true) →
      s.keepsShared script → (s.run script).WF ∧ (s.run script).mutex.Covered := by
  induction script with
  | nil =>
    intro s h hc _ _
    exact ⟨h, hc⟩
  | cons x rest ih =>
    intro s h hc hok hk
    obtain ⟨env, o⟩ := x
    rw [Sys.run]
    split
    · exact ⟨h, hc⟩
    · rename_i ht
      rcases hk with hk | hk
      · exact absurd hk ht
      · exact ih (o.apply env s) (h.step env o)
          (Op.op_covered env o h hc (hok (env, o) (List.mem_cons_self _ _)) hk.1)
          (fun y hy => hok y (List.mem_cons_of_mem _ hy)) hk.2

theorem Sys.keepsShared_take (script : List (Env × Op)) :
    ∀ (n : Nat) (s : Sys), s.keepsShared script → s.keepsShared (script.take n) := by
  induction script with
  | nil =>
    intro n s h
    simpa using h
  | cons x rest ih =>
    intro n s h
    obtain ⟨env, o⟩ := x
    cases n with
    | zero => exact trivial
    | succ n =>
      rcases h with h | h
      · exact Or.inl h
      · exact Or.inr ⟨h.1, ih n _ h.2⟩

/-- C27 (amended). For every sequence of guard operations and explicit exclusive acquires
(`lock`, `sleepLock`, `tryLock`, `timedLock`) on a freshly constructed mutex, and for every
outcome of the attempts on the primitive and every observer, provided no exclusive
`lock()` (explicit, of a `ScopedLock`, or of its eager constructor) is entered in
`SHARED_LOCK` with its first timed acquire failing: at no point between the steps does a
guard own a state reference while the mutex is `UNLOCKED`; an owning `ScopedLock` even
means `EXCLUSIVE_LOCK`. -/
theorem C27_owning_guard_not_unlocked (script : List (Env × Op)) (n : Nat) (m : Impl)
    (hm : m = Impl.fake ∨ ∃ path os, m = Impl.create path os)
    (hops : ∀ x ∈ script, Op.isGuardOrExclusive x.2 = true)
    (hk : (Sys.init m).keepsShared script) :
    ∀ i g, ((Sys.init m).run (script.take n)).guard i = some g → g.owns = true →
      ((Sys.init m).run (script.take n)).mutex._state ≠ .UNLOCKED ∧
      (g.kind = .ScopedLock →
        ((Sys.init m).run (script.take n)).mutex._state = .EXCLUSIVE_LOCK) := by
  intro i g hg ho
  have hc0 : (Sys.init m).mutex.Covered := by
    rcases hm with rfl | ⟨path, os, rfl⟩ <;> exact Impl.Covered.of_zero rfl rfl
  obtain ⟨hw, hc⟩ := Sys.covered_run (script.take n) (Sys.init m) (Impl.fresh_wf m hm) hc0
    (fun x hx => hops x (List.mem_of_mem_take hx)) (Sys.keepsShared_take script n _ hk)
  have hpos := (hw.refLive (Sys.guard_eq_some hg)).count_pos
    (by simpa [LockImpl.owns] using ho)
  unfold Impl.Covered at hc
  rcases hkind : g.kind with _ | _
  · rw [hkind, Impl.slot_sharable] at hpos
    exact ⟨hc.2 hpos, fun h => by cases h⟩
  · rw [hkind, Impl.slot_scoped] at hpos
    refine ⟨?_, fun _ => hc.1 hpos⟩
    rw [hc.1 hpos]
    decide

/-- Witness for C27: on a file that another process takes after the first acquire, a
`SharableLock` owns and a `ScopedLock` constructed with `tryToLock` fails to upgrade; the
mutex stays in `SHARED_LOCK`. -/
theorem C27_owning_guard_not_unlocked_witness :
    (((Sys.init (Impl.create "/var/run/zypp/common.lock" (LockType.freeFor 1))).run
        (tryUpgrade.take 2)).guard 0).map LockImpl.owns = some true ∧
    (((Sys.init (Impl.create "/var/run/zypp/common.lock" (LockType.freeFor 1))).run
        (tryUpgrade.take 2)).guard 1).map LockImpl.owns = some false ∧
    ((Sys.init (Impl.create "/var/run/zypp/common.lock" (LockType.freeFor 1))).run
        (tryUpgrade.take 2)).mutex._state ≠ .UNLOCKED :=
  ⟨by decide, by decide,
   (C27_owning_guard_not_unlocked tryUpgrade 2
      (Impl.create "/var/run/zypp/common.lock" (LockType.freeFor 1)) (Or.inr ⟨_, _, rfl⟩)
      (by decide) (Or.inr ⟨by decide, Or.inr ⟨by decide, trivial⟩⟩) 0
      ⟨.SharableLock, true, some ⟨0, .SHARED_LOCK⟩⟩ (by decide) (by decide)).1⟩

end Zypp
